import Mathlib

/-!
# Conversion generator (`conversion-gen/generators/conversion.go`)

A shallow embedding of the structural type-conversion synthesizer, followed by
one of the validator of `RateLimitDescriptor` (`ratelimit.pb.validate.go`).

* Go pointers `*types.Type` are indices (`TypePtr`) into a heap of type
  descriptors; pointer equality is index equality, and a fresh allocation
  (`copied := *underlying`) appends a cell to the heap.
* Go maps are association lists with unique keys (`mapGet`, `mapSet`).
* The generated program text is a list of `Snippet`s, one per `sw.Do` call.
* A run either returns, diverges (a loop or recursion of the Go code that
  never ends shows up as running out of fuel), or stops in `klog.Fatalf` or
  a panic.
-/

set_option autoImplicit false
set_option linter.dupNamespace false

namespace conversiongen

/-! ## Outcomes -/

/-- The ways a run of the generator fails to return. -/
inductive Abort where
  /-- The Go code loops or recurses forever (the model ran out of fuel). -/
  | diverges
  /-- The run stopped in `klog.Fatalf`. -/
  | fatal
  /-- The run stopped in a Go `panic`. -/
  | panics
  deriving DecidableEq, Repr

deriving instance DecidableEq for Except

/-- A computation of the generator: a value, or the reason there is none. -/
abbrev Run (α : Type) := Except Abort α

/-! ## Go maps -/

/-- Indexing a Go map, `v, ok := m[k]`: the first binding of `k`. -/
def mapGet {κ ν : Type} [DecidableEq κ] (m : List (κ × ν)) (k : κ) : Option ν :=
  match m with
  | [] => none
  | (k1, v) :: rest => if k1 = k then some v else mapGet rest k

/-- Assignment to a Go map, `m[k] = v`: the binding of `k` is replaced. -/
def mapSet {κ ν : Type} [DecidableEq κ] (m : List (κ × ν)) (k : κ) (v : ν) : List (κ × ν) :=
  (k, v) :: m.filter (fun p => decide (p.1 ≠ k))

/-! ## The type universe (`k8s.io/gengo/types`) -/

/-- A `*types.Type`: the index of a descriptor in the heap. -/
abbrev TypePtr := Nat

namespace types

/-- Modelled from the spec: the `Kind` of a TypeDescriptor (section 3). The
declaration lives in `k8s.io/gengo/types`; `Unknown` is the kind of the zero
value `types.Type{}`, `DeclarationOf` the kind of a declared function. -/
inductive Kind where
  | Builtin | Struct | Map | Pointer | Slice | Interface | Alias
  | Func | Array | Chan | DeclarationOf | Unsupported | Unknown
  deriving DecidableEq, Repr

/-- Modelled from the spec: the qualified name of a TypeDescriptor,
`types.Name` of `k8s.io/gengo/types`. -/
structure Name where
  Package : String
  Name : String
  Path : String
  deriving DecidableEq, Repr

/-- Modelled from the spec: the annotation lines attached to a type, member
or procedure, as the Tag Extractor reads them: one `(key, value)` directive
per `+key=value` comment line, in line order. -/
abbrev CommentLines := List (String × String)

/-- Modelled from the spec: `types.ExtractCommentTags("+", comments)[key]`,
the values of every directive `key`, in line order. The Go result is `nil`
exactly when this list is empty. -/
def ExtractCommentTags (comments : CommentLines) (key : String) : List String :=
  (comments.filter (fun d => decide (d.1 = key))).map (fun d => d.2)

/-- Modelled from the spec: a struct member (name, type reference, embedded
flag, raw annotation text), `types.Member` of `k8s.io/gengo/types`. The struct
tag `Tags` is kept as `reflect.StructTag` reads it: a list of `key:"value"`
pairs. -/
structure Member where
  Name : String
  Embedded : Bool
  CommentLines : conversiongen.types.CommentLines
  Tags : List (String × String)
  Type_ : TypePtr
  deriving DecidableEq, Repr

/-- Modelled from the spec: `types.Signature` of `k8s.io/gengo/types`. -/
structure Signature where
  Receiver : Option TypePtr
  Parameters : List TypePtr
  Results : List TypePtr
  Variadic : Bool
  deriving DecidableEq, Repr

/-- Modelled from the spec: a TypeDescriptor, `types.Type` of
`k8s.io/gengo/types`. The references `Elem`, `Key` and `Underlying` are heap
indices; a reference Go leaves `nil` is an index outside the heap. -/
structure Type_ where
  Name : conversiongen.types.Name
  Kind : conversiongen.types.Kind
  CommentLines : conversiongen.types.CommentLines
  SecondClosestCommentLines : conversiongen.types.CommentLines
  Members : List Member
  Elem : TypePtr
  Key : TypePtr
  Underlying : TypePtr
  Methods : List (String × TypePtr)
  Signature : Option Signature
  deriving DecidableEq, Repr

/-- Modelled from the spec: `Name.String()` of `k8s.io/gengo/types`. -/
def Name.String (n : conversiongen.types.Name) : String :=
  if n.Package = "" then n.Name else n.Package ++ "." ++ n.Name

end types

/-- Modelled from the spec: `reflect.StructTag(tags).Get(key)`, the value of
the first pair with this key, and the empty string when there is none. -/
def structTagGet (tags : List (String × String)) (key : String) : String :=
  (mapGet tags key).getD ""

/-- The heap of type descriptors: the type universe followed by the cells
allocated while generating. -/
abbrev Heap := List types.Type_

/-- The index written in a reference that Go leaves `nil`. No function of the
generator follows a reference of a descriptor whose kind has no use for it. -/
def nilPtr : TypePtr := 1000000

/-- The zero value `types.Type{}`. -/
def zeroType : types.Type_ :=
  { Name := ⟨"", "", ""⟩, Kind := .Unknown, CommentLines := [], SecondClosestCommentLines := [],
    Members := [], Elem := nilPtr, Key := nilPtr, Underlying := nilPtr, Methods := [],
    Signature := none }

/-- Reading through a pointer, `*p`. An index outside the heap reads as the
zero value. -/
def deref (h : Heap) (p : TypePtr) : types.Type_ :=
  h.getD p zeroType

/-- Allocation, `&copied`: the new cell and the grown heap. -/
def alloc (h : Heap) (t : types.Type_) : TypePtr × Heap :=
  (h.length, h ++ [t])

/-- A builtin descriptor `&Type{Name: Name{Name: name}, Kind: Builtin}`. -/
def builtinType (name : String) : types.Type_ :=
  { zeroType with Name := ⟨"", name, ""⟩, Kind := .Builtin }

/-- Modelled from the spec: the package-level builtin descriptors of
`k8s.io/gengo/types` (`types.String`, `types.Int64`, ...). They are global
variables, so a universe holds them in its first cells. -/
def builtinTypes : Heap :=
  ["string", "int64", "int32", "int16", "int", "uint64", "uint32", "uint16", "uint",
    "uintptr", "float64", "float32", "float", "bool", "byte"].map builtinType

-- The names below shadow `String`, `Int`, `Float` and `Bool` inside the
-- namespace `types`: no further declaration is made in that namespace.
def types.String : TypePtr := 0
def types.Int64 : TypePtr := 1
def types.Int32 : TypePtr := 2
def types.Int16 : TypePtr := 3
def types.Int : TypePtr := 4
def types.Uint64 : TypePtr := 5
def types.Uint32 : TypePtr := 6
def types.Uint16 : TypePtr := 7
def types.Uint : TypePtr := 8
def types.Uintptr : TypePtr := 9
def types.Float64 : TypePtr := 10
def types.Float32 : TypePtr := 11
def types.Float : TypePtr := 12
def types.Bool : TypePtr := 13
def types.Byte : TypePtr := 14

/-! ## Comment tags -/

def tagName : String := "k8s:conversion-gen"
def explicitFromTagName : String := "k8s:conversion-gen:explicit-from"
def externalTypesTagName : String := "k8s:conversion-gen-external-types"
def conversionFnTagName : String := "k8s:conversion-fn"
def renameTagName : String := "k8s:conversion-gen:rename"

def extractTag (comments : types.CommentLines) : List String :=
  types.ExtractCommentTags comments tagName

def extractExplicitFromTag (comments : types.CommentLines) : List String :=
  types.ExtractCommentTags comments explicitFromTagName

def isCopyOnly (comments : types.CommentLines) : Bool :=
  let values := types.ExtractCommentTags comments conversionFnTagName
  decide (values.length = 1) && decide (values.head? = some "copy-only")

def isDrop (comments : types.CommentLines) : Bool :=
  let values := types.ExtractCommentTags comments conversionFnTagName
  decide (values.length = 1) && decide (values.head? = some "drop")

def extractRenameTags (comments : types.CommentLines) : List String :=
  types.ExtractCommentTags comments renameTagName

/-! ## Conversion pairs and the manual registry -/

structure conversionPair where
  inType : TypePtr
  outType : TypePtr
  deriving DecidableEq, Repr

/-- The registry `map[conversionPair]*types.Type`; the order of the list is
the order in which `range` visits the map. -/
abbrev conversionFuncMap := List (conversionPair × TypePtr)

/-! ## Memory equivalence -/

/-- The cache `map[conversionPair]bool`. -/
abbrev equalMemoryTypes := List (conversionPair × Bool)

/-- The loop `for in.Kind == types.Alias { in = in.Underlying }`, given
`fuel` iterations. -/
def unwrapAliasLoop (h : Heap) : Nat → TypePtr → Run TypePtr
  | 0, _ => .error .diverges
  | fuel + 1, p =>
    if (deref h p).Kind = .Alias then unwrapAliasLoop h fuel (deref h p).Underlying
    else .ok p

/-- The function `unwrapAlias`. A chain of aliases that does not come back to
itself has at most `h.length` links, so the loop either ends within
`h.length + 1` iterations or never. -/
def unwrapAlias (h : Heap) (p : TypePtr) : Run TypePtr :=
  unwrapAliasLoop h (h.length + 1) p

/-- The mutable state of one `Equal` call: the cache `e` and the per-call set
`alreadyVisitedTypes` (a `map[*types.Type]bool` that only ever holds `true`). -/
structure EqState where
  e : equalMemoryTypes
  alreadyVisitedTypes : List TypePtr
  deriving DecidableEq, Repr

/-- The member loop of `equal`, case `types.Struct`; `ce` is `cachingEqual`. -/
def equalMembers (ce : TypePtr → TypePtr → EqState → Run (Bool × EqState)) :
    List types.Member → List types.Member → EqState → Run (Bool × EqState)
  | inMember :: ins, outMember :: outs, st =>
    match ce inMember.Type_ outMember.Type_ st with
    | .error x => .error x
    | .ok (false, st1) => .ok (false, st1)
    | .ok (true, st1) => equalMembers ce ins outs st1
  | _, _, st => .ok (true, st)

/-- The method `equalMemoryTypes.equal`; `ce` is `cachingEqual`. -/
def equal (ce : TypePtr → TypePtr → EqState → Run (Bool × EqState)) (h : Heap)
    (a b : TypePtr) (st : EqState) : Run (Bool × EqState) :=
  match unwrapAlias h a, unwrapAlias h b with
  | .error x, _ => .error x
  | .ok _, .error x => .error x
  | .ok in_, .ok out =>
    if in_ = out then .ok (true, st)
    else if (deref h in_).Kind = (deref h out).Kind then
      if in_ ∈ st.alreadyVisitedTypes then .ok (true, st)
      else
        let st1 : EqState := { st with alreadyVisitedTypes := in_ :: st.alreadyVisitedTypes }
        match (deref h in_).Kind with
        | .Struct =>
          if (deref h in_).Members.length ≠ (deref h out).Members.length then .ok (false, st1)
          else equalMembers ce (deref h in_).Members (deref h out).Members st1
        | .Pointer => ce (deref h in_).Elem (deref h out).Elem st1
        | .Map =>
          match ce (deref h in_).Key (deref h out).Key st1 with
          | .error x => .error x
          | .ok (false, st2) => .ok (false, st2)
          | .ok (true, st2) => ce (deref h in_).Elem (deref h out).Elem st2
        | .Slice => ce (deref h in_).Elem (deref h out).Elem st1
        | .Interface => .ok (false, st1)
        | .Builtin => .ok (decide ((deref h in_).Name.Name = (deref h out).Name.Name), st1)
        | _ => .ok (false, st1)
    else .ok (false, st)

/-- The method `equalMemoryTypes.cachingEqual`, with `fuel` bounding the depth
of the recursion through `equal`. -/
def cachingEqual (h : Heap) : Nat → TypePtr → TypePtr → EqState → Run (Bool × EqState)
  | 0, _, _, _ => .error .diverges
  | fuel + 1, a, b, st =>
    if a = b then .ok (true, st)
    else
      match mapGet st.e ⟨a, b⟩ with
      | some eq => .ok (eq, st)
      | none =>
        match mapGet st.e ⟨b, a⟩ with
        | some eq => .ok (eq, st)
        | none =>
          match equal (cachingEqual h fuel) h a b st with
          | .error x => .error x
          | .ok (result, st1) =>
            .ok (result, { st1 with e := mapSet (mapSet st1.e ⟨a, b⟩ result) ⟨b, a⟩ result })

/-- The method `equalMemoryTypes.Equal`: a fresh visited set, then
`cachingEqual`. Every call of `equal` that recurses marks a type of the heap
that was not yet visited, so the recursion is never deeper than `h.length`. -/
def equalMemoryTypes.Equal (e : equalMemoryTypes) (h : Heap) (a b : TypePtr) :
    Run (Bool × equalMemoryTypes) :=
  match cachingEqual h (h.length + 1) a b { e := e, alreadyVisitedTypes := [] } with
  | .error x => .error x
  | .ok (r, st) => .ok (r, st.e)

/-! ## Direct assignment and direct conversion -/

/-- The function `isDirectlyAssignable`. -/
def isDirectlyAssignable (inType outType : TypePtr) : Bool :=
  decide (outType = inType)

/-- The function `haveIdenticalType`; `hiut` is `haveIdenticalUnderlyingType`. -/
def haveIdenticalType (hiut : TypePtr → TypePtr → Bool → Run Bool) (h : Heap)
    (outType inType : TypePtr) (cmpTags : Bool) : Run Bool :=
  if cmpTags then .ok (decide (outType = inType))
  else if (deref h outType).Name.Name ≠ (deref h inType).Name.Name
      ∨ (deref h outType).Kind ≠ (deref h inType).Kind
      ∨ (deref h outType).Name.Package ≠ (deref h inType).Name.Package then .ok false
  else hiut outType inType false

/-- The member loop of `haveIdenticalUnderlyingType`, case `types.Struct`. -/
def identicalMembers (hiut : TypePtr → TypePtr → Bool → Run Bool) (h : Heap) (cmpTags : Bool) :
    List types.Member → List types.Member → Run Bool
  | inM :: ins, outM :: outs =>
    if inM.Name ≠ outM.Name then .ok false
    else
      match haveIdenticalType hiut h inM.Type_ outM.Type_ cmpTags with
      | .error x => .error x
      | .ok false => .ok false
      | .ok true =>
        if inM.Embedded ≠ outM.Embedded then .ok false
        else if cmpTags ∧ inM.Tags ≠ outM.Tags then .ok false
        else identicalMembers hiut h cmpTags ins outs
  | _, _ => .ok true

/-- The parameter and result loops of `haveIdenticalUnderlyingType`, case
`types.Func`: `haveIdenticalType` position by position. -/
def identicalTypeLists (hiut : TypePtr → TypePtr → Bool → Run Bool) (h : Heap) (cmpTags : Bool) :
    List TypePtr → List TypePtr → Run Bool
  | o :: os, i :: is =>
    match haveIdenticalType hiut h o i cmpTags with
    | .error x => .error x
    | .ok false => .ok false
    | .ok true => identicalTypeLists hiut h cmpTags os is
  | _, _ => .ok true

/-- The parameters of a signature with the receiver, if any, in front. -/
def paramsWithReceiver (s : types.Signature) : List TypePtr :=
  match s.Receiver with
  | some r => r :: s.Parameters
  | none => s.Parameters

/-- The function `haveIdenticalUnderlyingType`, with `fuel` bounding the depth
of the recursion through `haveIdenticalType`. -/
def haveIdenticalUnderlyingType (h : Heap) : Nat → TypePtr → TypePtr → Bool → Run Bool
  | 0, _, _, _ => .error .diverges
  | fuel + 1, outType0, inType0, cmpTags =>
    match unwrapAlias h outType0, unwrapAlias h inType0 with
    | .error x, _ => .error x
    | .ok _, .error x => .error x
    | .ok outType, .ok inType =>
      if outType = inType then .ok true
      else if (deref h inType).Kind ≠ (deref h outType).Kind then .ok false
      else
        let hiut := haveIdenticalUnderlyingType h fuel
        match (deref h inType).Kind with
        | .Builtin => .ok (decide ((deref h inType).Name = (deref h outType).Name))
        | .Struct =>
          if (deref h inType).Members.length ≠ (deref h outType).Members.length then .ok false
          else identicalMembers hiut h cmpTags (deref h inType).Members (deref h outType).Members
        | .Map =>
          match haveIdenticalType hiut h (deref h inType).Elem (deref h outType).Elem cmpTags with
          | .error x => .error x
          | .ok false => .ok false
          | .ok true => haveIdenticalType hiut h (deref h inType).Key (deref h outType).Key cmpTags
        | .Slice => haveIdenticalType hiut h (deref h inType).Elem (deref h outType).Elem cmpTags
        | .Pointer => haveIdenticalType hiut h (deref h inType).Elem (deref h outType).Elem cmpTags
        | .Interface =>
          .ok (decide ((deref h inType).Methods.length = 0) && decide ((deref h outType).Methods.length = 0))
        | .Func =>
          match (deref h outType).Signature, (deref h inType).Signature with
          | some outSig, some inSig =>
            let outParams := paramsWithReceiver outSig
            let inParams := paramsWithReceiver inSig
            if outParams.length ≠ inParams.length ∨ outSig.Variadic ≠ inSig.Variadic then .ok false
            else
              match identicalTypeLists hiut h cmpTags outParams inParams with
              | .error x => .error x
              | .ok false => .ok false
              | .ok true =>
                if outSig.Results.length ≠ inSig.Results.length then .ok false
                else identicalTypeLists hiut h cmpTags outSig.Results inSig.Results
          | _, _ => .error .panics
        | .Array => .ok false
        | .Chan => .ok false
        | _ => .ok false

/-- The function `isDirectlyConvertible`. -/
def isDirectlyConvertible (h : Heap) (fuel : Nat) (inType outType : TypePtr) : Run Bool :=
  haveIdenticalUnderlyingType h fuel outType inType false

/-- The function `findMember`: the first member of `t` whose name or one of
whose rename tags is among `names`. -/
def findMember (h : Heap) (t : TypePtr) (names : List String) : Option types.Member :=
  if (deref h t).Kind ≠ .Struct then none
  else
    (deref h t).Members.find? (fun member =>
      names.any (fun name =>
        decide (member.Name = name)
          || (extractRenameTags member.CommentLines).any (fun memberName => decide (memberName = name))))

/-! ## The generator -/

/-- The interface `TypesEqual` with its two implementations: the shared cache
`equalMemoryTypes`, and `noEquality` when reinterpretation is switched off. -/
inductive TypesEqual where
  | equalMemoryTypes (e : equalMemoryTypes)
  | noEquality
  deriving DecidableEq, Repr

/-- The method `Equal` of the interface; the cache is a Go map, so the
receiver comes back with whatever the call stored in it. -/
def TypesEqual.Equal (u : TypesEqual) (h : Heap) (a b : TypePtr) : Run (Bool × TypesEqual) :=
  match u with
  | .noEquality => .ok (false, .noEquality)
  | .equalMemoryTypes e =>
    match e.Equal h a b with
    | .error x => .error x
    | .ok (r, e1) => .ok (r, .equalMemoryTypes e1)

/-- The struct `genConversion` (the fields the synthesis reads or writes). -/
structure genConversion where
  typesPackage : String
  outputPackage : String
  peerPackages : List String
  manualConversions : conversionFuncMap
  types : List TypePtr
  explicitConversions : List conversionPair
  skippedFields : List (TypePtr × List String)
  useUnsafe : TypesEqual
  deriving DecidableEq, Repr

/-- What a method of the generator can change: the generator and the heap. -/
structure GenState where
  g : genConversion
  heap : Heap
  deriving DecidableEq, Repr

/-- The templates of the `sw.Do` calls. -/
inductive Template where
  /-- Line `if err := $.|raw$(in, out, s); err != nil {` -/
  | callFunction
  /-- Line `if err := Convert_$.inType|publicIT$_To_$.outType|publicIT$(in, out, s); err != nil {` -/
  | callNamed
  /-- Line `return err` -/
  | returnErr
  /-- Line `}` -/
  | close
  /-- Line `out = ($.outType|raw$)($.Pointer|raw$(in))` -/
  | castPointer
  /-- Line `out = *(*$.outType|raw$)($.Pointer|raw$(&in))` -/
  | castHeader
  /-- Line `*out = *in` -/
  | assign
  /-- Line `*out = $.|raw$(*in)` -/
  | convert
  /-- Line `// FIXME: Provide conversion function to convert $.inType|raw$ to $.outType|raw$;` -/
  | fixmeProvide
  /-- Line `// no manual conversion functions are currently provided.` -/
  | noneProvided
  /-- Line `// the currently provided manual conversion functions are` -/
  | providedAre
  /-- Line `//  - $.func|raw$() ($.inType|raw$ to $.outType|raw$)` -/
  | provided
  /-- Line `compileErrorOnMissingConversion()` -/
  | compileError
  /-- Line `if *in == nil {` -/
  | ifInNil
  /-- Line `*out = nil` -/
  | outNil
  /-- Line `} else {` -/
  | orElse
  /-- Line `*out = make($.|raw$, len(*in))` -/
  | makeOut
  /-- Line `for inKey, inVal := range *in {` -/
  | forKeyVal
  /-- Line `outKey := new($.|raw$)` -/
  | newOutKey
  /-- Line `if true {` -/
  | ifTrue
  /-- Line `in, out := &inKey, outKey` -/
  | scopeKey
  /-- Line `outVal := new($.|raw$)` -/
  | newOutVal
  /-- Line `in, out := &inVal, outVal` -/
  | scopeVal
  /-- Line `(*out)[*outKey] = *outVal` -/
  | insertKeyVal
  /-- Line `copy(*out, *in)` -/
  | copyAll
  /-- Line `for i := range *in {` -/
  | forIndex
  /-- Line `in, out := &(*in)[i], &(*out)[i]` -/
  | scopeIndex
  /-- Line `// INFO: in.$.inMember.Name$ opted out of conversion generation via +k8s:conversion-gen=false` -/
  | infoOptedOut
  /-- Line `// WARNING: in.$.inMember.Name$ requires manual conversion: does not exist in peer-type` -/
  | warnNoPeer
  /-- Line `in, out := &in.$.inMember.Name$, &out.$.outMember.Name$` -/
  | scopeMember
  /-- Line `*out = new($.Elem|raw$)` -/
  | newOut
  /-- Line `in, out := *in, *out` -/
  | scopePointee
  /-- Line `func autoConvert_..._To_...(in *$.inType|raw$, out *$.outType|raw$, s $.Scope|raw$) error {` -/
  | funcAuto
  /-- Line `return nil` -/
  | returnNil
  /-- The line `}` followed by an empty line. -/
  | closeFunc
  /-- Line `// Convert_..._To_... is an autogenerated conversion function.` -/
  | commentPublic
  /-- Line `func Convert_..._To_...(in *$.inType|raw$, out *$.outType|raw$, s $.Scope|raw$) error {` -/
  | funcPublic
  /-- Line `return autoConvert_..._To_...(in, out, s)` -/
  | returnAuto
  /-- Line `// INFO: in.<name> opted out of conversion generation` -/
  | infoOutOptedOut
  /-- Line `// WARNING: Field $.name$ does not have json tag, skipping.` -/
  | warnNoJsonTag
  /-- Line `if values, ok := map[string][]string(*in)["$.tag$"]; ok && len(values) > 0 {` -/
  | ifValues
  /-- Line `if err := $.function|raw$(&values, &out.$.name$, s); err != nil {` -/
  | callFunctionValues
  /-- Line `out.$.name$ = values[0]` -/
  | setFirstValue
  /-- Line `out.$.name$ = ($.type|raw$)($.Pointer|raw$(&values))` -/
  | castValuesPointer
  /-- Line `out.$.name$ = *(*$.type|raw$)($.Pointer|raw$(&values))` -/
  | castValuesHeader
  /-- Line `// FIXME: out.$.name$ is of not yet supported type and requires manual conversion` -/
  | fixmeNotYetSupported
  /-- Line `out.$.name$ = ""` -/
  | setEmptyString
  /-- Line `out.$.name$ = 0` -/
  | setZero
  /-- Line `out.$.name$ = false` -/
  | setFalse
  /-- Line `// FIXME: out.$.name$ is of unsupported type and requires manual conversion` -/
  | fixmeUnsupported
  /-- Line `out.$.name$ = $.type|raw${}` -/
  | setStructLiteral
  /-- Line `out.$.name$ = $.alias|raw$($.type|raw${})` -/
  | setAliasStructLiteral
  /-- Line `out.$.name$ = nil` -/
  | setNil
  /-- Line `// FIXME: unexpected error for out.$.name$` -/
  | fixmeUnexpected
  /-- Line `func init() {` -/
  | funcInit
  /-- Line `localSchemeBuilder.Register(RegisterConversions)` -/
  | registerBuilder
  /-- Line `// RegisterConversions adds conversion functions to the given scheme.` -/
  | commentRegister
  /-- Line `// Public to allow building arbitrary schemes.` -/
  | commentSchemes
  /-- Line `func RegisterConversions(s $.|raw$) error {` -/
  | funcRegister
  /-- Line `if err := s.AddGeneratedConversionFunc((*$.inType|raw$)(nil), (*$.outType|raw$)(nil), func(a, b interface{}, scope $.Scope|raw$) error { return Convert_..._To_...(a.(*$.inType|raw$), b.(*$.outType|raw$), scope) }); err != nil { return err }` -/
  | addGenerated
  /-- Line `if err := s.AddConversionFunc((*$.inType|raw$)(nil), (*$.outType|raw$)(nil), func(a, b interface{}, scope $.Scope|raw$) error { return $.fn|raw$(a.(*$.inType|raw$), b.(*$.outType|raw$), scope) }); err != nil { return err }` -/
  | addManual
  deriving DecidableEq, Repr

/-- One `sw.Do` call: the template, and the types and names among its
arguments, in the order the template mentions them. -/
structure Snippet where
  template : Template
  types : List TypePtr
  names : List String
  deriving DecidableEq, Repr

namespace Snippet

@[match_pattern, reducible]
def callFunction (function : TypePtr) : Snippet :=
  ⟨.callFunction, [function], []⟩

@[match_pattern, reducible]
def callNamed (inType outType : TypePtr) : Snippet :=
  ⟨.callNamed, [inType, outType], []⟩

@[match_pattern, reducible]
def returnErr : Snippet :=
  ⟨.returnErr, [], []⟩

@[match_pattern, reducible]
def close : Snippet :=
  ⟨.close, [], []⟩

@[match_pattern, reducible]
def castPointer (inType outType : TypePtr) : Snippet :=
  ⟨.castPointer, [inType, outType], []⟩

@[match_pattern, reducible]
def castHeader (inType outType : TypePtr) : Snippet :=
  ⟨.castHeader, [inType, outType], []⟩

@[match_pattern, reducible]
def assign : Snippet :=
  ⟨.assign, [], []⟩

@[match_pattern, reducible]
def convert (outType : TypePtr) : Snippet :=
  ⟨.convert, [outType], []⟩

@[match_pattern, reducible]
def fixmeProvide (inType outType : TypePtr) : Snippet :=
  ⟨.fixmeProvide, [inType, outType], []⟩

@[match_pattern, reducible]
def noneProvided : Snippet :=
  ⟨.noneProvided, [], []⟩

@[match_pattern, reducible]
def providedAre : Snippet :=
  ⟨.providedAre, [], []⟩

@[match_pattern, reducible]
def provided (func inType outType : TypePtr) : Snippet :=
  ⟨.provided, [func, inType, outType], []⟩

@[match_pattern, reducible]
def compileError : Snippet :=
  ⟨.compileError, [], []⟩

@[match_pattern, reducible]
def ifInNil : Snippet :=
  ⟨.ifInNil, [], []⟩

@[match_pattern, reducible]
def outNil : Snippet :=
  ⟨.outNil, [], []⟩

@[match_pattern, reducible]
def orElse : Snippet :=
  ⟨.orElse, [], []⟩

@[match_pattern, reducible]
def makeOut (outType : TypePtr) : Snippet :=
  ⟨.makeOut, [outType], []⟩

@[match_pattern, reducible]
def forKeyVal : Snippet :=
  ⟨.forKeyVal, [], []⟩

@[match_pattern, reducible]
def newOutKey (key : TypePtr) : Snippet :=
  ⟨.newOutKey, [key], []⟩

@[match_pattern, reducible]
def ifTrue : Snippet :=
  ⟨.ifTrue, [], []⟩

@[match_pattern, reducible]
def scopeKey : Snippet :=
  ⟨.scopeKey, [], []⟩

@[match_pattern, reducible]
def newOutVal (elem : TypePtr) : Snippet :=
  ⟨.newOutVal, [elem], []⟩

@[match_pattern, reducible]
def scopeVal : Snippet :=
  ⟨.scopeVal, [], []⟩

@[match_pattern, reducible]
def insertKeyVal : Snippet :=
  ⟨.insertKeyVal, [], []⟩

@[match_pattern, reducible]
def copyAll : Snippet :=
  ⟨.copyAll, [], []⟩

@[match_pattern, reducible]
def forIndex : Snippet :=
  ⟨.forIndex, [], []⟩

@[match_pattern, reducible]
def scopeIndex : Snippet :=
  ⟨.scopeIndex, [], []⟩

@[match_pattern, reducible]
def infoOptedOut (inMember : String) : Snippet :=
  ⟨.infoOptedOut, [], [inMember]⟩

@[match_pattern, reducible]
def warnNoPeer (inMember : String) : Snippet :=
  ⟨.warnNoPeer, [], [inMember]⟩

@[match_pattern, reducible]
def scopeMember (inMember outMember : String) : Snippet :=
  ⟨.scopeMember, [], [inMember, outMember]⟩

@[match_pattern, reducible]
def newOut (outType : TypePtr) : Snippet :=
  ⟨.newOut, [outType], []⟩

@[match_pattern, reducible]
def scopePointee : Snippet :=
  ⟨.scopePointee, [], []⟩

@[match_pattern, reducible]
def funcAuto (inType outType : TypePtr) : Snippet :=
  ⟨.funcAuto, [inType, outType], []⟩

@[match_pattern, reducible]
def returnNil : Snippet :=
  ⟨.returnNil, [], []⟩

@[match_pattern, reducible]
def closeFunc : Snippet :=
  ⟨.closeFunc, [], []⟩

@[match_pattern, reducible]
def commentPublic (inType outType : TypePtr) : Snippet :=
  ⟨.commentPublic, [inType, outType], []⟩

@[match_pattern, reducible]
def funcPublic (inType outType : TypePtr) : Snippet :=
  ⟨.funcPublic, [inType, outType], []⟩

@[match_pattern, reducible]
def returnAuto (inType outType : TypePtr) : Snippet :=
  ⟨.returnAuto, [inType, outType], []⟩

@[match_pattern, reducible]
def infoOutOptedOut (name : String) : Snippet :=
  ⟨.infoOutOptedOut, [], [name]⟩

@[match_pattern, reducible]
def warnNoJsonTag (name : String) : Snippet :=
  ⟨.warnNoJsonTag, [], [name]⟩

@[match_pattern, reducible]
def ifValues (tag : String) : Snippet :=
  ⟨.ifValues, [], [tag]⟩

@[match_pattern, reducible]
def callFunctionValues (function : TypePtr) (name : String) : Snippet :=
  ⟨.callFunctionValues, [function], [name]⟩

@[match_pattern, reducible]
def setFirstValue (name : String) : Snippet :=
  ⟨.setFirstValue, [], [name]⟩

@[match_pattern, reducible]
def castValuesPointer (name : String) (type : TypePtr) : Snippet :=
  ⟨.castValuesPointer, [type], [name]⟩

@[match_pattern, reducible]
def castValuesHeader (name : String) (type : TypePtr) : Snippet :=
  ⟨.castValuesHeader, [type], [name]⟩

@[match_pattern, reducible]
def fixmeNotYetSupported (name : String) : Snippet :=
  ⟨.fixmeNotYetSupported, [], [name]⟩

@[match_pattern, reducible]
def setEmptyString (name : String) : Snippet :=
  ⟨.setEmptyString, [], [name]⟩

@[match_pattern, reducible]
def setZero (name : String) : Snippet :=
  ⟨.setZero, [], [name]⟩

@[match_pattern, reducible]
def setFalse (name : String) : Snippet :=
  ⟨.setFalse, [], [name]⟩

@[match_pattern, reducible]
def fixmeUnsupported (name : String) : Snippet :=
  ⟨.fixmeUnsupported, [], [name]⟩

@[match_pattern, reducible]
def setStructLiteral (name : String) (type : TypePtr) : Snippet :=
  ⟨.setStructLiteral, [type], [name]⟩

@[match_pattern, reducible]
def setAliasStructLiteral (name : String) (aliasType type : TypePtr) : Snippet :=
  ⟨.setAliasStructLiteral, [aliasType, type], [name]⟩

@[match_pattern, reducible]
def setNil (name : String) : Snippet :=
  ⟨.setNil, [], [name]⟩

@[match_pattern, reducible]
def fixmeUnexpected (name : String) : Snippet :=
  ⟨.fixmeUnexpected, [], [name]⟩

@[match_pattern, reducible]
def funcInit : Snippet :=
  ⟨.funcInit, [], []⟩

@[match_pattern, reducible]
def registerBuilder : Snippet :=
  ⟨.registerBuilder, [], []⟩

@[match_pattern, reducible]
def commentRegister : Snippet :=
  ⟨.commentRegister, [], []⟩

@[match_pattern, reducible]
def commentSchemes : Snippet :=
  ⟨.commentSchemes, [], []⟩

@[match_pattern, reducible]
def funcRegister (schemePtr : TypePtr) : Snippet :=
  ⟨.funcRegister, [schemePtr], []⟩

@[match_pattern, reducible]
def addGenerated (inType outType : TypePtr) : Snippet :=
  ⟨.addGenerated, [inType, outType], []⟩

@[match_pattern, reducible]
def addManual (inType outType fn : TypePtr) : Snippet :=
  ⟨.addManual, [inType, outType, fn], []⟩

end Snippet

/-- Modelled from the spec: `namer.IsPrivateGoName` of `k8s.io/gengo/namer`,
`len(name) == 0 || strings.ToLower(name[:1]) == name[:1]`. The first byte of
a name that starts outside ASCII is not valid text and lower-cases to the
replacement character, so such a name is not private. -/
def IsPrivateGoName (name : String) : Bool :=
  match name.data with
  | [] => true
  | c :: _ => decide (c.val < 128) && decide (c.toLower = c)

/-- The method `preexists`. -/
def genConversion.preexists (g : genConversion) (inType outType : TypePtr) : Option TypePtr :=
  mapGet g.manualConversions ⟨inType, outType⟩

/-- The method `convertibleOnlyWithinPackage`. -/
def genConversion.convertibleOnlyWithinPackage (g : genConversion) (h : Heap)
    (inType outType : TypePtr) : Run Bool :=
  let t := if (deref h inType).Name.Package = g.typesPackage then inType else outType
  let other := if (deref h inType).Name.Package = g.typesPackage then outType else inType
  -- 1.
  if (deref h t).Name.Package ≠ g.typesPackage then .ok false
  else
    -- 2.
    match extractTag (deref h t).CommentLines with
    | tagval :: _ => if tagval ≠ "false" then .error .fatal else .ok false
    | [] =>
      -- 3.
      if IsPrivateGoName (deref h t).Name.Name || IsPrivateGoName (deref h other).Name.Name then
        .ok false
      else
        -- 4.
        match unwrapAlias h t, unwrapAlias h other with
        | .error x, _ => .error x
        | .ok _, .error x => .error x
        | .ok t1, .ok other1 =>
          if (deref h t1).Kind ≠ (deref h other1).Kind then .ok false
          else
            -- 5.
            match (deref h t1).Kind with
            | .Builtin | .Map | .Slice | .Struct | .Pointer => .ok true
            | _ => .ok false

/-- Less-than on the function names, the `less` of `sort.Slice` in
`doCompileErrorOnMissingConversion`. -/
def lessByString (h : Heap) (g : genConversion) (p q : conversionPair) : Prop :=
  ((deref h ((mapGet g.manualConversions p).getD nilPtr)).Name.String
    < (deref h ((mapGet g.manualConversions q).getD nilPtr)).Name.String)

instance (h : Heap) (g : genConversion) : DecidableRel (lessByString h g) :=
  fun _ _ => by unfold lessByString; infer_instance

/-- The call `sort.Slice(pairs, less)`. The Go sort is not stable; pairs that
`less` does not separate stay here in the order `range` produced them. -/
def sortSlice (pairs : List conversionPair) (less : conversionPair → conversionPair → Prop)
    [DecidableRel less] : List conversionPair :=
  pairs.insertionSort (fun p q => ¬ less q p)

/-- The method `doCompileErrorOnMissingConversion`. -/
def genConversion.doCompileErrorOnMissingConversion (g : genConversion) (h : Heap)
    (inType outType : TypePtr) : List Snippet :=
  [Snippet.fixmeProvide inType outType]
    ++ (if g.manualConversions.length = 0 then [Snippet.noneProvided]
        else
          Snippet.providedAre ::
            (sortSlice (g.manualConversions.map (fun kv => kv.1)) (lessByString h g)).map
              (fun pair =>
                Snippet.provided ((mapGet g.manualConversions pair).getD nilPtr)
                  pair.inType pair.outType))
    ++ [Snippet.compileError]

/-! ## Synthesis -/

/-- The shape of `generateFor`, as its callees see it. -/
abbrev Synth := TypePtr → TypePtr → Bool → GenState → Run (List Snippet × GenState)

/-- Alias resolution at the head of `generateFor`: a type that is an alias is
replaced by a fresh copy of its bedrock type that carries the alias's name. -/
def resolveAlias (h : Heap) (t : TypePtr) : Run (TypePtr × Heap) :=
  match unwrapAlias h t with
  | .error x => .error x
  | .ok underlying =>
    if underlying ≠ t then .ok (alloc h { deref h underlying with Name := (deref h t).Name })
    else .ok (t, h)

/-- The state after `g.useUnsafe.Equal` has run. -/
def GenState.withUnsafe (s : GenState) (u : TypesEqual) : GenState :=
  { s with g := { s.g with useUnsafe := u } }

/-- The statement `g.skippedFields[inType] = append(g.skippedFields[inType], name)`. -/
def GenState.appendSkipped (s : GenState) (inType : TypePtr) (name : String) : GenState :=
  let skipped := (mapGet s.g.skippedFields inType).getD [] ++ [name]
  { s with g := { s.g with skippedFields := mapSet s.g.skippedFields inType skipped } }

/-- A loop over struct members that emits code and updates the state. -/
def forEachMember (step : types.Member → GenState → Run (List Snippet × GenState)) :
    List types.Member → GenState → Run (List Snippet × GenState)
  | [], s => .ok ([], s)
  | m :: rest, s =>
    match step m s with
    | .error x => .error x
    | .ok (code1, s1) =>
      match forEachMember step rest s1 with
      | .error x => .error x
      | .ok (code2, s2) => .ok (code1 ++ code2, s2)

/-- The method `doMap`; `gf` is `generateFor`. -/
def genConversion.doMap (gf : Synth) (inType outType : TypePtr) (s : GenState) :
    Run (List Snippet × GenState) :=
  match gf (deref s.heap inType).Key (deref s.heap outType).Key true s with
  | .error x => .error x
  | .ok (keyCode, s1) =>
    match gf (deref s1.heap inType).Elem (deref s1.heap outType).Elem true s1 with
    | .error x => .error x
    | .ok (valCode, s2) =>
      .ok ([Snippet.ifInNil, Snippet.outNil, Snippet.orElse,
            Snippet.makeOut outType, Snippet.forKeyVal,
            Snippet.newOutKey (deref s.heap outType).Key, Snippet.ifTrue, Snippet.scopeKey]
          ++ keyCode
          ++ [Snippet.close,
            Snippet.newOutVal (deref s1.heap outType).Elem, Snippet.ifTrue, Snippet.scopeVal]
          ++ valCode
          ++ [Snippet.close, Snippet.insertKeyVal, Snippet.close, Snippet.close], s2)

/-- The method `doSlice`; `gf` is `generateFor`. -/
def genConversion.doSlice (gf : Synth) (inType outType : TypePtr) (s : GenState) :
    Run (List Snippet × GenState) :=
  if (deref s.heap inType).Elem = (deref s.heap outType).Elem
      ∧ (deref s.heap (deref s.heap inType).Elem).Kind = .Builtin then
    .ok ([Snippet.ifInNil, Snippet.outNil, Snippet.orElse, Snippet.makeOut outType,
          Snippet.copyAll, Snippet.close], s)
  else
    match gf (deref s.heap inType).Elem (deref s.heap outType).Elem true s with
    | .error x => .error x
    | .ok (elemCode, s1) =>
      .ok ([Snippet.ifInNil, Snippet.outNil, Snippet.orElse, Snippet.makeOut outType,
            Snippet.forIndex, Snippet.scopeIndex]
          ++ elemCode ++ [Snippet.close, Snippet.close], s1)

/-- One iteration of the loop of `doStruct`. -/
def doStructMember (gf : Synth) (inType outType : TypePtr) (inMember : types.Member)
    (s : GenState) : Run (List Snippet × GenState) :=
  if (extractTag inMember.CommentLines).head? = some "false" then
    .ok ([Snippet.infoOptedOut inMember.Name], s)
  else
    match findMember s.heap outType (inMember.Name :: extractRenameTags inMember.CommentLines) with
    | none =>
      .ok ([Snippet.warnNoPeer inMember.Name], s.appendSkipped inType inMember.Name)
    | some outMember =>
      if (match s.g.preexists inMember.Type_ outMember.Type_ with
          | some function => isDrop (deref s.heap function).CommentLines
          | none => false) then
        .ok ([], s)
      else
        match gf inMember.Type_ outMember.Type_ true s with
        | .error x => .error x
        | .ok (code, s1) =>
          .ok ([Snippet.ifTrue, Snippet.scopeMember inMember.Name outMember.Name]
            ++ code ++ [Snippet.close], s1)

/-- The method `doStruct`; `gf` is `generateFor`. -/
def genConversion.doStruct (gf : Synth) (inType outType : TypePtr) (s : GenState) :
    Run (List Snippet × GenState) :=
  forEachMember (doStructMember gf inType outType) (deref s.heap inType).Members s

/-- The method `doPointer`; `gf` is `generateFor`. -/
def genConversion.doPointer (gf : Synth) (inType outType : TypePtr) (s : GenState) :
    Run (List Snippet × GenState) :=
  match gf (deref s.heap inType).Elem (deref s.heap outType).Elem true s with
  | .error x => .error x
  | .ok (code, s1) =>
    .ok ([Snippet.ifInNil, Snippet.outNil, Snippet.orElse, Snippet.newOut outType,
          Snippet.scopePointee] ++ code ++ [Snippet.close], s1)

/-- Strategy (1) of `generateFor`, "existing function": the code of the call
when the strategy returns, `none` when it falls through. -/
def existingFunction (cf : Nat) (inType outType inTypeResolved outTypeResolved : TypePtr)
    (functionOK : Bool) (s : GenState) : Run (Option (List Snippet) × GenState) :=
  if functionOK then
    match s.g.preexists inType outType with
    | some function =>
      if isCopyOnly (deref s.heap function).CommentLines then
        match isDirectlyConvertible s.heap cf inType outType with
        | .error x => .error x
        | .ok true => .ok (none, s)
        | .ok false =>
          match s.g.useUnsafe.Equal s.heap inTypeResolved outTypeResolved with
          | .error x => .error x
          | .ok (true, u) => .ok (none, s.withUnsafe u)
          | .ok (false, u) =>
            .ok (some [Snippet.callFunction function, Snippet.returnErr, Snippet.close],
              s.withUnsafe u)
      else .ok (some [Snippet.callFunction function, Snippet.returnErr, Snippet.close], s)
    | none =>
      match s.g.convertibleOnlyWithinPackage s.heap inType outType with
      | .error x => .error x
      | .ok true =>
        .ok (some [Snippet.callNamed inType outType, Snippet.returnErr, Snippet.close], s)
      | .ok false => .ok (none, s)
  else .ok (none, s)

/-- Strategy (2) of `generateFor`, "unsafe casting": the reinterpretation when
the strategy returns, `none` when it falls through. -/
def castStrategy (inType outType inTypeResolved outTypeResolved : TypePtr) (s : GenState) :
    Run (Option (List Snippet) × GenState) :=
  match s.g.useUnsafe.Equal s.heap inTypeResolved outTypeResolved with
  | .error x => .error x
  | .ok (false, u) => .ok (none, s.withUnsafe u)
  | .ok (true, u) =>
    match (deref s.heap inTypeResolved).Kind with
    | .Pointer => .ok (some [Snippet.castPointer inType outType], s.withUnsafe u)
    | .Map => .ok (some [Snippet.castHeader inType outType], s.withUnsafe u)
    | .Slice => .ok (some [Snippet.castHeader inType outType], s.withUnsafe u)
    | _ => .ok (none, s.withUnsafe u)

/-- Strategies (3) to (6) of `generateFor`. -/
def laterStrategies (cf : Nat) (gf : Synth)
    (inType outType inTypeResolved outTypeResolved : TypePtr) (s : GenState) :
    Run (List Snippet × GenState) :=
  -- (3) direct assignment
  if isDirectlyAssignable inType outType then .ok ([Snippet.assign], s)
  else
    -- (4) direct conversion
    match isDirectlyConvertible s.heap cf inType outType with
    | .error x => .error x
    | .ok true => .ok ([Snippet.convert outType], s)
    | .ok false =>
      -- (5) generate code
      if (deref s.heap inTypeResolved).Kind = (deref s.heap outTypeResolved).Kind then
        match (deref s.heap inTypeResolved).Kind with
        | .Map => genConversion.doMap gf inTypeResolved outTypeResolved s
        | .Slice => genConversion.doSlice gf inTypeResolved outTypeResolved s
        | .Struct => genConversion.doStruct gf inTypeResolved outTypeResolved s
        | .Pointer => genConversion.doPointer gf inTypeResolved outTypeResolved s
        -- (6) fail
        | _ => .ok (s.g.doCompileErrorOnMissingConversion s.heap inType outType, s)
      else .ok (s.g.doCompileErrorOnMissingConversion s.heap inType outType, s)

/-- The body of `generateFor`; `gf` is `generateFor` itself, and `cf` the fuel
of the convertibility checks. -/
def generateForBody (cf : Nat) (gf : Synth) (inType outType : TypePtr) (functionOK : Bool)
    (s : GenState) : Run (List Snippet × GenState) :=
  match resolveAlias s.heap inType with
  | .error x => .error x
  | .ok (inTypeResolved, h1) =>
    match resolveAlias h1 outType with
    | .error x => .error x
    | .ok (outTypeResolved, h2) =>
      match existingFunction cf inType outType inTypeResolved outTypeResolved functionOK
          { s with heap := h2 } with
      | .error x => .error x
      | .ok (some code, s1) => .ok (code, s1)
      | .ok (none, s1) =>
        match castStrategy inType outType inTypeResolved outTypeResolved s1 with
        | .error x => .error x
        | .ok (some code, s2) => .ok (code, s2)
        | .ok (none, s2) =>
          laterStrategies cf gf inType outType inTypeResolved outTypeResolved s2

/-- The method `generateFor`: the code emitted for `inType -> outType` and the
state it leaves, with `fuel` bounding the nesting of the recursion and `cf`
the depth of each convertibility check. -/
def genConversion.generateFor (cf : Nat) : Nat → Synth
  | 0, _, _, _, _ => .error .diverges
  | fuel + 1, inType, outType, functionOK, s =>
    generateForBody cf (genConversion.generateFor cf fuel) inType outType functionOK s

/-- The method `generateConversion`. -/
def genConversion.generateConversion (cf fuel : Nat) (inType outType : TypePtr) (s : GenState) :
    Run (List Snippet × GenState) :=
  match genConversion.generateFor cf fuel inType outType false s with
  | .error x => .error x
  | .ok (code, s1) =>
    .ok ([Snippet.funcAuto inType outType] ++ code ++ [Snippet.returnNil, Snippet.closeFunc]
        ++ (if (s1.g.preexists inType outType).isSome then []
            else if ((mapGet s1.g.skippedFields inType).getD []).length ≠ 0 then []
            else [Snippet.commentPublic inType outType, Snippet.funcPublic inType outType,
                  Snippet.returnAuto inType outType, Snippet.closeFunc]), s1)

/-! ## Adapter synthesis (`explicit-from=net/url.Values`) -/

/-- The method `fromValuesEntry`. -/
def genConversion.fromValuesEntry (inType : TypePtr) (outMember : types.Member) (s : GenState) :
    Run (List Snippet × GenState) :=
  match s.g.preexists inType outMember.Type_ with
  | some function =>
    .ok ([Snippet.callFunctionValues function outMember.Name, Snippet.returnErr, Snippet.close], s)
  | none =>
    if outMember.Type_ = types.String then .ok ([Snippet.setFirstValue outMember.Name], s)
    else
      match s.g.useUnsafe.Equal s.heap inType outMember.Type_ with
      | .error x => .error x
      | .ok (true, u) =>
        match (deref s.heap inType).Kind with
        | .Pointer =>
          .ok ([Snippet.castValuesPointer outMember.Name outMember.Type_], s.withUnsafe u)
        | .Map | .Slice =>
          .ok ([Snippet.castValuesHeader outMember.Name outMember.Type_], s.withUnsafe u)
        | _ => .ok ([Snippet.fixmeNotYetSupported outMember.Name], s.withUnsafe u)
      | .ok (false, u) => .ok ([Snippet.fixmeNotYetSupported outMember.Name], s.withUnsafe u)

/-- The method `setZeroValue`. -/
def genConversion.setZeroValue (h : Heap) (outMember : types.Member) : Run (List Snippet) :=
  match unwrapAlias h outMember.Type_ with
  | .error x => .error x
  | .ok outMemberType =>
    match (deref h outMemberType).Kind with
    | .Builtin =>
      if outMemberType = types.String then .ok [Snippet.setEmptyString outMember.Name]
      else if outMemberType ∈ [types.Int64, types.Int32, types.Int16, types.Int, types.Uint64,
          types.Uint32, types.Uint16, types.Uint] then .ok [Snippet.setZero outMember.Name]
      else if outMemberType ∈ [types.Uintptr, types.Byte] then .ok [Snippet.setZero outMember.Name]
      else if outMemberType ∈ [types.Float64, types.Float32, types.Float] then
        .ok [Snippet.setZero outMember.Name]
      else if outMemberType = types.Bool then .ok [Snippet.setFalse outMember.Name]
      else .ok [Snippet.fixmeUnsupported outMember.Name]
    | .Struct =>
      if outMemberType = outMember.Type_ then
        .ok [Snippet.setStructLiteral outMember.Name outMemberType]
      else .ok [Snippet.setAliasStructLiteral outMember.Name outMember.Type_ outMemberType]
    | .Map | .Slice | .Pointer => .ok [Snippet.setNil outMember.Name]
    | .Alias => .ok [Snippet.fixmeUnexpected outMember.Name]
    | .Interface | .Array => .ok [Snippet.setNil outMember.Name]
    | _ => .ok [Snippet.fixmeUnsupported outMember.Name]

/-- The text of `jsonTag` before its first comma, `jsonTag[:index]`. -/
def beforeComma (jsonTag : String) : String :=
  String.mk (jsonTag.data.takeWhile (fun c => decide (c ≠ ',')))

/-- One iteration of the loop of `generateFromUrlValues`. -/
def fromUrlValuesMember (inType : TypePtr) (outMember : types.Member) (s : GenState) :
    Run (List Snippet × GenState) :=
  if (extractTag outMember.CommentLines).head? = some "false" then
    .ok ([Snippet.infoOutOptedOut outMember.Name], s)
  else
    let jsonTag := structTagGet outMember.Tags "json"
    if (beforeComma jsonTag).length = 0 then .ok ([Snippet.warnNoJsonTag outMember.Name], s)
    else
      match genConversion.fromValuesEntry (deref s.heap (deref s.heap inType).Underlying).Elem
          outMember s with
      | .error x => .error x
      | .ok (present, s1) =>
        match genConversion.setZeroValue s1.heap outMember with
        | .error x => .error x
        | .ok absent =>
          .ok ([Snippet.ifValues (beforeComma jsonTag)] ++ present ++ [Snippet.orElse]
            ++ absent ++ [Snippet.close], s1)

/-- The method `generateFromUrlValues`. -/
def genConversion.generateFromUrlValues (inType outType : TypePtr) (s : GenState) :
    Run (List Snippet × GenState) :=
  match forEachMember (fromUrlValuesMember inType) (deref s.heap outType).Members s with
  | .error x => .error x
  | .ok (code, s1) =>
    .ok ([Snippet.funcAuto inType outType] ++ code ++ [Snippet.returnNil, Snippet.closeFunc]
        ++ (if (s1.g.preexists inType outType).isSome then []
            else [Snippet.commentPublic inType outType, Snippet.funcPublic inType outType,
                  Snippet.returnAuto inType outType, Snippet.closeFunc]), s1)

/-! ## The context: packages and namers -/

/-- Modelled from the spec: a package of the Type Universe, `types.Package` of
`k8s.io/gengo/types`: its import path and the maps from a name to the type and
to the function declared under it. The order of a list is the order in which
`range` visits the map. -/
structure Package where
  Path : String
  Types : List (String × TypePtr)
  Functions : List (String × TypePtr)

/-- Modelled from the spec: the `generator.Context` of `k8s.io/gengo/generator`
as the generator reads it: the universe, a map from import path to package,
and the namer `public` that the templates `$.inType|public$` go through. -/
structure Context where
  Universe : List (String × Package)
  publicNamer : Heap → TypePtr → String

/-- The constant `conversionPackagePath`. -/
def conversionPackagePath : String := "k8s.io/apimachinery/pkg/conversion"

/-- The constant `runtimePackagePath`. -/
def runtimePackagePath : String := "k8s.io/apimachinery/pkg/runtime"

/-- The function `getPeerTypeFor`; the result `nil` is `nilPtr`. -/
def getPeerTypeFor (context : Context) (h : Heap) (t : TypePtr) :
    List String → TypePtr
  | [] => nilPtr
  | ppp :: rest =>
    match mapGet context.Universe ppp with
    | none => getPeerTypeFor context h t rest
    | some p =>
      match mapGet p.Types (deref h t).Name.Name with
      | some peer => peer
      | none => getPeerTypeFor context h t rest

/-! ## The manual-conversion registry -/

/-- The body of the loop of `getManualConversionFunctions`, for the function
`f` of the package `pkg`. -/
def manualConversionStep (context : Context) (h : Heap) (pkg : Package) (f : TypePtr)
    (manualMap : conversionFuncMap) : Run conversionFuncMap :=
  let scopeName : types.Name := ⟨conversionPackagePath, "Scope", ""⟩
  let errorName : types.Name := ⟨"", "error", ""⟩
  if (deref h f).Underlying = nilPtr ∨ (deref h (deref h f).Underlying).Kind ≠ .Func then
    .ok manualMap
  else
    match (deref h (deref h f).Underlying).Signature with
    | none => .ok manualMap
    | some signature =>
      if signature.Receiver ≠ none then .ok manualMap
      else if signature.Parameters.length ≠ 3
          ∨ (deref h (signature.Parameters.getD 2 nilPtr)).Name ≠ scopeName then .ok manualMap
      else if signature.Results.length ≠ 1
          ∨ (deref h (signature.Results.getD 0 nilPtr)).Name ≠ errorName then .ok manualMap
      else
        let inType := signature.Parameters.getD 0 nilPtr
        let outType := signature.Parameters.getD 1 nilPtr
        if (deref h inType).Kind ≠ .Pointer ∨ (deref h outType).Kind ≠ .Pointer then .ok manualMap
        else if (deref h f).Name.Name
            = "Convert_" ++ context.publicNamer h (deref h inType).Elem ++ "_To_"
              ++ context.publicNamer h (deref h outType).Elem then
          let key : conversionPair := ⟨(deref h inType).Elem, (deref h outType).Elem⟩
          match mapGet manualMap key with
          | some v =>
            if v ≠ nilPtr ∧ (deref h v).Name.Package ≠ pkg.Path then .error .panics
            else .ok (mapSet manualMap key f)
          | none => .ok (mapSet manualMap key f)
        else .ok manualMap

/-- The loop of `getManualConversionFunctions` over the functions of the
package, in the order `range` visits them. -/
def manualConversionLoop (context : Context) (h : Heap) (pkg : Package) :
    List TypePtr → conversionFuncMap → Run conversionFuncMap
  | [], manualMap => .ok manualMap
  | f :: rest, manualMap =>
    match manualConversionStep context h pkg f manualMap with
    | .error x => .error x
    | .ok manualMap1 => manualConversionLoop context h pkg rest manualMap1

/-- The function `getManualConversionFunctions`; the package `nil` is `none`.
The registry is a Go map, changed in place: the result is the registry after
the call. -/
def getManualConversionFunctions (context : Context) (h : Heap) (pkg : Option Package)
    (manualMap : conversionFuncMap) : Run conversionFuncMap :=
  match pkg with
  | none => .ok manualMap
  | some pkg => manualConversionLoop context h pkg (pkg.Functions.map (fun kv => kv.2)) manualMap

/-! ## The pair selector -/

/-- Modelled from the spec: `strings.Split(s, sep)` of the Go standard library
for a separator of one character, on the characters of `s`: the pieces between
the separators, a single empty piece for the empty text. -/
def splitChars (sep : Char) : List Char → List (List Char)
  | [] => [[]]
  | c :: cs =>
    if c = sep then [] :: splitChars sep cs
    else
      match splitChars sep cs with
      | [] => [[c]]
      | w :: ws => (c :: w) :: ws

/-- Modelled from the spec: `strings.Split(s, sep)` for a separator of one
character. -/
def stringsSplit (s : String) (sep : Char) : List String :=
  (splitChars sep s.data).map String.mk

/-- The loop of `getExplicitFromTypes` over the directive values. -/
def explicitFromLoop : List String → List types.Name → Run (List types.Name)
  | [], result => .ok result
  | path :: rest, result =>
    let items := stringsSplit path '.'
    if items.length ≠ 2 then explicitFromLoop rest result
    else if items.getD 0 "" = "net/url" ∧ items.getD 1 "" = "Values" then
      explicitFromLoop rest (result ++ [⟨items.getD 0 "", items.getD 1 "", ""⟩])
    else .error .fatal

/-- The function `getExplicitFromTypes`. -/
def getExplicitFromTypes (h : Heap) (t : TypePtr) : Run (List types.Name) :=
  let comments := (deref h t).SecondClosestCommentLines ++ (deref h t).CommentLines
  explicitFromLoop (extractExplicitFromTag comments) []

/-- The closure `convertibleWithPeer` of `Filter`. -/
def convertibleWithPeer (c : Context) (t : TypePtr) (s : GenState) : Run (Bool × GenState) :=
  let peerType := getPeerTypeFor c s.heap t s.g.peerPackages
  if peerType = nilPtr then .ok (false, s)
  else
    match s.g.convertibleOnlyWithinPackage s.heap t peerType with
    | .error x => .error x
    | .ok false => .ok (false, s)
    | .ok true => .ok (true, { s with g := { s.g with types := s.g.types ++ [t] } })

/-- The loop of the closure `explicitlyConvertible` of `Filter`: one pair per
source name, its input side a new descriptor `&types.Type{Name: inTypes[i]}`. -/
def appendExplicit (t : TypePtr) : List types.Name → GenState → GenState
  | [], s => s
  | name :: rest, s =>
    let fresh := alloc s.heap { zeroType with Name := name }
    appendExplicit t rest
      { g := { s.g with explicitConversions := s.g.explicitConversions ++ [⟨fresh.1, t⟩] },
        heap := fresh.2 }

/-- The closure `explicitlyConvertible` of `Filter`. -/
def explicitlyConvertible (t : TypePtr) (s : GenState) : Run (Bool × GenState) :=
  match getExplicitFromTypes s.heap t with
  | .error x => .error x
  | .ok inTypes =>
    if inTypes.length = 0 then .ok (false, s)
    else .ok (true, appendExplicit t inTypes s)

/-- The method `Filter`: both closures run, then `||`. -/
def genConversion.Filter (c : Context) (t : TypePtr) (s : GenState) : Run (Bool × GenState) :=
  match convertibleWithPeer c t s with
  | .error x => .error x
  | .ok (withPeer, s1) =>
    match explicitlyConvertible t s1 with
    | .error x => .error x
    | .ok (explicitly, s2) => .ok (withPeer || explicitly, s2)

/-- The loop of `GenerateType` over the explicit sources of `t`. -/
def generateExplicit (c : Context) (t : TypePtr) :
    List types.Name → GenState → Run (List Snippet × GenState)
  | [], s => .ok ([], s)
  | inTypeName :: rest, s =>
    match mapGet c.Universe inTypeName.Package with
    | none => generateExplicit c t rest s
    | some inPkg =>
      match mapGet inPkg.Types inTypeName.Name with
      | none => generateExplicit c t rest s
      | some inType =>
        if (deref s.heap inType).Name.Package = "net/url"
            ∧ (deref s.heap inType).Name.Name = "Values" then
          match genConversion.generateFromUrlValues inType t s with
          | .error x => .error x
          | .ok (code1, s1) =>
            match generateExplicit c t rest s1 with
            | .error x => .error x
            | .ok (code2, s2) => .ok (code1 ++ code2, s2)
        else generateExplicit c t rest s

/-- The first statement of `GenerateType`: the conversions between `t` and
its peer type, when it has one. -/
def generatePeer (cf fuel : Nat) (c : Context) (t : TypePtr) (s : GenState) :
    Run (List Snippet × GenState) :=
  let peerType := getPeerTypeFor c s.heap t s.g.peerPackages
  if peerType ≠ nilPtr then
    match genConversion.generateConversion cf fuel t peerType s with
    | .error x => .error x
    | .ok (code1, s1) =>
      match genConversion.generateConversion cf fuel peerType t s1 with
      | .error x => .error x
      | .ok (code2, s2) => .ok (code1 ++ code2, s2)
  else .ok ([], s)

/-- The method `GenerateType`. -/
def genConversion.GenerateType (cf fuel : Nat) (c : Context) (t : TypePtr) (s : GenState) :
    Run (List Snippet × GenState) :=
  match generatePeer cf fuel c t s with
  | .error x => .error x
  | .ok (code, s1) =>
    match getExplicitFromTypes s1.heap t with
    | .error x => .error x
    | .ok inTypeNames =>
      match generateExplicit c t inTypeNames s1 with
      | .error x => .error x
      | .ok (code3, s3) => .ok (code ++ code3, s3)

/-- Modelled from the spec: the generator framework hands a type to `Filter`
and hands the types `Filter` admitted to `GenerateType`. This is what the two
calls emit for one type. -/
def filterThenGenerate (cf fuel : Nat) (c : Context) (t : TypePtr) (s : GenState) :
    Run (List Snippet × GenState) :=
  match genConversion.Filter c t s with
  | .error x => .error x
  | .ok (false, s1) => .ok ([], s1)
  | .ok (true, s1) => genConversion.GenerateType cf fuel c t s1

/-! ## The registration emitter -/

/-- Modelled from the spec: `Universe.Type(name)` of `k8s.io/gengo/types`, the
type of this name, made when the universe has none. The model's universe is
not changed: nothing looks the new type up again. -/
def universeType (c : Context) (h : Heap) (name : types.Name) : TypePtr × Heap :=
  match (mapGet c.Universe name.Package).bind (fun p => mapGet p.Types name.Name) with
  | some t => (t, h)
  | none => alloc h { zeroType with Name := name }

/-- The first loop of `Init`: the generated conversions of the peer types. -/
def registerPeers (c : Context) (h : Heap) (g : genConversion) : List TypePtr → List Snippet
  | [] => []
  | t :: rest =>
    let peerType := getPeerTypeFor c h t g.peerPackages
    (if (g.preexists t peerType).isSome then [] else [Snippet.addGenerated t peerType])
      ++ (if (g.preexists peerType t).isSome then [] else [Snippet.addGenerated peerType t])
      ++ registerPeers c h g rest

/-- Less-than on the names of the functions, the `less` of `sort.Slice` in
`Init`. -/
def lessByName (h : Heap) (g : genConversion) (p q : conversionPair) : Prop :=
  ((deref h ((mapGet g.manualConversions p).getD nilPtr)).Name.Name
    < (deref h ((mapGet g.manualConversions q).getD nilPtr)).Name.Name)

instance (h : Heap) (g : genConversion) : DecidableRel (lessByName h g) :=
  fun _ _ => by unfold lessByName; infer_instance

/-- The pairs `Init` collects from the registry: those whose function is
declared in the output package, in the order `range` visits the registry. -/
def manualPairs (h : Heap) (g : genConversion) : List conversionPair :=
  (g.manualConversions.filter (fun kv =>
    decide ((deref h kv.2).Name.Package = g.outputPackage))).map (fun kv => kv.1)

/-- The method `Init`: the code it emits and the heap with the descriptor
`schemePtr` it made. -/
def genConversion.Init (c : Context) (s : GenState) : List Snippet × GenState :=
  let scheme := universeType c s.heap ⟨runtimePackagePath, "Scheme", ""⟩
  let schemePtr := alloc scheme.2 { zeroType with Kind := .Pointer, Elem := scheme.1 }
  ([Snippet.funcInit, Snippet.registerBuilder, Snippet.close, Snippet.commentRegister,
      Snippet.commentSchemes, Snippet.funcRegister schemePtr.1]
    ++ registerPeers c s.heap s.g s.g.types
    ++ s.g.explicitConversions.map (fun pair => Snippet.addGenerated pair.inType pair.outType)
    ++ (sortSlice (manualPairs s.heap s.g) (lessByName s.heap s.g)).map (fun pair =>
        Snippet.addManual pair.inType pair.outType
          ((mapGet s.g.manualConversions pair).getD nilPtr))
    ++ [Snippet.returnNil, Snippet.closeFunc],
    { s with heap := schemePtr.2 })

/-! ## Predicates used by the statements -/

/-- The snippet is an unsafe reinterpretation: one of the four templates that
go through `unsafe.Pointer`. -/
def Snippet.isCast (sn : Snippet) : Bool :=
  decide (sn.template ∈ [Template.castPointer, Template.castHeader,
    Template.castValuesPointer, Template.castValuesHeader])

/-- The snippet belongs to the failure marker of `doCompileErrorOnMissingConversion`. -/
def Snippet.isMarker (sn : Snippet) : Bool :=
  decide (sn.template ∈ [Template.fixmeProvide, Template.noneProvided, Template.providedAre,
    Template.provided, Template.compileError])

/-- The member pairs of two structs are reported equal by `ce` one after the
other, each comparison starting in the state the previous one left. -/
inductive MembersEqualInTurn (ce : TypePtr → TypePtr → EqState → Run (Bool × EqState)) :
    List types.Member → List types.Member → EqState → EqState → Prop where
  | nil (st : EqState) : MembersEqualInTurn ce [] [] st st
  | cons (a b : types.Member) (as bs : List types.Member) (st st1 st2 : EqState)
      (first : ce a.Type_ b.Type_ st = .ok (true, st1))
      (rest : MembersEqualInTurn ce as bs st1 st2) :
      MembersEqualInTurn ce (a :: as) (b :: bs) st st2

/-- Two member lists agree position by position in name, embedded flag and
type: the structs differ only in their own name. -/
def sameMembers : List types.Member → List types.Member → Bool
  | a :: as, b :: bs =>
    decide (a.Name = b.Name) && decide (a.Embedded = b.Embedded) && decide (a.Type_ = b.Type_)
      && sameMembers as bs
  | [], [] => true
  | _, _ => false

/-- The code strategies (2) and (3) leave for a pair that reaches them with the
oracle's verdict `eq`: the reinterpretation matched to the kind, or what
`otherwise` stands for. -/
def castOr (h : Heap) (eq : Bool) (inType outType inTypeResolved : TypePtr)
    (otherwise : List Snippet) : List Snippet :=
  if eq = true ∧ (deref h inTypeResolved).Kind = .Pointer then [Snippet.castPointer inType outType]
  else if eq = true ∧ ((deref h inTypeResolved).Kind = .Map ∨ (deref h inTypeResolved).Kind = .Slice)
    then [Snippet.castHeader inType outType]
  else otherwise

/-- No snippet of the code is an unsafe reinterpretation. -/
def castFree (code : List Snippet) : Bool :=
  code.all (fun sn => !sn.isCast)

/-- A synthesis function that, run without reinterpretation permitted, emits
no reinterpretation and leaves reinterpretation forbidden. -/
def Synth.Safe (gf : Synth) : Prop :=
  ∀ (i o : TypePtr) (f : Bool) (s : GenState) (code : List Snippet) (s1 : GenState),
    s.g.useUnsafe = .noEquality → gf i o f s = .ok (code, s1) →
    castFree code = true ∧ s1.g.useUnsafe = .noEquality

/-- Every binding of the first cache is a binding of the second. -/
def cacheExtends (e e1 : equalMemoryTypes) : Prop :=
  ∀ k v, mapGet e k = some v → mapGet e1 k = some v

/-- The number of types of the heap that are not in the visited set. -/
def unvisited (h : Heap) (visited : List TypePtr) : Nat :=
  ((Finset.range h.length).filter (fun p => p ∉ visited)).card

/-- Every alias chain that starts in the heap ends: `unwrapAlias` returns on
every type of the heap. -/
def aliasChainsEnd (h : Heap) : Bool :=
  (List.range h.length).all (fun p => (unwrapAlias h p).isOk)

/-- A comparison function that returns, and only adds to the visited set,
whenever fewer than `n` types of the heap are unvisited. -/
def ReturnsBelow (h : Heap) (n : Nat)
    (ce : TypePtr → TypePtr → EqState → Run (Bool × EqState)) : Prop :=
  ∀ (x y : TypePtr) (st : EqState), unvisited h st.alreadyVisitedTypes < n →
    ∃ r st1, ce x y st = .ok (r, st1) ∧ st.alreadyVisitedTypes ⊆ st1.alreadyVisitedTypes

/-- Follows the words of the specification (section 4.3), read without the
cycle guard and the cache: two types differ in layout when, after unwrapping
aliases, a difference of kind, of member count, of primitive name, or an
interface with methods, or a kind that is not modelled, is met within `fuel`
levels of members, keys and elements. -/
def specLayoutDiffers (h : Heap) : Nat → TypePtr → TypePtr → Bool
  | 0, _, _ => false
  | fuel + 1, a, b =>
    match unwrapAlias h a, unwrapAlias h b with
    | .ok in_, .ok out =>
      if in_ = out then false
      else if (deref h in_).Kind ≠ (deref h out).Kind then true
      else
        match (deref h in_).Kind with
        | .Struct =>
          decide ((deref h in_).Members.length ≠ (deref h out).Members.length)
            || (List.zip (deref h in_).Members (deref h out).Members).any
                (fun p => specLayoutDiffers h fuel p.1.Type_ p.2.Type_)
        | .Pointer => specLayoutDiffers h fuel (deref h in_).Elem (deref h out).Elem
        | .Slice => specLayoutDiffers h fuel (deref h in_).Elem (deref h out).Elem
        | .Map =>
          specLayoutDiffers h fuel (deref h in_).Key (deref h out).Key
            || specLayoutDiffers h fuel (deref h in_).Elem (deref h out).Elem
        | .Interface =>
          !(decide ((deref h in_).Methods.length = 0) && decide ((deref h out).Methods.length = 0))
        | .Builtin => decide ((deref h in_).Name.Name ≠ (deref h out).Name.Name)
        | _ => true
    | _, _ => false

/-- The names `doStruct` looks an input member up by: its own name, then its
rename tags. -/
def memberNames (m : types.Member) : List String :=
  m.Name :: extractRenameTags m.CommentLines

/-- Follows the words of the specification: the output member's own name, or
one of its rename tags, equals the input member's name or one of its rename
tags. -/
def namesMeet (m om : types.Member) : Bool :=
  (memberNames om).any (fun x => decide (x ∈ memberNames m))

/-- Follows the words of the specification (section 4.5, Struct): what struct
synthesis does with the input members, one after the other in declaration
order. An opted-out member gets a note; a member without matching output
member gets a warning and is recorded as skipped; a member whose type pair has
a registered manual conversion flagged drop gets nothing; every other member
gets its conversion, synthesized by `gf` with the shortcut enabled and scoped
from the input member to the matched output member. -/
inductive StructSynthesis (gf : Synth) (inType outType : TypePtr) :
    List types.Member → GenState → List Snippet → GenState → Prop where
  | done (s : GenState) : StructSynthesis gf inType outType [] s [] s
  | optedOut (m : types.Member) (ms : List types.Member) (s s2 : GenState)
      (code : List Snippet)
      (opted : (extractTag m.CommentLines).head? = some "false")
      (rest : StructSynthesis gf inType outType ms s code s2) :
      StructSynthesis gf inType outType (m :: ms) s (Snippet.infoOptedOut m.Name :: code) s2
  | noPeer (m : types.Member) (ms : List types.Member) (s s2 : GenState)
      (code : List Snippet)
      (notOpted : (extractTag m.CommentLines).head? ≠ some "false")
      (missing : findMember s.heap outType (m.Name :: extractRenameTags m.CommentLines) = none)
      (rest : StructSynthesis gf inType outType ms (s.appendSkipped inType m.Name) code s2) :
      StructSynthesis gf inType outType (m :: ms) s (Snippet.warnNoPeer m.Name :: code) s2
  | dropped (m om : types.Member) (function : TypePtr) (ms : List types.Member)
      (s s2 : GenState) (code : List Snippet)
      (notOpted : (extractTag m.CommentLines).head? ≠ some "false")
      (found : findMember s.heap outType (m.Name :: extractRenameTags m.CommentLines) = some om)
      (registered : s.g.preexists m.Type_ om.Type_ = some function)
      (drop : isDrop (deref s.heap function).CommentLines = true)
      (rest : StructSynthesis gf inType outType ms s code s2) :
      StructSynthesis gf inType outType (m :: ms) s code s2
  | converted (m om : types.Member) (ms : List types.Member) (s s1 s2 : GenState)
      (body code : List Snippet)
      (notOpted : (extractTag m.CommentLines).head? ≠ some "false")
      (found : findMember s.heap outType (m.Name :: extractRenameTags m.CommentLines) = some om)
      (notDropped : ∀ function, s.g.preexists m.Type_ om.Type_ = some function →
        isDrop (deref s.heap function).CommentLines = false)
      (member : gf m.Type_ om.Type_ true s = .ok (body, s1))
      (rest : StructSynthesis gf inType outType ms s1 code s2) :
      StructSynthesis gf inType outType (m :: ms) s
        ([Snippet.ifTrue, Snippet.scopeMember m.Name om.Name] ++ body ++ [Snippet.close] ++ code)
        s2

/-- The line of the template ends with an opening brace. -/
def Template.opens (t : Template) : Bool :=
  decide (t ∈ [Template.callFunction, Template.callNamed, Template.ifInNil, Template.orElse,
    Template.forKeyVal, Template.ifTrue, Template.forIndex, Template.funcAuto,
    Template.funcPublic, Template.ifValues, Template.callFunctionValues, Template.funcInit,
    Template.funcRegister])

/-- The line of the template starts with a closing brace. -/
def Template.closes (t : Template) : Bool :=
  decide (t ∈ [Template.close, Template.orElse, Template.closeFunc])

/-- The nesting depth after the code, read from depth `d`; `none` when a
closing brace has no opening one. -/
def braceDepth : Nat → List Snippet → Option Nat
  | d, [] => some d
  | d, sn :: rest =>
    if sn.template.closes then
      match d with
      | 0 => none
      | d1 + 1 => braceDepth (if sn.template.opens then d1 + 1 else d1) rest
    else braceDepth (if sn.template.opens then d + 1 else d) rest

/-- The braces of the code match: read from any depth, the code never goes
below that depth and comes back to it. -/
def bracesMatch (code : List Snippet) : Prop :=
  ∀ d, braceDepth d code = some d

/-- A synthesis function whose code has matching braces. -/
def Synth.Matched (gf : Synth) : Prop :=
  ∀ (i o : TypePtr) (f : Bool) (s : GenState) (code : List Snippet) (s1 : GenState),
    gf i o f s = .ok (code, s1) → bracesMatch code

/-- A synthesis function that only allocates: the heap it leaves starts with
the heap it found. -/
def Synth.Grows (gf : Synth) : Prop :=
  ∀ (i o : TypePtr) (f : Bool) (s : GenState) (code : List Snippet) (s1 : GenState),
    gf i o f s = .ok (code, s1) → s.heap <+: s1.heap

/-- The skipped-field record of a type, `g.skippedFields[t]`. -/
def GenState.skipped (s : GenState) (t : TypePtr) : List String :=
  (mapGet s.g.skippedFields t).getD []

/-- Replays the loop of `doStruct` and checks that every member conversion
synthesized on the way leaves the skipped-field record of `inType` as it
found it. -/
def nestedQuiet (gf : Synth) (inType outType : TypePtr) : List types.Member → GenState → Bool
  | [], _ => true
  | m :: ms, s =>
    if (extractTag m.CommentLines).head? = some "false" then nestedQuiet gf inType outType ms s
    else
      match findMember s.heap outType (m.Name :: extractRenameTags m.CommentLines) with
      | none => nestedQuiet gf inType outType ms (s.appendSkipped inType m.Name)
      | some om =>
        if (match s.g.preexists m.Type_ om.Type_ with
            | some function => isDrop (deref s.heap function).CommentLines
            | none => false) then
          nestedQuiet gf inType outType ms s
        else
          match gf m.Type_ om.Type_ true s with
          | .error _ => true
          | .ok (_, s1) =>
            decide (s1.skipped inType = s.skipped inType) && nestedQuiet gf inType outType ms s1

/-- The input member is not opted out and has no matching output member. -/
def lacksPeer (h : Heap) (outType : TypePtr) (m : types.Member) : Bool :=
  decide ((extractTag m.CommentLines).head? ≠ some "false")
    && (findMember h outType (m.Name :: extractRenameTags m.CommentLines)).isNone

/-- Follows the words of the specification (section 4.4): the type is admitted
with a peer when a same-named type exists in a peer package and the pair
passes `convertibleOnlyWithinPackage`. -/
def admittedWithPeer (c : Context) (t : TypePtr) (s : GenState) : Run Bool :=
  if getPeerTypeFor c s.heap t s.g.peerPackages = nilPtr then .ok false
  else s.g.convertibleOnlyWithinPackage s.heap t (getPeerTypeFor c s.heap t s.g.peerPackages)

/-- The state `Filter` leaves: the type appended to the peer-type list when it
is admitted with a peer, and one adapter pair per explicit source name, its
input side a new descriptor that carries the name. -/
def afterFilter (t : TypePtr) (withPeer : Bool) (names : List types.Name) (s : GenState) :
    GenState :=
  { g := { s.g with
      types := s.g.types ++ (if withPeer then [t] else []),
      explicitConversions := s.g.explicitConversions
        ++ (List.range names.length).map (fun i => ⟨s.heap.length + i, t⟩) },
    heap := s.heap ++ names.map (fun name => { zeroType with Name := name }) }

/-- Follows the words of the specification (section 4.2) and of claim C26: the
declared function `f` has a function type with a signature, no receiver,
exactly three parameters of which the first two are pointers to `T1` and to
`T2` and the third is `conversion.Scope`, exactly one result of type `error`,
and the name `Convert_<public name of T1>_To_<public name of T2>`. -/
def IsManualConversion (context : Context) (h : Heap) (f T1 T2 : TypePtr) : Prop :=
  (deref h f).Underlying ≠ nilPtr
    ∧ (deref h (deref h f).Underlying).Kind = .Func
    ∧ ∃ signature, (deref h (deref h f).Underlying).Signature = some signature
        ∧ signature.Receiver = none
        ∧ (∃ p1 p2 p3, signature.Parameters = [p1, p2, p3]
            ∧ (deref h p1).Kind = .Pointer ∧ (deref h p1).Elem = T1
            ∧ (deref h p2).Kind = .Pointer ∧ (deref h p2).Elem = T2
            ∧ (deref h p3).Name = ⟨conversionPackagePath, "Scope", ""⟩)
        ∧ (∃ r, signature.Results = [r] ∧ (deref h r).Name = ⟨"", "error", ""⟩)
        ∧ (deref h f).Name.Name
            = "Convert_" ++ context.publicNamer h T1 ++ "_To_" ++ context.publicNamer h T2

/-- The pair is registered by a function of another package than `pkg`: the
condition of the panic in `getManualConversionFunctions`. -/
def registeredElsewhere (h : Heap) (pkg : Package) (manualMap : conversionFuncMap)
    (key : conversionPair) : Prop :=
  ∃ v, mapGet manualMap key = some v ∧ v ≠ nilPtr ∧ (deref h v).Name.Package ≠ pkg.Path

/-- Two registries hold the same bindings. -/
def sameBindings (m1 m2 : conversionFuncMap) : Prop :=
  ∀ key, mapGet m1 key = mapGet m2 key

/-- The qualified name string of the function a registry binds to the pair,
the sort key of `doCompileErrorOnMissingConversion`. -/
def functionString (h : Heap) (m : conversionFuncMap) (p : conversionPair) : String :=
  (deref h ((mapGet m p).getD nilPtr)).Name.String

/-- The qualified name string of the function a hint line names. -/
def hintString (h : Heap) (sn : Snippet) : String :=
  (deref h (sn.types.getD 0 nilPtr)).Name.String

/-- Follows the words of the specification: the ordered pairs of the admitted
peer types, for every type of the peer-type list the two directions
`t -> peer` and `peer -> t`. -/
def peerPairs (c : Context) (h : Heap) (g : genConversion) : List TypePtr → List conversionPair
  | [] => []
  | t :: rest =>
    ⟨t, getPeerTypeFor c h t g.peerPackages⟩ :: ⟨getPeerTypeFor c h t g.peerPackages, t⟩
      :: peerPairs c h g rest

/-- The descriptor with the struct tags of its members erased. -/
def clearTagsOf (t : types.Type_) : types.Type_ :=
  { t with Members := t.Members.map (fun m => { m with Tags := [] }) }

/-- The heap with every struct tag erased: two heaps with the same image
differ in struct tags only. -/
def clearTags (h : Heap) : Heap :=
  h.map clearTagsOf

/-- The two types have identical underlying types, tags ignored:
`haveIdenticalUnderlyingType(a, b, false)` returns true. -/
def identicalUnderlying (h : Heap) (a b : TypePtr) : Prop :=
  ∃ fuel, haveIdenticalUnderlyingType h fuel a b false = .ok true

/-- Follows the words of claim C30: the member names are equal, the embedded
flags are equal, and the member types have the same name, package and kind and
themselves have identical underlying types. -/
def membersConvertible (h : Heap) (m om : types.Member) : Prop :=
  m.Name = om.Name ∧ m.Embedded = om.Embedded
    ∧ (deref h m.Type_).Name.Name = (deref h om.Type_).Name.Name
    ∧ (deref h m.Type_).Name.Package = (deref h om.Type_).Name.Package
    ∧ (deref h m.Type_).Kind = (deref h om.Type_).Kind
    ∧ identicalUnderlying h m.Type_ om.Type_

/-- Follows the words of the specification (criteria 1 to 5 of
`convertibleOnlyWithinPackage`): one of the two types is in the types package
(`t` is the input type when it is, the output type otherwise), that type
carries no opt-out `conversion-gen=false`, both names are exported, and the
two types unwrap to types of the same kind, one of Builtin, Map, Slice, Struct
and Pointer. -/
def fiveCriteria (g : genConversion) (h : Heap) (inType outType : TypePtr) : Prop :=
  let t := if (deref h inType).Name.Package = g.typesPackage then inType else outType
  let other := if (deref h inType).Name.Package = g.typesPackage then outType else inType
  (deref h t).Name.Package = g.typesPackage
    ∧ (extractTag (deref h t).CommentLines).head? ≠ some "false"
    ∧ (IsPrivateGoName (deref h t).Name.Name = false
        ∧ IsPrivateGoName (deref h other).Name.Name = false)
    ∧ ∃ t1 other1, unwrapAlias h t = .ok t1 ∧ unwrapAlias h other = .ok other1
        ∧ (deref h t1).Kind = (deref h other1).Kind
        ∧ (deref h t1).Kind ∈ [types.Kind.Builtin, .Map, .Slice, .Struct, .Pointer]

/-- The type whose directive `convertibleOnlyWithinPackage` reads is in the
types package and its first `conversion-gen` value is not `false`. -/
def unsupportedTypeTag (g : genConversion) (h : Heap) (inType outType : TypePtr) : Prop :=
  let t := if (deref h inType).Name.Package = g.typesPackage then inType else outType
  (deref h t).Name.Package = g.typesPackage
    ∧ ∃ v, (extractTag (deref h t).CommentLines).head? = some v ∧ v ≠ "false"

/-- The member without its `conversion-gen` directives. -/
def withoutTag (m : types.Member) : types.Member :=
  { m with CommentLines := m.CommentLines.filter (fun d => decide (d.1 ≠ tagName)) }

/-- The values of the directive `conversion-gen:explicit-from` of a type, in
the order `getExplicitFromTypes` reads them. -/
def explicitFromValues (h : Heap) (t : TypePtr) : List String :=
  extractExplicitFromTag ((deref h t).SecondClosestCommentLines ++ (deref h t).CommentLines)

/-- The results of `f` are results of `f1`. -/
def ExtendsOn (f f1 : TypePtr → TypePtr → Bool → Run Bool) : Prop :=
  ∀ a b c r, f a b c = .ok r → f1 a b c = .ok r

/-- The member was excluded from conversion: the check
`tagvals != nil && tagvals[0] == "false"` of the member loops. -/
def memberOptedOut (m : types.Member) : Bool :=
  decide ((extractTag m.CommentLines).head? = some "false")

/-- The serialized name of a member: the text of its `json` struct tag before
the first comma. -/
def serializedName (m : types.Member) : String :=
  beforeComma (structTagGet m.Tags "json")

/-- Every builtin descriptor of the heap is one of the package-level
descriptors, which fill the first cells of the heap. -/
def builtinsAreGlobal (h : Heap) : Bool :=
  decide (h.take builtinTypes.length = builtinTypes)
    && (List.range h.length).all
        (fun p => decide ((deref h p).Kind ≠ .Builtin) || decide (p < builtinTypes.length))

/-- The names of the numeric builtin kinds. -/
def numericNames : List String :=
  ["int64", "int32", "int16", "int", "uint64", "uint32", "uint16", "uint", "uintptr", "byte",
    "float64", "float32", "float"]

/-- Follows the words of the specification (adapter synthesis, absent member):
the zero value assigned to the member, chosen by its alias-unwrapped type `t`:
the empty string for string, 0 for a numeric builtin, false for bool, a
zero-valued struct literal for a struct, wrapped in a conversion to the alias
when the member type is an alias, and nil for map, slice, pointer, interface
and array; `none` for a type that is none of these. -/
def specZeroValue (h : Heap) (outMember : types.Member) (t : TypePtr) : Option Snippet :=
  match (deref h t).Kind with
  | .Builtin =>
    if (deref h t).Name.Name = "string" then some (Snippet.setEmptyString outMember.Name)
    else if (deref h t).Name.Name ∈ numericNames then some (Snippet.setZero outMember.Name)
    else if (deref h t).Name.Name = "bool" then some (Snippet.setFalse outMember.Name)
    else none
  | .Struct =>
    if (deref h outMember.Type_).Kind = .Alias then
      some (Snippet.setAliasStructLiteral outMember.Name outMember.Type_ t)
    else some (Snippet.setStructLiteral outMember.Name t)
  | .Map | .Slice | .Pointer | .Interface | .Array => some (Snippet.setNil outMember.Name)
  | _ => none

/-- The value-list type of an adapter source, `inType.Underlying.Elem`. -/
def valueListType (h : Heap) (inType : TypePtr) : TypePtr :=
  (deref h (deref h inType).Underlying).Elem

/-- The snippet invokes a conversion function: the manual one
(`$.|raw$(in, out, s)`) or the named generated one
(`Convert_..._To_...(in, out, s)`). -/
def Snippet.isCall (sn : Snippet) : Bool :=
  decide (sn.template ∈ [Template.callFunction, Template.callNamed])

/-- No snippet of the code invokes a conversion function. -/
def callFree (code : List Snippet) : Bool :=
  code.all (fun sn => !sn.isCall)

/-- A synthesis function that emits no invocation of a conversion function. -/
def Synth.CallFree (gf : Synth) : Prop :=
  ∀ (i o : TypePtr) (f : Bool) (s : GenState) (code : List Snippet) (s1 : GenState),
    gf i o f s = .ok (code, s1) → callFree code = true

/-- Every alias of the heap names an underlying type of the heap. -/
def aliasesClosed (h : Heap) : Bool :=
  (List.range h.length).all
    (fun p => decide ((deref h p).Kind ≠ .Alias) || decide ((deref h p).Underlying < h.length))

/-- No snippet of the code is the bulk copy `copy(*out, *in)`. -/
def copyFree (code : List Snippet) : Bool :=
  code.all (fun sn => decide (sn.template ≠ Template.copyAll))

/-- A synthesis function that emits no bulk copy. -/
def Synth.CopyFree (gf : Synth) : Prop :=
  ∀ (i o : TypePtr) (f : Bool) (s : GenState) (code : List Snippet) (s1 : GenState),
    gf i o f s = .ok (code, s1) → copyFree code = true

/-- The code is what one of the strategies (1) to (4) of `generateFor` emits
for a slice pair: the call of a manual function or of the named function, the
reinterpretation of the slice header, the value copy or the direct
conversion. -/
def isEarlyStrategy (inType outType : TypePtr) (code : List Snippet) : Bool :=
  decide (code = [Snippet.assign]) || decide (code = [Snippet.convert outType])
    || decide (code = [Snippet.castHeader inType outType])
    || decide (code = [Snippet.callNamed inType outType, Snippet.returnErr, Snippet.close])
    || (match code with
        | call :: rest =>
          decide (call.template = Template.callFunction)
            && decide (rest = [Snippet.returnErr, Snippet.close])
        | [] => false)

/-- Every reference of the descriptor that the synthesis follows is below `n`:
the underlying type of an alias, the element of a slice, a pointer or a map,
the key of a map, and the types of the members of a struct. -/
def cellClosed (n : Nat) (t : types.Type_) : Bool :=
  (decide (t.Kind ≠ .Alias) || decide (t.Underlying < n))
    && (decide (t.Kind ∉ [types.Kind.Slice, types.Kind.Pointer, types.Kind.Map])
          || decide (t.Elem < n))
    && (decide (t.Kind ≠ .Map) || decide (t.Key < n))
    && (decide (t.Kind ≠ .Struct) || t.Members.all (fun m => decide (m.Type_ < n)))

/-- A heap as the parser builds it: every reference of a descriptor of the heap
names a descriptor of the heap, and every alias chain ends. -/
def wellFormed (h : Heap) : Bool :=
  (List.range h.length).all (fun p => cellClosed h.length (deref h p)) && aliasChainsEnd h

/-- A synthesis function that, on a well-formed heap and for two types of the
heap, emits no bulk copy, only allocates, and leaves the heap well-formed. -/
def Synth.CopyFreeOn (gf : Synth) : Prop :=
  ∀ (i o : TypePtr) (f : Bool) (s : GenState) (code : List Snippet) (s1 : GenState),
    wellFormed s.heap = true → i < s.heap.length → o < s.heap.length →
    gf i o f s = .ok (code, s1) →
    copyFree code = true ∧ wellFormed s1.heap = true ∧ s.heap <+: s1.heap

/-! ## An example universe -/

/-- A struct member without annotations. -/
def field (name : String) (t : TypePtr) : types.Member :=
  { Name := name, Embedded := false, CommentLines := [], Tags := [], Type_ := t }

def structType (pkg name : String) (members : List types.Member) : types.Type_ :=
  { zeroType with Name := ⟨pkg, name, ""⟩, Kind := .Struct, Members := members }

def aliasType (pkg name : String) (underlying : TypePtr) : types.Type_ :=
  { zeroType with Name := ⟨pkg, name, ""⟩, Kind := .Alias, Underlying := underlying }

def sliceType (name : String) (elem : TypePtr) : types.Type_ :=
  { zeroType with Name := ⟨"", name, ""⟩, Kind := .Slice, Elem := elem }

def pointerType (name : String) (elem : TypePtr) : types.Type_ :=
  { zeroType with Name := ⟨"", name, ""⟩, Kind := .Pointer, Elem := elem }

def mapType (name : String) (key elem : TypePtr) : types.Type_ :=
  { zeroType with Name := ⟨"", name, ""⟩, Kind := .Map, Key := key, Elem := elem }

def funcDecl (pkg name : String) (comments : types.CommentLines) : types.Type_ :=
  { zeroType with Name := ⟨pkg, name, ""⟩, Kind := .DeclarationOf, CommentLines := comments }

def interfaceType (pkg name : String) (methods : List (String × TypePtr)) : types.Type_ :=
  { zeroType with Name := ⟨pkg, name, ""⟩, Kind := .Interface, Methods := methods }

/-- A struct member with annotation lines. -/
def fieldWith (name : String) (t : TypePtr) (comments : types.CommentLines) : types.Member :=
  { Name := name, Embedded := false, CommentLines := comments, Tags := [], Type_ := t }

/-- The universe of the examples: the builtins in cells 0 to 14, then
```
15  v1.Source        struct { Name string; Count int }
16  internal.Dest    struct { Name string; Count int }
17  v1.Convert_v1_Source_To_internal_Dest          (a manual function)
18  v1.Convert_v1_Names_To_internal_Names          (+k8s:conversion-fn=copy-only)
19  []string
20  v1.Names         = []string
21  internal.Names   = []string
22  v1.X             struct { S string }
23  internal.Y       struct { S string }
24  internal.Z       struct { S int }
25  v1.A             struct { First X; Second X }
26  internal.B       struct { First Y; Second Z }
27  *v1.Source
28  *internal.Dest
29  map[string]v1.Source
30  map[string]internal.Dest
31  v1.Convert_v1_Source_To_v1_Source               (+k8s:conversion-fn=copy-only)
32  v1.Node          struct { Next *v1.Node }
33  *v1.Node
34  internal.Node    struct { Next *internal.Tail }
35  *internal.Tail
36  internal.Tail    struct { Next *internal.Tail; Extra int }
37  v1.Any           interface {}
38  internal.Any     interface {}
39  internal.Ring    struct { Next *internal.Link }
40  *internal.Link
41  internal.Link    struct { Next *internal.Ring; Extra int }
42  *internal.Ring
43  v1.Person        struct { Name string }   (Name: +k8s:conversion-gen:rename=FullName)
44  internal.Person  struct { FullName string }
45  v1.Loose         struct { Extra string }
46  internal.Loose   struct {}
47  v1.LooseAlias    = v1.Loose
48  other.T          struct { Next *other.T; Extra string }
49  *other.T
50  other2.U         struct { Next *other2.V }
51  *other2.V
52  other2.V         struct {}
53  []v1.Source
54  []internal.Dest
55  v1.Mixed         struct { Keep string; Hidden string; Gone string; Dropped v1.X }
                                  (Hidden: +k8s:conversion-gen=false)
56  internal.Mixed   struct { Keep string; Hidden string; Dropped internal.Y }
57  v1.Convert_v1_X_To_internal_Y                   (+k8s:conversion-fn=drop)
```
-/
def exampleUniverse : Heap :=
  builtinTypes ++ [
    structType "v1" "Source" [field "Name" types.String, field "Count" types.Int],
    structType "internal" "Dest" [field "Name" types.String, field "Count" types.Int],
    funcDecl "v1" "Convert_v1_Source_To_internal_Dest" [],
    funcDecl "v1" "Convert_v1_Names_To_internal_Names" [(conversionFnTagName, "copy-only")],
    sliceType "[]string" types.String,
    aliasType "v1" "Names" 19,
    aliasType "internal" "Names" 19,
    structType "v1" "X" [field "S" types.String],
    structType "internal" "Y" [field "S" types.String],
    structType "internal" "Z" [field "S" types.Int],
    structType "v1" "A" [field "First" 22, field "Second" 22],
    structType "internal" "B" [field "First" 23, field "Second" 24],
    pointerType "*v1.Source" 15,
    pointerType "*internal.Dest" 16,
    mapType "map[string]v1.Source" types.String 15,
    mapType "map[string]internal.Dest" types.String 16,
    funcDecl "v1" "Convert_v1_Source_To_v1_Source" [(conversionFnTagName, "copy-only")],
    structType "v1" "Node" [field "Next" 33],
    pointerType "*v1.Node" 32,
    structType "internal" "Node" [field "Next" 35],
    pointerType "*internal.Tail" 36,
    structType "internal" "Tail" [field "Next" 35, field "Extra" types.Int],
    interfaceType "v1" "Any" [],
    interfaceType "internal" "Any" [],
    structType "internal" "Ring" [field "Next" 40],
    pointerType "*internal.Link" 41,
    structType "internal" "Link" [field "Next" 42, field "Extra" types.Int],
    pointerType "*internal.Ring" 39,
    structType "v1" "Person" [fieldWith "Name" types.String [(renameTagName, "FullName")]],
    structType "internal" "Person" [field "FullName" types.String],
    structType "v1" "Loose" [field "Extra" types.String],
    structType "internal" "Loose" [],
    aliasType "v1" "LooseAlias" 45,
    structType "other" "T" [field "Next" 49, field "Extra" types.String],
    pointerType "*other.T" 48,
    structType "other2" "U" [field "Next" 51],
    pointerType "*other2.V" 52,
    structType "other2" "V" [],
    sliceType "[]v1.Source" 15,
    sliceType "[]internal.Dest" 16,
    structType "v1" "Mixed" [field "Keep" types.String,
      fieldWith "Hidden" types.String [(tagName, "false")], field "Gone" types.String,
      field "Dropped" 22],
    structType "internal" "Mixed" [field "Keep" types.String, field "Hidden" types.String,
      field "Dropped" 23],
    funcDecl "v1" "Convert_v1_X_To_internal_Y" [(conversionFnTagName, "drop")]]

/-- A generator for package `v1` with peer package `internal`, a given manual
registry and a given equality oracle. -/
def exampleGen (manual : conversionFuncMap) (u : TypesEqual) : genConversion :=
  { typesPackage := "v1", outputPackage := "v1", peerPackages := ["internal"],
    manualConversions := manual, types := [], explicitConversions := [], skippedFields := [],
    useUnsafe := u }

/-- The generator of `exampleGen` over the example universe. -/
def exampleState (manual : conversionFuncMap) (u : TypesEqual) : GenState :=
  { g := exampleGen manual u, heap := exampleUniverse }

/-! ## A universe for the pair selector and the registry -/

/-- A struct descriptor with annotation lines. -/
def structWith (pkg name : String) (comments : types.CommentLines)
    (members : List types.Member) : types.Type_ :=
  { zeroType with Name := ⟨pkg, name, ""⟩, Kind := .Struct, CommentLines := comments,
                  Members := members }

/-- A struct member with a struct tag `json:"..."`. -/
def fieldJson (name : String) (t : TypePtr) (json : String) : types.Member :=
  { Name := name, Embedded := false, CommentLines := [], Tags := [("json", json)], Type_ := t }

/-- The descriptor of a function type. -/
def funcType (signature : types.Signature) : types.Type_ :=
  { zeroType with Kind := .Func, Signature := some signature }

/-- The declaration of a function with its type. -/
def funcDeclOf (pkg name : String) (comments : types.CommentLines) (underlying : TypePtr) :
    types.Type_ :=
  { zeroType with Name := ⟨pkg, name, ""⟩, Kind := .DeclarationOf, CommentLines := comments,
                  Underlying := underlying }

/-- The universe of the pair-selector examples: the builtins in cells 0 to 14,
then
```
15  v1.Pod               struct { Name string }
16  internal.Pod         struct { Name string }
17  v1.Hidden            struct {}     (+k8s:conversion-gen=false,
                                        +k8s:conversion-gen:explicit-from=net/url.Values)
18  internal.Hidden      struct {}
19  v1.Quiet             struct {}     (+k8s:conversion-gen=false)
20  internal.Quiet       struct {}
21  v1.Odd               struct {}     (+k8s:conversion-gen=true)
22  internal.Odd         struct {}
23  v1.ListOptions       struct { Page string (json:"page") }
                                       (+k8s:conversion-gen:explicit-from=net/url.Values)
24  internal.ListOptions struct { Page string }
25  v1.Query             struct { Page string (json:"page") }
                                       (+k8s:conversion-gen:explicit-from=net/url.Values)
26  net/url.Values       = map[string][]string
27  map[string][]string
28  []string
29  v1.Bad               struct {}     (+k8s:conversion-gen:explicit-from=other.Type)
30  v1.Vague             struct {}     (+k8s:conversion-gen:explicit-from=k8s.io/api/core/v1.Pod)
31  *v1.Pod
32  *internal.Pod
33  k8s.io/apimachinery/pkg/conversion.Scope   interface
34  error                                      interface
35  func(*v1.Pod, *internal.Pod, conversion.Scope) error
36  v1.Convert_v1_Pod_To_internal_Pod          (a function of type 35)
37  other.Convert_v1_Pod_To_internal_Pod       (a function of type 35)
38  v1.Convert_Pod                             (a function of type 35)
39  func (*v1.Pod) (*v1.Pod, *internal.Pod, conversion.Scope) error   (with a receiver)
40  recv.Convert_v1_Pod_To_internal_Pod        (a function of type 39)
41  v1.Tagged            struct { Name string }   (Name: +k8s:conversion-gen=bogus)
42  internal.Tagged      struct { Name string }
43  v1.Convert_v1_Tagged_To_internal_Tagged    (+k8s:conversion-fn=bogus)
```
-/
def selectorUniverse : Heap :=
  builtinTypes ++ [
    structType "v1" "Pod" [field "Name" types.String],
    structType "internal" "Pod" [field "Name" types.String],
    structWith "v1" "Hidden" [(tagName, "false"), (explicitFromTagName, "net/url.Values")] [],
    structType "internal" "Hidden" [],
    structWith "v1" "Quiet" [(tagName, "false")] [],
    structType "internal" "Quiet" [],
    structWith "v1" "Odd" [(tagName, "true")] [],
    structType "internal" "Odd" [],
    structWith "v1" "ListOptions" [(explicitFromTagName, "net/url.Values")]
      [fieldJson "Page" types.String "page"],
    structType "internal" "ListOptions" [field "Page" types.String],
    structWith "v1" "Query" [(explicitFromTagName, "net/url.Values")]
      [fieldJson "Page" types.String "page"],
    aliasType "net/url" "Values" 27,
    mapType "map[string][]string" types.String 28,
    sliceType "[]string" types.String,
    structWith "v1" "Bad" [(explicitFromTagName, "other.Type")] [],
    structWith "v1" "Vague" [(explicitFromTagName, "k8s.io/api/core/v1.Pod")] [],
    pointerType "*v1.Pod" 15,
    pointerType "*internal.Pod" 16,
    interfaceType conversionPackagePath "Scope" [],
    interfaceType "" "error" [],
    funcType ⟨none, [31, 32, 33], [34], false⟩,
    funcDeclOf "v1" "Convert_v1_Pod_To_internal_Pod" [] 35,
    funcDeclOf "other" "Convert_v1_Pod_To_internal_Pod" [] 35,
    funcDeclOf "v1" "Convert_Pod" [] 35,
    funcType ⟨some 31, [31, 32, 33], [34], false⟩,
    funcDeclOf "recv" "Convert_v1_Pod_To_internal_Pod" [] 39,
    structType "v1" "Tagged" [fieldWith "Name" types.String [(tagName, "bogus")]],
    structType "internal" "Tagged" [field "Name" types.String],
    funcDeclOf "v1" "Convert_v1_Tagged_To_internal_Tagged" [(conversionFnTagName, "bogus")] 35]

/-- The package `v1` of the examples. -/
def packageV1 : Package :=
  { Path := "v1",
    Types := [("Pod", 15), ("Hidden", 17), ("Quiet", 19), ("Odd", 21), ("ListOptions", 23),
      ("Query", 25), ("Bad", 29), ("Vague", 30), ("Tagged", 41)],
    Functions := [("Convert_v1_Pod_To_internal_Pod", 36), ("Convert_Pod", 38)] }

/-- The package `internal` of the examples. -/
def packageInternal : Package :=
  { Path := "internal",
    Types := [("Pod", 16), ("Hidden", 18), ("Quiet", 20), ("Odd", 22), ("ListOptions", 24),
      ("Tagged", 42)],
    Functions := [] }

/-- The package `other` of the examples: a second author of the conversion
`v1.Pod -> internal.Pod`. -/
def packageOther : Package :=
  { Path := "other", Types := [], Functions := [("Convert_v1_Pod_To_internal_Pod", 37)] }

/-- The package `recv` of the examples: a method with the name of a conversion. -/
def packageRecv : Package :=
  { Path := "recv", Types := [], Functions := [("Convert_v1_Pod_To_internal_Pod", 40)] }

/-- The text after the last `/` of an import path. -/
def lastDir (path : String) : String :=
  ((stringsSplit path '/').getLast?).getD ""

/-- The namer of the examples: `<last directory of the package>_<name>` for a
declared type, as the namer `public` of the generator (one package name in
front, joined by `_`) names it, and the bare name for a type without package. -/
def exampleNamer (h : Heap) (t : TypePtr) : String :=
  if (deref h t).Name.Package = "" then (deref h t).Name.Name
  else lastDir (deref h t).Name.Package ++ "_" ++ (deref h t).Name.Name

/-- The context of the examples. -/
def selectorContext : Context :=
  { Universe := [("v1", packageV1), ("internal", packageInternal),
      ("net/url", { Path := "net/url", Types := [("Values", 26)], Functions := [] }),
      ("other", packageOther), ("recv", packageRecv)],
    publicNamer := exampleNamer }

/-- A generator for package `v1` with peer package `internal` over the
universe of the pair-selector examples, without reinterpretation. -/
def selectorState (manual : conversionFuncMap) : GenState :=
  { g := exampleGen manual .noEquality, heap := selectorUniverse }

/-- The generator of the pair-selector examples after `Filter` has admitted
the types of the list. -/
def selectorStateOf (manual : conversionFuncMap) (admitted : List TypePtr) : GenState :=
  { g := { exampleGen manual .noEquality with types := admitted }, heap := selectorUniverse }

/-- A universe for adapter synthesis: the builtins in cells 0 to 14, then
```
15  net/url.Values   = map[string][]string
16  map[string][]string
17  []string
18  v1.Depth         = int64
19  v1.Sub           struct {}
20  v1.SubAlias      = v1.Sub
21  func()
22  *v1.Sub
23  []int64
24  func Convert_Slice_string_To_Slice_int64
25  v1.Options       struct { ... }   (the members of `optionsMembers`)
```
-/
def valuesUniverse : Heap :=
  builtinTypes ++ [
    aliasType "net/url" "Values" 16,
    mapType "map[string][]string" types.String 17,
    sliceType "[]string" types.String,
    aliasType "v1" "Depth" types.Int64,
    structType "v1" "Sub" [],
    aliasType "v1" "SubAlias" 19,
    funcType ⟨none, [], [], false⟩,
    pointerType "*v1.Sub" 19,
    sliceType "[]int64" types.Int64,
    funcDecl "v1" "Convert_Slice_string_To_Slice_int64" [],
    structWith "v1" "Options" [(explicitFromTagName, "net/url.Values")] [
      fieldJson "Page" types.String "page",
      fieldJson "Count" types.Int "count,omitempty",
      fieldJson "Tags" 17 "tags",
      field "Raw" types.String,
      fieldJson "Dash" types.String ",omitempty",
      { fieldJson "Secret" types.String "secret" with CommentLines := [(tagName, "false")] },
      fieldJson "Depth" 18 "depth",
      fieldJson "Sub" 19 "sub",
      fieldJson "SubAlias" 20 "subAlias",
      fieldJson "Callback" 21 "callback",
      fieldJson "Ptr" 22 "ptr",
      fieldJson "Limits" 23 "limits"]]

/-- The generator of `exampleGen` over the adapter universe. -/
def valuesState (manual : conversionFuncMap) (u : TypesEqual) : GenState :=
  { g := exampleGen manual u, heap := valuesUniverse }

/-- A universe with self-referential structs: the builtins in cells 0 to 14,
then
```
15  v1.Node         struct { Next *v1.Node }
16  *v1.Node
17  internal.Node   struct { Next *internal.Node }
18  *internal.Node
19  func Convert_v1_Node_To_internal_Node
```
-/
def recursiveUniverse : Heap :=
  builtinTypes ++ [
    structType "v1" "Node" [field "Next" 16],
    pointerType "*v1.Node" 15,
    structType "internal" "Node" [field "Next" 18],
    pointerType "*internal.Node" 17,
    funcDecl "v1" "Convert_v1_Node_To_internal_Node" []]

/-- The generator of `exampleGen` over the universe of self-referential
structs. -/
def recursiveState (manual : conversionFuncMap) (u : TypesEqual) : GenState :=
  { g := exampleGen manual u, heap := recursiveUniverse }

/-- A universe of aliases of primitives: the builtins in cells 0 to 14, then
```
15  v1.ID            = string
16  internal.ID      = int
17  v1.Text          = string
18  internal.Label   = string
19  []v1.ID
20  []internal.ID
21  func Convert_v1_ID_To_internal_ID      (+k8s:conversion-fn=copy-only)
```
-/
def aliasUniverse : Heap :=
  builtinTypes ++ [
    aliasType "v1" "ID" types.String,
    aliasType "internal" "ID" types.Int,
    aliasType "v1" "Text" types.String,
    aliasType "internal" "Label" types.String,
    sliceType "[]v1.ID" 15,
    sliceType "[]internal.ID" 16,
    funcDecl "v1" "Convert_v1_ID_To_internal_ID" [(conversionFnTagName, "copy-only")]]

/-- The generator of `exampleGen` over the universe of aliases. -/
def aliasState (manual : conversionFuncMap) (u : TypesEqual) : GenState :=
  { g := exampleGen manual u, heap := aliasUniverse }

end conversiongen

/-! # The validator of `RateLimitDescriptor` (`ratelimit.pb.validate.go`) -/

namespace ratelimit_v3

/-- Modelled from the spec: `utf8.RuneCountInString` of the Go standard
library. A string of the model is a sequence of characters and counts one rune
per character; Go also counts one rune for every byte that is no valid
encoding, so that in Go as here the count is below 1 for the empty string
alone. -/
def utf8.RuneCountInString (s : String) : Nat :=
  s.length

/-- Modelled from the spec: the message `RateLimitDescriptor.Entry`, declared in
`ratelimit.pb.go`, as the validator reads it through `GetKey` and `GetValue`. -/
structure RateLimitDescriptor_Entry where
  Key : String
  Value : String
  deriving DecidableEq, Repr

/-- Modelled from the spec: the message `RateLimitDescriptor.RateLimitOverride`,
declared in `ratelimit.pb.go`, as the validator reads it; `Unit` is a
`v3.RateLimitUnit`, an `int32`. -/
structure RateLimitDescriptor_RateLimitOverride where
  RequestsPerUnit : Nat
  Unit : Int
  deriving DecidableEq, Repr

/-- Modelled from the spec: the message `RateLimitDescriptor`, declared in
`ratelimit.pb.go`, as the validator reads it through `GetEntries` and
`GetLimit`. A pointer to a message is an `Option`, `nil` being `none`. -/
structure RateLimitDescriptor where
  Entries : List (Option RateLimitDescriptor_Entry)
  Limit : Option RateLimitDescriptor_RateLimitOverride
  deriving DecidableEq, Repr

/-- The non-nil values of the interface `error` that the validators return: one
constructor for each of the three error structs, with the fields `field`,
`reason`, `cause` (`none` is a nil cause) and `key`. -/
inductive ValidationError where
  | RateLimitDescriptorValidationError (field reason : String)
      (cause : Option ValidationError) (key : Bool)
  | RateLimitDescriptor_EntryValidationError (field reason : String)
      (cause : Option ValidationError) (key : Bool)
  | RateLimitDescriptor_RateLimitOverrideValidationError (field reason : String)
      (cause : Option ValidationError) (key : Bool)

/-- The method `Field` of the three error structs. -/
def ValidationError.Field : ValidationError → String
  | .RateLimitDescriptorValidationError field _ _ _ => field
  | .RateLimitDescriptor_EntryValidationError field _ _ _ => field
  | .RateLimitDescriptor_RateLimitOverrideValidationError field _ _ _ => field

/-- The method `Cause` of the three error structs. -/
def ValidationError.Cause : ValidationError → Option ValidationError
  | .RateLimitDescriptorValidationError _ _ cause _ => cause
  | .RateLimitDescriptor_EntryValidationError _ _ cause _ => cause
  | .RateLimitDescriptor_RateLimitOverrideValidationError _ _ cause _ => cause

/-- The method `(*RateLimitDescriptor_Entry).Validate`; the result `nil` is
`none`. -/
def RateLimitDescriptor_Entry.Validate (m : Option RateLimitDescriptor_Entry) :
    Option ValidationError :=
  match m with
  | none => none
  | some m =>
    if utf8.RuneCountInString m.Key < 1 then
      some (.RateLimitDescriptor_EntryValidationError "Key"
        "value length must be at least 1 runes" none false)
    else if utf8.RuneCountInString m.Value < 1 then
      some (.RateLimitDescriptor_EntryValidationError "Value"
        "value length must be at least 1 runes" none false)
    else none

/-- The method `(*RateLimitDescriptor_RateLimitOverride).Validate`. The map
`v3.RateLimitUnit_name` of the package `envoy/type/v3` is an argument. -/
def RateLimitDescriptor_RateLimitOverride.Validate (RateLimitUnit_name : List (Int × String))
    (m : Option RateLimitDescriptor_RateLimitOverride) : Option ValidationError :=
  match m with
  | none => none
  | some m =>
    -- no validation rules for RequestsPerUnit
    match conversiongen.mapGet RateLimitUnit_name m.Unit with
    | none =>
      some (.RateLimitDescriptor_RateLimitOverrideValidationError "Unit"
        "value must be one of the defined enum values" none false)
    | some _ => none

/-- The loop `for idx, item := range m.GetEntries()` of
`(*RateLimitDescriptor).Validate`, from index `idx` on; `none` when the loop
runs to its end. -/
def validateEntries : List (Option RateLimitDescriptor_Entry) → Nat → Option ValidationError
  | [], _ => none
  | item :: rest, idx =>
    match RateLimitDescriptor_Entry.Validate item with
    | some err =>
      some (.RateLimitDescriptorValidationError ("Entries[" ++ toString idx ++ "]")
        "embedded message failed validation" (some err) false)
    | none => validateEntries rest (idx + 1)

/-- The method `(*RateLimitDescriptor).Validate`. -/
def RateLimitDescriptor.Validate (RateLimitUnit_name : List (Int × String))
    (m : Option RateLimitDescriptor) : Option ValidationError :=
  match m with
  | none => none
  | some m =>
    if m.Entries.length < 1 then
      some (.RateLimitDescriptorValidationError "Entries"
        "value must contain at least 1 item(s)" none false)
    else
      match validateEntries m.Entries 0 with
      | some err => some err
      | none =>
        match RateLimitDescriptor_RateLimitOverride.Validate RateLimitUnit_name m.Limit with
        | some err =>
          some (.RateLimitDescriptorValidationError "Limit"
            "embedded message failed validation" (some err) false)
        | none => none

/-- Follows the words of the specification: a non-nil entry with a key or a
value of fewer than 1 rune. -/
def entryViolates (item : Option RateLimitDescriptor_Entry) : Bool :=
  match item with
  | none => false
  | some e => decide (e.Key.length < 1) || decide (e.Value.length < 1)

/-- Follows the words of the specification: the error of an entry that violates
a rule names `Key` before `Value`. -/
def entryError (item : Option RateLimitDescriptor_Entry) : Option ValidationError :=
  match item with
  | none => none
  | some e =>
    if e.Key.length < 1 then
      some (.RateLimitDescriptor_EntryValidationError "Key"
        "value length must be at least 1 runes" none false)
    else
      some (.RateLimitDescriptor_EntryValidationError "Value"
        "value length must be at least 1 runes" none false)

/-- The limit fails validation: it is not nil and its unit is not a key of the
map of enum names. -/
def limitViolates (RateLimitUnit_name : List (Int × String))
    (limit : Option RateLimitDescriptor_RateLimitOverride) : Bool :=
  match limit with
  | none => false
  | some l => (conversiongen.mapGet RateLimitUnit_name l.Unit).isNone

/-- An example of the map `v3.RateLimitUnit_name`. -/
def exampleUnitNames : List (Int × String) :=
  [(0, "UNKNOWN"), (1, "SECOND"), (2, "MINUTE"), (3, "HOUR"), (4, "DAY")]

end ratelimit_v3

namespace conversiongen

/-! ## Lemmas -/

theorem deref_append_of_lt (h : Heap) (t : types.Type_) (p : TypePtr) (hp : p < h.length) :
    deref (h ++ [t]) p = deref h p := by
  unfold deref
  rw [List.getD_append _ _ _ _ hp]

theorem resolveAlias_deref (h h1 : Heap) (t r p : TypePtr)
    (hr : resolveAlias h t = .ok (r, h1)) (hp : p < h.length) :
    deref h1 p = deref h p := by
  unfold resolveAlias at hr
  split at hr
  · cases hr
  · split at hr
    · simp only [alloc, Except.ok.injEq, Prod.mk.injEq] at hr
      rw [← hr.2]
      exact deref_append_of_lt h _ p hp
    · simp only [Except.ok.injEq, Prod.mk.injEq] at hr
      rw [← hr.2]

theorem resolveAlias_length (h h1 : Heap) (t r : TypePtr)
    (hr : resolveAlias h t = .ok (r, h1)) : h.length ≤ h1.length := by
  unfold resolveAlias at hr
  split at hr
  · cases hr
  · split at hr
    · simp only [alloc, Except.ok.injEq, Prod.mk.injEq] at hr
      rw [← hr.2]
      simp
    · simp only [Except.ok.injEq, Prod.mk.injEq] at hr
      rw [← hr.2]

theorem cachingEqual_self (h : Heap) (fuel : Nat) (a : TypePtr) (st : EqState) :
    cachingEqual h (fuel + 1) a a st = .ok (true, st) := by
  simp [cachingEqual]

theorem unwrapAlias_of_not_alias (h : Heap) (p : TypePtr) (hk : (deref h p).Kind ≠ .Alias) :
    unwrapAlias h p = .ok p := by
  simp [unwrapAlias, unwrapAliasLoop, hk]

theorem equalMembers_same_types (ce : TypePtr → TypePtr → EqState → Run (Bool × EqState))
    (hce : ∀ a st, ce a a st = .ok (true, st)) :
    ∀ (ms ns : List types.Member) (st : EqState),
      ms.map (fun m => m.Type_) = ns.map (fun m => m.Type_) →
      equalMembers ce ms ns st = .ok (true, st) := by
  intro ms
  induction ms with
  | nil => intro ns st _; cases ns <;> simp [equalMembers]
  | cons m ms ih =>
    intro ns st hmap
    cases ns with
    | nil => simp at hmap
    | cons n ns =>
      simp only [List.map_cons, List.cons.injEq] at hmap
      simp only [equalMembers]
      rw [hmap.1, hce]
      exact ih ns st hmap.2

theorem heap_length_pos_of_kind (h : Heap) (p : TypePtr) (hk : (deref h p).Kind = .Struct) :
    0 < h.length := by
  rcases h with _ | ⟨t, h⟩
  · simp [deref, zeroType] at hk
  · simp

/-! ## Strategy (1): an existing function -/

/-- C1: with the shortcut enabled, a manual conversion function registered for
the ordered pair and not flagged copy-only is all that `generateFor` emits: the
call of that function, the propagation of its error and the closing brace.
Nothing is assumed about the two types beyond that their alias chains end, so
this holds whether or not they are identical, directly convertible or
memory-equivalent. -/
theorem generateFor_calls_manual_function (cf fuel : Nat) (inType outType function : TypePtr)
    (s : GenState) (inR outR : TypePtr) (h1 h2 : Heap)
    (hin : resolveAlias s.heap inType = .ok (inR, h1))
    (hout : resolveAlias h1 outType = .ok (outR, h2))
    (hfn : function < s.heap.length)
    (hreg : s.g.preexists inType outType = some function)
    (hcopy : isCopyOnly (deref s.heap function).CommentLines = false) :
    genConversion.generateFor cf (fuel + 1) inType outType true s
      = .ok ([Snippet.callFunction function, Snippet.returnErr, Snippet.close],
          { s with heap := h2 }) := by
  have hd : deref h2 function = deref s.heap function := by
    rw [resolveAlias_deref h1 h2 outType outR function hout
      (lt_of_lt_of_le hfn (resolveAlias_length _ _ _ _ hin))]
    exact resolveAlias_deref _ _ _ _ _ hin hfn
  unfold genConversion.generateFor generateForBody
  rw [hin]
  simp only
  rw [hout]
  simp [existingFunction, hreg, hd, hcopy]

/-- Witness of C1: `v1.Source -> internal.Dest` with the manual function of
cell 17 registered, without any fuel for the convertibility checks. -/
theorem generateFor_calls_manual_function_witness :
    genConversion.generateFor 0 1 15 16 true (exampleState [(⟨15, 16⟩, 17)] .noEquality)
      = .ok ([Snippet.callFunction 17, Snippet.returnErr, Snippet.close],
          exampleState [(⟨15, 16⟩, 17)] .noEquality) :=
  generateFor_calls_manual_function 0 0 15 16 17 (exampleState [(⟨15, 16⟩, 17)] .noEquality)
    15 16 exampleUniverse exampleUniverse (by decide) (by decide) (by decide) (by decide)
    (by decide)

/-! ## Memory equivalence -/

/-- C10: for `a != b`, an entry of the cache for `(a, b)`, or failing that for
`(b, a)`, is what `Equal(a, b)` returns. The cache comes back as it was, and so
does the visited set of `cachingEqual`, for every heap and already with the
fuel of a single call: the types are not compared. -/
theorem Equal_cached (e : equalMemoryTypes) (h : Heap) (a b : TypePtr) (v : Bool) (hab : a ≠ b)
    (hhit : mapGet e ⟨a, b⟩ = some v ∨ (mapGet e ⟨a, b⟩ = none ∧ mapGet e ⟨b, a⟩ = some v)) :
    e.Equal h a b = .ok (v, e)
      ∧ ∀ (fuel : Nat) (visited : List TypePtr),
          cachingEqual h (fuel + 1) a b ⟨e, visited⟩ = .ok (v, ⟨e, visited⟩) := by
  have key : ∀ (fuel : Nat) (visited : List TypePtr),
      cachingEqual h (fuel + 1) a b ⟨e, visited⟩ = .ok (v, ⟨e, visited⟩) := by
    intro fuel visited
    rcases hhit with h1 | ⟨h1, h2⟩
    · simp [cachingEqual, hab, h1]
    · simp [cachingEqual, hab, h1, h2]
  refine ⟨?_, key⟩
  unfold equalMemoryTypes.Equal
  rw [key]

/-- Witness of C10: the cache holds `false` for `(internal.Dest, v1.Source)`
only; `Equal(v1.Source, internal.Dest)` answers `false` from it. -/
theorem Equal_cached_witness :
    equalMemoryTypes.Equal [(⟨16, 15⟩, false)] exampleUniverse 15 16
      = .ok (false, [(⟨16, 15⟩, false)]) :=
  (Equal_cached [(⟨16, 15⟩, false)] exampleUniverse 15 16 false (by decide)
    (Or.inr ⟨by decide, by decide⟩)).1

/-- C4: two struct types with the same number of members and the identical
type at every position are memory-equivalent: `Equal`, started from an empty
cache, returns `true`. -/
theorem Equal_structs_with_same_member_types (h : Heap) (a b : TypePtr)
    (ha : (deref h a).Kind = .Struct) (hb : (deref h b).Kind = .Struct)
    (hm : (deref h a).Members.map (fun m => m.Type_) = (deref h b).Members.map (fun m => m.Type_)) :
    (equalMemoryTypes.Equal [] h a b).map (fun r => r.1) = .ok true := by
  obtain ⟨n, hn⟩ : ∃ n, h.length = n + 1 :=
    ⟨h.length - 1, by have := heap_length_pos_of_kind h a ha; omega⟩
  have hlen : (deref h a).Members.length = (deref h b).Members.length := by
    have := congrArg List.length hm
    simpa using this
  unfold equalMemoryTypes.Equal
  by_cases hab : a = b
  · subst hab
    rw [cachingEqual_self]
    rfl
  · have hua := unwrapAlias_of_not_alias h a (by rw [ha]; decide)
    have hub := unwrapAlias_of_not_alias h b (by rw [hb]; decide)
    have hmem := equalMembers_same_types (cachingEqual h h.length)
      (by intro x st; rw [hn]; exact cachingEqual_self h n x st)
      (deref h a).Members (deref h b).Members ⟨[], [a]⟩ hm
    simp [cachingEqual, hab, mapGet, equal, hua, hub, ha, hb, hlen, hmem, Except.map]

/-- Witness of C4: `Source{Name string; Count int}` against
`Dest{Name string; Count int}`. -/
theorem Equal_structs_with_same_member_types_witness :
    (equalMemoryTypes.Equal [] exampleUniverse 15 16).map (fun r => r.1) = .ok true :=
  Equal_structs_with_same_member_types exampleUniverse 15 16 (by decide) (by decide) (by decide)


/-! ## Strategies (1) to (4) -/

theorem castStrategy_eq (inType outType inR outR : TypePtr) (s : GenState) (eq : Bool)
    (u : TypesEqual) (hEq : s.g.useUnsafe.Equal s.heap inR outR = .ok (eq, u)) :
    castStrategy inType outType inR outR s
      = .ok (if eq = true ∧ (deref s.heap inR).Kind = .Pointer then
              some [Snippet.castPointer inType outType]
            else if eq = true ∧ ((deref s.heap inR).Kind = .Map ∨ (deref s.heap inR).Kind = .Slice)
              then some [Snippet.castHeader inType outType]
            else none, s.withUnsafe u) := by
  unfold castStrategy
  rw [hEq]
  cases eq
  · simp
  · cases hk : (deref s.heap inR).Kind <;> simp

/-- C2, as amended: when a copy-only manual function is registered for a pair
that is directly convertible, `generateFor` with the shortcut enabled emits no
call of that function. What it emits is decided by the strategies that follow:
the reinterpretation when the oracle reports the resolved types equal and the
resolved input kind is pointer, map or slice (`castOr`), otherwise the value
copy `*out = *in` when the two types are the identical type, otherwise the
direct conversion `*out = OutType(*in)`. The heap `h2` is the heap after alias
resolution, in which the code runs its convertibility check. -/
theorem generateFor_copy_only_directly_convertible (cf fuel : Nat)
    (inType outType function : TypePtr) (s : GenState) (inR outR : TypePtr) (h1 h2 : Heap)
    (eq : Bool) (u : TypesEqual)
    (hin : resolveAlias s.heap inType = .ok (inR, h1))
    (hout : resolveAlias h1 outType = .ok (outR, h2))
    (hfn : function < s.heap.length)
    (hreg : s.g.preexists inType outType = some function)
    (hcopy : isCopyOnly (deref s.heap function).CommentLines = true)
    (hconv : isDirectlyConvertible h2 cf inType outType = .ok true)
    (hEq : s.g.useUnsafe.Equal h2 inR outR = .ok (eq, u)) :
    genConversion.generateFor cf (fuel + 1) inType outType true s
      = .ok (castOr h2 eq inType outType inR
              (if inType = outType then [Snippet.assign] else [Snippet.convert outType]),
          GenState.withUnsafe { s with heap := h2 } u) := by
  have hd : deref h2 function = deref s.heap function := by
    rw [resolveAlias_deref h1 h2 outType outR function hout
      (lt_of_lt_of_le hfn (resolveAlias_length _ _ _ _ hin))]
    exact resolveAlias_deref _ _ _ _ _ hin hfn
  unfold genConversion.generateFor generateForBody
  rw [hin]
  simp only
  rw [hout]
  simp only [existingFunction, hreg, hd, hcopy, hconv, if_true]
  rw [castStrategy_eq inType outType inR outR { s with heap := h2 } eq u hEq]
  unfold castOr
  by_cases c1 : eq = true ∧ (deref h2 inR).Kind = .Pointer
  · simp [c1]
  · by_cases c2 : eq = true ∧ ((deref h2 inR).Kind = .Map ∨ (deref h2 inR).Kind = .Slice)
    · obtain ⟨he, hk | hk⟩ := c2 <;> simp [he, hk]
    · simp only [c1, c2, if_false]
      unfold laterStrategies
      by_cases c3 : inType = outType
      · simp [isDirectlyAssignable, c3]
      · have c3' : ¬ outType = inType := fun e => c3 e.symm
        simp [isDirectlyAssignable, c3, c3', GenState.withUnsafe, hconv]

/-- Witness of the amended C2: `v1.Source -> internal.Dest` with a copy-only
function registered and reinterpretation switched off gives `*out = Dest(*in)`. -/
theorem generateFor_copy_only_directly_convertible_witness :
    genConversion.generateFor 2 1 15 16 true (exampleState [(⟨15, 16⟩, 18)] .noEquality)
      = .ok ([Snippet.convert 16], exampleState [(⟨15, 16⟩, 18)] .noEquality) :=
  generateFor_copy_only_directly_convertible 2 0 15 16 18
    (exampleState [(⟨15, 16⟩, 18)] .noEquality) 15 16 exampleUniverse exampleUniverse false
    .noEquality (by decide) (by decide) (by decide) (by decide) (by decide) (by decide)
    (by decide)

/-- Counterexample to C2 as stated: a copy-only function registered for the
directly convertible pair `v1.Names -> internal.Names` (both `[]string`) with
reinterpretation permitted gives the header reinterpretation, and one
registered for `v1.Source -> v1.Source` gives the value copy `*out = *in`;
neither is the direct conversion. -/
theorem generateFor_copy_only_directly_convertible_counterexample :
    (exampleGen [(⟨20, 21⟩, 18)] (.equalMemoryTypes [])).preexists 20 21 = some 18
      ∧ isCopyOnly (deref exampleUniverse 18).CommentLines = true
      ∧ isDirectlyConvertible exampleUniverse 2 20 21 = .ok true
      ∧ (genConversion.generateFor 2 1 20 21 true
          (exampleState [(⟨20, 21⟩, 18)] (.equalMemoryTypes []))).map (fun r => r.1)
        = .ok [Snippet.castHeader 20 21]
      ∧ (exampleGen [(⟨15, 15⟩, 31)] .noEquality).preexists 15 15 = some 31
      ∧ isCopyOnly (deref exampleUniverse 31).CommentLines = true
      ∧ isDirectlyConvertible exampleUniverse 2 15 15 = .ok true
      ∧ (genConversion.generateFor 2 1 15 15 true
          (exampleState [(⟨15, 15⟩, 31)] .noEquality)).map (fun r => r.1)
        = .ok [Snippet.assign] := by
  decide

/-- C3, as amended: synthesizing `A -> A` never calls `generateFor` again (the
body gives the same result whatever stands for the recursive call), for every
value of the shortcut flag and of the oracle. When strategy (1) emits no call,
what is emitted is the reinterpretation if the oracle reports the resolved
copies equal and the resolved kind is pointer, map or slice (`castOr`), and the
value copy `*out = *in` otherwise. -/
theorem generateFor_same_type (cf : Nat) (a : TypePtr) (functionOK : Bool) (s : GenState) :
    (∀ gf gf1 : Synth,
        generateForBody cf gf a a functionOK s = generateForBody cf gf1 a a functionOK s)
      ∧ ∀ (fuel : Nat) (s1 : GenState) (inR outR : TypePtr) (h1 h2 : Heap) (eq : Bool)
          (u : TypesEqual),
          resolveAlias s.heap a = .ok (inR, h1) →
          resolveAlias h1 a = .ok (outR, h2) →
          existingFunction cf a a inR outR functionOK { s with heap := h2 } = .ok (none, s1) →
          s1.g.useUnsafe.Equal s1.heap inR outR = .ok (eq, u) →
          genConversion.generateFor cf (fuel + 1) a a functionOK s
            = .ok (castOr s1.heap eq a a inR [Snippet.assign], s1.withUnsafe u) := by
  have later : ∀ (gf : Synth) (iR oR : TypePtr) (s2 : GenState),
      laterStrategies cf gf a a iR oR s2 = .ok ([Snippet.assign], s2) := by
    intro gf iR oR s2
    simp [laterStrategies, isDirectlyAssignable]
  constructor
  · intro gf gf1
    unfold generateForBody
    simp only [later]
  · intro fuel s1 inR outR h1 h2 eq u hin hout hfirst hEq
    unfold genConversion.generateFor generateForBody
    rw [hin]
    simp only
    rw [hout]
    simp only
    rw [hfirst]
    simp only
    rw [castStrategy_eq a a inR outR s1 eq u hEq]
    unfold castOr
    by_cases c1 : eq = true ∧ (deref s1.heap inR).Kind = .Pointer
    · simp [c1]
    · by_cases c2 : eq = true ∧ ((deref s1.heap inR).Kind = .Map ∨ (deref s1.heap inR).Kind = .Slice)
      · obtain ⟨he, hk | hk⟩ := c2 <;> simp [he, hk]
      · simp only [c1, c2, if_false]
        exact later _ _ _ _

/-- Witness of the amended C3: `v1.Source -> v1.Source` at the top level with
reinterpretation switched off gives `*out = *in`. -/
theorem generateFor_same_type_witness :
    genConversion.generateFor 0 1 15 15 false (exampleState [] .noEquality)
      = .ok ([Snippet.assign], exampleState [] .noEquality) :=
  (generateFor_same_type 0 15 false (exampleState [] .noEquality)).2 0
    (exampleState [] .noEquality) 15 15 exampleUniverse exampleUniverse false .noEquality
    (by decide) (by decide) (by decide) (by decide)

/-- Counterexample to C3 as stated: `[]string -> []string` at the top level
with reinterpretation permitted gives the header reinterpretation, and
`v1.Source -> v1.Source` with the shortcut enabled gives the call of
`Convert_v1_Source_To_v1_Source`; neither is the value copy. -/
theorem generateFor_same_type_counterexample :
    (genConversion.generateFor 2 1 19 19 false
        (exampleState [] (.equalMemoryTypes []))).map (fun r => r.1)
      = .ok [Snippet.castHeader 19 19]
      ∧ (genConversion.generateFor 2 1 15 15 true
          (exampleState [] .noEquality)).map (fun r => r.1)
        = .ok [Snippet.callNamed 15 15, Snippet.returnErr, Snippet.close] := by
  decide

/-! ## Strategy (2): unsafe casting -/

/-- C6: when strategy (1) emits no call and the oracle reports the
alias-resolved types equal, `generateFor` emits exactly one pointer
reinterpretation if the resolved input kind is Pointer, and exactly one header
reinterpretation if it is Map or Slice. The body gives this result whatever
stands for the recursive call, so key and element types are not visited. -/
theorem generateFor_casts (cf fuel : Nat) (inType outType : TypePtr) (functionOK : Bool)
    (s s1 : GenState) (inR outR : TypePtr) (h1 h2 : Heap) (u : TypesEqual)
    (hin : resolveAlias s.heap inType = .ok (inR, h1))
    (hout : resolveAlias h1 outType = .ok (outR, h2))
    (hfirst : existingFunction cf inType outType inR outR functionOK { s with heap := h2 }
      = .ok (none, s1))
    (hEq : s1.g.useUnsafe.Equal s1.heap inR outR = .ok (true, u)) :
    ((deref s1.heap inR).Kind = .Pointer →
        (∀ gf : Synth, generateForBody cf gf inType outType functionOK s
            = .ok ([Snippet.castPointer inType outType], s1.withUnsafe u))
          ∧ genConversion.generateFor cf (fuel + 1) inType outType functionOK s
            = .ok ([Snippet.castPointer inType outType], s1.withUnsafe u))
      ∧ ((deref s1.heap inR).Kind = .Map ∨ (deref s1.heap inR).Kind = .Slice →
        (∀ gf : Synth, generateForBody cf gf inType outType functionOK s
            = .ok ([Snippet.castHeader inType outType], s1.withUnsafe u))
          ∧ genConversion.generateFor cf (fuel + 1) inType outType functionOK s
            = .ok ([Snippet.castHeader inType outType], s1.withUnsafe u)) := by
  have key : ∀ gf : Synth, generateForBody cf gf inType outType functionOK s
      = match castStrategy inType outType inR outR s1 with
        | .error x => .error x
        | .ok (some code, s2) => .ok (code, s2)
        | .ok (none, s2) => laterStrategies cf gf inType outType inR outR s2 := by
    intro gf
    unfold generateForBody
    rw [hin]
    simp only
    rw [hout]
    simp only
    rw [hfirst]
  constructor
  · intro hk
    have : ∀ gf : Synth, generateForBody cf gf inType outType functionOK s
            = .ok ([Snippet.castPointer inType outType], s1.withUnsafe u) := by
      intro gf
      rw [key gf, castStrategy_eq inType outType inR outR s1 true u hEq]
      simp [hk]
    exact ⟨this, this _⟩
  · intro hk
    have : ∀ gf : Synth, generateForBody cf gf inType outType functionOK s
            = .ok ([Snippet.castHeader inType outType], s1.withUnsafe u) := by
      intro gf
      rw [key gf, castStrategy_eq inType outType inR outR s1 true u hEq]
      rcases hk with hk | hk <;> simp [hk]
    exact ⟨this, this _⟩

/-- Witness of C6: `*v1.Source -> *internal.Dest` at the top level with an empty
cache. -/
theorem generateFor_casts_witness :
    genConversion.generateFor 0 1 27 28 false (exampleState [] (.equalMemoryTypes []))
      = .ok ([Snippet.castPointer 27 28],
          (exampleState [] (.equalMemoryTypes [])).withUnsafe
            (.equalMemoryTypes [(⟨28, 27⟩, true), (⟨27, 28⟩, true), (⟨16, 15⟩, true),
              (⟨15, 16⟩, true)])) :=
  ((generateFor_casts 0 0 27 28 false (exampleState [] (.equalMemoryTypes []))
    (exampleState [] (.equalMemoryTypes [])) 27 28 exampleUniverse exampleUniverse
    (.equalMemoryTypes [(⟨28, 27⟩, true), (⟨27, 28⟩, true), (⟨16, 15⟩, true), (⟨15, 16⟩, true)])
    (by decide) (by decide) (by decide) (by decide)).1 (by decide)).2

/-! ## Strategy (6): the failure marker -/

theorem doCompileError_isMarker (g : genConversion) (h : Heap) (inType outType : TypePtr) :
    ∀ sn ∈ g.doCompileErrorOnMissingConversion h inType outType, sn.isMarker = true := by
  intro sn hsn
  unfold genConversion.doCompileErrorOnMissingConversion at hsn
  simp only [List.mem_append, List.mem_singleton] at hsn
  rcases hsn with (hsn | hsn) | hsn
  · subst hsn; rfl
  · split at hsn
    · simp only [List.mem_singleton] at hsn
      subst hsn; rfl
    · simp only [List.mem_cons, List.mem_map] at hsn
      rcases hsn with hsn | ⟨p, _, hsn⟩
      · subst hsn; rfl
      · subst hsn; rfl
  · subst hsn; rfl

/-- C8: when strategy (1) emits no call, strategy (2) does not reinterpret, the
types are not the identical type and not directly convertible, and the
resolved kinds differ or the shared kind is none of map, slice, struct and
pointer, `generateFor` emits exactly the failure marker: the note naming the
two types, the hint list (one line per registered manual conversion, the
registry in sorted order, or the line saying there is none), and the
non-compiling call. Every emitted snippet belongs to the marker, so nothing is
assigned to `out`. -/
theorem generateFor_fails_with_marker (cf fuel : Nat) (inType outType : TypePtr)
    (functionOK : Bool) (s s1 s2 : GenState) (inR outR : TypePtr) (h1 h2 : Heap)
    (hin : resolveAlias s.heap inType = .ok (inR, h1))
    (hout : resolveAlias h1 outType = .ok (outR, h2))
    (hfirst : existingFunction cf inType outType inR outR functionOK { s with heap := h2 }
      = .ok (none, s1))
    (hcast : castStrategy inType outType inR outR s1 = .ok (none, s2))
    (hne : inType ≠ outType)
    (hconv : isDirectlyConvertible s2.heap cf inType outType = .ok false)
    (hkind : (deref s2.heap inR).Kind ≠ (deref s2.heap outR).Kind
      ∨ ((deref s2.heap inR).Kind ≠ .Map ∧ (deref s2.heap inR).Kind ≠ .Slice
          ∧ (deref s2.heap inR).Kind ≠ .Struct ∧ (deref s2.heap inR).Kind ≠ .Pointer)) :
    ∃ pairs : List conversionPair,
      pairs.Perm (s2.g.manualConversions.map (fun kv => kv.1))
      ∧ genConversion.generateFor cf (fuel + 1) inType outType functionOK s
        = .ok ([Snippet.fixmeProvide inType outType]
            ++ (if s2.g.manualConversions.length = 0 then [Snippet.noneProvided]
                else Snippet.providedAre :: pairs.map (fun pair =>
                  Snippet.provided ((mapGet s2.g.manualConversions pair).getD nilPtr)
                    pair.inType pair.outType))
            ++ [Snippet.compileError], s2)
      ∧ ∀ code s3, genConversion.generateFor cf (fuel + 1) inType outType functionOK s
          = .ok (code, s3) → ∀ sn ∈ code, sn.isMarker = true := by
  have key : genConversion.generateFor cf (fuel + 1) inType outType functionOK s
      = .ok (s2.g.doCompileErrorOnMissingConversion s2.heap inType outType, s2) := by
    unfold genConversion.generateFor generateForBody
    rw [hin]
    simp only
    rw [hout]
    simp only
    rw [hfirst]
    simp only
    rw [hcast]
    simp only
    have hne' : ¬ outType = inType := fun e => hne e.symm
    unfold laterStrategies
    simp only [isDirectlyAssignable, hne', decide_False, Bool.false_eq_true, if_false, hconv]
    rcases hkind with hk | ⟨k1, k2, k3, k4⟩
    · simp [hk]
    · split
      · split <;> simp_all
      · rfl
  refine ⟨sortSlice (s2.g.manualConversions.map (fun kv => kv.1)) (lessByString s2.heap s2.g),
    ?_, ?_, ?_⟩
  · unfold sortSlice
    exact List.perm_insertionSort _ _
  · rw [key]
    rfl
  · intro code s3 hcode sn hsn
    rw [key] at hcode
    simp only [Except.ok.injEq, Prod.mk.injEq] at hcode
    rw [← hcode.1] at hsn
    exact doCompileError_isMarker _ _ _ _ sn hsn

/-- Witness of C8: `v1.Source -> string` at the top level, with one manual
function in the registry. -/
theorem generateFor_fails_with_marker_witness :
    ∃ pairs : List conversionPair,
      pairs.Perm [⟨15, 16⟩]
      ∧ genConversion.generateFor 2 1 15 0 false (exampleState [(⟨15, 16⟩, 17)] .noEquality)
        = .ok ([Snippet.fixmeProvide 15 0]
            ++ (Snippet.providedAre :: pairs.map (fun pair =>
                  Snippet.provided ((mapGet [(⟨15, 16⟩, 17)] pair).getD nilPtr)
                    pair.inType pair.outType))
            ++ [Snippet.compileError], exampleState [(⟨15, 16⟩, 17)] .noEquality)
      ∧ ∀ code s3, genConversion.generateFor 2 1 15 0 false
            (exampleState [(⟨15, 16⟩, 17)] .noEquality) = .ok (code, s3) →
          ∀ sn ∈ code, sn.isMarker = true :=
  generateFor_fails_with_marker 2 0 15 0 false (exampleState [(⟨15, 16⟩, 17)] .noEquality)
    (exampleState [(⟨15, 16⟩, 17)] .noEquality) (exampleState [(⟨15, 16⟩, 17)] .noEquality)
    15 0 exampleUniverse exampleUniverse (by decide) (by decide) (by decide) (by decide)
    (by decide) (by decide) (by decide)

/-! ## Structs that differ only in name -/

theorem sameMembers_cons (a b : types.Member) (as bs : List types.Member)
    (h : sameMembers (a :: as) (b :: bs) = true) :
    a.Name = b.Name ∧ a.Embedded = b.Embedded ∧ a.Type_ = b.Type_ ∧ sameMembers as bs = true := by
  simpa [sameMembers, and_assoc] using h

theorem sameMembers_types : ∀ (ms ns : List types.Member), sameMembers ms ns = true →
    ms.map (fun m => m.Type_) = ns.map (fun m => m.Type_) := by
  intro ms
  induction ms with
  | nil => intro ns h; cases ns <;> simp_all [sameMembers]
  | cons m ms ih =>
    intro ns h
    cases ns with
    | nil => simp [sameMembers] at h
    | cons n ns =>
      have h1 := sameMembers_cons m n ms ns h
      simp [h1.2.2.1, ih ns h1.2.2.2]

theorem Equal_structs_returns (e : equalMemoryTypes) (h : Heap) (a b : TypePtr)
    (ha : (deref h a).Kind = .Struct) (hb : (deref h b).Kind = .Struct)
    (hm : (deref h a).Members.map (fun m => m.Type_) = (deref h b).Members.map (fun m => m.Type_)) :
    ∃ r e1, e.Equal h a b = .ok (r, e1) := by
  obtain ⟨n, hn⟩ : ∃ n, h.length = n + 1 :=
    ⟨h.length - 1, by have := heap_length_pos_of_kind h a ha; omega⟩
  have hlen : (deref h a).Members.length = (deref h b).Members.length := by
    have := congrArg List.length hm
    simpa using this
  unfold equalMemoryTypes.Equal
  by_cases hab : a = b
  · subst hab
    rw [cachingEqual_self]
    exact ⟨_, _, rfl⟩
  · cases c1 : mapGet e ⟨a, b⟩ with
    | some v => exact ⟨v, e, by simp [cachingEqual, hab, c1]⟩
    | none =>
      cases c2 : mapGet e ⟨b, a⟩ with
      | some v => exact ⟨v, e, by simp [cachingEqual, hab, c1, c2]⟩
      | none =>
        have hua := unwrapAlias_of_not_alias h a (by rw [ha]; decide)
        have hub := unwrapAlias_of_not_alias h b (by rw [hb]; decide)
        have hmem := equalMembers_same_types (cachingEqual h h.length)
          (by intro x st; rw [hn]; exact cachingEqual_self h n x st)
          (deref h a).Members (deref h b).Members ⟨e, [a]⟩ hm
        exact ⟨true, mapSet (mapSet e ⟨a, b⟩ true) ⟨b, a⟩ true, by
          simp [cachingEqual, hab, c1, c2, equal, hua, hub, ha, hb, hlen, hmem]⟩

theorem haveIdenticalType_self (h : Heap) (n : Nat) (t u : TypePtr)
    (hu : unwrapAlias h t = .ok u) :
    haveIdenticalType (haveIdenticalUnderlyingType h (n + 1)) h t t false = .ok true := by
  simp [haveIdenticalType, haveIdenticalUnderlyingType, hu]

theorem identicalMembers_same (h : Heap) (n : Nat) : ∀ (ms ns : List types.Member),
    sameMembers ms ns = true → (∀ m ∈ ms, (unwrapAlias h m.Type_).isOk = true) →
    identicalMembers (haveIdenticalUnderlyingType h (n + 1)) h false ms ns = .ok true := by
  intro ms
  induction ms with
  | nil => intro ns hs _; cases ns <;> simp_all [sameMembers, identicalMembers]
  | cons m ms ih =>
    intro ns hs hres
    cases ns with
    | nil => simp [sameMembers] at hs
    | cons k ns =>
      have hs1 := sameMembers_cons m k ms ns hs
      obtain ⟨u, hu⟩ : ∃ u, unwrapAlias h m.Type_ = .ok u := by
        have := hres m (List.mem_cons_self _ _)
        cases hx : unwrapAlias h m.Type_ with
        | error x => rw [hx] at this; simp [Except.isOk, Except.toBool] at this
        | ok u => exact ⟨u, rfl⟩
      have ht := haveIdenticalType_self h n m.Type_ u hu
      have hrest := ih ns hs1.2.2.2 (fun x hx => hres x (List.mem_cons_of_mem _ hx))
      simp only [identicalMembers]
      rw [← hs1.2.2.1, ht]
      simp [hs1.1, hs1.2.1, hrest]

theorem isDirectlyConvertible_structs (h : Heap) (n : Nat) (a b : TypePtr)
    (ha : (deref h a).Kind = .Struct) (hb : (deref h b).Kind = .Struct)
    (hm : sameMembers (deref h a).Members (deref h b).Members = true)
    (hres : ∀ m ∈ (deref h a).Members, (unwrapAlias h m.Type_).isOk = true) :
    isDirectlyConvertible h (n + 2) a b = .ok true := by
  have hua := unwrapAlias_of_not_alias h a (by rw [ha]; decide)
  have hub := unwrapAlias_of_not_alias h b (by rw [hb]; decide)
  have hlen : (deref h a).Members.length = (deref h b).Members.length := by
    have := congrArg List.length (sameMembers_types _ _ hm)
    simpa using this
  have hmem := identicalMembers_same h n _ _ hm hres
  unfold isDirectlyConvertible haveIdenticalUnderlyingType
  rw [hua, hub]
  by_cases hab : b = a
  · simp [hab]
  · simp [hab, ha, hb, hlen, hmem]

theorem resolveAlias_of_not_alias (h : Heap) (p : TypePtr) (hk : (deref h p).Kind ≠ .Alias) :
    resolveAlias h p = .ok (p, h) := by
  simp [resolveAlias, unwrapAlias_of_not_alias h p hk]

/-- C5, as amended: for two distinct struct types whose members agree position
by position in name, embedded flag and type, and whose member types have
ending alias chains, the top-level synthesis emits the direct conversion
`*out = Dest(*in)` and nothing else, whatever the oracle: with
reinterpretation permitted or not, there is neither a reinterpretation (the
kind is Struct) nor a walk over the fields. -/
theorem generateFor_structs_differing_in_name (cf fuel : Nat) (a b : TypePtr) (s : GenState)
    (ha : (deref s.heap a).Kind = .Struct) (hb : (deref s.heap b).Kind = .Struct)
    (hab : a ≠ b)
    (hm : sameMembers (deref s.heap a).Members (deref s.heap b).Members = true)
    (hres : ∀ m ∈ (deref s.heap a).Members, (unwrapAlias s.heap m.Type_).isOk = true) :
    ∃ u, genConversion.generateFor (cf + 2) (fuel + 1) a b false s
      = .ok ([Snippet.convert b], s.withUnsafe u) := by
  have hra := resolveAlias_of_not_alias s.heap a (by rw [ha]; decide)
  have hrb := resolveAlias_of_not_alias s.heap b (by rw [hb]; decide)
  have hconv := isDirectlyConvertible_structs s.heap cf a b ha hb hm hres
  have hEq : ∃ r u, s.g.useUnsafe.Equal s.heap a b = .ok (r, u) := by
    cases hu : s.g.useUnsafe with
    | noEquality => exact ⟨false, .noEquality, rfl⟩
    | equalMemoryTypes e =>
      obtain ⟨r, e1, he⟩ := Equal_structs_returns e s.heap a b ha hb (sameMembers_types _ _ hm)
      exact ⟨r, .equalMemoryTypes e1, by simp [TypesEqual.Equal, he]⟩
  obtain ⟨r, u, hEq⟩ := hEq
  refine ⟨u, ?_⟩
  have hne : ¬ b = a := fun e => hab e.symm
  unfold genConversion.generateFor generateForBody
  rw [hra]
  simp only
  rw [hrb]
  simp only [existingFunction, Bool.false_eq_true, if_false]
  rw [castStrategy_eq a b a b _ r u hEq]
  simp [ha, laterStrategies, isDirectlyAssignable, hne, GenState.withUnsafe, hconv]

/-- Witness of the amended C5: `Source{Name string; Count int}` against
`Dest{Name string; Count int}` with reinterpretation permitted. -/
theorem generateFor_structs_differing_in_name_witness :
    ∃ u, genConversion.generateFor 2 1 15 16 false (exampleState [] (.equalMemoryTypes []))
      = .ok ([Snippet.convert 16], (exampleState [] (.equalMemoryTypes [])).withUnsafe u) :=
  generateFor_structs_differing_in_name 0 0 15 16 (exampleState [] (.equalMemoryTypes []))
    (by decide) (by decide) (by decide) (by decide) (by decide)

/-- Counterexample to C5 as stated: for `Source{Name string; Count int}` and
`Dest{Name string; Count int}` the top-level synthesis with reinterpretation
permitted emits the direct conversion, which is not a reinterpretation, and
with reinterpretation switched off it emits the same direct conversion, not
the assignment `*out = *in`. -/
theorem generateFor_structs_differing_in_name_counterexample :
    (equalMemoryTypes.Equal [] exampleUniverse 15 16).map (fun r => r.1) = .ok true
      ∧ (genConversion.generateFor 2 1 15 16 false
          (exampleState [] (.equalMemoryTypes []))).map (fun r => r.1)
        = .ok [Snippet.convert 16]
      ∧ (Snippet.convert 16).isCast = false
      ∧ (genConversion.generateFor 2 1 15 16 false
          (exampleState [] .noEquality)).map (fun r => r.1)
        = .ok [Snippet.convert 16]
      ∧ Snippet.convert 16 ≠ Snippet.assign := by
  decide

/-! ## Memory equivalence of structs -/

theorem equalMembers_true_iff (ce : TypePtr → TypePtr → EqState → Run (Bool × EqState)) :
    ∀ (ms ns : List types.Member) (st st2 : EqState), ms.length = ns.length →
      (equalMembers ce ms ns st = .ok (true, st2) ↔ MembersEqualInTurn ce ms ns st st2) := by
  intro ms
  induction ms with
  | nil =>
    intro ns st st2 hlen
    cases ns with
    | nil =>
      simp only [equalMembers, Except.ok.injEq, Prod.mk.injEq, true_and]
      constructor
      · intro e; subst e; exact .nil st
      · intro hrel; cases hrel; rfl
    | cons n ns => simp at hlen
  | cons m ms ih =>
    intro ns st st2 hlen
    cases ns with
    | nil => simp at hlen
    | cons n ns =>
      simp only [List.length_cons, add_left_inj] at hlen
      simp only [equalMembers]
      constructor
      · intro heq
        cases hce : ce m.Type_ n.Type_ st with
        | error x => rw [hce] at heq; cases heq
        | ok r =>
          obtain ⟨v, st1⟩ := r
          cases v with
          | false => rw [hce] at heq; simp at heq
          | true =>
            rw [hce] at heq
            exact .cons m n ms ns st st1 st2 hce ((ih ns st1 st2 hlen).1 heq)
      · intro hrel
        cases hrel with
        | cons _ _ _ _ _ st1 _ first rest =>
          rw [first]
          exact (ih ns st1 st2 hlen).2 rest

/-- C9, as amended: for two distinct struct types, `Equal` started from an
empty cache returns `true` if and only if they have the same number of members
and the member pairs, taken in positional order, are each reported equal by
`cachingEqual` inside that same call: the first comparison starts with the
empty cache and a visited set that holds the input struct, and every later one
starts in the cache and visited set its predecessor left. -/
theorem Equal_structs_iff_members_in_turn (h : Heap) (a b : TypePtr)
    (ha : (deref h a).Kind = .Struct) (hb : (deref h b).Kind = .Struct) (hab : a ≠ b) :
    (equalMemoryTypes.Equal [] h a b).map (fun r => r.1) = .ok true
      ↔ (deref h a).Members.length = (deref h b).Members.length
        ∧ ∃ st2, MembersEqualInTurn (cachingEqual h h.length)
            (deref h a).Members (deref h b).Members ⟨[], [a]⟩ st2 := by
  have hua := unwrapAlias_of_not_alias h a (by rw [ha]; decide)
  have hub := unwrapAlias_of_not_alias h b (by rw [hb]; decide)
  by_cases hlen : (deref h a).Members.length = (deref h b).Members.length
  · have hiff := equalMembers_true_iff (cachingEqual h h.length)
      (deref h a).Members (deref h b).Members ⟨[], [a]⟩
    simp only [hlen, true_and]
    have key : (equalMemoryTypes.Equal [] h a b).map (fun r => r.1)
        = (equalMembers (cachingEqual h h.length) (deref h a).Members
            (deref h b).Members ⟨[], [a]⟩).map (fun r => r.1) := by
      unfold equalMemoryTypes.Equal
      simp only [cachingEqual, hab, if_false, mapGet, equal, hua, hub, ha, hb, hlen,
        List.not_mem_nil, ne_eq, not_true_eq_false, if_true]
      cases equalMembers (cachingEqual h h.length) (deref h a).Members
          (deref h b).Members ⟨[], [a]⟩ with
      | error x => rfl
      | ok r => rfl
    rw [key]
    cases hmem : equalMembers (cachingEqual h h.length) (deref h a).Members
        (deref h b).Members ⟨[], [a]⟩ with
    | error x =>
      simp only [Except.map]
      constructor
      · intro hx; cases hx
      · rintro ⟨st2, hrel⟩
        have := (hiff st2 hlen).2 hrel
        rw [hmem] at this
        cases this
    | ok r =>
      obtain ⟨v, st1⟩ := r
      cases v with
      | true =>
        simp only [Except.map, true_iff]
        exact ⟨st1, (hiff st1 hlen).1 hmem⟩
      | false =>
        simp only [Except.map, Except.ok.injEq, Bool.false_eq_true, false_iff, not_exists]
        intro st2 hrel
        have := (hiff st2 hlen).2 hrel
        rw [hmem] at this
        simp at this
  · simp only [hlen, false_and, iff_false]
    unfold equalMemoryTypes.Equal
    simp [cachingEqual, hab, mapGet, equal, hua, hub, ha, hb, hlen, Except.map]

/-- Witness of the amended C9: the self-referential `v1.Node{Next *v1.Node}`
against `internal.Node{Next *internal.Tail}`. -/
theorem Equal_structs_iff_members_in_turn_witness :
    (equalMemoryTypes.Equal [] exampleUniverse 32 34).map (fun r => r.1) = .ok true
      ↔ (deref exampleUniverse 32).Members.length = (deref exampleUniverse 34).Members.length
        ∧ ∃ st2, MembersEqualInTurn (cachingEqual exampleUniverse exampleUniverse.length)
            (deref exampleUniverse 32).Members (deref exampleUniverse 34).Members
            ⟨[], [32]⟩ st2 :=
  Equal_structs_iff_members_in_turn exampleUniverse 32 34 (by decide) (by decide) (by decide)

/-- Counterexample to C9 as stated: `v1.Node{Next *v1.Node}` and
`internal.Node{Next *internal.Tail}`, with
`internal.Tail{Next *internal.Tail; Extra int}`, are reported equal from an
empty cache, although their only member pair `(*v1.Node, *internal.Tail)` is
reported unequal when compared on its own from an empty cache. Inside the call
`v1.Node` is in the visited set when the pointers are followed, so the pair
`(v1.Node, internal.Tail)` is taken as equal without being compared. -/
theorem Equal_structs_iff_members_in_turn_counterexample :
    (deref exampleUniverse 32).Kind = .Struct ∧ (deref exampleUniverse 34).Kind = .Struct
      ∧ (deref exampleUniverse 32).Members.map (fun m => m.Type_) = [33]
      ∧ (deref exampleUniverse 34).Members.map (fun m => m.Type_) = [35]
      ∧ (equalMemoryTypes.Equal [] exampleUniverse 32 34).map (fun r => r.1) = .ok true
      ∧ (equalMemoryTypes.Equal [] exampleUniverse 33 35).map (fun r => r.1) = .ok false := by
  decide

/-! ## Reinterpretation switched off -/

theorem castFree_append (a b : List Snippet) :
    castFree (a ++ b) = (castFree a && castFree b) := by
  simp [castFree, List.all_append]

theorem noEquality_Equal (u : TypesEqual) (h : Heap) (a b : TypePtr) (hu : u = .noEquality) :
    u.Equal h a b = .ok (false, .noEquality) := by
  subst hu; rfl

theorem doMap_safe (gf : Synth) (hgf : gf.Safe) (i o : TypePtr) (s : GenState)
    (code : List Snippet) (s1 : GenState) (hu : s.g.useUnsafe = .noEquality)
    (hrun : genConversion.doMap gf i o s = .ok (code, s1)) :
    castFree code = true ∧ s1.g.useUnsafe = .noEquality := by
  unfold genConversion.doMap at hrun
  split at hrun
  · cases hrun
  · next keyCode sA hk =>
    obtain ⟨ck, uA⟩ := hgf _ _ _ _ _ _ hu hk
    split at hrun
    · cases hrun
    · next valCode sB hv =>
      obtain ⟨cv, uB⟩ := hgf _ _ _ _ _ _ uA hv
      simp only [Except.ok.injEq, Prod.mk.injEq] at hrun
      obtain ⟨rfl, rfl⟩ := hrun
      refine ⟨?_, uB⟩
      simp only [castFree_append, ck, cv]
      rfl

theorem doSlice_safe (gf : Synth) (hgf : gf.Safe) (i o : TypePtr) (s : GenState)
    (code : List Snippet) (s1 : GenState) (hu : s.g.useUnsafe = .noEquality)
    (hrun : genConversion.doSlice gf i o s = .ok (code, s1)) :
    castFree code = true ∧ s1.g.useUnsafe = .noEquality := by
  unfold genConversion.doSlice at hrun
  split at hrun
  · simp only [Except.ok.injEq, Prod.mk.injEq] at hrun
    obtain ⟨rfl, rfl⟩ := hrun
    exact ⟨rfl, hu⟩
  · split at hrun
    · cases hrun
    · next elemCode sA he =>
      obtain ⟨ce, uA⟩ := hgf _ _ _ _ _ _ hu he
      simp only [Except.ok.injEq, Prod.mk.injEq] at hrun
      obtain ⟨rfl, rfl⟩ := hrun
      refine ⟨?_, uA⟩
      simp only [castFree_append, ce]
      rfl

theorem doPointer_safe (gf : Synth) (hgf : gf.Safe) (i o : TypePtr) (s : GenState)
    (code : List Snippet) (s1 : GenState) (hu : s.g.useUnsafe = .noEquality)
    (hrun : genConversion.doPointer gf i o s = .ok (code, s1)) :
    castFree code = true ∧ s1.g.useUnsafe = .noEquality := by
  unfold genConversion.doPointer at hrun
  split at hrun
  · cases hrun
  · next elemCode sA he =>
    obtain ⟨ce, uA⟩ := hgf _ _ _ _ _ _ hu he
    simp only [Except.ok.injEq, Prod.mk.injEq] at hrun
    obtain ⟨rfl, rfl⟩ := hrun
    refine ⟨?_, uA⟩
    simp only [castFree_append, ce]
    rfl

theorem forEachMember_safe (step : types.Member → GenState → Run (List Snippet × GenState))
    (hstep : ∀ m s code s1, s.g.useUnsafe = .noEquality → step m s = .ok (code, s1) →
      castFree code = true ∧ s1.g.useUnsafe = .noEquality) :
    ∀ (ms : List types.Member) (s : GenState) (code : List Snippet) (s1 : GenState),
      s.g.useUnsafe = .noEquality → forEachMember step ms s = .ok (code, s1) →
      castFree code = true ∧ s1.g.useUnsafe = .noEquality := by
  intro ms
  induction ms with
  | nil =>
    intro s code s1 hu hrun
    simp only [forEachMember, Except.ok.injEq, Prod.mk.injEq] at hrun
    obtain ⟨rfl, rfl⟩ := hrun
    exact ⟨rfl, hu⟩
  | cons m ms ih =>
    intro s code s1 hu hrun
    simp only [forEachMember] at hrun
    split at hrun
    · cases hrun
    · next code1 sA h1 =>
      obtain ⟨c1, uA⟩ := hstep _ _ _ _ hu h1
      split at hrun
      · cases hrun
      · next code2 sB h2 =>
        obtain ⟨c2, uB⟩ := ih _ _ _ uA h2
        simp only [Except.ok.injEq, Prod.mk.injEq] at hrun
        obtain ⟨rfl, rfl⟩ := hrun
        exact ⟨by simp [castFree_append, c1, c2], uB⟩

theorem doStructMember_safe (gf : Synth) (hgf : gf.Safe) (i o : TypePtr) (m : types.Member)
    (s : GenState) (code : List Snippet) (s1 : GenState) (hu : s.g.useUnsafe = .noEquality)
    (hrun : doStructMember gf i o m s = .ok (code, s1)) :
    castFree code = true ∧ s1.g.useUnsafe = .noEquality := by
  unfold doStructMember at hrun
  split at hrun
  · simp only [Except.ok.injEq, Prod.mk.injEq] at hrun
    obtain ⟨rfl, rfl⟩ := hrun
    exact ⟨rfl, hu⟩
  · split at hrun
    · simp only [Except.ok.injEq, Prod.mk.injEq] at hrun
      obtain ⟨rfl, rfl⟩ := hrun
      exact ⟨rfl, hu⟩
    · split at hrun
      · simp only [Except.ok.injEq, Prod.mk.injEq] at hrun
        obtain ⟨rfl, rfl⟩ := hrun
        exact ⟨rfl, hu⟩
      · split at hrun
        · cases hrun
        · next mcode sA hm =>
          obtain ⟨cm, uA⟩ := hgf _ _ _ _ _ _ hu hm
          simp only [Except.ok.injEq, Prod.mk.injEq] at hrun
          obtain ⟨rfl, rfl⟩ := hrun
          refine ⟨?_, uA⟩
          simp only [castFree_append, cm]
          rfl

theorem doStruct_safe (gf : Synth) (hgf : gf.Safe) (i o : TypePtr) (s : GenState)
    (code : List Snippet) (s1 : GenState) (hu : s.g.useUnsafe = .noEquality)
    (hrun : genConversion.doStruct gf i o s = .ok (code, s1)) :
    castFree code = true ∧ s1.g.useUnsafe = .noEquality :=
  forEachMember_safe _ (fun m s code s1 hu h => doStructMember_safe gf hgf i o m s code s1 hu h)
    _ s code s1 hu hrun

theorem withUnsafe_noEquality (s : GenState) :
    (s.withUnsafe .noEquality).g.useUnsafe = .noEquality := rfl

theorem existingFunction_safe (cf : Nat) (i o iR oR : TypePtr) (f : Bool) (s : GenState)
    (r : Option (List Snippet)) (s1 : GenState) (hu : s.g.useUnsafe = .noEquality)
    (hrun : existingFunction cf i o iR oR f s = .ok (r, s1)) :
    (∀ code, r = some code → castFree code = true) ∧ s1.g.useUnsafe = .noEquality := by
  unfold existingFunction at hrun
  rw [noEquality_Equal s.g.useUnsafe s.heap iR oR hu] at hrun
  split at hrun
  · split at hrun
    · split at hrun
      · split at hrun
        · cases hrun
        · simp only [Except.ok.injEq, Prod.mk.injEq] at hrun
          obtain ⟨rfl, rfl⟩ := hrun
          exact ⟨by simp, hu⟩
        · simp only [Except.ok.injEq, Prod.mk.injEq] at hrun
          obtain ⟨rfl, rfl⟩ := hrun
          refine ⟨?_, rfl⟩
          intro code hc
          cases hc
          rfl
      · simp only [Except.ok.injEq, Prod.mk.injEq] at hrun
        obtain ⟨rfl, rfl⟩ := hrun
        refine ⟨?_, hu⟩
        intro code hc
        cases hc
        rfl
    · split at hrun
      · cases hrun
      · simp only [Except.ok.injEq, Prod.mk.injEq] at hrun
        obtain ⟨rfl, rfl⟩ := hrun
        refine ⟨?_, hu⟩
        intro code hc
        cases hc
        rfl
      · simp only [Except.ok.injEq, Prod.mk.injEq] at hrun
        obtain ⟨rfl, rfl⟩ := hrun
        exact ⟨by simp, hu⟩
  · simp only [Except.ok.injEq, Prod.mk.injEq] at hrun
    obtain ⟨rfl, rfl⟩ := hrun
    exact ⟨by simp, hu⟩

theorem castStrategy_noEquality (i o iR oR : TypePtr) (s : GenState)
    (hu : s.g.useUnsafe = .noEquality) :
    castStrategy i o iR oR s = .ok (none, s.withUnsafe .noEquality) := by
  unfold castStrategy
  rw [noEquality_Equal s.g.useUnsafe s.heap iR oR hu]

theorem doCompileError_castFree (g : genConversion) (h : Heap) (i o : TypePtr) :
    castFree (g.doCompileErrorOnMissingConversion h i o) = true := by
  unfold castFree
  rw [List.all_eq_true]
  intro sn hsn
  have hm := doCompileError_isMarker g h i o sn hsn
  unfold Snippet.isMarker at hm
  unfold Snippet.isCast
  simp only [decide_eq_true_eq, List.mem_cons, List.mem_singleton, List.not_mem_nil,
    or_false] at hm
  rcases hm with hm | hm | hm | hm | hm <;> simp [hm]

theorem laterStrategies_safe (cf : Nat) (gf : Synth) (hgf : gf.Safe) (i o iR oR : TypePtr)
    (s : GenState) (code : List Snippet) (s1 : GenState) (hu : s.g.useUnsafe = .noEquality)
    (hrun : laterStrategies cf gf i o iR oR s = .ok (code, s1)) :
    castFree code = true ∧ s1.g.useUnsafe = .noEquality := by
  unfold laterStrategies at hrun
  split at hrun
  · simp only [Except.ok.injEq, Prod.mk.injEq] at hrun
    obtain ⟨rfl, rfl⟩ := hrun
    exact ⟨rfl, hu⟩
  · split at hrun
    · cases hrun
    · simp only [Except.ok.injEq, Prod.mk.injEq] at hrun
      obtain ⟨rfl, rfl⟩ := hrun
      exact ⟨rfl, hu⟩
    · split at hrun
      · split at hrun
        · exact doMap_safe gf hgf _ _ _ _ _ hu hrun
        · exact doSlice_safe gf hgf _ _ _ _ _ hu hrun
        · exact doStruct_safe gf hgf _ _ _ _ _ hu hrun
        · exact doPointer_safe gf hgf _ _ _ _ _ hu hrun
        · simp only [Except.ok.injEq, Prod.mk.injEq] at hrun
          obtain ⟨rfl, rfl⟩ := hrun
          exact ⟨doCompileError_castFree _ _ _ _, hu⟩
      · simp only [Except.ok.injEq, Prod.mk.injEq] at hrun
        obtain ⟨rfl, rfl⟩ := hrun
        exact ⟨doCompileError_castFree _ _ _ _, hu⟩

theorem generateForBody_safe (cf : Nat) (gf : Synth) (hgf : gf.Safe) :
    Synth.Safe (generateForBody cf gf) := by
  intro i o f s code s1 hu hrun
  unfold generateForBody at hrun
  split at hrun
  · cases hrun
  · split at hrun
    · cases hrun
    · next iR hA _ oR hB _ =>
      split at hrun
      · cases hrun
      · next c sA hfirst =>
        simp only [Except.ok.injEq, Prod.mk.injEq] at hrun
        obtain ⟨rfl, rfl⟩ := hrun
        obtain ⟨hc, uA⟩ := existingFunction_safe cf i o _ _ f _ _ _ (by exact hu) hfirst
        exact ⟨hc _ rfl, uA⟩
      · next sA hfirst =>
        obtain ⟨_, uA⟩ := existingFunction_safe cf i o _ _ f _ _ _ (by exact hu) hfirst
        rw [castStrategy_noEquality i o _ _ sA uA] at hrun
        exact laterStrategies_safe cf gf hgf i o _ _ _ code s1 rfl hrun

theorem generateFor_safe (cf : Nat) : ∀ fuel : Nat, Synth.Safe (genConversion.generateFor cf fuel) := by
  intro fuel
  induction fuel with
  | zero =>
    intro i o f s code s1 _ hrun
    simp [genConversion.generateFor] at hrun
  | succ n ih =>
    intro i o f s code s1 hu hrun
    exact generateForBody_safe cf _ ih i o f s code s1 hu hrun

theorem fromValuesEntry_safe (i : TypePtr) (m : types.Member) (s : GenState)
    (code : List Snippet) (s1 : GenState) (hu : s.g.useUnsafe = .noEquality)
    (hrun : genConversion.fromValuesEntry i m s = .ok (code, s1)) :
    castFree code = true ∧ s1.g.useUnsafe = .noEquality := by
  unfold genConversion.fromValuesEntry at hrun
  rw [noEquality_Equal s.g.useUnsafe s.heap i m.Type_ hu] at hrun
  split at hrun
  · simp only [Except.ok.injEq, Prod.mk.injEq] at hrun
    obtain ⟨rfl, rfl⟩ := hrun
    exact ⟨rfl, hu⟩
  · split at hrun
    · simp only [Except.ok.injEq, Prod.mk.injEq] at hrun
      obtain ⟨rfl, rfl⟩ := hrun
      exact ⟨rfl, hu⟩
    · simp only [Except.ok.injEq, Prod.mk.injEq] at hrun
      obtain ⟨rfl, rfl⟩ := hrun
      exact ⟨rfl, rfl⟩

theorem setZeroValue_castFree (h : Heap) (m : types.Member) (code : List Snippet)
    (hrun : genConversion.setZeroValue h m = .ok code) : castFree code = true := by
  unfold genConversion.setZeroValue at hrun
  split at hrun
  · cases hrun
  · split at hrun <;> (repeat' split at hrun) <;>
      (simp only [Except.ok.injEq] at hrun; subst hrun; rfl)

theorem fromUrlValuesMember_safe (i : TypePtr) (m : types.Member) (s : GenState)
    (code : List Snippet) (s1 : GenState) (hu : s.g.useUnsafe = .noEquality)
    (hrun : fromUrlValuesMember i m s = .ok (code, s1)) :
    castFree code = true ∧ s1.g.useUnsafe = .noEquality := by
  unfold fromUrlValuesMember at hrun
  split at hrun
  · simp only [Except.ok.injEq, Prod.mk.injEq] at hrun
    obtain ⟨rfl, rfl⟩ := hrun
    exact ⟨rfl, hu⟩
  · simp only at hrun
    split at hrun
    · simp only [Except.ok.injEq, Prod.mk.injEq] at hrun
      obtain ⟨rfl, rfl⟩ := hrun
      exact ⟨rfl, hu⟩
    · split at hrun
      · cases hrun
      · next present sA hp =>
        obtain ⟨cp, uA⟩ := fromValuesEntry_safe _ _ _ _ _ hu hp
        split at hrun
        · cases hrun
        · next absent hz =>
          have cz := setZeroValue_castFree _ _ _ hz
          simp only [Except.ok.injEq, Prod.mk.injEq] at hrun
          obtain ⟨rfl, rfl⟩ := hrun
          refine ⟨?_, uA⟩
          simp only [castFree_append, cp, cz]
          rfl

/-- C7: when the oracle is `noEquality`, no code that `generateFor` returns, with
whatever fuel and so at whatever nesting depth, and no code that the adapter
synthesis `generateFromUrlValues` returns, contains an unsafe reinterpretation. -/
theorem noEquality_never_casts (cf fuel : Nat) (inType outType : TypePtr) (functionOK : Bool)
    (s : GenState) (hu : s.g.useUnsafe = .noEquality) :
    (∀ code s1, genConversion.generateFor cf fuel inType outType functionOK s = .ok (code, s1) →
        ∀ sn ∈ code, sn.isCast = false)
      ∧ (∀ code s1, genConversion.generateFromUrlValues inType outType s = .ok (code, s1) →
        ∀ sn ∈ code, sn.isCast = false) := by
  constructor
  · intro code s1 hrun sn hsn
    have hc := (generateFor_safe cf fuel inType outType functionOK s code s1 hu hrun).1
    unfold castFree at hc
    rw [List.all_eq_true] at hc
    simpa using hc sn hsn
  · intro code s1 hrun sn hsn
    unfold genConversion.generateFromUrlValues at hrun
    split at hrun
    · cases hrun
    · next mcode sA hm =>
      have hc := (forEachMember_safe _
        (fun m s code s1 hu h => fromUrlValuesMember_safe inType m s code s1 hu h)
        _ s mcode sA hu hm).1
      simp only [Except.ok.injEq, Prod.mk.injEq] at hrun
      obtain ⟨rfl, rfl⟩ := hrun
      have : castFree ([Snippet.funcAuto inType outType] ++ mcode
          ++ [Snippet.returnNil, Snippet.closeFunc]
          ++ (if (sA.g.preexists inType outType).isSome then []
            else [Snippet.commentPublic inType outType, Snippet.funcPublic inType outType,
                  Snippet.returnAuto inType outType, Snippet.closeFunc])) = true := by
        simp only [castFree_append, hc]
        split <;> rfl
      unfold castFree at this
      rw [List.all_eq_true] at this
      simpa using this sn hsn

/-- Witness of C7: `map[string]v1.Source -> map[string]internal.Dest` with
reinterpretation switched off; the key is copied and the value converted by a
call, two levels below the map. -/
theorem noEquality_never_casts_witness :
    genConversion.generateFor 2 2 29 30 true (exampleState [] .noEquality)
        = .ok ([Snippet.ifInNil, Snippet.outNil, Snippet.orElse, Snippet.makeOut 30,
          Snippet.forKeyVal, Snippet.newOutKey 0, Snippet.ifTrue, Snippet.scopeKey,
          Snippet.assign, Snippet.close, Snippet.newOutVal 16, Snippet.ifTrue, Snippet.scopeVal,
          Snippet.callNamed 15 16, Snippet.returnErr, Snippet.close, Snippet.close,
          Snippet.insertKeyVal, Snippet.close, Snippet.close], exampleState [] .noEquality)
      ∧ (Snippet.callNamed 15 16).isCast = false :=
  ⟨by decide,
    (noEquality_never_casts 2 2 29 30 true (exampleState [] .noEquality) rfl).1
      [Snippet.ifInNil, Snippet.outNil, Snippet.orElse, Snippet.makeOut 30,
        Snippet.forKeyVal, Snippet.newOutKey 0, Snippet.ifTrue, Snippet.scopeKey,
        Snippet.assign, Snippet.close, Snippet.newOutVal 16, Snippet.ifTrue, Snippet.scopeVal,
        Snippet.callNamed 15 16, Snippet.returnErr, Snippet.close, Snippet.close,
        Snippet.insertKeyVal, Snippet.close, Snippet.close]
      (exampleState [] .noEquality) (by decide) (Snippet.callNamed 15 16) (by decide)⟩

/-! ## The cache of the memory-equivalence analyzer -/

theorem mapGet_filter_ne {κ ν : Type} [DecidableEq κ] (m : List (κ × ν)) (k k1 : κ)
    (hk : k ≠ k1) : mapGet (m.filter (fun p => decide (p.1 ≠ k1))) k = mapGet m k := by
  induction m with
  | nil => rfl
  | cons p m ih =>
    obtain ⟨k2, v⟩ := p
    rw [List.filter_cons]
    by_cases h2 : k2 = k1
    · have h3 : ¬ k2 = k := fun e => hk (e.symm.trans h2)
      simp only [h2, ne_eq, not_true_eq_false, decide_False, Bool.false_eq_true, if_false]
      rw [ih]
      simp only [mapGet]
      rw [if_neg (by rw [← h2]; exact h3)]
    · simp only [ne_eq, h2, not_false_eq_true, decide_True, if_true]
      simp only [mapGet]
      rw [ih]

theorem mapGet_mapSet_self {κ ν : Type} [DecidableEq κ] (m : List (κ × ν)) (k : κ) (v : ν) :
    mapGet (mapSet m k v) k = some v := by
  simp [mapSet, mapGet]

theorem mapGet_mapSet_ne {κ ν : Type} [DecidableEq κ] (m : List (κ × ν)) (k k1 : κ) (v : ν)
    (hk : k ≠ k1) : mapGet (mapSet m k1 v) k = mapGet m k := by
  have : ¬ k1 = k := fun e => hk e.symm
  simp only [mapSet, mapGet, this, if_false]
  exact mapGet_filter_ne m k k1 hk

theorem cacheExtends_refl (e : equalMemoryTypes) : cacheExtends e e := fun _ _ h => h

theorem cacheExtends_trans (e e1 e2 : equalMemoryTypes) (h1 : cacheExtends e e1)
    (h2 : cacheExtends e1 e2) : cacheExtends e e2 := fun k v h => h2 k v (h1 k v h)

theorem equalMembers_extends (ce : TypePtr → TypePtr → EqState → Run (Bool × EqState))
    (hce : ∀ a b st r st1, ce a b st = .ok (r, st1) → cacheExtends st.e st1.e) :
    ∀ (ms ns : List types.Member) (st : EqState) (r : Bool) (st1 : EqState),
      equalMembers ce ms ns st = .ok (r, st1) → cacheExtends st.e st1.e := by
  intro ms
  induction ms with
  | nil =>
    intro ns st r st1 hrun
    simp only [equalMembers, Except.ok.injEq, Prod.mk.injEq] at hrun
    rw [← hrun.2]
    exact cacheExtends_refl _
  | cons m ms ih =>
    intro ns st r st1 hrun
    cases ns with
    | nil =>
      simp only [equalMembers, Except.ok.injEq, Prod.mk.injEq] at hrun
      rw [← hrun.2]
      exact cacheExtends_refl _
    | cons n ns =>
      simp only [equalMembers] at hrun
      split at hrun
      · cases hrun
      · next stA hA =>
        simp only [Except.ok.injEq, Prod.mk.injEq] at hrun
        rw [← hrun.2]
        exact hce _ _ _ _ _ hA
      · next stA hA =>
        exact cacheExtends_trans _ _ _ (hce _ _ _ _ _ hA) (ih _ _ _ _ hrun)

theorem equal_extends (ce : TypePtr → TypePtr → EqState → Run (Bool × EqState)) (h : Heap)
    (hce : ∀ a b st r st1, ce a b st = .ok (r, st1) → cacheExtends st.e st1.e)
    (a b : TypePtr) (st : EqState) (r : Bool) (st1 : EqState)
    (hrun : equal ce h a b st = .ok (r, st1)) : cacheExtends st.e st1.e := by
  unfold equal at hrun
  split at hrun
  · cases hrun
  · cases hrun
  · split at hrun
    · simp only [Except.ok.injEq, Prod.mk.injEq] at hrun
      rw [← hrun.2]; exact cacheExtends_refl _
    · split at hrun
      · split at hrun
        · simp only [Except.ok.injEq, Prod.mk.injEq] at hrun
          rw [← hrun.2]; exact cacheExtends_refl _
        · simp only at hrun
          split at hrun
          · split at hrun
            · simp only [Except.ok.injEq, Prod.mk.injEq] at hrun
              rw [← hrun.2]; exact cacheExtends_refl _
            · have := equalMembers_extends ce hce _ _ _ _ _ hrun
              exact this
          · have := hce _ _ _ _ _ hrun
            exact this
          · split at hrun
            · cases hrun
            · next stA hA =>
              simp only [Except.ok.injEq, Prod.mk.injEq] at hrun
              rw [← hrun.2]
              have := hce _ _ _ _ _ hA
              exact this
            · next stA hA =>
              have hX := hce _ _ _ _ _ hA
              exact cacheExtends_trans _ _ _ hX (hce _ _ _ _ _ hrun)
          · have := hce _ _ _ _ _ hrun
            exact this
          · simp only [Except.ok.injEq, Prod.mk.injEq] at hrun
            rw [← hrun.2]; exact cacheExtends_refl _
          · simp only [Except.ok.injEq, Prod.mk.injEq] at hrun
            rw [← hrun.2]; exact cacheExtends_refl _
          · simp only [Except.ok.injEq, Prod.mk.injEq] at hrun
            rw [← hrun.2]; exact cacheExtends_refl _
      · simp only [Except.ok.injEq, Prod.mk.injEq] at hrun
        rw [← hrun.2]; exact cacheExtends_refl _

theorem cachingEqual_extends (h : Heap) : ∀ (fuel : Nat) (a b : TypePtr) (st : EqState)
    (r : Bool) (st1 : EqState),
    cachingEqual h fuel a b st = .ok (r, st1) → cacheExtends st.e st1.e := by
  intro fuel
  induction fuel with
  | zero => intro a b st r st1 hrun; simp [cachingEqual] at hrun
  | succ n ih =>
    intro a b st r st1 hrun
    simp only [cachingEqual] at hrun
    split at hrun
    · simp only [Except.ok.injEq, Prod.mk.injEq] at hrun
      rw [← hrun.2]; exact cacheExtends_refl _
    · next hab =>
      split at hrun
      · simp only [Except.ok.injEq, Prod.mk.injEq] at hrun
        rw [← hrun.2]; exact cacheExtends_refl _
      · next c1 =>
        split at hrun
        · simp only [Except.ok.injEq, Prod.mk.injEq] at hrun
          rw [← hrun.2]; exact cacheExtends_refl _
        · next c2 =>
          split at hrun
          · cases hrun
          · next res stA hA =>
            simp only [Except.ok.injEq, Prod.mk.injEq] at hrun
            rw [← hrun.2]
            have hext := equal_extends _ h ih a b st res stA hA
            intro k v hk
            have hk1 : k ≠ ⟨a, b⟩ := by
              intro e; rw [e, c1] at hk; cases hk
            have hk2 : k ≠ ⟨b, a⟩ := by
              intro e; rw [e, c2] at hk; cases hk
            simp only
            rw [mapGet_mapSet_ne _ _ _ _ hk2, mapGet_mapSet_ne _ _ _ _ hk1]
            exact hext k v hk

/-! ## Termination of the memory-equivalence analyzer -/

theorem deref_of_le (h : Heap) (p : TypePtr) (hp : h.length ≤ p) : deref h p = zeroType := by
  unfold deref
  exact List.getD_eq_default _ _ hp

theorem unwrapAlias_returns (h : Heap) (hal : aliasChainsEnd h = true) (p : TypePtr) :
    ∃ q, unwrapAlias h p = .ok q := by
  by_cases hp : p < h.length
  · unfold aliasChainsEnd at hal
    rw [List.all_eq_true] at hal
    have := hal p (List.mem_range.2 hp)
    cases hx : unwrapAlias h p with
    | error x => rw [hx] at this; simp [Except.isOk, Except.toBool] at this
    | ok q => exact ⟨q, rfl⟩
  · refine ⟨p, unwrapAlias_of_not_alias h p ?_⟩
    rw [deref_of_le h p (Nat.le_of_not_lt hp)]
    decide

theorem unvisited_mono (h : Heap) (v w : List TypePtr) (hvw : v ⊆ w) :
    unvisited h w ≤ unvisited h v := by
  unfold unvisited
  apply Finset.card_le_card
  intro p hp
  simp only [Finset.mem_filter, Finset.mem_range] at hp ⊢
  exact ⟨hp.1, fun hv => hp.2 (hvw hv)⟩

theorem unvisited_cons_lt (h : Heap) (v : List TypePtr) (p : TypePtr) (hp : p < h.length)
    (hv : p ∉ v) : unvisited h (p :: v) < unvisited h v := by
  unfold unvisited
  apply Finset.card_lt_card
  rw [Finset.ssubset_iff_of_subset]
  · refine ⟨p, ?_, ?_⟩
    · simp only [Finset.mem_filter, Finset.mem_range]
      exact ⟨hp, hv⟩
    · simp
  · intro q hq
    simp only [Finset.mem_filter, Finset.mem_range, List.mem_cons, not_or] at hq ⊢
    exact ⟨hq.1, hq.2.2⟩

theorem equalMembers_returns (h : Heap) (n : Nat)
    (ce : TypePtr → TypePtr → EqState → Run (Bool × EqState)) (hce : ReturnsBelow h n ce) :
    ∀ (ms ns : List types.Member) (st : EqState), unvisited h st.alreadyVisitedTypes < n →
      ∃ r st1, equalMembers ce ms ns st = .ok (r, st1)
        ∧ st.alreadyVisitedTypes ⊆ st1.alreadyVisitedTypes := by
  intro ms
  induction ms with
  | nil => intro ns st _; exact ⟨true, st, by simp [equalMembers], fun _ hx => hx⟩
  | cons m ms ih =>
    intro ns st hlt
    cases ns with
    | nil => exact ⟨true, st, by simp [equalMembers], fun _ hx => hx⟩
    | cons k ns =>
      obtain ⟨r, st1, hrun, hsub⟩ := hce m.Type_ k.Type_ st hlt
      simp only [equalMembers, hrun]
      cases r with
      | false => exact ⟨false, st1, rfl, hsub⟩
      | true =>
        obtain ⟨r2, st2, hrun2, hsub2⟩ :=
          ih ns st1 (lt_of_le_of_lt (unvisited_mono h _ _ hsub) hlt)
        exact ⟨r2, st2, hrun2, fun _ hx => hsub2 (hsub hx)⟩

theorem equal_returns (h : Heap) (hal : aliasChainsEnd h = true) (n : Nat)
    (ce : TypePtr → TypePtr → EqState → Run (Bool × EqState)) (hce : ReturnsBelow h n ce)
    (a b : TypePtr) (st : EqState) (hlt : unvisited h st.alreadyVisitedTypes < n + 1) :
    ∃ r st1, equal ce h a b st = .ok (r, st1)
      ∧ st.alreadyVisitedTypes ⊆ st1.alreadyVisitedTypes := by
  obtain ⟨in_, hin⟩ := unwrapAlias_returns h hal a
  obtain ⟨out, hout⟩ := unwrapAlias_returns h hal b
  unfold equal
  rw [hin, hout]
  simp only
  by_cases c1 : in_ = out
  · exact ⟨true, st, by rw [if_pos c1], fun _ hx => hx⟩
  · rw [if_neg c1]
    by_cases c2 : (deref h in_).Kind = (deref h out).Kind
    · rw [if_pos c2]
      by_cases c3 : in_ ∈ st.alreadyVisitedTypes
      · exact ⟨true, st, by rw [if_pos c3], fun _ hx => hx⟩
      · rw [if_neg c3]
        have hsub0 : st.alreadyVisitedTypes ⊆ in_ :: st.alreadyVisitedTypes :=
          fun _ hx => List.mem_cons_of_mem _ hx
        by_cases hp : in_ < h.length
        · have hlt1 : unvisited h (in_ :: st.alreadyVisitedTypes) < n :=
            lt_of_lt_of_le (unvisited_cons_lt h _ in_ hp c3) (Nat.lt_succ_iff.1 hlt)
          cases hk : (deref h in_).Kind with
          | Struct =>
            simp only
            by_cases hl : (deref h in_).Members.length = (deref h out).Members.length
            · obtain ⟨r, st1, hrun, hsub⟩ := equalMembers_returns h n ce hce
                (deref h in_).Members (deref h out).Members
                { st with alreadyVisitedTypes := in_ :: st.alreadyVisitedTypes } hlt1
              refine ⟨r, st1, ?_, fun _ hx => hsub (hsub0 hx)⟩
              rw [if_neg (by simpa using hl)]
              exact hrun
            · refine ⟨false, { st with alreadyVisitedTypes := in_ :: st.alreadyVisitedTypes },
                ?_, hsub0⟩
              rw [if_pos hl]
          | Pointer =>
            obtain ⟨r, st1, hrun, hsub⟩ := hce (deref h in_).Elem (deref h out).Elem
              { st with alreadyVisitedTypes := in_ :: st.alreadyVisitedTypes } hlt1
            exact ⟨r, st1, hrun, fun _ hx => hsub (hsub0 hx)⟩
          | Slice =>
            obtain ⟨r, st1, hrun, hsub⟩ := hce (deref h in_).Elem (deref h out).Elem
              { st with alreadyVisitedTypes := in_ :: st.alreadyVisitedTypes } hlt1
            exact ⟨r, st1, hrun, fun _ hx => hsub (hsub0 hx)⟩
          | Map =>
            obtain ⟨r, st1, hrun, hsub⟩ := hce (deref h in_).Key (deref h out).Key
              { st with alreadyVisitedTypes := in_ :: st.alreadyVisitedTypes } hlt1
            simp only [hrun]
            cases r with
            | false => exact ⟨false, st1, rfl, fun _ hx => hsub (hsub0 hx)⟩
            | true =>
              obtain ⟨r2, st2, hrun2, hsub2⟩ := hce (deref h in_).Elem (deref h out).Elem st1
                (lt_of_le_of_lt (unvisited_mono h _ _ hsub) hlt1)
              exact ⟨r2, st2, hrun2, fun _ hx => hsub2 (hsub (hsub0 hx))⟩
          | Interface => exact ⟨false, _, rfl, hsub0⟩
          | Builtin => exact ⟨_, _, rfl, hsub0⟩
          | Alias => exact ⟨false, _, rfl, hsub0⟩
          | Func => exact ⟨false, _, rfl, hsub0⟩
          | Array => exact ⟨false, _, rfl, hsub0⟩
          | Chan => exact ⟨false, _, rfl, hsub0⟩
          | DeclarationOf => exact ⟨false, _, rfl, hsub0⟩
          | Unsupported => exact ⟨false, _, rfl, hsub0⟩
          | Unknown => exact ⟨false, _, rfl, hsub0⟩
        · have hk : (deref h in_).Kind = .Unknown := by
            rw [deref_of_le h in_ (Nat.le_of_not_lt hp)]; rfl
          rw [hk]
          exact ⟨false, _, rfl, hsub0⟩
    · exact ⟨false, st, by rw [if_neg c2], fun _ hx => hx⟩

theorem cachingEqual_returns (h : Heap) (hal : aliasChainsEnd h = true) :
    ∀ n : Nat, ReturnsBelow h n (cachingEqual h n) := by
  intro n
  induction n with
  | zero => intro x y st hlt; exact absurd hlt (Nat.not_lt_zero _)
  | succ n ih =>
    intro x y st hlt
    simp only [cachingEqual]
    by_cases c1 : x = y
    · exact ⟨true, st, by simp [c1], fun _ hx => hx⟩
    · simp only [c1, if_false]
      cases c2 : mapGet st.e ⟨x, y⟩ with
      | some v => exact ⟨v, st, rfl, fun _ hx => hx⟩
      | none =>
        cases c3 : mapGet st.e ⟨y, x⟩ with
        | some v => exact ⟨v, st, rfl, fun _ hx => hx⟩
        | none =>
          obtain ⟨r, st1, hrun, hsub⟩ := equal_returns h hal n _ ih x y st hlt
          simp only [hrun]
          exact ⟨r, _, rfl, hsub⟩

theorem unvisited_nil (h : Heap) : unvisited h [] = h.length := by
  simp [unvisited]

/-- C15: on a heap whose alias chains end, `Equal` returns for every pair of
types and every cache, whatever cycles the types form. More precisely
`cachingEqual` returns with any fuel above the number of heap types not yet in
the visited set, and the visited set it leaves contains the one it found: each
level of the recursion has put one more type of the heap in the visited set. -/
theorem Equal_terminates (e : equalMemoryTypes) (h : Heap) (a b : TypePtr)
    (hal : aliasChainsEnd h = true) :
    (∃ r e1, e.Equal h a b = .ok (r, e1))
      ∧ ∀ (fuel : Nat) (visited : List TypePtr), unvisited h visited < fuel →
          ∃ r st1, cachingEqual h fuel a b ⟨e, visited⟩ = .ok (r, st1)
            ∧ visited ⊆ st1.alreadyVisitedTypes := by
  constructor
  · obtain ⟨r, st1, hrun, _⟩ := cachingEqual_returns h hal (h.length + 1) a b ⟨e, []⟩
      (by simp only [unvisited_nil]; exact Nat.lt_succ_self _)
    exact ⟨r, st1.e, by simp [equalMemoryTypes.Equal, hrun]⟩
  · intro fuel visited hlt
    exact cachingEqual_returns h hal fuel a b ⟨e, visited⟩ hlt

/-- Witness of C15: the self-referential `v1.Node` against `internal.Node`. -/
theorem Equal_terminates_witness :
    ∃ r e1, equalMemoryTypes.Equal [] exampleUniverse 32 34 = .ok (r, e1) :=
  (Equal_terminates [] exampleUniverse 32 34 (by decide)).1

/-- C11: for `a != b` with no cache entry under either ordering, whenever
`Equal(a, b)` returns `r` the cache it leaves holds `r` under `(a, b)` and
under `(b, a)`, and every entry of the cache it found is still there with its
value. On a heap whose alias chains end it does return. -/
theorem Equal_caches_result (e : equalMemoryTypes) (h : Heap) (a b : TypePtr) (hab : a ≠ b)
    (h1 : mapGet e ⟨a, b⟩ = none) (h2 : mapGet e ⟨b, a⟩ = none) :
    (∀ (r : Bool) (e1 : equalMemoryTypes), e.Equal h a b = .ok (r, e1) →
        mapGet e1 ⟨a, b⟩ = some r ∧ mapGet e1 ⟨b, a⟩ = some r ∧ cacheExtends e e1)
      ∧ (aliasChainsEnd h = true → ∃ r e1, e.Equal h a b = .ok (r, e1)) := by
  constructor
  · intro r e1 hrun
    unfold equalMemoryTypes.Equal at hrun
    split at hrun
    · cases hrun
    · next r0 st0 hce =>
      simp only [Except.ok.injEq, Prod.mk.injEq] at hrun
      obtain ⟨rfl, rfl⟩ := hrun
      have hext := cachingEqual_extends h _ a b _ _ _ hce
      refine ⟨?_, ?_, hext⟩
      · simp only [cachingEqual, hab, if_false, h1, h2] at hce
        split at hce
        · cases hce
        · simp only [Except.ok.injEq, Prod.mk.injEq] at hce
          obtain ⟨rfl, rfl⟩ := hce
          have hne : (⟨a, b⟩ : conversionPair) ≠ ⟨b, a⟩ := by
            intro e; injection e with e1 _; exact hab e1
          simp only
          rw [mapGet_mapSet_ne _ _ _ _ hne, mapGet_mapSet_self]
      · simp only [cachingEqual, hab, if_false, h1, h2] at hce
        split at hce
        · cases hce
        · simp only [Except.ok.injEq, Prod.mk.injEq] at hce
          obtain ⟨rfl, rfl⟩ := hce
          simp only
          rw [mapGet_mapSet_self]
  · intro hal
    obtain ⟨r, st1, hrun, _⟩ := cachingEqual_returns h hal (h.length + 1) a b ⟨e, []⟩
      (by simp only [unvisited_nil]; exact Nat.lt_succ_self _)
    exact ⟨r, st1.e, by simp [equalMemoryTypes.Equal, hrun]⟩

/-- Witness of C11: `Equal(v1.Source, internal.Dest)` from a cache that holds
`false` for `(string, int64)`. -/
theorem Equal_caches_result_witness :
    mapGet [(⟨16, 15⟩, true), (⟨15, 16⟩, true), ((⟨0, 1⟩ : conversionPair), false)] ⟨15, 16⟩
        = some true
      ∧ mapGet [(⟨16, 15⟩, true), (⟨15, 16⟩, true), ((⟨0, 1⟩ : conversionPair), false)] ⟨16, 15⟩
        = some true
      ∧ mapGet [(⟨16, 15⟩, true), (⟨15, 16⟩, true), ((⟨0, 1⟩ : conversionPair), false)] ⟨0, 1⟩
        = some false :=
  have run := (Equal_caches_result [(⟨0, 1⟩, false)] exampleUniverse 15 16 (by decide)
    (by decide) (by decide)).1 true
    [(⟨16, 15⟩, true), (⟨15, 16⟩, true), (⟨0, 1⟩, false)] (by decide)
  ⟨run.1, run.2.1, run.2.2 ⟨0, 1⟩ false (by decide)⟩

/-! ## Memory equivalence by kind -/

theorem Equal_of_miss (e : equalMemoryTypes) (h : Heap) (a b : TypePtr) (hab : a ≠ b)
    (h1 : mapGet e ⟨a, b⟩ = none) (h2 : mapGet e ⟨b, a⟩ = none) :
    (e.Equal h a b).map (fun r => r.1)
      = (equal (cachingEqual h h.length) h a b ⟨e, []⟩).map (fun r => r.1) := by
  unfold equalMemoryTypes.Equal
  simp only [cachingEqual, hab, if_false, h1, h2]
  cases equal (cachingEqual h h.length) h a b ⟨e, []⟩ with
  | error x => rfl
  | ok r => rfl

/-- C12: for two types that unwrap to distinct builtin types, with no cache
entry under either ordering, `Equal` returns, and what it returns is whether
the two primitive names are equal. -/
theorem Equal_builtins (e : equalMemoryTypes) (h : Heap) (a b in_ out : TypePtr)
    (ha : unwrapAlias h a = .ok in_) (hb : unwrapAlias h b = .ok out) (hne : in_ ≠ out)
    (hki : (deref h in_).Kind = .Builtin) (hko : (deref h out).Kind = .Builtin)
    (h1 : mapGet e ⟨a, b⟩ = none) (h2 : mapGet e ⟨b, a⟩ = none) :
    (e.Equal h a b).map (fun r => r.1)
      = .ok (decide ((deref h in_).Name.Name = (deref h out).Name.Name)) := by
  have hab : a ≠ b := by
    intro hab; subst hab; rw [ha] at hb; cases hb; exact hne rfl
  rw [Equal_of_miss e h a b hab h1 h2]
  simp [equal, ha, hb, hne, hki, hko, Except.map]

/-- Witness of C12: `int` against `int64`. -/
theorem Equal_builtins_witness :
    (equalMemoryTypes.Equal [] exampleUniverse types.Int types.Int64).map (fun r => r.1)
      = .ok false :=
  Equal_builtins [] exampleUniverse types.Int types.Int64 types.Int types.Int64 (by decide)
    (by decide) (by decide) (by decide) (by decide) (by decide) (by decide)

/-- C13, as amended: for two types that unwrap to distinct interface types,
with no cache entry under either ordering, `Equal` returns `false`, whatever
methods the two sides declare: an interface is memory-equivalent to the
identical interface type only. -/
theorem Equal_interfaces (e : equalMemoryTypes) (h : Heap) (a b in_ out : TypePtr)
    (ha : unwrapAlias h a = .ok in_) (hb : unwrapAlias h b = .ok out) (hne : in_ ≠ out)
    (hki : (deref h in_).Kind = .Interface) (hko : (deref h out).Kind = .Interface)
    (h1 : mapGet e ⟨a, b⟩ = none) (h2 : mapGet e ⟨b, a⟩ = none) :
    (e.Equal h a b).map (fun r => r.1) = .ok false := by
  have hab : a ≠ b := by
    intro hab; subst hab; rw [ha] at hb; cases hb; exact hne rfl
  rw [Equal_of_miss e h a b hab h1 h2]
  simp [equal, ha, hb, hne, hki, hko, Except.map]

/-- Witness of the amended C13: `v1.Any` against `internal.Any`. -/
theorem Equal_interfaces_witness :
    (equalMemoryTypes.Equal [] exampleUniverse 37 38).map (fun r => r.1) = .ok false :=
  Equal_interfaces [] exampleUniverse 37 38 37 38 (by decide) (by decide) (by decide)
    (by decide) (by decide) (by decide) (by decide)

/-- Counterexample to C13 as stated: `v1.Any` and `internal.Any` are distinct
interfaces that both declare zero methods, and `Equal` from an empty cache
reports them not equivalent. -/
theorem Equal_interfaces_counterexample :
    (deref exampleUniverse 37).Kind = .Interface ∧ (deref exampleUniverse 38).Kind = .Interface
      ∧ (deref exampleUniverse 37).Methods.length = 0
      ∧ (deref exampleUniverse 38).Methods.length = 0
      ∧ (equalMemoryTypes.Equal [] exampleUniverse 37 38).map (fun r => r.1) = .ok false := by
  decide

/-- C14: the self-referential `v1.Node{Next *v1.Node}` and
`internal.Ring{Next *internal.Link}`, where `internal.Link{Next *internal.Ring;
Extra int}` refers back to `internal.Ring`, differ in layout under the
structural definition (a `Node` is met with a `Link`, of one and two members),
yet `Equal` from an empty cache reports them equal. When the pair
`(v1.Node, internal.Link)` is reached, `v1.Node` is in the visited set and
`equal` answers `true` without comparing (it does so even when it has no way
to recurse); compared on their own the two are reported unequal. -/
theorem Equal_masks_divergence :
    (deref exampleUniverse 32).Kind = .Struct
      ∧ (deref exampleUniverse 32).Members.map (fun m => m.Type_) = [33]
      ∧ (deref exampleUniverse 33).Kind = .Pointer ∧ (deref exampleUniverse 33).Elem = 32
      ∧ (deref exampleUniverse 39).Members.map (fun m => m.Type_) = [40]
      ∧ (deref exampleUniverse 40).Elem = 41
      ∧ (deref exampleUniverse 41).Members.map (fun m => m.Type_) = [42, types.Int]
      ∧ (deref exampleUniverse 42).Elem = 39
      ∧ specLayoutDiffers exampleUniverse 3 32 39 = true
      ∧ (equalMemoryTypes.Equal [] exampleUniverse 32 39).map (fun r => r.1) = .ok true
      ∧ equal (cachingEqual exampleUniverse 0) exampleUniverse 32 41 ⟨[], [33, 32]⟩
          = .ok (true, ⟨[], [33, 32]⟩)
      ∧ (equalMemoryTypes.Equal [] exampleUniverse 32 41).map (fun r => r.1) = .ok false := by
  decide

/-! ## Renamed members -/

theorem findMember_pred (m om : types.Member) :
    (memberNames m).any (fun name =>
        decide (om.Name = name)
          || (extractRenameTags om.CommentLines).any (fun memberName => decide (memberName = name)))
      = namesMeet m om := by
  rw [Bool.eq_iff_iff]
  simp only [namesMeet, memberNames, List.any_eq_true, Bool.or_eq_true, decide_eq_true_eq,
    List.mem_cons]
  constructor
  · rintro ⟨name, hname, h | ⟨t, ht, hte⟩⟩
    · exact ⟨om.Name, Or.inl rfl, by rw [h]; exact hname⟩
    · exact ⟨t, Or.inr ht, by rw [hte]; exact hname⟩
  · rintro ⟨x, hx | hx, hm⟩
    · exact ⟨x, hm, Or.inl hx.symm⟩
    · exact ⟨x, hm, Or.inr ⟨x, hx, rfl⟩⟩

theorem findMember_eq_find (h : Heap) (t : TypePtr) (m : types.Member)
    (hk : (deref h t).Kind = .Struct) :
    findMember h t (memberNames m) = (deref h t).Members.find? (fun om => namesMeet m om) := by
  unfold findMember
  rw [if_neg (by rw [hk]; decide)]
  congr 1
  funext om
  exact findMember_pred m om

theorem namesMeet_symm (m om : types.Member) : namesMeet m om = namesMeet om m := by
  rw [Bool.eq_iff_iff]
  simp only [namesMeet, List.any_eq_true, decide_eq_true_eq]
  constructor <;> rintro ⟨x, h1, h2⟩ <;> exact ⟨x, h2, h1⟩

/-- C20: for an input member `m` and an output struct, `findMember`, called as
`doStruct` calls it, finds a member if and only if the own name or a rename
tag of some output member equals the name or a rename tag of `m`; what it
finds is the first such output member in declaration order; an output member
with the name of `m` always qualifies, whatever the rename tags; the relation
is the same read from either side, so the member found for `m` finds a member
of the input struct in the opposite direction; and a member that is not opted
out and meets no output member is the one `doStruct` warns about and records. -/
theorem findMember_renames (h : Heap) (inType outType : TypePtr) (m : types.Member)
    (hk : (deref h outType).Kind = .Struct) :
    ((findMember h outType (memberNames m)).isSome = true
        ↔ ∃ om ∈ (deref h outType).Members, namesMeet m om = true)
      ∧ findMember h outType (memberNames m)
          = (deref h outType).Members.find? (fun om => namesMeet m om)
      ∧ (∀ om, om.Name = m.Name → namesMeet m om = true)
      ∧ (∀ om, namesMeet m om = namesMeet om m)
      ∧ (∀ om, findMember h outType (memberNames m) = some om →
          (deref h inType).Kind = .Struct → m ∈ (deref h inType).Members →
          (findMember h inType (memberNames om)).isSome = true)
      ∧ (∀ (gf : Synth) (s : GenState), s.heap = h →
          (extractTag m.CommentLines).head? ≠ some "false" →
          (¬ ∃ om ∈ (deref h outType).Members, namesMeet m om = true) →
          doStructMember gf inType outType m s
            = .ok ([Snippet.warnNoPeer m.Name], s.appendSkipped inType m.Name)) := by
  have hfind := findMember_eq_find h outType m hk
  have hsome : (findMember h outType (memberNames m)).isSome = true
      ↔ ∃ om ∈ (deref h outType).Members, namesMeet m om = true := by
    rw [hfind, List.find?_isSome]
  refine ⟨hsome, hfind, ?_, namesMeet_symm m, ?_, ?_⟩
  · intro om hname
    simp only [namesMeet, memberNames, List.any_eq_true, decide_eq_true_eq, List.mem_cons]
    exact ⟨om.Name, Or.inl rfl, Or.inl hname⟩
  · intro om hfound hki hmem
    rw [findMember_eq_find h inType om hki, List.find?_isSome]
    rw [hfind] at hfound
    have := List.find?_some hfound
    exact ⟨m, hmem, by rw [namesMeet_symm]; exact this⟩
  · intro gf s hs hopt hnone
    have hn : findMember h outType (memberNames m) = none := by
      cases hf : findMember h outType (memberNames m) with
      | none => rfl
      | some om => exact absurd (hsome.1 (by rw [hf]; rfl)) hnone
    unfold doStructMember
    rw [if_neg hopt, hs]
    unfold memberNames at hn
    rw [hn]

/-- Witness of C20: `Source{Name}` with rename `FullName` against
`Dest{FullName}` (cells 43 and 44): a member is found in both directions. -/
theorem findMember_renames_witness :
    (findMember exampleUniverse 44
        (memberNames (fieldWith "Name" types.String [(renameTagName, "FullName")]))).isSome = true
      ∧ (findMember exampleUniverse 43 (memberNames (field "FullName" types.String))).isSome
        = true :=
  ⟨(findMember_renames exampleUniverse 43 44
      (fieldWith "Name" types.String [(renameTagName, "FullName")]) (by decide)).1.2
      ⟨field "FullName" types.String, by decide, by decide⟩,
    (findMember_renames exampleUniverse 43 44
      (fieldWith "Name" types.String [(renameTagName, "FullName")]) (by decide)).2.2.2.2.1
      (field "FullName" types.String) (by decide) (by decide) (by decide)⟩

/-! ## Struct synthesis -/

theorem forEachMember_cons (step : types.Member → GenState → Run (List Snippet × GenState))
    (m : types.Member) (ms : List types.Member) (s s1 : GenState) (code1 : List Snippet)
    (h1 : step m s = .ok (code1, s1)) :
    forEachMember step (m :: ms) s
      = (forEachMember step ms s1).map (fun r => (code1 ++ r.1, r.2)) := by
  simp only [forEachMember, h1]
  cases forEachMember step ms s1 with
  | error x => rfl
  | ok r => rfl

theorem doStruct_of_synthesis (gf : Synth) (inType outType : TypePtr) :
    ∀ (ms : List types.Member) (s : GenState) (code : List Snippet) (s2 : GenState),
      StructSynthesis gf inType outType ms s code s2 →
      forEachMember (doStructMember gf inType outType) ms s = .ok (code, s2) := by
  intro ms s code s2 hrel
  induction hrel with
  | done s => rfl
  | optedOut m ms s s2 code opted _ ih =>
    rw [forEachMember_cons _ m ms s s [Snippet.infoOptedOut m.Name]
      (by simp [doStructMember, opted]), ih]
    rfl
  | noPeer m ms s s2 code notOpted missing _ ih =>
    rw [forEachMember_cons _ m ms s (s.appendSkipped inType m.Name) [Snippet.warnNoPeer m.Name]
      (by simp [doStructMember, notOpted, missing]), ih]
    rfl
  | dropped m om function ms s s2 code notOpted found registered drop _ ih =>
    rw [forEachMember_cons _ m ms s s []
      (by simp [doStructMember, notOpted, found, registered, drop]), ih]
    rfl
  | converted m om ms s s1 s2 body code notOpted found notDropped member _ ih =>
    have hstep : doStructMember gf inType outType m s
        = .ok ([Snippet.ifTrue, Snippet.scopeMember m.Name om.Name] ++ body ++ [Snippet.close],
            s1) := by
      unfold doStructMember
      rw [if_neg notOpted, found]
      simp only
      cases hp : s.g.preexists m.Type_ om.Type_ with
      | none => simp [member]
      | some function => simp [notDropped function hp, member]
    rw [forEachMember_cons _ m ms s s1 _ hstep, ih]
    rfl

theorem synthesis_of_doStruct (gf : Synth) (inType outType : TypePtr) :
    ∀ (ms : List types.Member) (s : GenState) (code : List Snippet) (s2 : GenState),
      forEachMember (doStructMember gf inType outType) ms s = .ok (code, s2) →
      StructSynthesis gf inType outType ms s code s2 := by
  intro ms
  induction ms with
  | nil =>
    intro s code s2 hrun
    simp only [forEachMember, Except.ok.injEq, Prod.mk.injEq] at hrun
    obtain ⟨rfl, rfl⟩ := hrun
    exact .done s
  | cons m ms ih =>
    intro s code s2 hrun
    simp only [forEachMember] at hrun
    split at hrun
    · cases hrun
    · next code1 sA hstep =>
      split at hrun
      · cases hrun
      · next code2 sB hrest =>
        simp only [Except.ok.injEq, Prod.mk.injEq] at hrun
        obtain ⟨rfl, rfl⟩ := hrun
        have hrel := ih sA code2 sB hrest
        unfold doStructMember at hstep
        split at hstep
        · next opted =>
          simp only [Except.ok.injEq, Prod.mk.injEq] at hstep
          obtain ⟨rfl, rfl⟩ := hstep
          exact .optedOut m ms s sB code2 opted hrel
        · next notOpted =>
          split at hstep
          · next missing =>
            simp only [Except.ok.injEq, Prod.mk.injEq] at hstep
            obtain ⟨rfl, rfl⟩ := hstep
            exact .noPeer m ms _ sB code2 notOpted missing hrel
          · next om found =>
            split at hstep
            · next hdrop =>
              simp only [Except.ok.injEq, Prod.mk.injEq] at hstep
              obtain ⟨rfl, rfl⟩ := hstep
              cases hp : s.g.preexists m.Type_ om.Type_ with
              | none => rw [hp] at hdrop; simp at hdrop
              | some function =>
                rw [hp] at hdrop
                simpa using StructSynthesis.dropped m om function ms s sB code2 notOpted found hp
                  hdrop hrel
            · next hkeep =>
              split at hstep
              · cases hstep
              · next body sC hmember =>
                simp only [Except.ok.injEq, Prod.mk.injEq] at hstep
                obtain ⟨rfl, rfl⟩ := hstep
                refine .converted m om ms s sC sB body code2 notOpted found ?_ hmember hrel
                intro function hp
                rw [hp] at hkeep
                simpa using hkeep

/-- C17: `doStruct` returns a code and a state exactly when they are those of
the member-by-member synthesis of the specification: in declaration order, a
note for an opted-out member, a warning for a member without matching output
member, nothing for a member whose type pair has a registered manual
conversion flagged drop, and for every other member, and only for those, the
conversion synthesized with the shortcut enabled inside the scope
`in, out := &in.<member>, &out.<matched member>`. -/
theorem doStruct_iff_synthesis (gf : Synth) (inType outType : TypePtr) (s s2 : GenState)
    (code : List Snippet) :
    genConversion.doStruct gf inType outType s = .ok (code, s2)
      ↔ StructSynthesis gf inType outType (deref s.heap inType).Members s code s2 :=
  ⟨synthesis_of_doStruct gf inType outType _ s code s2,
    doStruct_of_synthesis gf inType outType _ s code s2⟩

/-- Witness of C17: `v1.Mixed` against `internal.Mixed` with the manual
function of cell 57, flagged drop, registered for `(v1.X, internal.Y)`: `Keep`
is converted, `Hidden` is opted out, `Gone` has no peer, `Dropped` is dropped. -/
theorem doStruct_iff_synthesis_witness :
    StructSynthesis (genConversion.generateFor 2 1) 55 56 (deref exampleUniverse 55).Members
      (exampleState [(⟨22, 23⟩, 57)] .noEquality)
      [Snippet.ifTrue, Snippet.scopeMember "Keep" "Keep", Snippet.assign, Snippet.close,
        Snippet.infoOptedOut "Hidden", Snippet.warnNoPeer "Gone"]
      ((exampleState [(⟨22, 23⟩, 57)] .noEquality).appendSkipped 55 "Gone") :=
  (doStruct_iff_synthesis (genConversion.generateFor 2 1) 55 56
    (exampleState [(⟨22, 23⟩, 57)] .noEquality)
    ((exampleState [(⟨22, 23⟩, 57)] .noEquality).appendSkipped 55 "Gone")
    [Snippet.ifTrue, Snippet.scopeMember "Keep" "Keep", Snippet.assign, Snippet.close,
      Snippet.infoOptedOut "Hidden", Snippet.warnNoPeer "Gone"]).1 (by decide)

/-! ## Nil guards of maps and slices -/

theorem braceDepth_append (a b : List Snippet) :
    ∀ d, braceDepth d (a ++ b) = (braceDepth d a).bind (fun d1 => braceDepth d1 b) := by
  induction a with
  | nil => intro d; rfl
  | cons sn a ih =>
    intro d
    simp only [List.cons_append, braceDepth]
    split
    · cases d with
      | zero => rfl
      | succ d1 => exact ih _
    · exact ih _

theorem bracesMatch_append (a b : List Snippet) (ha : bracesMatch a) (hb : bracesMatch b) :
    bracesMatch (a ++ b) := by
  intro d
  rw [braceDepth_append, ha d]
  exact hb d

theorem bracesMatch_nil : bracesMatch [] := fun _ => rfl

theorem doMap_matched (gf : Synth) (hgf : gf.Matched) (i o : TypePtr) (s : GenState)
    (code : List Snippet) (s1 : GenState)
    (hrun : genConversion.doMap gf i o s = .ok (code, s1)) :
    ∃ body, code = [Snippet.ifInNil, Snippet.outNil, Snippet.orElse, Snippet.makeOut o]
        ++ body ++ [Snippet.close] ∧ bracesMatch body := by
  unfold genConversion.doMap at hrun
  split at hrun
  · cases hrun
  · next keyCode sA hk =>
    have ck := hgf _ _ _ _ _ _ hk
    split at hrun
    · cases hrun
    · next valCode sB hv =>
      have cv := hgf _ _ _ _ _ _ hv
      simp only [Except.ok.injEq, Prod.mk.injEq] at hrun
      obtain ⟨rfl, rfl⟩ := hrun
      refine ⟨[Snippet.forKeyVal, Snippet.newOutKey (deref s.heap o).Key, Snippet.ifTrue,
          Snippet.scopeKey] ++ keyCode ++ [Snippet.close,
          Snippet.newOutVal (deref sA.heap o).Elem, Snippet.ifTrue, Snippet.scopeVal]
          ++ valCode ++ [Snippet.close, Snippet.insertKeyVal, Snippet.close], ?_, ?_⟩
      · simp
      · intro d
        simp [braceDepth_append, braceDepth, Template.opens, Template.closes, ck _, cv _]

theorem doSlice_matched (gf : Synth) (hgf : gf.Matched) (i o : TypePtr) (s : GenState)
    (code : List Snippet) (s1 : GenState)
    (hrun : genConversion.doSlice gf i o s = .ok (code, s1)) :
    ∃ body, code = [Snippet.ifInNil, Snippet.outNil, Snippet.orElse, Snippet.makeOut o]
        ++ body ++ [Snippet.close] ∧ bracesMatch body := by
  unfold genConversion.doSlice at hrun
  split at hrun
  · simp only [Except.ok.injEq, Prod.mk.injEq] at hrun
    obtain ⟨rfl, rfl⟩ := hrun
    exact ⟨[Snippet.copyAll], by simp, fun d => by
      simp [braceDepth, Template.opens, Template.closes]⟩
  · split at hrun
    · cases hrun
    · next elemCode sA he =>
      have ce := hgf _ _ _ _ _ _ he
      simp only [Except.ok.injEq, Prod.mk.injEq] at hrun
      obtain ⟨rfl, rfl⟩ := hrun
      refine ⟨[Snippet.forIndex, Snippet.scopeIndex] ++ elemCode ++ [Snippet.close], by simp, ?_⟩
      intro d
      simp [braceDepth_append, braceDepth, Template.opens, Template.closes, ce _]

theorem nilGuard_matched (o : TypePtr) (body : List Snippet) (hb : bracesMatch body) :
    bracesMatch ([Snippet.ifInNil, Snippet.outNil, Snippet.orElse, Snippet.makeOut o]
      ++ body ++ [Snippet.close]) := by
  intro d
  simp [braceDepth_append, braceDepth, Template.opens, Template.closes, hb _]

theorem doPointer_matched (gf : Synth) (hgf : gf.Matched) (i o : TypePtr) (s : GenState)
    (code : List Snippet) (s1 : GenState)
    (hrun : genConversion.doPointer gf i o s = .ok (code, s1)) : bracesMatch code := by
  unfold genConversion.doPointer at hrun
  split at hrun
  · cases hrun
  · next elemCode sA he =>
    have ce := hgf _ _ _ _ _ _ he
    simp only [Except.ok.injEq, Prod.mk.injEq] at hrun
    obtain ⟨rfl, rfl⟩ := hrun
    intro d
    simp [braceDepth_append, braceDepth, Template.opens, Template.closes, ce _]

theorem forEachMember_matched (step : types.Member → GenState → Run (List Snippet × GenState))
    (hstep : ∀ m s code s1, step m s = .ok (code, s1) → bracesMatch code) :
    ∀ (ms : List types.Member) (s : GenState) (code : List Snippet) (s1 : GenState),
      forEachMember step ms s = .ok (code, s1) → bracesMatch code := by
  intro ms
  induction ms with
  | nil =>
    intro s code s1 hrun
    simp only [forEachMember, Except.ok.injEq, Prod.mk.injEq] at hrun
    rw [← hrun.1]; exact bracesMatch_nil
  | cons m ms ih =>
    intro s code s1 hrun
    simp only [forEachMember] at hrun
    split at hrun
    · cases hrun
    · next code1 sA h1 =>
      split at hrun
      · cases hrun
      · next code2 sB h2 =>
        simp only [Except.ok.injEq, Prod.mk.injEq] at hrun
        rw [← hrun.1]
        exact bracesMatch_append _ _ (hstep _ _ _ _ h1) (ih _ _ _ h2)

theorem doStructMember_matched (gf : Synth) (hgf : gf.Matched) (i o : TypePtr)
    (m : types.Member) (s : GenState) (code : List Snippet) (s1 : GenState)
    (hrun : doStructMember gf i o m s = .ok (code, s1)) : bracesMatch code := by
  unfold doStructMember at hrun
  split at hrun
  · simp only [Except.ok.injEq, Prod.mk.injEq] at hrun
    rw [← hrun.1]; intro d; simp [braceDepth, Template.opens, Template.closes]
  · split at hrun
    · simp only [Except.ok.injEq, Prod.mk.injEq] at hrun
      rw [← hrun.1]; intro d; simp [braceDepth, Template.opens, Template.closes]
    · split at hrun
      · simp only [Except.ok.injEq, Prod.mk.injEq] at hrun
        rw [← hrun.1]; exact bracesMatch_nil
      · split at hrun
        · cases hrun
        · next mcode sA hm =>
          have cm := hgf _ _ _ _ _ _ hm
          simp only [Except.ok.injEq, Prod.mk.injEq] at hrun
          rw [← hrun.1]
          intro d
          simp [braceDepth_append, braceDepth, Template.opens, Template.closes, cm _]

theorem doCompileError_matched (g : genConversion) (h : Heap) (i o : TypePtr) :
    bracesMatch (g.doCompileErrorOnMissingConversion h i o) := by
  have key : ∀ (code : List Snippet), (∀ sn ∈ code, sn.isMarker = true) → bracesMatch code := by
    intro code
    induction code with
    | nil => intro _; exact bracesMatch_nil
    | cons sn code ih =>
      intro hall d
      have hsn := hall sn (List.mem_cons_self _ _)
      have hrest := ih (fun x hx => hall x (List.mem_cons_of_mem _ hx))
      unfold Snippet.isMarker at hsn
      simp only [decide_eq_true_eq, List.mem_cons, List.mem_singleton, List.not_mem_nil,
        or_false] at hsn
      rcases hsn with hsn | hsn | hsn | hsn | hsn <;>
        simp [braceDepth, Template.opens, Template.closes, hsn, hrest _]
  exact key _ (doCompileError_isMarker g h i o)

theorem generateForBody_matched (cf : Nat) (gf : Synth) (hgf : gf.Matched) :
    Synth.Matched (generateForBody cf gf) := by
  intro i o f s code s1 hrun
  unfold generateForBody at hrun
  split at hrun
  · cases hrun
  · split at hrun
    · cases hrun
    · split at hrun
      · cases hrun
      · next c sA hfirst =>
        simp only [Except.ok.injEq, Prod.mk.injEq] at hrun
        obtain ⟨rfl, rfl⟩ := hrun
        unfold existingFunction at hfirst
        intro d
        (repeat' split at hfirst) <;> cases hfirst <;>
          simp [braceDepth, Template.opens, Template.closes]
      · next sA hfirst =>
        split at hrun
        · cases hrun
        · next c sB hcast =>
          simp only [Except.ok.injEq, Prod.mk.injEq] at hrun
          obtain ⟨rfl, rfl⟩ := hrun
          unfold castStrategy at hcast
          intro d
          (repeat' split at hcast) <;> cases hcast <;>
            simp [braceDepth, Template.opens, Template.closes]
        · next sB hcast =>
          unfold laterStrategies at hrun
          split at hrun
          · simp only [Except.ok.injEq, Prod.mk.injEq] at hrun
            rw [← hrun.1]; intro d; simp [braceDepth, Template.opens, Template.closes]
          · split at hrun
            · cases hrun
            · simp only [Except.ok.injEq, Prod.mk.injEq] at hrun
              rw [← hrun.1]; intro d; simp [braceDepth, Template.opens, Template.closes]
            · split at hrun
              · split at hrun
                · obtain ⟨body, rfl, hb⟩ := doMap_matched gf hgf _ _ _ _ _ hrun
                  exact nilGuard_matched _ body hb
                · obtain ⟨body, rfl, hb⟩ := doSlice_matched gf hgf _ _ _ _ _ hrun
                  exact nilGuard_matched _ body hb
                · exact forEachMember_matched _
                    (fun m s code s1 h => doStructMember_matched gf hgf _ _ m s code s1 h)
                    _ _ _ _ hrun
                · exact doPointer_matched gf hgf _ _ _ _ _ hrun
                · simp only [Except.ok.injEq, Prod.mk.injEq] at hrun
                  rw [← hrun.1]; exact doCompileError_matched _ _ _ _
              · simp only [Except.ok.injEq, Prod.mk.injEq] at hrun
                rw [← hrun.1]; exact doCompileError_matched _ _ _ _

theorem generateFor_matched (cf : Nat) :
    ∀ fuel : Nat, Synth.Matched (genConversion.generateFor cf fuel) := by
  intro fuel
  induction fuel with
  | zero =>
    intro i o f s code s1 hrun
    simp [genConversion.generateFor] at hrun
  | succ n ih =>
    intro i o f s code s1 hrun
    exact generateForBody_matched cf _ ih i o f s code s1 hrun

/-- C16: the code `doMap` and `doSlice` return, called as `generateFor` calls
them, is a nil guard: `if *in == nil {`, then `*out = nil` alone, then
`} else {`, then the allocation `*out = make(T, len(*in))` of the output
container, then a body whose braces match, then the `}` that closes the else
branch. The nil branch holds the assignment of nil and no allocation; the
allocation stands in the else branch. -/
theorem composite_nil_guard (cf fuel : Nat) (inType outType : TypePtr) (s s1 : GenState)
    (code : List Snippet) :
    (genConversion.doMap (genConversion.generateFor cf fuel) inType outType s = .ok (code, s1) →
        ∃ body, code = [Snippet.ifInNil, Snippet.outNil, Snippet.orElse,
            Snippet.makeOut outType] ++ body ++ [Snippet.close] ∧ bracesMatch body)
      ∧ (genConversion.doSlice (genConversion.generateFor cf fuel) inType outType s
            = .ok (code, s1) →
        ∃ body, code = [Snippet.ifInNil, Snippet.outNil, Snippet.orElse,
            Snippet.makeOut outType] ++ body ++ [Snippet.close] ∧ bracesMatch body) :=
  ⟨doMap_matched _ (generateFor_matched cf fuel) inType outType s code s1,
    doSlice_matched _ (generateFor_matched cf fuel) inType outType s code s1⟩

/-- Witness of C16: `map[string]v1.Source -> map[string]internal.Dest` and
`[]v1.Source -> []internal.Dest`. -/
theorem composite_nil_guard_witness :
    (∃ body, [Snippet.ifInNil, Snippet.outNil, Snippet.orElse, Snippet.makeOut 30,
          Snippet.forKeyVal, Snippet.newOutKey 0, Snippet.ifTrue, Snippet.scopeKey,
          Snippet.assign, Snippet.close, Snippet.newOutVal 16, Snippet.ifTrue, Snippet.scopeVal,
          Snippet.callNamed 15 16, Snippet.returnErr, Snippet.close, Snippet.close,
          Snippet.insertKeyVal, Snippet.close, Snippet.close]
        = [Snippet.ifInNil, Snippet.outNil, Snippet.orElse, Snippet.makeOut 30] ++ body
          ++ [Snippet.close] ∧ bracesMatch body)
      ∧ ∃ body, [Snippet.ifInNil, Snippet.outNil, Snippet.orElse, Snippet.makeOut 54,
          Snippet.forIndex, Snippet.scopeIndex, Snippet.callNamed 15 16, Snippet.returnErr,
          Snippet.close, Snippet.close, Snippet.close]
        = [Snippet.ifInNil, Snippet.outNil, Snippet.orElse, Snippet.makeOut 54] ++ body
          ++ [Snippet.close] ∧ bracesMatch body :=
  ⟨(composite_nil_guard 2 1 29 30 (exampleState [] .noEquality) (exampleState [] .noEquality)
      _).1 (by decide),
    (composite_nil_guard 2 1 53 54 (exampleState [] .noEquality) (exampleState [] .noEquality)
      _).2 (by decide)⟩

/-! ## The skipped-field record -/

theorem deref_of_extension (h h1 : Heap) (p : TypePtr) (hpre : h <+: h1) (hp : p < h.length) :
    deref h1 p = deref h p := by
  obtain ⟨extra, rfl⟩ := hpre
  unfold deref
  rw [List.getD_append _ _ _ _ hp]

theorem resolveAlias_extends (h h1 : Heap) (t r : TypePtr)
    (hr : resolveAlias h t = .ok (r, h1)) : h <+: h1 := by
  unfold resolveAlias at hr
  split at hr
  · cases hr
  · split at hr
    · simp only [alloc, Except.ok.injEq, Prod.mk.injEq] at hr
      rw [← hr.2]
      exact List.prefix_append _ _
    · simp only [Except.ok.injEq, Prod.mk.injEq] at hr
      rw [← hr.2]

theorem existingFunction_heap (cf : Nat) (i o iR oR : TypePtr) (f : Bool) (s : GenState)
    (r : Option (List Snippet)) (s1 : GenState)
    (hrun : existingFunction cf i o iR oR f s = .ok (r, s1)) :
    s1.heap = s.heap ∧ s1.g.skippedFields = s.g.skippedFields := by
  unfold existingFunction at hrun
  (repeat' split at hrun) <;> cases hrun <;> exact ⟨rfl, rfl⟩

theorem castStrategy_heap (i o iR oR : TypePtr) (s : GenState)
    (r : Option (List Snippet)) (s1 : GenState)
    (hrun : castStrategy i o iR oR s = .ok (r, s1)) :
    s1.heap = s.heap ∧ s1.g.skippedFields = s.g.skippedFields := by
  unfold castStrategy at hrun
  (repeat' split at hrun) <;> cases hrun <;> exact ⟨rfl, rfl⟩

theorem forEachMember_grows (step : types.Member → GenState → Run (List Snippet × GenState))
    (hstep : ∀ m s code s1, step m s = .ok (code, s1) → s.heap <+: s1.heap) :
    ∀ (ms : List types.Member) (s : GenState) (code : List Snippet) (s1 : GenState),
      forEachMember step ms s = .ok (code, s1) → s.heap <+: s1.heap := by
  intro ms
  induction ms with
  | nil =>
    intro s code s1 hrun
    simp only [forEachMember, Except.ok.injEq, Prod.mk.injEq] at hrun
    rw [← hrun.2]
  | cons m ms ih =>
    intro s code s1 hrun
    simp only [forEachMember] at hrun
    split at hrun
    · cases hrun
    · next code1 sA h1 =>
      split at hrun
      · cases hrun
      · next code2 sB h2 =>
        simp only [Except.ok.injEq, Prod.mk.injEq] at hrun
        rw [← hrun.2]
        exact (hstep _ _ _ _ h1).trans (ih _ _ _ h2)

theorem doStructMember_grows (gf : Synth) (hgf : gf.Grows) (i o : TypePtr) (m : types.Member)
    (s : GenState) (code : List Snippet) (s1 : GenState)
    (hrun : doStructMember gf i o m s = .ok (code, s1)) : s.heap <+: s1.heap := by
  unfold doStructMember at hrun
  split at hrun
  · cases hrun; exact List.prefix_refl _
  · split at hrun
    · cases hrun; exact List.prefix_refl _
    · split at hrun
      · cases hrun; exact List.prefix_refl _
      · split at hrun
        · cases hrun
        · next mcode sA hm =>
          cases hrun
          exact hgf _ _ _ _ _ _ hm

theorem laterStrategies_grows (cf : Nat) (gf : Synth) (hgf : gf.Grows) (i o iR oR : TypePtr)
    (s : GenState) (code : List Snippet) (s1 : GenState)
    (hrun : laterStrategies cf gf i o iR oR s = .ok (code, s1)) : s.heap <+: s1.heap := by
  unfold laterStrategies at hrun
  split at hrun
  · cases hrun; exact List.prefix_refl _
  · split at hrun
    · cases hrun
    · cases hrun; exact List.prefix_refl _
    · split at hrun
      · split at hrun
        · unfold genConversion.doMap at hrun
          split at hrun
          · cases hrun
          · next kc sA hk =>
            split at hrun
            · cases hrun
            · next vc sB hv =>
              cases hrun
              exact (hgf _ _ _ _ _ _ hk).trans (hgf _ _ _ _ _ _ hv)
        · unfold genConversion.doSlice at hrun
          split at hrun
          · cases hrun; exact List.prefix_refl _
          · split at hrun
            · cases hrun
            · next ec sA he =>
              cases hrun
              exact hgf _ _ _ _ _ _ he
        · exact forEachMember_grows _
            (fun m s code s1 h => doStructMember_grows gf hgf _ _ m s code s1 h) _ _ _ _ hrun
        · unfold genConversion.doPointer at hrun
          split at hrun
          · cases hrun
          · next ec sA he =>
            cases hrun
            exact hgf _ _ _ _ _ _ he
        · cases hrun; exact List.prefix_refl _
      · cases hrun; exact List.prefix_refl _

theorem generateForBody_grows (cf : Nat) (gf : Synth) (hgf : gf.Grows) :
    Synth.Grows (generateForBody cf gf) := by
  intro i o f s code s1 hrun
  unfold generateForBody at hrun
  split at hrun
  · cases hrun
  · next iR hA hin =>
    split at hrun
    · cases hrun
    · next oR hB hout =>
      have hpre : s.heap <+: hB := (resolveAlias_extends _ _ _ _ hin).trans
        (resolveAlias_extends _ _ _ _ hout)
      split at hrun
      · cases hrun
      · next c sA hfirst =>
        cases hrun
        rw [(existingFunction_heap _ _ _ _ _ _ _ _ _ hfirst).1]
        exact hpre
      · next sA hfirst =>
        have h1 := (existingFunction_heap _ _ _ _ _ _ _ _ _ hfirst).1
        split at hrun
        · cases hrun
        · next c sB hcast =>
          cases hrun
          rw [(castStrategy_heap _ _ _ _ _ _ _ hcast).1, h1]
          exact hpre
        · next sB hcast =>
          have h2 := (castStrategy_heap _ _ _ _ _ _ _ hcast).1
          have h3 := laterStrategies_grows cf gf hgf _ _ _ _ _ _ _ hrun
          rw [h2, h1] at h3
          exact hpre.trans h3

theorem generateFor_grows (cf : Nat) :
    ∀ fuel : Nat, Synth.Grows (genConversion.generateFor cf fuel) := by
  intro fuel
  induction fuel with
  | zero =>
    intro i o f s code s1 hrun
    simp [genConversion.generateFor] at hrun
  | succ n ih =>
    intro i o f s code s1 hrun
    exact generateForBody_grows cf _ ih i o f s code s1 hrun

theorem findMember_of_extension (h h1 : Heap) (t : TypePtr) (names : List String)
    (hpre : h <+: h1) (ht : t < h.length) : findMember h1 t names = findMember h t names := by
  unfold findMember
  rw [deref_of_extension h h1 t hpre ht]

theorem skipped_appendSkipped (s : GenState) (t : TypePtr) (name : String) :
    (s.appendSkipped t name).skipped t = s.skipped t ++ [name] := by
  simp [GenState.appendSkipped, GenState.skipped, mapGet_mapSet_self]

theorem filter_lacksPeer_congr (h h1 : Heap) (o : TypePtr) (hpre : h <+: h1)
    (ho : o < h.length) (ms : List types.Member) :
    ms.filter (lacksPeer h1 o) = ms.filter (lacksPeer h o) := by
  congr 1
  funext m
  unfold lacksPeer
  rw [findMember_of_extension h h1 o _ hpre ho]

theorem doStruct_skipped_loop (gf : Synth) (hgf : gf.Grows) (inType outType : TypePtr) :
    ∀ (ms : List types.Member) (s : GenState) (code : List Snippet) (s1 : GenState),
      outType < s.heap.length →
      forEachMember (doStructMember gf inType outType) ms s = .ok (code, s1) →
      nestedQuiet gf inType outType ms s = true →
      s1.skipped inType
        = s.skipped inType ++ (ms.filter (lacksPeer s.heap outType)).map (fun m => m.Name) := by
  intro ms
  induction ms with
  | nil =>
    intro s code s1 _ hrun _
    simp only [forEachMember, Except.ok.injEq, Prod.mk.injEq] at hrun
    rw [← hrun.2]
    simp
  | cons m ms ih =>
    intro s code s1 ho hrun hq
    simp only [forEachMember] at hrun
    split at hrun
    · cases hrun
    · next code1 sA hstep =>
      split at hrun
      · cases hrun
      · next code2 sB hrest =>
        simp only [Except.ok.injEq, Prod.mk.injEq] at hrun
        obtain ⟨_, rfl⟩ := hrun
        have hpre := doStructMember_grows gf hgf _ _ m s code1 sA hstep
        have hoA : outType < sA.heap.length :=
          lt_of_lt_of_le ho (List.IsPrefix.length_le hpre)
        unfold doStructMember at hstep
        simp only [nestedQuiet] at hq
        split at hstep
        · next opted =>
          cases hstep
          rw [if_pos opted] at hq
          rw [ih s code2 sB ho hrest hq]
          simp [List.filter, lacksPeer, opted]
        · next notOpted =>
          rw [if_neg notOpted] at hq
          split at hstep
          · next missing =>
            cases hstep
            rw [missing] at hq
            have hh : (s.appendSkipped inType m.Name).heap = s.heap := rfl
            have := ih (s.appendSkipped inType m.Name) code2 sB hoA hrest hq
            rw [this, skipped_appendSkipped, hh]
            simp [List.filter, lacksPeer, notOpted, missing]
          · next om found =>
            rw [found] at hq
            simp only at hq
            have hconv : ∀ (hq1 : (match gf m.Type_ om.Type_ true s with
                  | .error _ => true
                  | .ok (_, s1) => decide (s1.skipped inType = s.skipped inType)
                      && nestedQuiet gf inType outType ms s1) = true)
                (hstep1 : (match gf m.Type_ om.Type_ true s with
                  | .error x => (.error x : Run (List Snippet × GenState))
                  | .ok (code, s1) =>
                    .ok ([Snippet.ifTrue, Snippet.scopeMember m.Name om.Name] ++ code
                      ++ [Snippet.close], s1)) = .ok (code1, sA)),
                sB.skipped inType = s.skipped inType
                  ++ ((m :: ms).filter (lacksPeer s.heap outType)).map (fun m => m.Name) := by
              intro hq1 hstep1
              cases hmember : gf m.Type_ om.Type_ true s with
              | error x => rw [hmember] at hstep1; cases hstep1
              | ok r =>
                obtain ⟨body, sC⟩ := r
                rw [hmember] at hstep1 hq1
                cases hstep1
                simp only [Bool.and_eq_true, decide_eq_true_eq] at hq1
                rw [ih sA code2 sB hoA hrest hq1.2, hq1.1,
                  filter_lacksPeer_congr s.heap sA.heap outType hpre ho]
                simp [List.filter, lacksPeer, found]
            cases hp : s.g.preexists m.Type_ om.Type_ with
            | none =>
              simp only [hp, Bool.false_eq_true, if_false] at hq hstep
              exact hconv hq hstep
            | some function =>
              simp only [hp] at hq hstep
              by_cases hd : isDrop (deref s.heap function).CommentLines = true
              · simp only [hd, if_true] at hq hstep
                cases hstep
                rw [ih s code2 sB ho hrest hq]
                simp [List.filter, lacksPeer, found]
              · simp only [hd, if_false] at hq hstep
                exact hconv hq hstep

/-- C18, as amended: after `doStruct` for input type `T` against an output type
of the heap, in a run in which no member conversion synthesized on the way
touches the record of `T` (`nestedQuiet`), the skipped-field record of `T` is
its previous content followed by the names, in declaration order, of exactly
those input members that are not opted out and have no matching output member
by name or rename. -/
theorem doStruct_records_skipped (cf fuel : Nat) (inType outType : TypePtr) (s s1 : GenState)
    (code : List Snippet) (ho : outType < s.heap.length)
    (hrun : genConversion.doStruct (genConversion.generateFor cf fuel) inType outType s
      = .ok (code, s1))
    (hq : nestedQuiet (genConversion.generateFor cf fuel) inType outType
      (deref s.heap inType).Members s = true) :
    s1.skipped inType
      = s.skipped inType
        ++ ((deref s.heap inType).Members.filter (lacksPeer s.heap outType)).map
            (fun m => m.Name) :=
  doStruct_skipped_loop _ (generateFor_grows cf fuel) inType outType _ s code s1 ho hrun hq

/-- Witness of the amended C18: `Source{Extra string}` against `Dest{}` (cells 45
and 46) records `Extra` for the source type. -/
theorem doStruct_records_skipped_witness :
    ((exampleState [] .noEquality).appendSkipped 45 "Extra").skipped 45
        = (exampleState [] .noEquality).skipped 45
          ++ ((deref exampleUniverse 45).Members.filter (lacksPeer exampleUniverse 46)).map
              (fun m => m.Name)
      ∧ ((exampleState [] .noEquality).appendSkipped 45 "Extra").skipped 45 = ["Extra"] :=
  ⟨doStruct_records_skipped 2 1 45 46 (exampleState [] .noEquality)
      ((exampleState [] .noEquality).appendSkipped 45 "Extra") [Snippet.warnNoPeer "Extra"]
      (by decide) (by decide) (by decide), by decide⟩

/-- Counterexample to C18 as stated: struct synthesis for `other.T{Next *other.T;
Extra string}` against `other2.U{Next *other2.V}`, with `other2.V{}`, starts
from an empty record. The only member of `T` without a peer in `U` is `Extra`,
but converting `Next` synthesizes `T -> V` below the pointer, which records
`Next` and `Extra` for the same `T`: the record ends as `Next, Extra, Extra`. -/
theorem doStruct_records_skipped_counterexample :
    (exampleState [] .noEquality).skipped 48 = []
      ∧ ((deref exampleUniverse 48).Members.filter (lacksPeer exampleUniverse 50)).map
          (fun m => m.Name) = ["Extra"]
      ∧ (genConversion.doStruct (genConversion.generateFor 2 5) 48 50
          (exampleState [] .noEquality)).map (fun r => r.2.skipped 48)
        = .ok ["Next", "Extra", "Extra"] := by
  decide

/-! ## The public wrapper -/

/-- C19, the code at the failing input: for the alias `v1.LooseAlias` of
`v1.Loose{Extra string}` against `internal.Loose{}`, with no manual conversion
registered, `generateConversion` skips `Extra` for lack of a peer and still
emits the public wrapper: the skipped field is recorded under the copy that
`generateFor` made of the alias (cell 58), and the record of the alias itself,
which `generateConversion` reads, stays empty. For `v1.Loose` itself the
wrapper is left out. -/
theorem generateConversion_alias_keeps_wrapper :
    (genConversion.generateConversion 2 2 47 46 (exampleState [] .noEquality)).map
        (fun r => (r.1, r.2.skipped 47, r.2.skipped 58))
      = .ok ([Snippet.funcAuto 47 46, Snippet.warnNoPeer "Extra", Snippet.returnNil,
          Snippet.closeFunc, Snippet.commentPublic 47 46, Snippet.funcPublic 47 46,
          Snippet.returnAuto 47 46, Snippet.closeFunc], [], ["Extra"])
      ∧ (genConversion.generateConversion 2 2 45 46 (exampleState [] .noEquality)).map
          (fun r => (r.1, r.2.skipped 45))
        = .ok ([Snippet.funcAuto 45 46, Snippet.warnNoPeer "Extra", Snippet.returnNil,
            Snippet.closeFunc], ["Extra"]) := by
  decide

/-! ## The criteria of the pair selector -/

theorem unwrapAliasLoop_error (h : Heap) : ∀ (n : Nat) (p : TypePtr) (x : Abort),
    unwrapAliasLoop h n p = .error x → x = .diverges := by
  intro n
  induction n with
  | zero => intro p x hx; simp [unwrapAliasLoop] at hx; exact hx.symm
  | succ n ih =>
    intro p x hx
    unfold unwrapAliasLoop at hx
    split at hx
    · exact ih _ _ hx
    · cases hx

theorem unwrapAlias_error (h : Heap) (p : TypePtr) (x : Abort)
    (hx : unwrapAlias h p = .error x) : x = .diverges :=
  unwrapAliasLoop_error h _ p x hx

theorem cowp_returns_iff (g : genConversion) (h : Heap) (inType outType : TypePtr) :
    (∀ r, g.convertibleOnlyWithinPackage h inType outType = .ok r →
        (r = true ↔ fiveCriteria g h inType outType))
      ∧ (g.convertibleOnlyWithinPackage h inType outType = .error .fatal
          ↔ unsupportedTypeTag g h inType outType)
      ∧ ((unwrapAlias h inType).isOk = true → (unwrapAlias h outType).isOk = true →
          ¬ unsupportedTypeTag g h inType outType →
          ∃ r, g.convertibleOnlyWithinPackage h inType outType = .ok r) := by
  unfold genConversion.convertibleOnlyWithinPackage fiveCriteria unsupportedTypeTag
  simp only []
  generalize ht : (if (deref h inType).Name.Package = g.typesPackage then inType else outType) = t
  generalize ho :
    (if (deref h inType).Name.Package = g.typesPackage then outType else inType) = other
  have hun : (unwrapAlias h inType).isOk = true → (unwrapAlias h outType).isOk = true →
      (unwrapAlias h t).isOk = true ∧ (unwrapAlias h other).isOk = true := by
    intro h1 h2
    by_cases hp : (deref h inType).Name.Package = g.typesPackage
    · rw [if_pos hp] at ht ho; subst ht; subst ho; exact ⟨h1, h2⟩
    · rw [if_neg hp] at ht ho; subst ht; subst ho; exact ⟨h2, h1⟩
  by_cases hpkg : (deref h t).Name.Package = g.typesPackage
  · rw [if_neg (not_not.mpr hpkg)]
    cases htag : extractTag (deref h t).CommentLines with
    | cons v rest =>
      by_cases hv : v = "false"
      · subst hv
        simp [hpkg]
      · simp [hpkg, hv]
    | nil =>
      simp only [List.head?_nil, hpkg, true_and]
      by_cases hpriv : (IsPrivateGoName (deref h t).Name.Name
          || IsPrivateGoName (deref h other).Name.Name) = true
      · rw [if_pos hpriv]
        simp only [Bool.or_eq_true] at hpriv
        refine ⟨?_, by simp, fun _ _ _ => ⟨false, rfl⟩⟩
        intro r hr
        cases hr
        simp only [Bool.false_eq_true, false_iff, not_and]
        intro _ hp
        rcases hpriv with hp1 | hp1
        · rw [hp1] at hp; exact absurd hp.1 (by decide)
        · rw [hp1] at hp; exact absurd hp.2 (by decide)
      · rw [if_neg hpriv]
        have hpriv1 : IsPrivateGoName (deref h t).Name.Name = false
            ∧ IsPrivateGoName (deref h other).Name.Name = false := by
          simpa using hpriv
        cases hut : unwrapAlias h t with
        | error x =>
          refine ⟨by simp, by simp [unwrapAlias_error h t x hut], ?_⟩
          intro h1 h2 _
          have := (hun h1 h2).1
          rw [hut] at this
          cases this
        | ok t1 =>
          cases huo : unwrapAlias h other with
          | error x =>
            refine ⟨by simp, by simp [unwrapAlias_error h other x huo], ?_⟩
            intro h1 h2 _
            have := (hun h1 h2).2
            rw [huo] at this
            cases this
          | ok other1 =>
            simp only [Except.ok.injEq, exists_and_left, exists_eq_left']
            by_cases hk : (deref h t1).Kind = (deref h other1).Kind
            · rw [if_neg (not_not.mpr hk)]
              cases hkind : (deref h t1).Kind <;>
                simp [hpriv1, hk.symm, hkind]
            · rw [if_pos hk]
              simp [hpriv1, hk]
  · rw [if_pos hpkg]
    simp [hpkg]

/-- C22: whenever `convertibleOnlyWithinPackage(in, out)` returns, it returns
true if and only if the five documented criteria hold: (1) one of the two
types is in the types package, (2) that type carries no opt-out
`conversion-gen=false`, (3) both type names are exported, (4) both types have
the same kind after alias unwrapping, and (5) that kind is Builtin, Map,
Slice, Struct or Pointer. It aborts the run (fatal) exactly when the type of
criterion (1) carries a first `conversion-gen` value other than `false`, and
it returns in every other case in which the alias chains of the two types end. -/
theorem convertibleOnlyWithinPackage_criteria (g : genConversion) (h : Heap)
    (inType outType : TypePtr) :
    (∀ r, g.convertibleOnlyWithinPackage h inType outType = .ok r →
        (r = true ↔ fiveCriteria g h inType outType))
      ∧ (g.convertibleOnlyWithinPackage h inType outType = .error .fatal
          ↔ unsupportedTypeTag g h inType outType)
      ∧ ((unwrapAlias h inType).isOk = true → (unwrapAlias h outType).isOk = true →
          ¬ unsupportedTypeTag g h inType outType →
          ∃ r, g.convertibleOnlyWithinPackage h inType outType = .ok r) :=
  cowp_returns_iff g h inType outType

/-- Witness of C22: `v1.Pod` and `internal.Pod` meet the five criteria, and
`v1.Quiet`, which carries the opt-out, does not. -/
theorem convertibleOnlyWithinPackage_criteria_witness :
    fiveCriteria (exampleGen [] .noEquality) selectorUniverse 15 16
      ∧ ¬ fiveCriteria (exampleGen [] .noEquality) selectorUniverse 19 20 :=
  ⟨((convertibleOnlyWithinPackage_criteria (exampleGen [] .noEquality) selectorUniverse
      15 16).1 true (by decide)).1 rfl,
    fun hc => Bool.noConfusion
      (((convertibleOnlyWithinPackage_criteria (exampleGen [] .noEquality) selectorUniverse
        19 20).1 false (by decide)).2 hc)⟩

/-! ## Unsupported directive values -/

theorem extractTag_withoutTag (m : types.Member) :
    extractTag (withoutTag m).CommentLines = [] := by
  simp [extractTag, withoutTag, types.ExtractCommentTags, List.filter_filter]

theorem extractRenameTags_withoutTag (m : types.Member) :
    extractRenameTags (withoutTag m).CommentLines = extractRenameTags m.CommentLines := by
  simp only [extractRenameTags, withoutTag, types.ExtractCommentTags, List.filter_filter]
  congr 1
  apply List.filter_congr
  intro d _
  by_cases hd : d.1 = renameTagName
  · have h1 : renameTagName ≠ tagName := by decide
    simp [hd, h1]
  · simp [hd]

theorem doStructMember_withoutTag (gf : Synth) (inType outType : TypePtr) (m : types.Member)
    (s : GenState) (hv : (extractTag m.CommentLines).head? ≠ some "false") :
    doStructMember gf inType outType m s = doStructMember gf inType outType (withoutTag m) s := by
  have h0 : ¬ (([] : List String).head? = some "false") := by simp
  unfold doStructMember
  rw [extractTag_withoutTag, extractRenameTags_withoutTag]
  simp only [if_neg hv, if_neg h0]
  rfl

theorem fromUrlValuesMember_withoutTag (inType : TypePtr) (m : types.Member) (s : GenState)
    (hv : (extractTag m.CommentLines).head? ≠ some "false") :
    fromUrlValuesMember inType m s = fromUrlValuesMember inType (withoutTag m) s := by
  have h0 : ¬ (([] : List String).head? = some "false") := by simp
  unfold fromUrlValuesMember
  rw [extractTag_withoutTag]
  simp only [if_neg hv, if_neg h0]
  rfl

theorem isCopyOnly_iff (comments : types.CommentLines) :
    isCopyOnly comments = true
      ↔ types.ExtractCommentTags comments conversionFnTagName = ["copy-only"] := by
  unfold isCopyOnly
  cases types.ExtractCommentTags comments conversionFnTagName with
  | nil => simp
  | cons v rest => cases rest <;> simp

theorem isDrop_iff (comments : types.CommentLines) :
    isDrop comments = true
      ↔ types.ExtractCommentTags comments conversionFnTagName = ["drop"] := by
  unfold isDrop
  cases types.ExtractCommentTags comments conversionFnTagName with
  | nil => simp
  | cons v rest => cases rest <;> simp

/-- C23, as amended: a type-level `conversion-gen` directive with a value other
than `false`, on the type of the types package that
`convertibleOnlyWithinPackage` looks at, aborts the run (fatal). A member-level
`conversion-gen` directive with a value other than `false` is ignored: struct
synthesis and adapter synthesis treat the member as they treat it without the
directive. A procedure-level `conversion-fn` directive whose values are not
exactly `copy-only` (exactly `drop`) leaves `isCopyOnly` (`isDrop`) false, as
without directive. An absent type-level directive never makes
`convertibleOnlyWithinPackage` fatal. -/
theorem unsupported_directive_values :
    (∀ (g : genConversion) (h : Heap) (inType outType : TypePtr),
        unsupportedTypeTag g h inType outType →
        g.convertibleOnlyWithinPackage h inType outType = .error .fatal)
      ∧ (∀ (gf : Synth) (inType outType : TypePtr) (m : types.Member) (s : GenState),
          (extractTag m.CommentLines).head? ≠ some "false" →
          doStructMember gf inType outType m s
              = doStructMember gf inType outType (withoutTag m) s
            ∧ fromUrlValuesMember inType m s = fromUrlValuesMember inType (withoutTag m) s)
      ∧ (∀ (comments : types.CommentLines),
          (types.ExtractCommentTags comments conversionFnTagName ≠ ["copy-only"] →
              isCopyOnly comments = isCopyOnly [])
            ∧ (types.ExtractCommentTags comments conversionFnTagName ≠ ["drop"] →
              isDrop comments = isDrop []))
      ∧ (∀ (g : genConversion) (h : Heap) (inType outType : TypePtr),
          extractTag (deref h inType).CommentLines = [] →
          extractTag (deref h outType).CommentLines = [] →
          g.convertibleOnlyWithinPackage h inType outType ≠ .error .fatal) := by
  refine ⟨?_, ?_, ?_, ?_⟩
  · intro g h inType outType hu
    exact (cowp_returns_iff g h inType outType).2.1.2 hu
  · intro gf inType outType m s hv
    exact ⟨doStructMember_withoutTag gf inType outType m s hv,
      fromUrlValuesMember_withoutTag inType m s hv⟩
  · intro comments
    constructor
    · intro hne
      have h1 : isCopyOnly comments = false := by
        rw [← Bool.not_eq_true]; exact fun hc => hne ((isCopyOnly_iff comments).1 hc)
      rw [h1]; rfl
    · intro hne
      have h1 : isDrop comments = false := by
        rw [← Bool.not_eq_true]; exact fun hc => hne ((isDrop_iff comments).1 hc)
      rw [h1]; rfl
  · intro g h inType outType hi ho hf
    have hu := (cowp_returns_iff g h inType outType).2.1.1 hf
    unfold unsupportedTypeTag at hu
    obtain ⟨_, v, hv, _⟩ := hu
    split at hv
    · rw [hi] at hv; cases hv
    · rw [ho] at hv; cases hv

/-- Witness of the amended C23: the member `Name` of `v1.Tagged` carries
`conversion-gen=bogus` and is converted like a member without directive. -/
theorem unsupported_directive_values_witness :
    doStructMember (genConversion.generateFor 2 1) 41 42
        (fieldWith "Name" types.String [(tagName, "bogus")]) (selectorState [])
      = doStructMember (genConversion.generateFor 2 1) 41 42
          (withoutTag (fieldWith "Name" types.String [(tagName, "bogus")])) (selectorState [])
      ∧ isCopyOnly [(conversionFnTagName, "bogus")] = isCopyOnly []
      ∧ genConversion.convertibleOnlyWithinPackage (exampleGen [] .noEquality) selectorUniverse
          21 22 = .error .fatal :=
  ⟨(unsupported_directive_values.2.1 (genConversion.generateFor 2 1) 41 42
      (fieldWith "Name" types.String [(tagName, "bogus")]) (selectorState []) (by decide)).1,
    (unsupported_directive_values.2.2.1 [(conversionFnTagName, "bogus")]).1 (by decide),
    unsupported_directive_values.1 (exampleGen [] .noEquality) selectorUniverse 21 22
      ⟨by decide, "true", by decide, by decide⟩⟩

/-- Counterexample to C23 as stated: the member `Name` of `v1.Tagged` carries the
member-level directive `conversion-gen=bogus`, and struct synthesis returns
with the member converted; the function of cell 43 carries the procedure-level
directive `conversion-fn=bogus`, it is neither copy-only nor drop, and
synthesis with the shortcut returns with the call of the function. No run is
aborted. -/
theorem unsupported_directive_values_counterexample :
    (deref selectorUniverse 41).Members.map (fun m => extractTag m.CommentLines) = [["bogus"]]
      ∧ genConversion.doStruct (genConversion.generateFor 2 1) 41 42 (selectorState [])
        = .ok ([Snippet.ifTrue, Snippet.scopeMember "Name" "Name", Snippet.assign,
            Snippet.close], selectorState [])
      ∧ types.ExtractCommentTags (deref selectorUniverse 43).CommentLines conversionFnTagName
        = ["bogus"]
      ∧ isCopyOnly (deref selectorUniverse 43).CommentLines = false
      ∧ isDrop (deref selectorUniverse 43).CommentLines = false
      ∧ genConversion.generateFor 2 1 41 42 true (selectorState [(⟨41, 42⟩, 43)])
        = .ok ([Snippet.callFunction 43, Snippet.returnErr, Snippet.close],
            selectorState [(⟨41, 42⟩, 43)]) := by
  decide

/-! ## Explicit sources -/

theorem splitChars_ne_nil (sep : Char) : ∀ cs : List Char, splitChars sep cs ≠ [] := by
  intro cs
  induction cs with
  | nil => simp [splitChars]
  | cons c cs ih =>
    unfold splitChars
    split
    · simp
    · split <;> simp

theorem splitChars_single (sep : Char) : ∀ (cs b : List Char), splitChars sep cs = [b] → cs = b := by
  intro cs
  induction cs with
  | nil => intro b hb; simp [splitChars] at hb; exact hb.symm
  | cons c cs ih =>
    intro b hb
    unfold splitChars at hb
    split at hb
    · simp only [List.cons.injEq] at hb
      exact absurd hb.2 (splitChars_ne_nil sep cs)
    · split at hb
      · next hnil => exact absurd hnil (splitChars_ne_nil sep cs)
      · next w ws hw =>
        simp only [List.cons.injEq] at hb
        obtain ⟨hb1, hb2⟩ := hb
        subst hb2
        rw [← hb1, ih w hw]

theorem splitChars_two (sep : Char) : ∀ (cs a b : List Char), splitChars sep cs = [a, b] →
    cs = a ++ sep :: b := by
  intro cs
  induction cs with
  | nil => intro a b hb; simp [splitChars] at hb
  | cons c cs ih =>
    intro a b hb
    unfold splitChars at hb
    split at hb
    · next hc =>
      simp only [List.cons.injEq] at hb
      obtain ⟨hb1, hb2⟩ := hb
      rw [← hb1, hc, splitChars_single sep cs b hb2]
      rfl
    · split at hb
      · simp at hb
      · next w ws hw =>
        simp only [List.cons.injEq] at hb
        obtain ⟨hb1, hb2⟩ := hb
        subst hb2
        rw [← hb1, ih w b hw]
        rfl

/-- The value names the source `net/url.Values`: it splits at the dot into
the two items `net/url` and `Values`. -/
theorem items_values_iff (path : String) :
    ((stringsSplit path '.').length = 2
        ∧ ((stringsSplit path '.').getD 0 "" = "net/url"
          ∧ (stringsSplit path '.').getD 1 "" = "Values"))
      ↔ path = "net/url.Values" := by
  constructor
  · rintro ⟨hlen, h0, h1⟩
    unfold stringsSplit at hlen h0 h1
    cases hs : splitChars '.' path.data with
    | nil => rw [hs] at hlen; simp at hlen
    | cons a rest =>
      cases rest with
      | nil => rw [hs] at hlen; simp at hlen
      | cons b rest2 =>
        cases rest2 with
        | cons _ _ => rw [hs] at hlen; simp at hlen
        | nil =>
          rw [hs] at h0 h1
          simp only [List.map_cons, List.map_nil, List.getD_cons_zero, List.getD_cons_succ] at h0 h1
          have ha : a = "net/url".data := by rw [← h0]
          have hb : b = "Values".data := by rw [← h1]
          have hp := splitChars_two '.' path.data a b hs
          rw [ha, hb] at hp
          have : path = String.mk path.data := rfl
          rw [this, hp]
          rfl
  · intro hp
    subst hp
    decide

theorem explicitFromLoop_ok : ∀ (paths : List String) (result : List types.Name),
    (∀ path ∈ paths, (stringsSplit path '.').length = 2 → path = "net/url.Values") →
    explicitFromLoop paths result
      = .ok (result ++ List.replicate (paths.count "net/url.Values") ⟨"net/url", "Values", ""⟩) := by
  intro paths
  induction paths with
  | nil => intro result _; simp [explicitFromLoop]
  | cons path rest ih =>
    intro result hall
    have hrest : ∀ p ∈ rest, (stringsSplit p '.').length = 2 → p = "net/url.Values" :=
      fun p hp => hall p (List.mem_cons_of_mem _ hp)
    unfold explicitFromLoop
    simp only []
    by_cases hlen : (stringsSplit path '.').length = 2
    · have hp := hall path (List.mem_cons_self _ _) hlen
      have hit := (items_values_iff path).2 hp
      rw [if_neg (not_not.mpr hlen), if_pos hit.2, ih _ hrest, hit.2.1, hit.2.2, hp]
      simp [List.replicate_succ, List.append_assoc]
    · rw [if_pos hlen, ih _ hrest]
      have hne : path ≠ "net/url.Values" := by
        intro hp
        exact hlen ((items_values_iff path).2 hp).1
      rw [List.count_cons_of_ne hne.symm]

theorem explicitFromLoop_fatal : ∀ (paths : List String) (result : List types.Name),
    (∃ path ∈ paths, (stringsSplit path '.').length = 2 ∧ path ≠ "net/url.Values") →
    explicitFromLoop paths result = .error .fatal := by
  intro paths
  induction paths with
  | nil => intro result hex; obtain ⟨p, hp, _⟩ := hex; cases hp
  | cons path rest ih =>
    intro result hex
    unfold explicitFromLoop
    simp only []
    by_cases hlen : (stringsSplit path '.').length = 2
    · rw [if_neg (not_not.mpr hlen)]
      by_cases hit : (stringsSplit path '.').getD 0 "" = "net/url"
          ∧ (stringsSplit path '.').getD 1 "" = "Values"
      · rw [if_pos hit]
        have hp := (items_values_iff path).1 ⟨hlen, hit⟩
        apply ih
        obtain ⟨p, hmem, hp2⟩ := hex
        rcases List.mem_cons.1 hmem with rfl | hmem
        · exact absurd hp hp2.2
        · exact ⟨p, hmem, hp2⟩
      · rw [if_neg hit]
    · rw [if_pos hlen]
      apply ih
      obtain ⟨p, hmem, hp2⟩ := hex
      rcases List.mem_cons.1 hmem with rfl | hmem
      · exact absurd hp2.1 hlen
      · exact ⟨p, hmem, hp2⟩

/-- C24, as amended: `getExplicitFromTypes` aborts the run (fatal) exactly when
some directive value splits at `.` into two items and is not `net/url.Values`;
otherwise it returns one source name `(net/url, Values)` for every directive
value `net/url.Values`, and a value that does not split at `.` into exactly
two items yields nothing and does not abort. -/
theorem getExplicitFromTypes_values (h : Heap) (t : TypePtr) :
    (getExplicitFromTypes h t = .error .fatal
        ↔ ∃ path ∈ explicitFromValues h t,
            (stringsSplit path '.').length = 2 ∧ path ≠ "net/url.Values")
      ∧ ((∀ path ∈ explicitFromValues h t,
            (stringsSplit path '.').length = 2 → path = "net/url.Values") →
          getExplicitFromTypes h t
            = .ok (List.replicate ((explicitFromValues h t).count "net/url.Values")
                ⟨"net/url", "Values", ""⟩)) := by
  have hok : (∀ path ∈ explicitFromValues h t,
      (stringsSplit path '.').length = 2 → path = "net/url.Values") →
      getExplicitFromTypes h t
        = .ok (List.replicate ((explicitFromValues h t).count "net/url.Values")
            ⟨"net/url", "Values", ""⟩) := by
    intro hall
    have := explicitFromLoop_ok (explicitFromValues h t) [] hall
    simpa [getExplicitFromTypes, explicitFromValues] using this
  refine ⟨⟨?_, ?_⟩, hok⟩
  · intro hf
    by_contra hno
    have hall : ∀ path ∈ explicitFromValues h t,
        (stringsSplit path '.').length = 2 → path = "net/url.Values" := by
      intro p hp hlen
      by_contra hne
      exact hno ⟨p, hp, hlen, hne⟩
    rw [hok hall] at hf
    cases hf
  · intro hex
    exact explicitFromLoop_fatal (explicitFromValues h t) [] hex

/-- Witness of the amended C24: `v1.ListOptions` names `net/url.Values` once. -/
theorem getExplicitFromTypes_values_witness :
    getExplicitFromTypes selectorUniverse 23 = .ok [⟨"net/url", "Values", ""⟩] :=
  (getExplicitFromTypes_values selectorUniverse 23).2 (by decide)

/-- Counterexample to C24 as stated: `v1.Vague` names the source type
`k8s.io/api/core/v1.Pod`, which is not `net/url.Values`; the value splits at
the dots into three items, and `getExplicitFromTypes` returns the empty list
without aborting. -/
theorem getExplicitFromTypes_values_counterexample :
    explicitFromValues selectorUniverse 30 = ["k8s.io/api/core/v1.Pod"]
      ∧ stringsSplit "k8s.io/api/core/v1.Pod" '.' = ["k8s", "io/api/core/v1", "Pod"]
      ∧ getExplicitFromTypes selectorUniverse 30 = .ok [] := by
  decide

/-! ## The two paths of `Filter` -/

theorem appendExplicit_eq (t : TypePtr) : ∀ (names : List types.Name) (s : GenState),
    appendExplicit t names s
      = { g := { s.g with explicitConversions := s.g.explicitConversions
            ++ (List.range names.length).map (fun i => ⟨s.heap.length + i, t⟩) },
          heap := s.heap ++ names.map (fun name => { zeroType with Name := name }) } := by
  intro names
  induction names with
  | nil => intro s; simp [appendExplicit]
  | cons name rest ih =>
    intro s
    unfold appendExplicit
    simp only [alloc]
    rw [ih]
    simp only [List.length_append, List.length_singleton, List.length_cons, List.append_assoc,
      List.singleton_append, List.map_cons]
    congr 2
    rw [List.range_succ_eq_map]
    simp only [List.map_cons, List.map_map, Nat.add_zero]
    congr 2
    apply List.map_congr_left
    intro i _
    simp only [Function.comp, List.length_nil, Nat.zero_add, Nat.succ_eq_add_one]
    rw [Nat.add_assoc, Nat.add_comm 1 i]

theorem Filter_eq (c : Context) (t : TypePtr) (s : GenState) (a : Bool)
    (names : List types.Name)
    (hpeer : admittedWithPeer c t s = .ok a)
    (hexp : getExplicitFromTypes s.heap t = .ok names) :
    genConversion.Filter c t s = .ok (a || decide (names ≠ []), afterFilter t a names s) := by
  unfold admittedWithPeer at hpeer
  unfold genConversion.Filter convertibleWithPeer explicitlyConvertible
  simp only []
  by_cases hnil : getPeerTypeFor c s.heap t s.g.peerPackages = nilPtr
  · rw [if_pos hnil] at hpeer ⊢
    cases hpeer
    simp only [hexp]
    cases names with
    | nil => simp [afterFilter]
    | cons n ns =>
      simp [afterFilter, appendExplicit_eq]
  · rw [if_neg hnil] at hpeer ⊢
    rw [hpeer]
    cases a with
    | false =>
      simp only [hexp]
      cases names with
      | nil => simp [afterFilter]
      | cons n ns => simp [afterFilter, appendExplicit_eq]
    | true =>
      simp only [hexp]
      cases names with
      | nil => simp [afterFilter]
      | cons n ns => simp [afterFilter, appendExplicit_eq]

theorem Filter_error_peer (c : Context) (t : TypePtr) (s : GenState) (x : Abort)
    (hpeer : admittedWithPeer c t s = .error x) :
    genConversion.Filter c t s = .error x := by
  unfold admittedWithPeer at hpeer
  unfold genConversion.Filter convertibleWithPeer
  simp only []
  split at hpeer
  · cases hpeer
  · next hnil => rw [if_neg hnil, hpeer]

theorem Filter_error_explicit (c : Context) (t : TypePtr) (s : GenState) (a : Bool) (x : Abort)
    (hpeer : admittedWithPeer c t s = .ok a)
    (hexp : getExplicitFromTypes s.heap t = .error x) :
    genConversion.Filter c t s = .error x := by
  unfold admittedWithPeer at hpeer
  unfold genConversion.Filter convertibleWithPeer explicitlyConvertible
  simp only []
  split at hpeer
  · next hnil => rw [if_pos hnil]; simp only [hexp]
  · next hnil =>
    rw [if_neg hnil, hpeer]
    cases a <;> simp only [hexp]

/-- C25: `Filter(t)` returns exactly when both paths return, the admission with
a peer (a same-named type in a peer package that passes
`convertibleOnlyWithinPackage`) and the reading of the explicit sources. It
then returns whether the type is admitted with a peer or declares at least one
explicit source; the type is appended to the peer-type list exactly when it is
admitted with a peer, and one adapter pair is appended for every explicit
source, whatever the other path found. -/
theorem Filter_paths (c : Context) (t : TypePtr) (s : GenState) (r : Bool) (s2 : GenState) :
    genConversion.Filter c t s = .ok (r, s2)
      ↔ ∃ (withPeer : Bool) (names : List types.Name),
          admittedWithPeer c t s = .ok withPeer
            ∧ getExplicitFromTypes s.heap t = .ok names
            ∧ r = (withPeer || decide (names ≠ []))
            ∧ s2 = afterFilter t withPeer names s := by
  constructor
  · intro hrun
    cases hp : admittedWithPeer c t s with
    | error x => rw [Filter_error_peer c t s x hp] at hrun; cases hrun
    | ok a =>
      cases he : getExplicitFromTypes s.heap t with
      | error x => rw [Filter_error_explicit c t s a x hp he] at hrun; cases hrun
      | ok names =>
        rw [Filter_eq c t s a names hp he] at hrun
        simp only [Except.ok.injEq, Prod.mk.injEq] at hrun
        exact ⟨a, names, rfl, rfl, hrun.1.symm, hrun.2.symm⟩
  · rintro ⟨a, names, hp, he, rfl, rfl⟩
    exact Filter_eq c t s a names hp he

/-- Witness of C25: `v1.ListOptions` has the peer `internal.ListOptions` and
names the source `net/url.Values`: it enters the peer-type list and adds one
adapter pair. `v1.Query` has no peer and names the source: it adds one adapter
pair and does not enter the peer-type list. -/
theorem Filter_paths_witness :
    genConversion.Filter selectorContext 23 (selectorState [])
        = .ok (true, afterFilter 23 true [⟨"net/url", "Values", ""⟩] (selectorState []))
      ∧ (afterFilter 23 true [⟨"net/url", "Values", ""⟩] (selectorState [])).g.types = [23]
      ∧ (afterFilter 23 true [⟨"net/url", "Values", ""⟩] (selectorState [])).g.explicitConversions
        = [⟨44, 23⟩]
      ∧ genConversion.Filter selectorContext 25 (selectorState [])
        = .ok (true, afterFilter 25 false [⟨"net/url", "Values", ""⟩] (selectorState []))
      ∧ (afterFilter 25 false [⟨"net/url", "Values", ""⟩] (selectorState [])).g.types = [] :=
  ⟨(Filter_paths selectorContext 23 (selectorState []) true _).2
      ⟨true, [⟨"net/url", "Values", ""⟩], by decide, by decide, by decide, rfl⟩,
    by decide, by decide,
    (Filter_paths selectorContext 25 (selectorState []) true _).2
      ⟨false, [⟨"net/url", "Values", ""⟩], by decide, by decide, by decide, rfl⟩,
    by decide⟩

/-! ## The type-level opt-out -/

theorem afterFilter_nothing (t : TypePtr) (s : GenState) : afterFilter t false [] s = s := by
  simp [afterFilter]

theorem admittedWithPeer_optOut (c : Context) (t : TypePtr) (s : GenState)
    (hpkg : (deref s.heap t).Name.Package = s.g.typesPackage)
    (hout : (extractTag (deref s.heap t).CommentLines).head? = some "false") :
    admittedWithPeer c t s = .ok false := by
  unfold admittedWithPeer
  split
  · rfl
  · unfold genConversion.convertibleOnlyWithinPackage
    simp only [if_pos hpkg, if_neg (not_not.mpr hpkg)]
    cases htag : extractTag (deref s.heap t).CommentLines with
    | nil => rw [htag] at hout; cases hout
    | cons v rest =>
      rw [htag] at hout
      simp only [List.head?_cons, Option.some.injEq] at hout
      simp [hout]

/-- C21, the code where the claim holds and at the failing input. A type of the
types package that carries the opt-out `conversion-gen=false` and names no
explicit source is not admitted by `Filter`, which leaves the generator as it
was, so that nothing is emitted or registered for it. The type `v1.Hidden`
carries the opt-out and also names the source `net/url.Values`: `Filter`
admits it for the adapter pair, without entering it in the peer-type list, and
`GenerateType` then emits the auto and the public conversion functions
between `v1.Hidden` and its peer `internal.Hidden` in both directions. -/
theorem optOut_with_explicit_source :
    (∀ (cf fuel : Nat) (c : Context) (t : TypePtr) (s : GenState),
        (deref s.heap t).Name.Package = s.g.typesPackage →
        (extractTag (deref s.heap t).CommentLines).head? = some "false" →
        getExplicitFromTypes s.heap t = .ok [] →
        genConversion.Filter c t s = .ok (false, s)
          ∧ filterThenGenerate cf fuel c t s = .ok ([], s))
      ∧ (extractTag (deref selectorUniverse 17).CommentLines = ["false"]
        ∧ getPeerTypeFor selectorContext selectorUniverse 17 ["internal"] = 18
        ∧ (genConversion.Filter selectorContext 17 (selectorState [])).map
            (fun r => (r.1, r.2.g.types)) = .ok (true, [])
        ∧ (filterThenGenerate 2 3 selectorContext 17 (selectorState [])).map
            (fun r => r.1.filter (fun sn =>
              decide (sn.template = .funcAuto) || decide (sn.template = .funcPublic)))
          = .ok [Snippet.funcAuto 17 18, Snippet.funcPublic 17 18, Snippet.funcAuto 18 17,
              Snippet.funcPublic 18 17, Snippet.funcAuto 26 17, Snippet.funcPublic 26 17]) := by
  constructor
  · intro cf fuel c t s hpkg hout hexp
    have hf : genConversion.Filter c t s = .ok (false, s) := by
      have := Filter_eq c t s false [] (admittedWithPeer_optOut c t s hpkg hout) hexp
      rw [afterFilter_nothing] at this
      simpa using this
    refine ⟨hf, ?_⟩
    unfold filterThenGenerate
    rw [hf]
  · decide

/-- Witness of the first part of C21: `v1.Quiet` carries the opt-out and names
no explicit source. -/
theorem optOut_with_explicit_source_witness :
    genConversion.Filter selectorContext 19 (selectorState []) = .ok (false, selectorState [])
      ∧ filterThenGenerate 2 3 selectorContext 19 (selectorState [])
        = .ok ([], selectorState []) :=
  optOut_with_explicit_source.1 2 3 selectorContext 19 (selectorState []) (by decide)
    (by decide) (by decide)

/-! ## The scan for manual conversions -/

theorem manualConversionStep_of_conversion (context : Context) (h : Heap) (pkg : Package)
    (f T1 T2 : TypePtr) (m : conversionFuncMap)
    (hf : IsManualConversion context h f T1 T2) :
    (registeredElsewhere h pkg m ⟨T1, T2⟩ →
        manualConversionStep context h pkg f m = .error .panics)
      ∧ (¬ registeredElsewhere h pkg m ⟨T1, T2⟩ →
        manualConversionStep context h pkg f m = .ok (mapSet m ⟨T1, T2⟩ f)) := by
  obtain ⟨hu, hk, signature, hs, hr, ⟨p1, p2, p3, hp, hk1, he1, hk2, he2, hn3⟩,
    ⟨r, hres, hnr⟩, hname⟩ := hf
  have hstep : manualConversionStep context h pkg f m
      = match mapGet m ⟨T1, T2⟩ with
        | some v =>
          if v ≠ nilPtr ∧ (deref h v).Name.Package ≠ pkg.Path then .error .panics
          else .ok (mapSet m ⟨T1, T2⟩ f)
        | none => .ok (mapSet m ⟨T1, T2⟩ f) := by
    unfold manualConversionStep
    simp only [hs, hr, hp, hres, hu, hk, List.getD_cons_zero, List.getD_cons_succ,
      List.length_cons, List.length_nil, hk1, hk2, he1, he2, hn3, hnr, hname, ne_eq,
      not_true_eq_false, or_self, if_false, if_true, false_or]
  rw [hstep]
  constructor
  · rintro ⟨v, hv, hv1, hv2⟩
    rw [hv]
    simp only [ne_eq]
    rw [if_pos ⟨hv1, hv2⟩]
  · intro hno
    cases hv : mapGet m ⟨T1, T2⟩ with
    | none => rfl
    | some v =>
      simp only [ne_eq]
      rw [if_neg]
      intro hc
      exact hno ⟨v, hv, hc.1, hc.2⟩

theorem manualConversionStep_of_not (context : Context) (h : Heap) (pkg : Package)
    (f : TypePtr) (m : conversionFuncMap)
    (hf : ∀ T1 T2, ¬ IsManualConversion context h f T1 T2) :
    manualConversionStep context h pkg f m = .ok m := by
  unfold manualConversionStep
  simp only []
  split
  · rfl
  · next h1 =>
    simp only [not_or, not_not, ne_eq] at h1
    split
    · rfl
    · next signature hs =>
      split
      · rfl
      · next h2 =>
        split
        · rfl
        · next h3 =>
          split
          · rfl
          · next h4 =>
            split
            · rfl
            · next h5 =>
              split
              · next h6 =>
                exfalso
                simp only [not_or, not_not, ne_eq] at h2 h3 h4 h5
                obtain ⟨hlen, hn3⟩ := h3
                obtain ⟨hrl, hnr⟩ := h4
                refine hf _ _ ⟨h1.1, h1.2, signature, hs, h2, ?_, ?_, h6⟩
                · match hp : signature.Parameters, hlen with
                  | [p1, p2, p3], _ =>
                    rw [hp] at h5 hn3
                    exact ⟨p1, p2, p3, rfl, h5.1, rfl, h5.2, rfl, hn3⟩
                · match hp : signature.Results, hrl with
                  | [r], _ =>
                    rw [hp] at hnr
                    exact ⟨r, rfl, hnr⟩
              · rfl

theorem IsManualConversion_key (context : Context) (h : Heap) (f T1 T2 U1 U2 : TypePtr)
    (h1 : IsManualConversion context h f T1 T2) (h2 : IsManualConversion context h f U1 U2) :
    T1 = U1 ∧ T2 = U2 := by
  obtain ⟨_, _, sig, hs, _, ⟨p1, p2, p3, hp, _, he1, _, he2, _⟩, _, _⟩ := h1
  obtain ⟨_, _, sig', hs', _, ⟨q1, q2, q3, hq, _, hf1, _, hf2, _⟩, _, _⟩ := h2
  rw [hs] at hs'
  cases hs'
  rw [hp] at hq
  simp only [List.cons.injEq, and_true] at hq
  obtain ⟨rfl, rfl, rfl⟩ := hq
  exact ⟨he1.symm.trans hf1, he2.symm.trans hf2⟩

theorem IsManualConversion_name (context : Context) (h : Heap) (f1 f2 T1 T2 : TypePtr)
    (h1 : IsManualConversion context h f1 T1 T2) (h2 : IsManualConversion context h f2 T1 T2) :
    (deref h f1).Name.Name = (deref h f2).Name.Name := by
  obtain ⟨_, _, _, _, _, _, _, hn1⟩ := h1
  obtain ⟨_, _, _, _, _, _, _, hn2⟩ := h2
  rw [hn1, hn2]

/-- What one iteration of the scan does when it returns. -/
theorem manualConversionStep_cases (context : Context) (h : Heap) (pkg : Package)
    (f : TypePtr) (m : conversionFuncMap) :
    (∃ T1 T2, IsManualConversion context h f T1 T2
        ∧ ((registeredElsewhere h pkg m ⟨T1, T2⟩
            ∧ manualConversionStep context h pkg f m = .error .panics)
          ∨ (¬ registeredElsewhere h pkg m ⟨T1, T2⟩
            ∧ manualConversionStep context h pkg f m = .ok (mapSet m ⟨T1, T2⟩ f))))
      ∨ ((∀ T1 T2, ¬ IsManualConversion context h f T1 T2)
        ∧ manualConversionStep context h pkg f m = .ok m) := by
  by_cases hex : ∃ T1 T2, IsManualConversion context h f T1 T2
  · obtain ⟨T1, T2, hf⟩ := hex
    left
    refine ⟨T1, T2, hf, ?_⟩
    have hs := manualConversionStep_of_conversion context h pkg f T1 T2 m hf
    by_cases he : registeredElsewhere h pkg m ⟨T1, T2⟩
    · exact Or.inl ⟨he, hs.1 he⟩
    · exact Or.inr ⟨he, hs.2 he⟩
  · right
    have hno : ∀ T1 T2, ¬ IsManualConversion context h f T1 T2 :=
      fun T1 T2 hf => hex ⟨T1, T2, hf⟩
    exact ⟨hno, manualConversionStep_of_not context h pkg f m hno⟩

theorem manualConversionLoop_bindings (context : Context) (h : Heap) (pkg : Package) :
    ∀ (fs : List TypePtr) (m m1 : conversionFuncMap),
    manualConversionLoop context h pkg fs m = .ok m1 →
    (∀ key v, mapGet m1 key = some v →
        mapGet m key = some v
          ∨ (v ∈ fs ∧ IsManualConversion context h v key.inType key.outType))
      ∧ (∀ f ∈ fs, ∀ T1 T2, IsManualConversion context h f T1 T2 →
          ∃ f1 ∈ fs, IsManualConversion context h f1 T1 T2 ∧ mapGet m1 ⟨T1, T2⟩ = some f1)
      ∧ (∀ key, (∀ f ∈ fs, ¬ IsManualConversion context h f key.inType key.outType) →
          mapGet m1 key = mapGet m key) := by
  intro fs
  induction fs with
  | nil =>
    intro m m1 hrun
    simp only [manualConversionLoop, Except.ok.injEq] at hrun
    subst hrun
    refine ⟨fun key v hv => Or.inl hv, ?_, fun _ _ => rfl⟩
    intro f hf
    cases hf
  | cons g rest ih =>
    intro m m1 hrun
    unfold manualConversionLoop at hrun
    rcases manualConversionStep_cases context h pkg g m with
      ⟨T1, T2, hg, ⟨_, hstep⟩ | ⟨_, hstep⟩⟩ | ⟨hno, hstep⟩
    · rw [hstep] at hrun; cases hrun
    · rw [hstep] at hrun
      simp only [] at hrun
      obtain ⟨ih1, ih2, ih3⟩ := ih _ m1 hrun
      refine ⟨?_, ?_, ?_⟩
      · intro key v hv
        rcases ih1 key v hv with hm | ⟨hmem, hc⟩
        · by_cases hk : key = ⟨T1, T2⟩
          · subst hk
            rw [mapGet_mapSet_self] at hm
            cases hm
            exact Or.inr ⟨List.mem_cons_self _ _, hg⟩
          · rw [mapGet_mapSet_ne _ _ _ _ hk] at hm
            exact Or.inl hm
        · exact Or.inr ⟨List.mem_cons_of_mem _ hmem, hc⟩
      · intro f hf U1 U2 hfc
        by_cases hex : ∃ f1 ∈ rest, IsManualConversion context h f1 U1 U2
        · obtain ⟨f1, hf1, hc1⟩ := hex
          obtain ⟨f2, hf2, hc2, hb⟩ := ih2 f1 hf1 U1 U2 hc1
          exact ⟨f2, List.mem_cons_of_mem _ hf2, hc2, hb⟩
        · have hfg : f = g := by
            rcases List.mem_cons.1 hf with rfl | hmem
            · rfl
            · exact absurd ⟨f, hmem, hfc⟩ hex
          subst hfg
          obtain ⟨rfl, rfl⟩ := IsManualConversion_key context h f T1 T2 U1 U2 hg hfc
          refine ⟨f, List.mem_cons_self _ _, hfc, ?_⟩
          rw [ih3 ⟨T1, T2⟩ (fun f1 hf1 hc1 => hex ⟨f1, hf1, hc1⟩), mapGet_mapSet_self]
      · intro key hnone
        rw [ih3 key (fun f hf => hnone f (List.mem_cons_of_mem _ hf))]
        have hk : (⟨T1, T2⟩ : conversionPair) ≠ key := by
          intro hk
          subst hk
          exact hnone g (List.mem_cons_self _ _) hg
        rw [mapGet_mapSet_ne _ _ _ _ (Ne.symm hk)]
    · rw [hstep] at hrun
      simp only [] at hrun
      obtain ⟨ih1, ih2, ih3⟩ := ih _ m1 hrun
      refine ⟨?_, ?_, ?_⟩
      · intro key v hv
        rcases ih1 key v hv with hm | ⟨hmem, hc⟩
        · exact Or.inl hm
        · exact Or.inr ⟨List.mem_cons_of_mem _ hmem, hc⟩
      · intro f hf U1 U2 hfc
        rcases List.mem_cons.1 hf with rfl | hmem
        · exact absurd hfc (hno U1 U2)
        · obtain ⟨f2, hf2, hc2, hb⟩ := ih2 f hmem U1 U2 hfc
          exact ⟨f2, List.mem_cons_of_mem _ hf2, hc2, hb⟩
      · intro key hnone
        exact ih3 key (fun f hf => hnone f (List.mem_cons_of_mem _ hf))

theorem sameBindings_mapSet_of_bound (m : conversionFuncMap) (key : conversionPair) (f : TypePtr)
    (hb : mapGet m key = some f) : sameBindings (mapSet m key f) m := by
  intro k
  by_cases hk : k = key
  · subst hk; rw [mapGet_mapSet_self, hb]
  · rw [mapGet_mapSet_ne _ _ _ _ hk]

/-- A scan from a registry that binds nothing of the package elsewhere returns. -/
theorem manualConversionLoop_returns (context : Context) (h : Heap) (pkg : Package) :
    ∀ (fs : List TypePtr) (m : conversionFuncMap),
    (∀ f ∈ fs, (deref h f).Name.Package = pkg.Path) →
    (∀ f ∈ fs, ∀ T1 T2, IsManualConversion context h f T1 T2 →
      ¬ registeredElsewhere h pkg m ⟨T1, T2⟩) →
    ∃ m1, manualConversionLoop context h pkg fs m = .ok m1 := by
  intro fs
  induction fs with
  | nil => intro m _ _; exact ⟨m, rfl⟩
  | cons g rest ih =>
    intro m hwf hfree
    unfold manualConversionLoop
    rcases manualConversionStep_cases context h pkg g m with
      ⟨T1, T2, hg, ⟨hel, _⟩ | ⟨_, hstep⟩⟩ | ⟨hno, hstep⟩
    · exact absurd hel (hfree g (List.mem_cons_self _ _) T1 T2 hg)
    · rw [hstep]
      simp only []
      apply ih _ (fun f hf => hwf f (List.mem_cons_of_mem _ hf))
      intro f hf U1 U2 hfc hel
      obtain ⟨v, hv, hv1, hv2⟩ := hel
      by_cases hk : (⟨U1, U2⟩ : conversionPair) = ⟨T1, T2⟩
      · rw [hk, mapGet_mapSet_self] at hv
        cases hv
        exact hv2 (hwf _ (List.mem_cons_self _ _))
      · rw [mapGet_mapSet_ne _ _ _ _ hk] at hv
        exact hfree f (List.mem_cons_of_mem _ hf) U1 U2 hfc ⟨v, hv, hv1, hv2⟩
    · rw [hstep]
      simp only []
      exact ih _ (fun f hf => hwf f (List.mem_cons_of_mem _ hf))
        (fun f hf => hfree f (List.mem_cons_of_mem _ hf))

/-- A scan that meets a pair registered by another package panics. -/
theorem manualConversionLoop_panics (context : Context) (h : Heap) (pkg : Package)
    (T1 T2 : TypePtr) :
    ∀ (fs : List TypePtr) (m : conversionFuncMap),
    (∃ f ∈ fs, IsManualConversion context h f T1 T2) →
    registeredElsewhere h pkg m ⟨T1, T2⟩ →
    manualConversionLoop context h pkg fs m = .error .panics := by
  intro fs
  induction fs with
  | nil => intro m hex _; obtain ⟨f, hf, _⟩ := hex; cases hf
  | cons g rest ih =>
    intro m hex hel
    unfold manualConversionLoop
    rcases manualConversionStep_cases context h pkg g m with
      ⟨U1, U2, hg, ⟨_, hstep⟩ | ⟨hfree, hstep⟩⟩ | ⟨hno, hstep⟩
    · rw [hstep]
    · rw [hstep]
      simp only []
      have hk : (⟨T1, T2⟩ : conversionPair) ≠ ⟨U1, U2⟩ := by
        intro hk
        rw [hk] at hel
        exact hfree hel
      apply ih
      · obtain ⟨f, hf, hfc⟩ := hex
        rcases List.mem_cons.1 hf with rfl | hmem
        · obtain ⟨rfl, rfl⟩ := IsManualConversion_key context h f T1 T2 U1 U2 hfc hg
          exact absurd rfl hk
        · exact ⟨f, hmem, hfc⟩
      · obtain ⟨v, hv, hv1, hv2⟩ := hel
        exact ⟨v, by rw [mapGet_mapSet_ne _ _ _ _ hk]; exact hv, hv1, hv2⟩
    · rw [hstep]
      simp only []
      apply ih _ _ hel
      obtain ⟨f, hf, hfc⟩ := hex
      rcases List.mem_cons.1 hf with rfl | hmem
      · exact absurd hfc (hno T1 T2)
      · exact ⟨f, hmem, hfc⟩

/-- A scan from a registry that already binds every conversion of the list to
its function returns a registry with the same bindings. -/
theorem manualConversionLoop_rescan (context : Context) (h : Heap) (pkg : Package) :
    ∀ (gs : List TypePtr) (m : conversionFuncMap),
    (∀ g ∈ gs, (deref h g).Name.Package = pkg.Path) →
    (∀ g ∈ gs, ∀ T1 T2, IsManualConversion context h g T1 T2 →
      mapGet m ⟨T1, T2⟩ = some g) →
    ∃ m2, manualConversionLoop context h pkg gs m = .ok m2 ∧ sameBindings m2 m := by
  intro gs
  induction gs with
  | nil => intro m _ _; exact ⟨m, rfl, fun _ => rfl⟩
  | cons g rest ih =>
    intro m hwf hb
    unfold manualConversionLoop
    rcases manualConversionStep_cases context h pkg g m with
      ⟨T1, T2, hg, ⟨hel, _⟩ | ⟨_, hstep⟩⟩ | ⟨hno, hstep⟩
    · exfalso
      obtain ⟨v, hv, _, hv2⟩ := hel
      rw [hb g (List.mem_cons_self _ _) T1 T2 hg] at hv
      cases hv
      exact hv2 (hwf _ (List.mem_cons_self _ _))
    · rw [hstep]
      simp only []
      have hsame := sameBindings_mapSet_of_bound m ⟨T1, T2⟩ g
        (hb g (List.mem_cons_self _ _) T1 T2 hg)
      obtain ⟨m2, hrun, hs2⟩ := ih (mapSet m ⟨T1, T2⟩ g)
        (fun f hf => hwf f (List.mem_cons_of_mem _ hf))
        (fun f hf U1 U2 hfc => by
          rw [hsame]; exact hb f (List.mem_cons_of_mem _ hf) U1 U2 hfc)
      exact ⟨m2, hrun, fun k => (hs2 k).trans (hsame k)⟩
    · rw [hstep]
      simp only []
      exact ih m (fun f hf => hwf f (List.mem_cons_of_mem _ hf))
        (fun f hf => hb f (List.mem_cons_of_mem _ hf))

/-- C26: `getManualConversionFunctions` registers a function under the key
`(T1, T2)` if and only if it has a signature without receiver, exactly three
parameters of which the first two are pointers to `T1` and `T2` and the third
is `conversion.Scope`, exactly one result of type `error`, and the name
`Convert_<public name of T1>_To_<public name of T2>`. Function by function:
such a function is bound to its key (unless the key is bound by a function of
another package, the panic of C27), and every other function leaves the
registry as it was. For the scan of a package: every binding of the registry
it returns was there before or binds a key to such a function of the package;
every such function of the package finds its key bound to such a function;
the other keys keep their binding; and the scan returns when the functions of
the package carry the path of the package and none of their keys is bound by
another package. -/
theorem getManualConversionFunctions_registers (context : Context) (h : Heap) (pkg : Package)
    (m : conversionFuncMap) :
    (∀ f T1 T2, IsManualConversion context h f T1 T2 →
        ¬ registeredElsewhere h pkg m ⟨T1, T2⟩ →
        manualConversionStep context h pkg f m = .ok (mapSet m ⟨T1, T2⟩ f))
      ∧ (∀ f, (∀ T1 T2, ¬ IsManualConversion context h f T1 T2) →
          manualConversionStep context h pkg f m = .ok m)
      ∧ (∀ m1, getManualConversionFunctions context h (some pkg) m = .ok m1 →
          (∀ key v, mapGet m1 key = some v →
              mapGet m key = some v
                ∨ (v ∈ pkg.Functions.map (fun kv => kv.2)
                  ∧ IsManualConversion context h v key.inType key.outType))
            ∧ (∀ f ∈ pkg.Functions.map (fun kv => kv.2), ∀ T1 T2,
                IsManualConversion context h f T1 T2 →
                ∃ f1 ∈ pkg.Functions.map (fun kv => kv.2),
                  IsManualConversion context h f1 T1 T2 ∧ mapGet m1 ⟨T1, T2⟩ = some f1)
            ∧ (∀ key, (∀ f ∈ pkg.Functions.map (fun kv => kv.2),
                  ¬ IsManualConversion context h f key.inType key.outType) →
                mapGet m1 key = mapGet m key))
      ∧ ((∀ f ∈ pkg.Functions.map (fun kv => kv.2), (deref h f).Name.Package = pkg.Path) →
          (∀ f ∈ pkg.Functions.map (fun kv => kv.2), ∀ T1 T2,
            IsManualConversion context h f T1 T2 → ¬ registeredElsewhere h pkg m ⟨T1, T2⟩) →
          ∃ m1, getManualConversionFunctions context h (some pkg) m = .ok m1) :=
  ⟨fun f T1 T2 hf hne => (manualConversionStep_of_conversion context h pkg f T1 T2 m hf).2 hne,
    fun f hf => manualConversionStep_of_not context h pkg f m hf,
    fun m1 hrun => manualConversionLoop_bindings context h pkg _ m m1 hrun,
    fun hwf hfree => manualConversionLoop_returns context h pkg _ m hwf hfree⟩

/-- Witness of C26: the function of cell 36, `v1.Convert_v1_Pod_To_internal_Pod`
of type `func(*v1.Pod, *internal.Pod, conversion.Scope) error`, is registered
under `(v1.Pod, internal.Pod)` in the empty registry. -/
theorem getManualConversionFunctions_registers_witness :
    manualConversionStep selectorContext selectorUniverse packageV1 36 []
      = .ok (mapSet [] ⟨15, 16⟩ 36) :=
  (getManualConversionFunctions_registers selectorContext selectorUniverse packageV1 []).1
    36 15 16
    ⟨by decide, by decide, ⟨none, [31, 32, 33], [34], false⟩, by decide, rfl,
      ⟨31, 32, 33, rfl, by decide, by decide, by decide, by decide, by decide⟩,
      ⟨34, rfl, by decide⟩, by decide⟩
    (fun hel => by obtain ⟨v, hv, _⟩ := hel; cases hv)

/-- C27: when a function of the scanned package is a conversion for a pair
that the registry binds to a function of another package, the scan panics.
When the functions of the package carry the path of the package and two of
them with the same name are the same function, a second scan of the package
from the registry the first scan returned, in whatever order it visits the
functions, returns a registry with the same bindings. -/
theorem getManualConversionFunctions_duplicates (context : Context) (h : Heap) (pkg : Package)
    (m : conversionFuncMap) :
    (∀ T1 T2, (∃ f ∈ pkg.Functions.map (fun kv => kv.2), IsManualConversion context h f T1 T2) →
        registeredElsewhere h pkg m ⟨T1, T2⟩ →
        getManualConversionFunctions context h (some pkg) m = .error .panics)
      ∧ ((∀ f ∈ pkg.Functions.map (fun kv => kv.2), (deref h f).Name.Package = pkg.Path) →
          (∀ f1 ∈ pkg.Functions.map (fun kv => kv.2),
            ∀ f2 ∈ pkg.Functions.map (fun kv => kv.2),
            (deref h f1).Name.Name = (deref h f2).Name.Name → f1 = f2) →
          ∀ m1, getManualConversionFunctions context h (some pkg) m = .ok m1 →
          ∀ functions : List (String × TypePtr), functions.Perm pkg.Functions →
          ∃ m2, getManualConversionFunctions context h
              (some { pkg with Functions := functions }) m1 = .ok m2
            ∧ sameBindings m2 m1) := by
  constructor
  · intro T1 T2 hex hel
    exact manualConversionLoop_panics context h pkg T1 T2 _ m hex hel
  · intro hwf huniq m1 hrun functions hperm
    have hsub : ∀ g ∈ functions.map (fun kv => kv.2),
        g ∈ pkg.Functions.map (fun kv => kv.2) :=
      fun g hg => ((hperm.map (fun kv => kv.2)).subset) hg
    obtain ⟨_, hb2, _⟩ := manualConversionLoop_bindings context h pkg _ m m1 hrun
    have hrescan := manualConversionLoop_rescan context h { pkg with Functions := functions }
      (functions.map (fun kv => kv.2)) m1
      (fun g hg => hwf g (hsub g hg))
      (fun g hg T1 T2 hgc => by
        obtain ⟨f1, hf1, hc1, hb⟩ := hb2 g (hsub g hg) T1 T2 hgc
        have := huniq f1 hf1 g (hsub g hg) (IsManualConversion_name context h f1 g T1 T2 hc1 hgc)
        rw [← this]; exact hb)
    exact hrescan

/-- Witness of C27: the package `other` declares a conversion for
`(v1.Pod, internal.Pod)`, which the registry binds to the function of `v1`:
the scan panics. A second scan of `v1` leaves the bindings of the first. -/
theorem getManualConversionFunctions_duplicates_witness :
    getManualConversionFunctions selectorContext selectorUniverse (some packageOther)
        [(⟨15, 16⟩, 36)] = .error .panics
      ∧ ∃ m2, getManualConversionFunctions selectorContext selectorUniverse
          (some { packageV1 with Functions := packageV1.Functions.reverse }) [(⟨15, 16⟩, 36)]
            = .ok m2
        ∧ sameBindings m2 [(⟨15, 16⟩, 36)] :=
  ⟨(getManualConversionFunctions_duplicates selectorContext selectorUniverse packageOther
      [(⟨15, 16⟩, 36)]).1 15 16
      ⟨37, by decide,
        ⟨by decide, by decide, ⟨none, [31, 32, 33], [34], false⟩, by decide, rfl,
          ⟨31, 32, 33, rfl, by decide, by decide, by decide, by decide, by decide⟩,
          ⟨34, rfl, by decide⟩, by decide⟩⟩
      ⟨36, by decide, by decide, by decide⟩,
    (getManualConversionFunctions_duplicates selectorContext selectorUniverse packageV1 []).2
      (by decide) (by decide) [(⟨15, 16⟩, 36)] (by decide) packageV1.Functions.reverse
      (List.reverse_perm _)⟩

/-! ## The hint list of the failure marker -/

/-! ## Registries with unique keys -/

theorem mem_of_mapGet {κ ν : Type} [DecidableEq κ] : ∀ (m : List (κ × ν)) (k : κ) (v : ν),
    mapGet m k = some v → (k, v) ∈ m := by
  intro m
  induction m with
  | nil => intro k v hv; cases hv
  | cons p m ih =>
    intro k v hv
    obtain ⟨k1, v1⟩ := p
    unfold mapGet at hv
    split at hv
    · next hk => cases hv; subst hk; exact List.mem_cons_self _ _
    · exact List.mem_cons_of_mem _ (ih k v hv)

theorem mapGet_eq_none {κ ν : Type} [DecidableEq κ] : ∀ (m : List (κ × ν)) (k : κ),
    k ∉ m.map (fun kv => kv.1) → mapGet m k = none := by
  intro m
  induction m with
  | nil => intro k _; rfl
  | cons p m ih =>
    intro k hk
    obtain ⟨k1, v1⟩ := p
    simp only [List.map_cons, List.mem_cons, not_or] at hk
    unfold mapGet
    rw [if_neg (fun e => hk.1 e.symm)]
    exact ih k hk.2

theorem mapGet_of_mem {κ ν : Type} [DecidableEq κ] : ∀ (m : List (κ × ν)) (k : κ) (v : ν),
    (m.map (fun kv => kv.1)).Nodup → (k, v) ∈ m → mapGet m k = some v := by
  intro m
  induction m with
  | nil => intro k v _ hm; cases hm
  | cons p m ih =>
    intro k v hnd hm
    obtain ⟨k1, v1⟩ := p
    simp only [List.map_cons, List.nodup_cons] at hnd
    unfold mapGet
    rcases List.mem_cons.1 hm with heq | hmem
    · cases heq
      simp
    · have hne : k1 ≠ k := by
        intro e
        subst e
        exact hnd.1 (List.mem_map.2 ⟨(k1, v), hmem, rfl⟩)
      rw [if_neg hne]
      exact ih k v hnd.2 hmem

theorem mapGet_perm {κ ν : Type} [DecidableEq κ] (m m1 : List (κ × ν)) (k : κ)
    (hp : m1.Perm m) (hnd : (m.map (fun kv => kv.1)).Nodup) : mapGet m1 k = mapGet m k := by
  have hnd1 : (m1.map (fun kv => kv.1)).Nodup := ((hp.map _).nodup_iff).2 hnd
  cases hv : mapGet m k with
  | some v => exact mapGet_of_mem m1 k v hnd1 (hp.symm.subset (mem_of_mapGet m k v hv))
  | none =>
    apply mapGet_eq_none
    intro hk
    obtain ⟨kv, hkv, rfl⟩ := List.mem_map.1 hk
    have := mapGet_of_mem m kv.1 kv.2 hnd (hp.subset hkv)
    rw [hv] at this
    cases this

/-! ## Sorting by a name -/

theorem sortSlice_congr (pairs : List conversionPair)
    (less less1 : conversionPair → conversionPair → Prop)
    [DecidableRel less] [DecidableRel less1] (hl : ∀ p q, less p q ↔ less1 p q) :
    sortSlice pairs less = sortSlice pairs less1 := by
  have : less = less1 := by
    funext p q
    exact propext (hl p q)
  subst this
  unfold sortSlice
  congr

theorem sortSlice_perm (pairs : List conversionPair)
    (less : conversionPair → conversionPair → Prop) [DecidableRel less] :
    (sortSlice pairs less).Perm pairs :=
  List.perm_insertionSort _ pairs

theorem sortSlice_sorted (pairs : List conversionPair) (name : conversionPair → String) :
    (sortSlice pairs (fun p q => name p < name q)).Pairwise (fun p q => name p ≤ name q) := by
  unfold sortSlice
  haveI : IsTotal conversionPair (fun p q => ¬ (name q < name p)) :=
    ⟨fun p q => by
      rcases le_total (name p) (name q) with hle | hle
      · exact Or.inl (not_lt.2 hle)
      · exact Or.inr (not_lt.2 hle)⟩
  haveI : IsTrans conversionPair (fun p q => ¬ (name q < name p)) :=
    ⟨fun p q r hpq hqr => not_lt.2 (le_trans (not_lt.1 hpq) (not_lt.1 hqr))⟩
  have hs := List.sorted_insertionSort (fun p q => ¬ (name q < name p)) pairs
  exact List.Pairwise.imp (fun hpq => not_lt.1 hpq) hs

theorem sortSlice_eq_of_perm (pairs pairs1 : List conversionPair)
    (name : conversionPair → String) (hp : pairs1.Perm pairs)
    (hinj : ∀ p ∈ pairs, ∀ q ∈ pairs, name p = name q → p = q) :
    sortSlice pairs1 (fun p q => name p < name q)
      = sortSlice pairs (fun p q => name p < name q) := by
  refine @List.Perm.eq_of_sorted conversionPair (fun p q => name p ≤ name q) _ _ ?_
    (sortSlice_sorted pairs1 name) (sortSlice_sorted pairs name)
    ((sortSlice_perm pairs1 _).trans (hp.trans (sortSlice_perm pairs _).symm))
  intro a b ha hb hab hba
  exact hinj a (((sortSlice_perm pairs1 _).trans hp).subset ha) b
    ((sortSlice_perm pairs _).subset hb) (le_antisymm hab hba)

theorem hints_eq (g : genConversion) (h : Heap) :
    (sortSlice (g.manualConversions.map (fun kv => kv.1)) (lessByString h g))
      = sortSlice (g.manualConversions.map (fun kv => kv.1))
          (fun p q => functionString h g.manualConversions p
            < functionString h g.manualConversions q) :=
  sortSlice_congr _ _ _ (fun _ _ => Iff.rfl)

/-- C29: the failure marker is the FIXME line, the hint list and the call
`compileErrorOnMissingConversion()`. With an empty registry the hint is the
line "no manual conversion functions are currently provided". Otherwise the
hint lines are, up to order, one line per binding of the registry, and they
stand in ascending order of the qualified name string of the function. When
distinct pairs are bound to functions with distinct name strings, the marker
is the same for every order in which `range` visits the registry. -/
theorem hint_list_sorted (g : genConversion) (h : Heap) (inType outType : TypePtr)
    (hkeys : (g.manualConversions.map (fun kv => kv.1)).Nodup) :
    (g.manualConversions = [] →
        g.doCompileErrorOnMissingConversion h inType outType
          = [Snippet.fixmeProvide inType outType, Snippet.noneProvided, Snippet.compileError])
      ∧ (g.manualConversions ≠ [] →
          ∃ hints, g.doCompileErrorOnMissingConversion h inType outType
              = [Snippet.fixmeProvide inType outType, Snippet.providedAre] ++ hints
                ++ [Snippet.compileError]
            ∧ hints.Perm (g.manualConversions.map
                (fun kv => Snippet.provided kv.2 kv.1.inType kv.1.outType))
            ∧ hints.Pairwise (fun a b => hintString h a ≤ hintString h b))
      ∧ (∀ m1 : conversionFuncMap, m1.Perm g.manualConversions →
          (∀ kv1 ∈ g.manualConversions, ∀ kv2 ∈ g.manualConversions,
            (deref h kv1.2).Name.String = (deref h kv2.2).Name.String → kv1.1 = kv2.1) →
          genConversion.doCompileErrorOnMissingConversion { g with manualConversions := m1 } h
              inType outType
            = g.doCompileErrorOnMissingConversion h inType outType) := by
  have hbound : ∀ kv ∈ g.manualConversions, mapGet g.manualConversions kv.1 = some kv.2 :=
    fun kv hkv => mapGet_of_mem _ kv.1 kv.2 hkeys hkv
  refine ⟨?_, ?_, ?_⟩
  · intro hnil
    simp [genConversion.doCompileErrorOnMissingConversion, hnil]
  · intro hne
    have hlen : ¬ g.manualConversions.length = 0 := by
      intro hl
      exact hne (List.length_eq_zero.1 hl)
    refine ⟨(sortSlice (g.manualConversions.map (fun kv => kv.1)) (lessByString h g)).map
      (fun pair => Snippet.provided ((mapGet g.manualConversions pair).getD nilPtr)
        pair.inType pair.outType), ?_, ?_, ?_⟩
    · simp [genConversion.doCompileErrorOnMissingConversion, hlen]
    · refine ((sortSlice_perm _ _).map _).trans ?_
      rw [List.map_map]
      apply List.Perm.of_eq
      apply List.map_congr_left
      intro kv hkv
      simp only [Function.comp, hbound kv hkv, Option.getD_some]
    · rw [hints_eq, List.pairwise_map]
      exact sortSlice_sorted _ (functionString h g.manualConversions)
  · intro m1 hperm hinj
    have hget : ∀ p, mapGet m1 p = mapGet g.manualConversions p :=
      fun p => mapGet_perm _ _ p hperm hkeys
    have hless : sortSlice (m1.map (fun kv => kv.1))
          (lessByString h { g with manualConversions := m1 })
        = sortSlice (g.manualConversions.map (fun kv => kv.1)) (lessByString h g) := by
      rw [hints_eq g h]
      rw [sortSlice_congr _ (lessByString h { g with manualConversions := m1 })
        (fun p q => functionString h g.manualConversions p
            < functionString h g.manualConversions q)
        (fun p q => by
          unfold lessByString functionString
          simp only [hget])]
      apply sortSlice_eq_of_perm _ _ _ (hperm.map _)
      intro p hp q hq hpq
      obtain ⟨kv1, hkv1, rfl⟩ := List.mem_map.1 hp
      obtain ⟨kv2, hkv2, rfl⟩ := List.mem_map.1 hq
      apply hinj kv1 hkv1 kv2 hkv2
      unfold functionString at hpq
      rw [hbound kv1 hkv1, hbound kv2 hkv2] at hpq
      exact hpq
    unfold genConversion.doCompileErrorOnMissingConversion
    simp only [hless, hget, hperm.length_eq]

/-- Witness of C29: a registry of two functions, visited in either order. -/
theorem hint_list_sorted_witness :
    genConversion.doCompileErrorOnMissingConversion
        (exampleGen [(⟨20, 21⟩, 18), (⟨15, 16⟩, 17)] .noEquality) exampleUniverse 22 24
      = genConversion.doCompileErrorOnMissingConversion
          (exampleGen [(⟨15, 16⟩, 17), (⟨20, 21⟩, 18)] .noEquality) exampleUniverse 22 24 :=
  (hint_list_sorted (exampleGen [(⟨15, 16⟩, 17), (⟨20, 21⟩, 18)] .noEquality) exampleUniverse
    22 24 (by decide)).2.2 [(⟨20, 21⟩, 18), (⟨15, 16⟩, 17)] (List.Perm.swap _ _ _) (by decide)

/-! ## The registration procedure -/

theorem count_guarded (g : genConversion) (x y a b : TypePtr) :
    (if (g.preexists x y).isSome = true then [] else [Snippet.addGenerated x y]).count
        (Snippet.addGenerated a b)
      = if (g.preexists a b).isSome = true then 0
        else if (⟨x, y⟩ : conversionPair) = ⟨a, b⟩ then 1 else 0 := by
  by_cases he : x = a ∧ y = b
  · obtain ⟨rfl, rfl⟩ := he
    by_cases hpre : (g.preexists x y).isSome = true
    · simp [hpre]
    · simp [hpre]
  · have hp : ¬ ((⟨x, y⟩ : conversionPair) = ⟨a, b⟩) := by
      intro hc
      simp only [conversionPair.mk.injEq] at hc
      exact he hc
    have hs : ¬ (Snippet.addGenerated x y = Snippet.addGenerated a b) := by
      intro hc
      simp only [Snippet.mk.injEq, List.cons.injEq, and_true, true_and] at hc
      exact he hc
    rw [if_neg hp]
    split
    · simp
    · rw [List.count_singleton, if_neg (by simpa using hs)]
      simp

theorem count_registerPeers (c : Context) (h : Heap) (g : genConversion) (a b : TypePtr) :
    ∀ ts : List TypePtr,
    (registerPeers c h g ts).count (Snippet.addGenerated a b)
      = if (g.preexists a b).isSome = true then 0 else (peerPairs c h g ts).count ⟨a, b⟩ := by
  intro ts
  induction ts with
  | nil => simp [registerPeers, peerPairs]
  | cons t rest ih =>
    unfold registerPeers peerPairs
    simp only [List.count_append, ih, count_guarded, List.count_cons, beq_iff_eq]
    by_cases hpre : (g.preexists a b).isSome = true
    · simp [hpre]
    · simp only [hpre, Bool.false_eq_true, if_false]
      omega

theorem registerPeers_template (c : Context) (h : Heap) (g : genConversion) :
    ∀ (ts : List TypePtr), ∀ sn ∈ registerPeers c h g ts, sn.template = .addGenerated := by
  intro ts
  induction ts with
  | nil => intro sn hsn; simp [registerPeers] at hsn
  | cons t rest ih =>
    intro sn hsn
    unfold registerPeers at hsn
    simp only [List.mem_append] at hsn
    rcases hsn with (hsn | hsn) | hsn
    · split at hsn
      · cases hsn
      · simp only [List.mem_singleton] at hsn; rw [hsn]
    · split at hsn
      · cases hsn
      · simp only [List.mem_singleton] at hsn; rw [hsn]
    · exact ih sn hsn

theorem count_map_nodup {α β : Type} [DecidableEq α] [DecidableEq β] (f : α → β) (x : β)
    (p0 : α) : ∀ (l : List α), l.Nodup → (∀ p ∈ l, f p = x → p = p0) →
    (l.map f).count x = if p0 ∈ l ∧ f p0 = x then 1 else 0 := by
  intro l
  induction l with
  | nil => intro _ _; simp
  | cons q l ih =>
    intro hnd hinj
    simp only [List.nodup_cons] at hnd
    rw [List.map_cons, List.count_cons, ih hnd.2 (fun p hp => hinj p (List.mem_cons_of_mem _ hp))]
    by_cases hq : f q = x
    · have hq0 := hinj q (List.mem_cons_self _ _) hq
      subst hq0
      simp [hq, hnd.1]
    · have hne : ¬ (q = p0 ∧ f p0 = x) := by
        rintro ⟨rfl, hfx⟩
        exact hq hfx
      by_cases hmem : p0 ∈ l ∧ f p0 = x
      · have : p0 ∈ q :: l ∧ f p0 = x := ⟨List.mem_cons_of_mem _ hmem.1, hmem.2⟩
        rw [if_pos hmem, if_pos this]
        simp [hq]
      · have : ¬ (p0 ∈ q :: l ∧ f p0 = x) := by
          rintro ⟨hm, hfx⟩
          rcases List.mem_cons.1 hm with rfl | hm
          · exact hq hfx
          · exact hmem ⟨hm, hfx⟩
        rw [if_neg hmem, if_neg this]
        simp [hq]

theorem manualPairs_nodup (h : Heap) (g : genConversion)
    (hkeys : (g.manualConversions.map (fun kv => kv.1)).Nodup) : (manualPairs h g).Nodup := by
  unfold manualPairs
  exact List.Nodup.sublist ((List.filter_sublist _).map _) hkeys

theorem mem_manualPairs (h : Heap) (g : genConversion)
    (hkeys : (g.manualConversions.map (fun kv => kv.1)).Nodup) (p : conversionPair) :
    p ∈ manualPairs h g
      ↔ ∃ fn, mapGet g.manualConversions p = some fn
          ∧ (deref h fn).Name.Package = g.outputPackage := by
  unfold manualPairs
  simp only [List.mem_map, List.mem_filter, decide_eq_true_eq]
  constructor
  · rintro ⟨kv, ⟨hkv, hpkg⟩, rfl⟩
    exact ⟨kv.2, mapGet_of_mem _ kv.1 kv.2 hkeys hkv, hpkg⟩
  · rintro ⟨fn, hfn, hpkg⟩
    exact ⟨(p, fn), ⟨mem_of_mapGet _ p fn hfn, hpkg⟩, rfl⟩

theorem count_manual (h : Heap) (g : genConversion)
    (hkeys : (g.manualConversions.map (fun kv => kv.1)).Nodup) (a b fn : TypePtr) :
    ((sortSlice (manualPairs h g) (lessByName h g)).map (fun pair =>
        Snippet.addManual pair.inType pair.outType
          ((mapGet g.manualConversions pair).getD nilPtr))).count (Snippet.addManual a b fn)
      = if mapGet g.manualConversions ⟨a, b⟩ = some fn
            ∧ (deref h fn).Name.Package = g.outputPackage then 1 else 0 := by
  rw [((sortSlice_perm (manualPairs h g) (lessByName h g)).map _).count_eq]
  rw [count_map_nodup _ _ ⟨a, b⟩ _ (manualPairs_nodup h g hkeys)]
  · by_cases hb : mapGet g.manualConversions ⟨a, b⟩ = some fn
      ∧ (deref h fn).Name.Package = g.outputPackage
    · rw [if_pos hb, if_pos]
      refine ⟨(mem_manualPairs h g hkeys _).2 ⟨fn, hb.1, hb.2⟩, ?_⟩
      simp only [hb.1, Option.getD_some]
    · rw [if_neg hb, if_neg]
      rintro ⟨hmem, hF⟩
      obtain ⟨fn1, hfn1, hpkg⟩ := (mem_manualPairs h g hkeys _).1 hmem
      simp only [hfn1, Option.getD_some, Snippet.mk.injEq, List.cons.injEq, and_true,
        true_and] at hF
      subst hF
      exact hb ⟨hfn1, hpkg⟩
  · intro p _ hF
    simp only [Snippet.mk.injEq, List.cons.injEq, and_true, true_and] at hF
    cases p
    simp only [conversionPair.mk.injEq]
    exact ⟨hF.1, hF.2.1⟩

theorem count_explicit (a b : TypePtr) : ∀ (pairs : List conversionPair),
    (pairs.map (fun pair => Snippet.addGenerated pair.inType pair.outType)).count
        (Snippet.addGenerated a b) = pairs.count ⟨a, b⟩ := by
  intro pairs
  induction pairs with
  | nil => rfl
  | cons p rest ih =>
    rw [List.map_cons, List.count_cons, List.count_cons, ih]
    congr 1
    cases p
    simp only [beq_iff_eq, Snippet.mk.injEq, List.cons.injEq, and_true, true_and,
      conversionPair.mk.injEq]

theorem count_eq_zero_of_template (x : Snippet) (l : List Snippet)
    (hl : ∀ sn ∈ l, sn.template ≠ x.template) : l.count x = 0 := by
  apply List.count_eq_zero.2
  intro hx
  exact hl x hx rfl

/-- C28, as amended: in the registration procedure `Init` emits, the number of
generated-conversion entries for an ordered pair is the number of times the
pair is a direction `t -> peer` or `peer -> t` of a type of the peer-type
list, when no manual function is registered for the pair (none otherwise),
plus the number of times it is an explicit adapter pair; and there is one
manual-conversion entry for the pair and a function when the registry binds
the pair to that function and the function is declared in the output package,
and none otherwise. A pair whose manual function is declared in another
package gets no entry for its peer direction. -/
theorem Init_registrations (c : Context) (s : GenState)
    (hkeys : (s.g.manualConversions.map (fun kv => kv.1)).Nodup) (a b : TypePtr) :
    (genConversion.Init c s).1.count (Snippet.addGenerated a b)
        = (if (s.g.preexists a b).isSome = true then 0
            else (peerPairs c s.heap s.g s.g.types).count ⟨a, b⟩)
          + s.g.explicitConversions.count ⟨a, b⟩
      ∧ ∀ fn, (genConversion.Init c s).1.count (Snippet.addManual a b fn)
          = if mapGet s.g.manualConversions ⟨a, b⟩ = some fn
                ∧ (deref s.heap fn).Name.Package = s.g.outputPackage then 1 else 0 := by
  unfold genConversion.Init
  simp only [List.count_append]
  constructor
  · rw [count_registerPeers, count_explicit]
    rw [count_eq_zero_of_template (Snippet.addGenerated a b) [Snippet.funcInit, _, _, _, _, _]
      (by intro sn hsn; simp only [List.mem_cons, List.mem_singleton, List.mem_nil_iff,
            or_false] at hsn
          rcases hsn with rfl | rfl | rfl | rfl | rfl | rfl <;> simp)]
    rw [count_eq_zero_of_template (Snippet.addGenerated a b) (List.map _ _)
      (by intro sn hsn
          obtain ⟨p, _, rfl⟩ := List.mem_map.1 hsn
          simp)]
    rw [count_eq_zero_of_template (Snippet.addGenerated a b) [Snippet.returnNil, _]
      (by intro sn hsn; simp only [List.mem_cons, List.mem_singleton, List.mem_nil_iff,
            or_false] at hsn
          rcases hsn with rfl | rfl <;> simp)]
    omega
  · intro fn
    rw [count_manual s.heap s.g hkeys]
    rw [count_eq_zero_of_template (Snippet.addManual a b fn) [Snippet.funcInit, _, _, _, _, _]
      (by intro sn hsn; simp only [List.mem_cons, List.mem_singleton, List.mem_nil_iff,
            or_false] at hsn
          rcases hsn with rfl | rfl | rfl | rfl | rfl | rfl <;> simp)]
    rw [count_eq_zero_of_template (Snippet.addManual a b fn) (registerPeers _ _ _ _)
      (by intro sn hsn
          rw [registerPeers_template _ _ _ _ sn hsn]
          simp)]
    rw [count_eq_zero_of_template (Snippet.addManual a b fn) (List.map _ s.g.explicitConversions)
      (by intro sn hsn
          obtain ⟨p, _, rfl⟩ := List.mem_map.1 hsn
          simp)]
    rw [count_eq_zero_of_template (Snippet.addManual a b fn) [Snippet.returnNil, _]
      (by intro sn hsn; simp only [List.mem_cons, List.mem_singleton, List.mem_nil_iff,
            or_false] at hsn
          rcases hsn with rfl | rfl <;> simp)]
    omega

/-- Witness of the amended C28: `v1.Pod` is admitted and the manual function of
cell 36, declared in the output package `v1`, is registered for
`v1.Pod -> internal.Pod`: one manual entry for that direction, one generated
entry for the other. -/
theorem Init_registrations_witness :
    ((genConversion.Init selectorContext (selectorStateOf [(⟨15, 16⟩, 36)] [15])).1.count
          (Snippet.addGenerated 16 15) = 1
        ∧ (genConversion.Init selectorContext (selectorStateOf [(⟨15, 16⟩, 36)] [15])).1.count
          (Snippet.addManual 16 15 36) = 0)
      ∧ (genConversion.Init selectorContext (selectorStateOf [(⟨15, 16⟩, 36)] [15])).1.count
          (Snippet.addGenerated 15 16) = 0
      ∧ (genConversion.Init selectorContext (selectorStateOf [(⟨15, 16⟩, 36)] [15])).1.count
          (Snippet.addManual 15 16 36) = 1 :=
  ⟨⟨(Init_registrations selectorContext (selectorStateOf [(⟨15, 16⟩, 36)] [15]) (by decide)
        16 15).1,
      (Init_registrations selectorContext (selectorStateOf [(⟨15, 16⟩, 36)] [15]) (by decide)
        16 15).2 36⟩,
    (Init_registrations selectorContext (selectorStateOf [(⟨15, 16⟩, 36)] [15]) (by decide)
      15 16).1,
    (Init_registrations selectorContext (selectorStateOf [(⟨15, 16⟩, 36)] [15]) (by decide)
      15 16).2 36⟩

/-- Counterexample to C28 as stated: `v1.Pod` is admitted with the peer
`internal.Pod`, and the manual function registered for `v1.Pod -> internal.Pod`
is the function of cell 37, declared in the package `other` (the output
package is `v1`). The registration procedure holds the generated entry for
`internal.Pod -> v1.Pod` and no entry at all for `v1.Pod -> internal.Pod`. -/
theorem Init_registrations_counterexample :
    (selectorStateOf [(⟨15, 16⟩, 37)] [15]).g.types = [15]
      ∧ getPeerTypeFor selectorContext selectorUniverse 15 ["internal"] = 16
      ∧ (selectorStateOf [(⟨15, 16⟩, 37)] [15]).g.preexists 15 16 = some 37
      ∧ (deref selectorUniverse 37).Name.Package = "other"
      ∧ (selectorStateOf [(⟨15, 16⟩, 37)] [15]).g.outputPackage = "v1"
      ∧ (genConversion.Init selectorContext (selectorStateOf [(⟨15, 16⟩, 37)] [15])).1
        = [Snippet.funcInit, Snippet.registerBuilder, Snippet.close, Snippet.commentRegister,
            Snippet.commentSchemes, Snippet.funcRegister 45, Snippet.addGenerated 16 15,
            Snippet.returnNil, Snippet.closeFunc] := by
  decide

/-! ## Direct convertibility of structs -/

theorem haveIdenticalType_mono (f f1 : TypePtr → TypePtr → Bool → Run Bool) (h : Heap)
    (hext : ExtendsOn f f1) (o i : TypePtr) (c : Bool) (r : Bool)
    (hrun : haveIdenticalType f h o i c = .ok r) : haveIdenticalType f1 h o i c = .ok r := by
  unfold haveIdenticalType at hrun ⊢
  split
  · rw [if_pos (by assumption)] at hrun; exact hrun
  · next hc =>
    rw [if_neg hc] at hrun
    split
    · next hne => rw [if_pos hne] at hrun; exact hrun
    · next hne => rw [if_neg hne] at hrun; exact hext _ _ _ _ hrun

theorem identicalMembers_mono (f f1 : TypePtr → TypePtr → Bool → Run Bool) (h : Heap)
    (hext : ExtendsOn f f1) (c : Bool) : ∀ (ms ns : List types.Member) (r : Bool),
    identicalMembers f h c ms ns = .ok r → identicalMembers f1 h c ms ns = .ok r := by
  intro ms
  induction ms with
  | nil => intro ns r hrun; simpa [identicalMembers] using hrun
  | cons m ms ih =>
    intro ns r hrun
    cases ns with
    | nil => simpa [identicalMembers] using hrun
    | cons n ns =>
      unfold identicalMembers at hrun ⊢
      split
      · next hn => rw [if_pos hn] at hrun; exact hrun
      · next hn =>
        rw [if_neg hn] at hrun
        cases ht : haveIdenticalType f h m.Type_ n.Type_ c with
        | error x => rw [ht] at hrun; cases hrun
        | ok v =>
          rw [ht] at hrun
          rw [haveIdenticalType_mono f f1 h hext _ _ _ _ ht]
          cases v with
          | false => exact hrun
          | true =>
            simp only [] at hrun ⊢
            split
            · next he => rw [if_pos he] at hrun; exact hrun
            · next he =>
              rw [if_neg he] at hrun
              split
              · next htg => rw [if_pos htg] at hrun; exact hrun
              · next htg => rw [if_neg htg] at hrun; exact ih ns r hrun

theorem identicalTypeLists_mono (f f1 : TypePtr → TypePtr → Bool → Run Bool) (h : Heap)
    (hext : ExtendsOn f f1) (c : Bool) : ∀ (os is : List TypePtr) (r : Bool),
    identicalTypeLists f h c os is = .ok r → identicalTypeLists f1 h c os is = .ok r := by
  intro os
  induction os with
  | nil => intro is r hrun; simpa [identicalTypeLists] using hrun
  | cons o os ih =>
    intro is r hrun
    cases is with
    | nil => simpa [identicalTypeLists] using hrun
    | cons i is =>
      unfold identicalTypeLists at hrun ⊢
      cases ht : haveIdenticalType f h o i c with
      | error x => rw [ht] at hrun; cases hrun
      | ok v =>
        rw [ht] at hrun
        rw [haveIdenticalType_mono f f1 h hext _ _ _ _ ht]
        cases v with
        | false => exact hrun
        | true => exact ih is r hrun

theorem haveIdenticalUnderlyingType_succ (h : Heap) : ∀ (n : Nat),
    ExtendsOn (haveIdenticalUnderlyingType h n) (haveIdenticalUnderlyingType h (n + 1)) := by
  intro n
  induction n with
  | zero => intro a b c r hrun; simp [haveIdenticalUnderlyingType] at hrun
  | succ n ih =>
    intro a b c r hrun
    rw [haveIdenticalUnderlyingType] at hrun ⊢
    cases hua : unwrapAlias h a with
    | error x => rw [hua] at hrun; cases hrun
    | ok outType =>
      cases hub : unwrapAlias h b with
      | error x => rw [hua, hub] at hrun; cases hrun
      | ok inType =>
        rw [hua, hub] at hrun
        simp only [] at hrun ⊢
        split
        · next he => rw [if_pos he] at hrun; exact hrun
        · next he =>
          rw [if_neg he] at hrun
          split
          · next hk => rw [if_pos hk] at hrun; exact hrun
          · next hk =>
            rw [if_neg hk] at hrun
            cases hkind : (deref h inType).Kind <;> rw [hkind] at hrun <;> simp only [] at hrun ⊢
            all_goals first
              | exact hrun
              | skip
            · split
              · next hl => rw [if_pos hl] at hrun; exact hrun
              · next hl =>
                rw [if_neg hl] at hrun
                exact identicalMembers_mono _ _ h ih c _ _ r hrun
            · cases ht : haveIdenticalType (haveIdenticalUnderlyingType h n) h
                  (deref h inType).Elem (deref h outType).Elem c with
              | error x => rw [ht] at hrun; cases hrun
              | ok v =>
                rw [ht] at hrun
                rw [haveIdenticalType_mono _ _ h ih _ _ _ _ ht]
                cases v with
                | false => exact hrun
                | true => exact haveIdenticalType_mono _ _ h ih _ _ _ _ hrun
            · exact haveIdenticalType_mono _ _ h ih _ _ _ _ hrun
            · exact haveIdenticalType_mono _ _ h ih _ _ _ _ hrun
            · split
              · next outSig inSig hso hsi =>
                rw [hso, hsi] at hrun
                simp only [] at hrun
                split
                · next hp => rw [if_pos hp] at hrun; exact hrun
                · next hp =>
                  rw [if_neg hp] at hrun
                  cases ht : identicalTypeLists (haveIdenticalUnderlyingType h n) h c
                      (paramsWithReceiver outSig) (paramsWithReceiver inSig) with
                  | error x => rw [ht] at hrun; cases hrun
                  | ok v =>
                    rw [ht] at hrun
                    rw [identicalTypeLists_mono _ _ h ih c _ _ _ ht]
                    cases v with
                    | false => exact hrun
                    | true =>
                      simp only [] at hrun ⊢
                      split
                      · next hl => rw [if_pos hl] at hrun; exact hrun
                      · next hl =>
                        rw [if_neg hl] at hrun
                        exact identicalTypeLists_mono _ _ h ih c _ _ r hrun
              · next hno =>
                exfalso
                revert hrun
                split
                · next outSig inSig hso hsi => exact absurd hsi (hno outSig inSig hso)
                · intro hrun; cases hrun

theorem haveIdenticalUnderlyingType_mono (h : Heap) (n : Nat) : ∀ (k : Nat),
    ExtendsOn (haveIdenticalUnderlyingType h n) (haveIdenticalUnderlyingType h (n + k)) := by
  intro k
  induction k with
  | zero => intro a b c r hrun; exact hrun
  | succ k ih =>
    intro a b c r hrun
    exact haveIdenticalUnderlyingType_succ h (n + k) a b c r (ih a b c r hrun)

theorem haveIdenticalUnderlyingType_le (h : Heap) (n m : Nat) (hle : n ≤ m) :
    ExtendsOn (haveIdenticalUnderlyingType h n) (haveIdenticalUnderlyingType h m) := by
  obtain ⟨k, rfl⟩ := Nat.exists_eq_add_of_le hle
  exact haveIdenticalUnderlyingType_mono h n k

theorem haveIdenticalType_true_iff (f : TypePtr → TypePtr → Bool → Run Bool) (h : Heap)
    (o i : TypePtr) :
    haveIdenticalType f h o i false = .ok true
      ↔ (deref h o).Name.Name = (deref h i).Name.Name
        ∧ (deref h o).Name.Package = (deref h i).Name.Package
        ∧ (deref h o).Kind = (deref h i).Kind
        ∧ f o i false = .ok true := by
  unfold haveIdenticalType
  simp only [Bool.false_eq_true, if_false]
  split
  · next hne =>
    constructor
    · intro hc; cases hc
    · rintro ⟨h1, h2, h3, _⟩
      rcases hne with hne | hne | hne
      · exact absurd h1 hne
      · exact absurd h3 hne
      · exact absurd h2 hne
  · next hne =>
    simp only [not_or, not_not, ne_eq] at hne
    constructor
    · intro hc; exact ⟨hne.1, hne.2.2, hne.2.1, hc⟩
    · rintro ⟨_, _, _, hc⟩; exact hc

theorem identicalMembers_true_iff (f : TypePtr → TypePtr → Bool → Run Bool) (h : Heap) :
    ∀ (ms ns : List types.Member), ms.length = ns.length →
    (identicalMembers f h false ms ns = .ok true
      ↔ List.Forall₂ (fun m om => m.Name = om.Name ∧ m.Embedded = om.Embedded
          ∧ (deref h m.Type_).Name.Name = (deref h om.Type_).Name.Name
          ∧ (deref h m.Type_).Name.Package = (deref h om.Type_).Name.Package
          ∧ (deref h m.Type_).Kind = (deref h om.Type_).Kind
          ∧ f m.Type_ om.Type_ false = .ok true) ms ns) := by
  intro ms
  induction ms with
  | nil =>
    intro ns hlen
    cases ns with
    | nil => simp [identicalMembers]
    | cons n ns => simp at hlen
  | cons m ms ih =>
    intro ns hlen
    cases ns with
    | nil => simp at hlen
    | cons n ns =>
      simp only [List.length_cons, Nat.add_right_cancel_iff] at hlen
      rw [List.forall₂_cons, identicalMembers]
      by_cases hn : m.Name = n.Name
      · rw [if_neg (not_not.mpr hn)]
        cases ht : haveIdenticalType f h m.Type_ n.Type_ false with
        | error x =>
          simp only []
          constructor
          · intro hc; cases hc
          · rintro ⟨⟨_, _, h1, h2, h3, h4⟩, _⟩
            rw [(haveIdenticalType_true_iff f h _ _).2 ⟨h1, h2, h3, h4⟩] at ht
            cases ht
        | ok v =>
          cases v with
          | false =>
            simp only []
            constructor
            · intro hc; cases hc
            · rintro ⟨⟨_, _, h1, h2, h3, h4⟩, _⟩
              rw [(haveIdenticalType_true_iff f h _ _).2 ⟨h1, h2, h3, h4⟩] at ht
              cases ht
          | true =>
            obtain ⟨h1, h2, h3, h4⟩ := (haveIdenticalType_true_iff f h _ _).1 ht
            simp only [Bool.false_eq_true, false_and, if_false]
            by_cases he : m.Embedded = n.Embedded
            · rw [if_neg (not_not.mpr he)]
              constructor
              · intro hc; exact ⟨⟨hn, he, h1, h2, h3, h4⟩, (ih ns hlen).1 hc⟩
              · rintro ⟨_, hc⟩; exact (ih ns hlen).2 hc
            · rw [if_pos he]
              constructor
              · intro hc; cases hc
              · rintro ⟨⟨_, he1, _⟩, _⟩; exact absurd he1 he
      · rw [if_pos hn]
        constructor
        · intro hc; cases hc
        · rintro ⟨⟨hn1, _⟩, _⟩; exact absurd hn1 hn

/-- Members that are convertible position by position are so with one fuel. -/
theorem membersConvertible_fuel (h : Heap) : ∀ (ms ns : List types.Member),
    List.Forall₂ (membersConvertible h) ms ns →
    ∃ fuel, List.Forall₂ (fun m om => m.Name = om.Name ∧ m.Embedded = om.Embedded
          ∧ (deref h m.Type_).Name.Name = (deref h om.Type_).Name.Name
          ∧ (deref h m.Type_).Name.Package = (deref h om.Type_).Name.Package
          ∧ (deref h m.Type_).Kind = (deref h om.Type_).Kind
          ∧ haveIdenticalUnderlyingType h fuel m.Type_ om.Type_ false = .ok true) ms ns := by
  intro ms ns hall
  induction hall with
  | nil => exact ⟨0, List.Forall₂.nil⟩
  | cons hm _ ih =>
    obtain ⟨n1, h1⟩ := ih
    obtain ⟨hn, he, hnn, hp, hk, n0, h0⟩ := hm
    refine ⟨max n0 n1, List.Forall₂.cons ⟨hn, he, hnn, hp, hk, ?_⟩ ?_⟩
    · exact haveIdenticalUnderlyingType_le h n0 _ (le_max_left _ _) _ _ _ _ h0
    · exact List.Forall₂.imp (fun _ _ hx => ⟨hx.1, hx.2.1, hx.2.2.1, hx.2.2.2.1, hx.2.2.2.2.1,
        haveIdenticalUnderlyingType_le h n1 _ (le_max_right _ _) _ _ _ _ hx.2.2.2.2.2⟩) h1

theorem deref_clearTags (h : Heap) (p : TypePtr) :
    deref (clearTags h) p = clearTagsOf (deref h p) := by
  unfold deref clearTags
  rw [List.getD_eq_getElem?_getD, List.getD_eq_getElem?_getD, List.getElem?_map]
  cases h[p]? <;> rfl

theorem unwrapAliasLoop_clearTags (h : Heap) : ∀ (n : Nat) (p : TypePtr),
    unwrapAliasLoop (clearTags h) n p = unwrapAliasLoop h n p := by
  intro n
  induction n with
  | zero => intro p; rfl
  | succ n ih =>
    intro p
    unfold unwrapAliasLoop
    rw [deref_clearTags]
    show (if (deref h p).Kind = .Alias then
        unwrapAliasLoop (clearTags h) n (deref h p).Underlying else .ok p) = _
    rw [ih]

theorem unwrapAlias_clearTags (h : Heap) (p : TypePtr) :
    unwrapAlias (clearTags h) p = unwrapAlias h p := by
  unfold unwrapAlias
  rw [unwrapAliasLoop_clearTags]
  simp [clearTags]

theorem haveIdenticalType_clearTags (f f1 : TypePtr → TypePtr → Bool → Run Bool) (h : Heap)
    (hf : ∀ a b, f1 a b false = f a b false) (o i : TypePtr) :
    haveIdenticalType f1 (clearTags h) o i false = haveIdenticalType f h o i false := by
  unfold haveIdenticalType
  simp only [deref_clearTags, hf]
  rfl

theorem identicalMembers_clearTags (f f1 : TypePtr → TypePtr → Bool → Run Bool) (h : Heap)
    (hf : ∀ a b, f1 a b false = f a b false) : ∀ (ms ns : List types.Member),
    identicalMembers f1 (clearTags h) false
        (ms.map (fun m => { m with Tags := [] })) (ns.map (fun m => { m with Tags := [] }))
      = identicalMembers f h false ms ns := by
  intro ms
  induction ms with
  | nil => intro ns; simp [identicalMembers]
  | cons m ms ih =>
    intro ns
    cases ns with
    | nil => simp [identicalMembers]
    | cons n ns =>
      simp only [List.map_cons]
      rw [identicalMembers, identicalMembers, haveIdenticalType_clearTags f f1 h hf, ih]
      simp only [Bool.false_eq_true, false_and, if_false]

theorem identicalTypeLists_clearTags (f f1 : TypePtr → TypePtr → Bool → Run Bool) (h : Heap)
    (hf : ∀ a b, f1 a b false = f a b false) : ∀ (os is : List TypePtr),
    identicalTypeLists f1 (clearTags h) false os is = identicalTypeLists f h false os is := by
  intro os
  induction os with
  | nil => intro is; simp [identicalTypeLists]
  | cons o os ih =>
    intro is
    cases is with
    | nil => simp [identicalTypeLists]
    | cons i is =>
      rw [identicalTypeLists, identicalTypeLists, haveIdenticalType_clearTags f f1 h hf, ih]

theorem haveIdenticalUnderlyingType_clearTags (h : Heap) : ∀ (n : Nat) (a b : TypePtr),
    haveIdenticalUnderlyingType (clearTags h) n a b false
      = haveIdenticalUnderlyingType h n a b false := by
  intro n
  induction n with
  | zero => intro a b; rfl
  | succ n ih =>
    intro a b
    rw [haveIdenticalUnderlyingType, haveIdenticalUnderlyingType]
    simp only [unwrapAlias_clearTags]
    cases unwrapAlias h a with
    | error x => rfl
    | ok outType =>
      cases unwrapAlias h b with
      | error x => rfl
      | ok inType =>
        simp only [deref_clearTags]
        have hK : ∀ p, (clearTagsOf (deref h p)).Kind = (deref h p).Kind := fun _ => rfl
        have hN : ∀ p, (clearTagsOf (deref h p)).Name = (deref h p).Name := fun _ => rfl
        have hE : ∀ p, (clearTagsOf (deref h p)).Elem = (deref h p).Elem := fun _ => rfl
        have hKy : ∀ p, (clearTagsOf (deref h p)).Key = (deref h p).Key := fun _ => rfl
        have hMe : ∀ p, (clearTagsOf (deref h p)).Methods = (deref h p).Methods := fun _ => rfl
        have hS : ∀ p, (clearTagsOf (deref h p)).Signature = (deref h p).Signature :=
          fun _ => rfl
        have hM : ∀ p, (clearTagsOf (deref h p)).Members
            = (deref h p).Members.map (fun m => { m with Tags := [] }) := fun _ => rfl
        simp only [hK, hN, hE, hKy, hMe, hS, hM, List.length_map,
          identicalMembers_clearTags _ _ h ih, haveIdenticalType_clearTags _ _ h ih,
          identicalTypeLists_clearTags _ _ h ih]

theorem isDirectlyConvertible_struct_eq (h : Heap) (n : Nat) (inType outType a b : TypePtr)
    (ha : unwrapAlias h inType = .ok a) (hb : unwrapAlias h outType = .ok b) (hab : a ≠ b)
    (hka : (deref h a).Kind = .Struct) (hkb : (deref h b).Kind = .Struct) :
    isDirectlyConvertible h (n + 1) inType outType
      = if (deref h a).Members.length ≠ (deref h b).Members.length then .ok false
        else identicalMembers (haveIdenticalUnderlyingType h n) h false
          (deref h a).Members (deref h b).Members := by
  unfold isDirectlyConvertible
  rw [haveIdenticalUnderlyingType]
  simp only [ha, hb, hka, hkb, if_neg (Ne.symm hab), ne_eq, not_true_eq_false, if_false]

/-- C30: for two types that unwrap to distinct struct types,
`isDirectlyConvertible(in, out)` returns true if and only if the two structs
have the same number of members and at every position the member names are
equal, the embedded flags are equal, and the member types have the same name,
package and kind and themselves have identical underlying types; and the
verdict is the same on every heap that differs in struct tags only. -/
theorem isDirectlyConvertible_structs_iff (h : Heap) (inType outType a b : TypePtr)
    (ha : unwrapAlias h inType = .ok a) (hb : unwrapAlias h outType = .ok b) (hab : a ≠ b)
    (hka : (deref h a).Kind = .Struct) (hkb : (deref h b).Kind = .Struct) :
    ((∃ fuel, isDirectlyConvertible h fuel inType outType = .ok true)
        ↔ List.Forall₂ (membersConvertible h) (deref h a).Members (deref h b).Members)
      ∧ ∀ (h1 : Heap) (fuel : Nat), clearTags h1 = clearTags h →
          isDirectlyConvertible h1 fuel inType outType
            = isDirectlyConvertible h fuel inType outType := by
  constructor
  · constructor
    · rintro ⟨fuel, hrun⟩
      cases fuel with
      | zero => simp [isDirectlyConvertible, haveIdenticalUnderlyingType] at hrun
      | succ n =>
        rw [isDirectlyConvertible_struct_eq h n inType outType a b ha hb hab hka hkb] at hrun
        split at hrun
        · cases hrun
        · next hlen =>
          have hlen1 := not_not.1 hlen
          have := (identicalMembers_true_iff _ h _ _ hlen1).1 hrun
          exact List.Forall₂.imp (fun _ _ hx => ⟨hx.1, hx.2.1, hx.2.2.1, hx.2.2.2.1,
            hx.2.2.2.2.1, n, hx.2.2.2.2.2⟩) this
    · intro hall
      obtain ⟨n, hn⟩ := membersConvertible_fuel h _ _ hall
      refine ⟨n + 1, ?_⟩
      rw [isDirectlyConvertible_struct_eq h n inType outType a b ha hb hab hka hkb]
      rw [if_neg (not_not.2 hall.length_eq)]
      exact (identicalMembers_true_iff _ h _ _ hall.length_eq).2 hn
  · intro h1 fuel heq
    unfold isDirectlyConvertible
    rw [← haveIdenticalUnderlyingType_clearTags h1, ← haveIdenticalUnderlyingType_clearTags h,
      heq]

/-- Witness of C30: `v1.Source{Name string; Count int}` against
`internal.Dest{Name string; Count int}`. -/
theorem isDirectlyConvertible_structs_iff_witness :
    List.Forall₂ (membersConvertible exampleUniverse) (deref exampleUniverse 15).Members
      (deref exampleUniverse 16).Members :=
  (isDirectlyConvertible_structs_iff exampleUniverse 15 16 15 16 (by decide) (by decide)
    (by decide) (by decide) (by decide)).1.1 ⟨2, by decide⟩

/-! ## Adapter synthesis -/

theorem unwrapAliasLoop_kind (h : Heap) : ∀ (n : Nat) (p t : TypePtr),
    unwrapAliasLoop h n p = .ok t → (deref h t).Kind ≠ .Alias := by
  intro n
  induction n with
  | zero => intro p t hx; simp [unwrapAliasLoop] at hx
  | succ n ih =>
    intro p t hx
    unfold unwrapAliasLoop at hx
    split at hx
    · exact ih _ _ hx
    · next hk => cases hx; exact hk

theorem unwrapAlias_kind (h : Heap) (p t : TypePtr) (ht : unwrapAlias h p = .ok t) :
    (deref h t).Kind ≠ .Alias :=
  unwrapAliasLoop_kind h _ p t ht

theorem unwrapAlias_eq_iff (h : Heap) (p t : TypePtr) (ht : unwrapAlias h p = .ok t) :
    t = p ↔ (deref h p).Kind ≠ .Alias := by
  constructor
  · intro hp; subst hp; exact unwrapAlias_kind h t t ht
  · intro hk
    rw [unwrapAlias_of_not_alias h p hk] at ht
    cases ht; rfl

theorem TypesEqual_Equal_returns (u : TypesEqual) (h : Heap) (hal : aliasChainsEnd h = true)
    (a b : TypePtr) : ∃ r u1, u.Equal h a b = .ok (r, u1) := by
  cases u with
  | noEquality => exact ⟨false, .noEquality, rfl⟩
  | equalMemoryTypes e =>
    obtain ⟨r, st1, hrun, _⟩ := cachingEqual_returns h hal (h.length + 1) a b ⟨e, []⟩
      (by simp only [unvisited_nil]; exact Nat.lt_succ_self _)
    refine ⟨r, .equalMemoryTypes st1.e, ?_⟩
    simp [TypesEqual.Equal, equalMemoryTypes.Equal, hrun]

theorem fromValuesEntry_returns (i : TypePtr) (m : types.Member) (s : GenState)
    (hal : aliasChainsEnd s.heap = true) :
    ∃ present s1, genConversion.fromValuesEntry i m s = .ok (present, s1)
      ∧ s1.heap = s.heap := by
  unfold genConversion.fromValuesEntry
  cases s.g.preexists i m.Type_ with
  | some f => exact ⟨_, _, rfl, rfl⟩
  | none =>
    simp only []
    split
    · exact ⟨_, _, rfl, rfl⟩
    · obtain ⟨r, u1, hrun⟩ := TypesEqual_Equal_returns s.g.useUnsafe s.heap hal i m.Type_
      rw [hrun]
      cases r with
      | false => exact ⟨_, _, rfl, rfl⟩
      | true =>
        simp only []
        split <;> exact ⟨_, _, rfl, rfl⟩

theorem builtin_is_global (h : Heap) (hb : builtinsAreGlobal h = true) (t : TypePtr)
    (hk : (deref h t).Kind = .Builtin) :
    t < builtinTypes.length ∧ deref h t = deref builtinTypes t := by
  unfold builtinsAreGlobal at hb
  rw [Bool.and_eq_true, decide_eq_true_eq, List.all_eq_true] at hb
  have hlt : t < h.length := by
    by_contra hge
    rw [deref_of_le h t (Nat.le_of_not_lt hge)] at hk
    cases hk
  have h1 := hb.2 t (List.mem_range.2 hlt)
  simp only [Bool.or_eq_true, decide_eq_true_eq] at h1
  have hlt2 : t < builtinTypes.length := by
    rcases h1 with h1 | h1
    · exact absurd hk h1
    · exact h1
  refine ⟨hlt2, ?_⟩
  have hsplit : h = builtinTypes ++ h.drop builtinTypes.length := by
    conv_lhs => rw [← List.take_append_drop builtinTypes.length h, hb.1]
  unfold deref
  conv_lhs => rw [hsplit]
  rw [List.getD_append _ _ _ _ hlt2]

theorem setZeroValue_builtin (name : String) : ∀ t : TypePtr, t < 15 →
    (if t = types.String then (Except.ok [Snippet.setEmptyString name] : Run (List Snippet))
      else if t ∈ [types.Int64, types.Int32, types.Int16, types.Int, types.Uint64,
          types.Uint32, types.Uint16, types.Uint] then .ok [Snippet.setZero name]
      else if t ∈ [types.Uintptr, types.Byte] then .ok [Snippet.setZero name]
      else if t ∈ [types.Float64, types.Float32, types.Float] then .ok [Snippet.setZero name]
      else if t = types.Bool then .ok [Snippet.setFalse name]
      else .ok [Snippet.fixmeUnsupported name])
    = .ok [((if (deref builtinTypes t).Name.Name = "string" then
              some (Snippet.setEmptyString name)
            else if (deref builtinTypes t).Name.Name ∈ numericNames then
              some (Snippet.setZero name)
            else if (deref builtinTypes t).Name.Name = "bool" then some (Snippet.setFalse name)
            else none).getD (Snippet.fixmeUnsupported name))] := by
  intro t ht
  interval_cases t <;> rfl

theorem setZeroValue_eq_spec (h : Heap) (m : types.Member) (t : TypePtr)
    (hb : builtinsAreGlobal h = true) (ht : unwrapAlias h m.Type_ = .ok t) :
    genConversion.setZeroValue h m
      = .ok [(specZeroValue h m t).getD (Snippet.fixmeUnsupported m.Name)] := by
  unfold genConversion.setZeroValue specZeroValue
  rw [ht]
  simp only []
  cases hk : (deref h t).Kind with
  | Builtin =>
    obtain ⟨hlt, hd⟩ := builtin_is_global h hb t hk
    simp only [hd]
    exact setZeroValue_builtin m.Name t hlt
  | Struct =>
    simp only []
    by_cases hkm : (deref h m.Type_).Kind = .Alias
    · have hne : ¬ t = m.Type_ := fun he => (unwrapAlias_eq_iff h _ _ ht).1 he hkm
      rw [if_neg hne, if_pos hkm]; rfl
    · have he : t = m.Type_ := (unwrapAlias_eq_iff h _ _ ht).2 hkm
      rw [if_pos he, if_neg hkm]; rfl
  | Alias => exact absurd hk (unwrapAlias_kind h _ _ ht)
  | _ => rfl

theorem specZeroValue_isSome (h : Heap) (hb : builtinsAreGlobal h = true) (m : types.Member)
    (t : TypePtr) :
    (specZeroValue h m t).isSome = true
      ↔ (deref h t).Kind ∈ [types.Kind.Builtin, types.Kind.Struct, types.Kind.Map,
          types.Kind.Slice, types.Kind.Pointer, types.Kind.Interface, types.Kind.Array] := by
  unfold specZeroValue
  cases hk : (deref h t).Kind with
  | Builtin =>
    obtain ⟨hlt, hd⟩ := builtin_is_global h hb t hk
    simp only [hd]
    have hlt2 : t < 15 := hlt
    interval_cases t <;> exact ⟨fun _ => List.mem_cons_self _ _, fun _ => rfl⟩
  | Struct =>
    simp only []
    split <;> simp
  | _ => simp

theorem fromUrlValuesMember_returns (inType : TypePtr) (m : types.Member) (s : GenState)
    (hopt : memberOptedOut m = false) (hname : (serializedName m).length ≠ 0)
    (hal : aliasChainsEnd s.heap = true) :
    ∃ present absent s1,
      genConversion.fromValuesEntry (valueListType s.heap inType) m s = .ok (present, s1)
        ∧ genConversion.setZeroValue s.heap m = .ok absent
        ∧ fromUrlValuesMember inType m s
            = .ok ([Snippet.ifValues (serializedName m)] ++ present ++ [Snippet.orElse]
                ++ absent ++ [Snippet.close], s1) := by
  obtain ⟨present, s1, hp, hheap⟩ :=
    fromValuesEntry_returns (valueListType s.heap inType) m s hal
  obtain ⟨t, ht⟩ := unwrapAlias_returns s.heap hal m.Type_
  have hz : ∃ absent, genConversion.setZeroValue s.heap m = .ok absent := by
    unfold genConversion.setZeroValue
    rw [ht]
    simp only []
    split <;> (repeat' split) <;> exact ⟨_, rfl⟩
  obtain ⟨absent, hz⟩ := hz
  refine ⟨present, absent, s1, hp, hz, ?_⟩
  have hopt1 : ¬ (extractTag m.CommentLines).head? = some "false" := by
    unfold memberOptedOut at hopt
    exact of_decide_eq_false hopt
  unfold valueListType at hp
  unfold serializedName at hname
  unfold fromUrlValuesMember
  rw [if_neg hopt1]
  simp only [if_neg hname, hp, hheap, hz]
  rfl

/-- C31: for a member that is not opted out and has a serialized name, on a
heap whose alias chains end and whose builtin descriptors are the package-level
ones, the code emitted for the member is the test of the lookup, the present
branch, `} else {`, one line for the absent branch and `}`, and that line is the
zero value the specification gives for the alias-unwrapped type `t` of the
member: the empty string for string, 0 for the numeric builtins, false for
bool, `T{}` for a struct, `Alias(T{})` when the member type is an alias of the
struct, and nil for map, slice, pointer, interface and array. These are all the
types with a zero value: for a type of any other kind (a function, a channel,
an unsupported or unknown type) the line is the note `FIXME: ... is of
unsupported type`. -/
theorem absent_branch_assigns_zero_value (inType : TypePtr) (m : types.Member) (s : GenState)
    (t : TypePtr) (hopt : memberOptedOut m = false) (hname : (serializedName m).length ≠ 0)
    (hal : aliasChainsEnd s.heap = true) (hb : builtinsAreGlobal s.heap = true)
    (ht : unwrapAlias s.heap m.Type_ = .ok t) :
    genConversion.setZeroValue s.heap m
        = .ok [(specZeroValue s.heap m t).getD (Snippet.fixmeUnsupported m.Name)]
      ∧ (∃ present s1,
          fromUrlValuesMember inType m s
            = .ok ([Snippet.ifValues (serializedName m)] ++ present
                ++ [Snippet.orElse,
                    (specZeroValue s.heap m t).getD (Snippet.fixmeUnsupported m.Name),
                    Snippet.close], s1))
      ∧ ((specZeroValue s.heap m t).isSome = true
          ↔ (deref s.heap t).Kind ∈ [types.Kind.Builtin, types.Kind.Struct, types.Kind.Map,
              types.Kind.Slice, types.Kind.Pointer, types.Kind.Interface, types.Kind.Array]) := by
  have hz := setZeroValue_eq_spec s.heap m t hb ht
  refine ⟨hz, ?_, specZeroValue_isSome s.heap hb m t⟩
  obtain ⟨present, absent, s1, _, hz1, hrun⟩ := fromUrlValuesMember_returns inType m s hopt hname hal
  rw [hz] at hz1
  cases hz1
  refine ⟨present, s1, ?_⟩
  rw [hrun]
  simp

/-- Witness of C31: the member `SubAlias` of `v1.Options`, whose type is an
alias of the struct `v1.Sub`, is given `v1.SubAlias(v1.Sub{})` in the absent
branch. -/
theorem absent_branch_assigns_zero_value_witness :
    genConversion.setZeroValue (valuesState [] .noEquality).heap (fieldJson "SubAlias" 20 "subAlias")
      = .ok [(specZeroValue (valuesState [] .noEquality).heap
          (fieldJson "SubAlias" 20 "subAlias") 19).getD (Snippet.fixmeUnsupported "SubAlias")]
      ∧ specZeroValue valuesUniverse (fieldJson "SubAlias" 20 "subAlias") 19
          = some (Snippet.setAliasStructLiteral "SubAlias" 20 19) :=
  ⟨(absent_branch_assigns_zero_value 15 (fieldJson "SubAlias" 20 "subAlias")
      (valuesState [] .noEquality) 19 (by decide) (by decide) (by decide) (by decide)
      (by decide)).1, by decide⟩

theorem takeWhile_split (p : Char → Bool) : ∀ l : List Char,
    ∃ rest, l = l.takeWhile p ++ rest ∧ (∀ c ∈ l.takeWhile p, p c = true)
      ∧ (rest = [] ∨ ∃ c tl, rest = c :: tl ∧ p c = false) := by
  intro l
  induction l with
  | nil => exact ⟨[], rfl, by simp, Or.inl rfl⟩
  | cons c tl ih =>
    by_cases hc : p c = true
    · obtain ⟨rest, h1, h2, h3⟩ := ih
      refine ⟨rest, ?_, ?_, h3⟩
      · rw [List.takeWhile_cons_of_pos hc, List.cons_append, ← h1]
      · rw [List.takeWhile_cons_of_pos hc]
        intro d hd
        rcases List.mem_cons.1 hd with rfl | hd
        · exact hc
        · exact h2 d hd
    · refine ⟨c :: tl, ?_, ?_, Or.inr ⟨c, tl, rfl, by simpa using hc⟩⟩
      · rw [List.takeWhile_cons_of_neg hc]; rfl
      · rw [List.takeWhile_cons_of_neg hc]; simp

/-- C32: the serialized name of a member is the text of its json tag before the
first comma: the tag is the name followed by nothing or by a comma, and the
name holds no comma. It is empty exactly when the tag text is empty, as it is
for a member without json tag, or starts with a comma. For a member that is not
opted out and whose serialized name is empty, the loop of
`generateFromUrlValues` emits the warning and nothing else, and leaves the
generator as it was; for a member that is not opted out and has a serialized
name, the code it emits (it does emit code where alias chains end) starts with
the lookup under that name, and is the lookup, the present branch, the else,
the absent branch and the closing brace. An opted-out member gets the one line
`INFO: ... opted out` whatever its tag. -/
theorem member_without_serialized_name (inType : TypePtr) (m : types.Member) (s : GenState) :
    (∃ rest, (structTagGet m.Tags "json").data = (serializedName m).data ++ rest
        ∧ ',' ∉ (serializedName m).data ∧ (rest = [] ∨ rest.head? = some ','))
      ∧ ((serializedName m).length = 0
          ↔ structTagGet m.Tags "json" = ""
              ∨ (structTagGet m.Tags "json").data.head? = some ',')
      ∧ (mapGet m.Tags "json" = none → (serializedName m).length = 0)
      ∧ (memberOptedOut m = false → (serializedName m).length = 0 →
          fromUrlValuesMember inType m s = .ok ([Snippet.warnNoJsonTag m.Name], s))
      ∧ (memberOptedOut m = false → (serializedName m).length ≠ 0 →
          aliasChainsEnd s.heap = true →
          ∃ present absent s1,
            genConversion.fromValuesEntry (valueListType s.heap inType) m s = .ok (present, s1)
              ∧ genConversion.setZeroValue s.heap m = .ok absent
              ∧ fromUrlValuesMember inType m s
                  = .ok ([Snippet.ifValues (serializedName m)] ++ present ++ [Snippet.orElse]
                      ++ absent ++ [Snippet.close], s1))
      ∧ (memberOptedOut m = true →
          fromUrlValuesMember inType m s = .ok ([Snippet.infoOutOptedOut m.Name], s)) := by
  have hsplit := takeWhile_split (fun c => decide (c ≠ ',')) (structTagGet m.Tags "json").data
  refine ⟨?_, ?_, ?_, ?_, ?_, ?_⟩
  · obtain ⟨rest, h1, h2, h3⟩ := hsplit
    refine ⟨rest, h1, ?_, ?_⟩
    · intro hmem
      have := h2 ',' hmem
      simp at this
    · rcases h3 with h3 | ⟨c, tl, h3, hc⟩
      · exact Or.inl h3
      · right
        have hc1 : c = ',' := by simpa using hc
        rw [h3, hc1]; rfl
  · unfold serializedName beforeComma
    generalize structTagGet m.Tags "json" = tag
    obtain ⟨l⟩ := tag
    cases l with
    | nil => simp [String.length]
    | cons c tl =>
      by_cases hc : c = ','
      · subst hc
        simp [String.length, List.takeWhile]
      · have hne : (String.mk (c :: tl) = "") = False := by
          apply eq_false
          intro he
          have := congrArg String.data he
          simp at this
        simp [String.length, List.takeWhile, hc, hne]
  · intro hnone
    unfold serializedName structTagGet
    rw [hnone]
    decide
  · intro hopt hname
    have hopt1 : ¬ (extractTag m.CommentLines).head? = some "false" := by
      unfold memberOptedOut at hopt
      exact of_decide_eq_false hopt
    unfold serializedName at hname
    unfold fromUrlValuesMember
    rw [if_neg hopt1]
    simp only [if_pos hname]
  · intro hopt hname hal
    exact fromUrlValuesMember_returns inType m s hopt hname hal
  · intro hopt
    have hopt1 : (extractTag m.CommentLines).head? = some "false" := by
      unfold memberOptedOut at hopt
      exact of_decide_eq_true hopt
    unfold fromUrlValuesMember
    rw [if_pos hopt1]

/-- Witness of C32: the member `Dash` of `v1.Options`, tagged
`json:",omitempty"`, gets the warning alone, and for the member `Count`, tagged
`json:"count,omitempty"`, the lookup is made under `count`. -/
theorem member_without_serialized_name_witness :
    fromUrlValuesMember 15 (fieldJson "Dash" types.String ",omitempty")
        (valuesState [] .noEquality)
      = .ok ([Snippet.warnNoJsonTag "Dash"], valuesState [] .noEquality)
      ∧ serializedName (fieldJson "Count" types.Int "count,omitempty") = "count"
      ∧ ∃ present absent s1,
          genConversion.fromValuesEntry (valueListType (valuesState [] .noEquality).heap 15)
              (fieldJson "Count" types.Int "count,omitempty") (valuesState [] .noEquality)
            = .ok (present, s1)
          ∧ genConversion.setZeroValue (valuesState [] .noEquality).heap
              (fieldJson "Count" types.Int "count,omitempty") = .ok absent
          ∧ fromUrlValuesMember 15 (fieldJson "Count" types.Int "count,omitempty")
                (valuesState [] .noEquality)
              = .ok ([Snippet.ifValues
                    (serializedName (fieldJson "Count" types.Int "count,omitempty"))]
                  ++ present ++ [Snippet.orElse] ++ absent ++ [Snippet.close], s1) :=
  ⟨(member_without_serialized_name 15 (fieldJson "Dash" types.String ",omitempty")
      (valuesState [] .noEquality)).2.2.2.1 (by decide) (by decide),
    by decide,
    (member_without_serialized_name 15 (fieldJson "Count" types.Int "count,omitempty")
      (valuesState [] .noEquality)).2.2.2.2.1 (by decide) (by decide) (by decide)⟩

/-- C33, as amended: for a member that is not opted out and has a serialized
name `n`, on a heap whose alias chains end, the emitted code tests that `n` is
present with at least one value and holds a present branch chosen by the
member type: the call of the manual function registered for (value-list type
-> member type) on all the values if one is registered; otherwise the
assignment of the first value when the member type is `string`; otherwise the
reinterpretation of the value list as the member type when the oracle finds
the two memory-equivalent and the value-list type is a pointer, a map or a
slice; and otherwise nothing but the note `FIXME: ... is of not yet supported
type and requires manual conversion`, with no assignment. -/
theorem present_branch_by_member_type (inType : TypePtr) (m : types.Member) (s : GenState)
    (hopt : memberOptedOut m = false) (hname : (serializedName m).length ≠ 0)
    (hal : aliasChainsEnd s.heap = true) :
    ∃ present absent s1,
      fromUrlValuesMember inType m s
          = .ok ([Snippet.ifValues (serializedName m)] ++ present ++ [Snippet.orElse]
              ++ absent ++ [Snippet.close], s1)
        ∧ genConversion.fromValuesEntry (valueListType s.heap inType) m s = .ok (present, s1)
        ∧ (∀ function, s.g.preexists (valueListType s.heap inType) m.Type_ = some function →
            present = [Snippet.callFunctionValues function m.Name, Snippet.returnErr,
              Snippet.close])
        ∧ (s.g.preexists (valueListType s.heap inType) m.Type_ = none →
            m.Type_ = types.String → present = [Snippet.setFirstValue m.Name])
        ∧ (s.g.preexists (valueListType s.heap inType) m.Type_ = none →
            m.Type_ ≠ types.String →
            ∃ r u, s.g.useUnsafe.Equal s.heap (valueListType s.heap inType) m.Type_ = .ok (r, u)
              ∧ (r = true → (deref s.heap (valueListType s.heap inType)).Kind = .Pointer →
                  present = [Snippet.castValuesPointer m.Name m.Type_])
              ∧ (r = true → (deref s.heap (valueListType s.heap inType)).Kind = .Map
                    ∨ (deref s.heap (valueListType s.heap inType)).Kind = .Slice →
                  present = [Snippet.castValuesHeader m.Name m.Type_])
              ∧ (r = false ∨ (deref s.heap (valueListType s.heap inType)).Kind
                    ∉ [types.Kind.Pointer, types.Kind.Map, types.Kind.Slice] →
                  present = [Snippet.fixmeNotYetSupported m.Name])) := by
  obtain ⟨present, absent, s1, hp, _, hrun⟩ :=
    fromUrlValuesMember_returns inType m s hopt hname hal
  refine ⟨present, absent, s1, hrun, hp, ?_, ?_, ?_⟩
  · intro function hf
    unfold genConversion.fromValuesEntry at hp
    rw [hf] at hp
    simp only [Except.ok.injEq, Prod.mk.injEq] at hp
    exact hp.1.symm
  · intro hf hstr
    unfold genConversion.fromValuesEntry at hp
    rw [hf] at hp
    simp only [if_pos hstr, Except.ok.injEq, Prod.mk.injEq] at hp
    exact hp.1.symm
  · intro hf hstr
    obtain ⟨r, u, hEq⟩ :=
      TypesEqual_Equal_returns s.g.useUnsafe s.heap hal (valueListType s.heap inType) m.Type_
    refine ⟨r, u, hEq, ?_, ?_, ?_⟩
    · intro hr hk
      subst hr
      unfold genConversion.fromValuesEntry at hp
      rw [hf] at hp
      simp only [if_neg hstr, hEq, hk, Except.ok.injEq, Prod.mk.injEq] at hp
      exact hp.1.symm
    · intro hr hk
      subst hr
      unfold genConversion.fromValuesEntry at hp
      rw [hf] at hp
      rcases hk with hk | hk <;>
        (simp only [if_neg hstr, hEq, hk, Except.ok.injEq, Prod.mk.injEq] at hp
         exact hp.1.symm)
    · intro hr
      unfold genConversion.fromValuesEntry at hp
      rw [hf] at hp
      simp only [if_neg hstr, hEq] at hp
      rcases hr with hr | hr
      · subst hr
        simp only [Except.ok.injEq, Prod.mk.injEq] at hp
        exact hp.1.symm
      · cases r with
        | false =>
          simp only [Except.ok.injEq, Prod.mk.injEq] at hp
          exact hp.1.symm
        | true =>
          simp only [List.mem_cons, List.mem_singleton, List.mem_nil_iff, or_false,
            not_or] at hr
          simp only [] at hp
          split at hp
          · next hk => exact absurd hk hr.1
          · next hk => exact absurd hk hr.2.1
          · next hk => exact absurd hk hr.2.2
          · simp only [Except.ok.injEq, Prod.mk.injEq] at hp
            exact hp.1.symm

/-- Witness of the amended C33: for the member `Page string` of `v1.Options`,
tagged `json:"page"`, with no manual function registered, the present branch is
`out.Page = values[0]`. -/
theorem present_branch_by_member_type_witness :
    ∃ present absent s1,
      fromUrlValuesMember 15 (fieldJson "Page" types.String "page")
          (valuesState [] (.equalMemoryTypes []))
        = .ok ([Snippet.ifValues (serializedName (fieldJson "Page" types.String "page"))]
            ++ present ++ [Snippet.orElse] ++ absent ++ [Snippet.close], s1)
      ∧ present = [Snippet.setFirstValue "Page"] :=
  match present_branch_by_member_type 15 (fieldJson "Page" types.String "page")
      (valuesState [] (.equalMemoryTypes [])) (by decide) (by decide) (by decide) with
  | ⟨present, absent, s1, hrun, _, _, hstr, _⟩ =>
    ⟨present, absent, s1, hrun, hstr (by decide) (by decide)⟩

/-- Counterexample to C33 as stated: the member `Count int` of `v1.Options`,
tagged `json:"count,omitempty"`, is not opted out and has the serialized name
`count`; no manual function is registered for `[]string -> int`. The present
branch emitted for it assigns nothing: it is the note `FIXME: out.Count is of
not yet supported type and requires manual conversion`. -/
theorem present_branch_by_member_type_counterexample :
    memberOptedOut (fieldJson "Count" types.Int "count,omitempty") = false
      ∧ serializedName (fieldJson "Count" types.Int "count,omitempty") = "count"
      ∧ (valuesState [] (.equalMemoryTypes [])).g.preexists
          (valueListType valuesUniverse 15) types.Int = none
      ∧ (fromUrlValuesMember 15 (fieldJson "Count" types.Int "count,omitempty")
            (valuesState [] (.equalMemoryTypes []))).map Prod.fst
          = .ok [Snippet.ifValues "count", Snippet.fixmeNotYetSupported "Count", Snippet.orElse,
              Snippet.setZero "Count", Snippet.close]
      ∧ (fromUrlValuesMember 15 (fieldJson "Count" types.Int "count,omitempty")
            (valuesState [] .noEquality)).map Prod.fst
          = .ok [Snippet.ifValues "count", Snippet.fixmeNotYetSupported "Count", Snippet.orElse,
              Snippet.setZero "Count", Snippet.close] := by
  decide

/-! ## The order of the arguments of `Equal` -/

/-- C35, the code at the failing input: for `v1.A{First X; Second X}` and
`internal.B{First Y; Second Z}`, where `X` and `Y` hold a string and `Z` an
int, `Equal(A, B)` from an empty cache returns true and `Equal(B, A)` from an
empty cache returns false. The set `alreadyVisitedTypes` is keyed by the first
argument alone: once `X` has been compared with `Y`, the comparison of `X` with
`Z` is answered true without a look at `Z`, while in the other order `Z` is
compared with `X` member by member. -/
theorem Equal_depends_on_argument_order :
    (equalMemoryTypes.Equal [] exampleUniverse 25 26).map Prod.fst = .ok true
      ∧ (equalMemoryTypes.Equal [] exampleUniverse 26 25).map Prod.fst = .ok false
      ∧ (equalMemoryTypes.Equal [] exampleUniverse 22 24).map Prod.fst = .ok false
      ∧ (equalMemoryTypes.Equal [] exampleUniverse 24 22).map Prod.fst = .ok false := by
  decide

/-! ## Aliases of primitives under alias resolution -/

/-- C39, the code at the failing input: for `v1.ID = string` and
`internal.ID = int`, `generateFor` compares the two resolved copies (cells 22
and 23), which are builtins that carry the aliases' names, and `Equal` answers
true because both are named `ID`; on the unwrapped types `string` and `int`
`Equal` answers false. A copy-only conversion function registered for the pair
is skipped on that verdict and the compile error is emitted in its place; with
the oracle that never holds the function is called. For `v1.Text = string` and
`internal.Label = string` the copies are judged different and `string` against
itself the same. Below a slice the aliases are unwrapped by `equal` itself, and
`[]v1.ID` against `[]internal.ID` is judged different. -/
theorem generateFor_compares_alias_names :
    unwrapAlias aliasUniverse 15 = .ok types.String
      ∧ unwrapAlias aliasUniverse 16 = .ok types.Int
      ∧ (genConversion.generateFor 2 1 15 16 false
            (aliasState [] (.equalMemoryTypes []))).map (fun r => r.2.g.useUnsafe)
          = .ok (.equalMemoryTypes [(⟨23, 22⟩, true), (⟨22, 23⟩, true)])
      ∧ (equalMemoryTypes.Equal [] aliasUniverse types.String types.Int).map Prod.fst
          = .ok false
      ∧ (genConversion.generateFor 2 1 15 16 true
            (aliasState [(⟨15, 16⟩, 21)] (.equalMemoryTypes []))).map Prod.fst
          = .ok [Snippet.fixmeProvide 15 16, Snippet.providedAre, Snippet.provided 21 15 16,
              Snippet.compileError]
      ∧ (genConversion.generateFor 2 1 15 16 true
            (aliasState [(⟨15, 16⟩, 21)] .noEquality)).map Prod.fst
          = .ok [Snippet.callFunction 21, Snippet.returnErr, Snippet.close]
      ∧ (genConversion.generateFor 2 1 17 18 false
            (aliasState [] (.equalMemoryTypes []))).map (fun r => r.2.g.useUnsafe)
          = .ok (.equalMemoryTypes [(⟨23, 22⟩, false), (⟨22, 23⟩, false)])
      ∧ (equalMemoryTypes.Equal [] aliasUniverse types.String types.String).map Prod.fst
          = .ok true
      ∧ (genConversion.generateFor 3 2 19 20 false
            (aliasState [] (.equalMemoryTypes []))).map
            (fun r => r.2.g.useUnsafe)
          = .ok (.equalMemoryTypes [(⟨20, 19⟩, false), (⟨19, 20⟩, false), (⟨16, 15⟩, false),
              (⟨15, 16⟩, false)]) := by
  decide

/-! ## The top-level call of `generateFor` -/

theorem callFree_append (a b : List Snippet) :
    callFree (a ++ b) = (callFree a && callFree b) := by
  simp [callFree, List.all_append]

theorem doMap_callFree (gf : Synth) (hgf : gf.CallFree) (i o : TypePtr) (s : GenState)
    (code : List Snippet) (s1 : GenState)
    (hrun : genConversion.doMap gf i o s = .ok (code, s1)) : callFree code = true := by
  unfold genConversion.doMap at hrun
  split at hrun
  · cases hrun
  · next keyCode sA hk =>
    have ck := hgf _ _ _ _ _ _ hk
    split at hrun
    · cases hrun
    · next valCode sB hv =>
      have cv := hgf _ _ _ _ _ _ hv
      simp only [Except.ok.injEq, Prod.mk.injEq] at hrun
      obtain ⟨rfl, rfl⟩ := hrun
      simp only [callFree_append, ck, cv]
      rfl

theorem doSlice_callFree (gf : Synth) (hgf : gf.CallFree) (i o : TypePtr) (s : GenState)
    (code : List Snippet) (s1 : GenState)
    (hrun : genConversion.doSlice gf i o s = .ok (code, s1)) : callFree code = true := by
  unfold genConversion.doSlice at hrun
  split at hrun
  · simp only [Except.ok.injEq, Prod.mk.injEq] at hrun
    obtain ⟨rfl, rfl⟩ := hrun
    rfl
  · split at hrun
    · cases hrun
    · next elemCode sA he =>
      have ce := hgf _ _ _ _ _ _ he
      simp only [Except.ok.injEq, Prod.mk.injEq] at hrun
      obtain ⟨rfl, rfl⟩ := hrun
      simp only [callFree_append, ce]
      rfl

theorem doPointer_callFree (gf : Synth) (hgf : gf.CallFree) (i o : TypePtr) (s : GenState)
    (code : List Snippet) (s1 : GenState)
    (hrun : genConversion.doPointer gf i o s = .ok (code, s1)) : callFree code = true := by
  unfold genConversion.doPointer at hrun
  split at hrun
  · cases hrun
  · next elemCode sA he =>
    have ce := hgf _ _ _ _ _ _ he
    simp only [Except.ok.injEq, Prod.mk.injEq] at hrun
    obtain ⟨rfl, rfl⟩ := hrun
    simp only [callFree_append, ce]
    rfl

theorem forEachMember_callFree (step : types.Member → GenState → Run (List Snippet × GenState))
    (hstep : ∀ m s code s1, step m s = .ok (code, s1) → callFree code = true) :
    ∀ (ms : List types.Member) (s : GenState) (code : List Snippet) (s1 : GenState),
      forEachMember step ms s = .ok (code, s1) → callFree code = true := by
  intro ms
  induction ms with
  | nil =>
    intro s code s1 hrun
    simp only [forEachMember, Except.ok.injEq, Prod.mk.injEq] at hrun
    rw [← hrun.1]; rfl
  | cons m ms ih =>
    intro s code s1 hrun
    simp only [forEachMember] at hrun
    split at hrun
    · cases hrun
    · next code1 sA h1 =>
      split at hrun
      · cases hrun
      · next code2 sB h2 =>
        simp only [Except.ok.injEq, Prod.mk.injEq] at hrun
        rw [← hrun.1, callFree_append, hstep _ _ _ _ h1, ih _ _ _ h2]
        rfl

theorem doStructMember_callFree (gf : Synth) (hgf : gf.CallFree) (i o : TypePtr)
    (m : types.Member) (s : GenState) (code : List Snippet) (s1 : GenState)
    (hrun : doStructMember gf i o m s = .ok (code, s1)) : callFree code = true := by
  unfold doStructMember at hrun
  split at hrun
  · simp only [Except.ok.injEq, Prod.mk.injEq] at hrun
    rw [← hrun.1]; rfl
  · split at hrun
    · simp only [Except.ok.injEq, Prod.mk.injEq] at hrun
      rw [← hrun.1]; rfl
    · split at hrun
      · simp only [Except.ok.injEq, Prod.mk.injEq] at hrun
        rw [← hrun.1]; rfl
      · split at hrun
        · cases hrun
        · next mcode sA hm =>
          have cm := hgf _ _ _ _ _ _ hm
          simp only [Except.ok.injEq, Prod.mk.injEq] at hrun
          rw [← hrun.1]
          simp only [callFree_append, cm]
          rfl

theorem doCompileError_callFree (g : genConversion) (h : Heap) (i o : TypePtr) :
    callFree (g.doCompileErrorOnMissingConversion h i o) = true := by
  unfold callFree
  rw [List.all_eq_true]
  intro sn hsn
  have hm := doCompileError_isMarker g h i o sn hsn
  unfold Snippet.isMarker at hm
  unfold Snippet.isCall
  simp only [decide_eq_true_eq, List.mem_cons, List.mem_singleton, List.not_mem_nil,
    or_false] at hm
  rcases hm with hm | hm | hm | hm | hm <;> simp [hm]

theorem existingFunction_disabled (cf : Nat) (i o iR oR : TypePtr) (s : GenState) :
    existingFunction cf i o iR oR false s = .ok (none, s) := by
  unfold existingFunction
  simp

theorem castStrategy_callFree (i o iR oR : TypePtr) (s : GenState) (code : List Snippet)
    (s1 : GenState) (hrun : castStrategy i o iR oR s = .ok (some code, s1)) :
    callFree code = true := by
  unfold castStrategy at hrun
  (repeat' split at hrun) <;> cases hrun <;> rfl

theorem laterStrategies_callFree (cf : Nat) (gf : Synth) (hgf : gf.CallFree)
    (i o iR oR : TypePtr) (s : GenState) (code : List Snippet) (s1 : GenState)
    (hrun : laterStrategies cf gf i o iR oR s = .ok (code, s1)) : callFree code = true := by
  unfold laterStrategies at hrun
  split at hrun
  · simp only [Except.ok.injEq, Prod.mk.injEq] at hrun
    rw [← hrun.1]; rfl
  · split at hrun
    · cases hrun
    · simp only [Except.ok.injEq, Prod.mk.injEq] at hrun
      rw [← hrun.1]; rfl
    · split at hrun
      · split at hrun
        · exact doMap_callFree gf hgf _ _ _ _ _ hrun
        · exact doSlice_callFree gf hgf _ _ _ _ _ hrun
        · exact forEachMember_callFree _
            (fun m s code s1 h => doStructMember_callFree gf hgf _ _ m s code s1 h)
            _ _ _ _ hrun
        · exact doPointer_callFree gf hgf _ _ _ _ _ hrun
        · simp only [Except.ok.injEq, Prod.mk.injEq] at hrun
          rw [← hrun.1]; exact doCompileError_callFree _ _ _ _
      · simp only [Except.ok.injEq, Prod.mk.injEq] at hrun
        rw [← hrun.1]; exact doCompileError_callFree _ _ _ _

/-- C36, as amended: with the shortcut disabled, the existing-function strategy
is not applied to the pair, whatever is registered: `existingFunction` falls
through and leaves the generator as it was, and `generateFor` goes on with the
strategies (2) to (6). None of these emits an invocation of its own: if the
nested calls of `generateFor` (for member, key, element and pointee pairs) emit
no invocation, the code emitted for the pair holds none. An invocation in the
emitted code therefore comes from a nested call; for a self-referential type
the nested pair can be the top-level pair again, and its conversion function is
then invoked. -/
theorem generateFor_shortcut_disabled (cf : Nat) (gf : Synth) (inType outType : TypePtr)
    (s : GenState) (code : List Snippet) (s1 : GenState) (hgf : gf.CallFree)
    (hrun : generateForBody cf gf inType outType false s = .ok (code, s1)) :
    callFree code = true
      ∧ ∀ inTypeResolved outTypeResolved : TypePtr,
          existingFunction cf inType outType inTypeResolved outTypeResolved false s
            = .ok (none, s) := by
  refine ⟨?_, fun iR oR => existingFunction_disabled cf inType outType iR oR s⟩
  unfold generateForBody at hrun
  split at hrun
  · cases hrun
  · split at hrun
    · cases hrun
    · rw [existingFunction_disabled] at hrun
      simp only [] at hrun
      split at hrun
      · cases hrun
      · next c sB hcast =>
        simp only [Except.ok.injEq, Prod.mk.injEq] at hrun
        rw [← hrun.1]
        exact castStrategy_callFree _ _ _ _ _ _ _ hcast
      · exact laterStrategies_callFree cf gf hgf _ _ _ _ _ _ _ hrun

/-- Witness of the amended C36: for `v1.A -> internal.B` with a manual function
registered for the pair and nested calls that emit `*out = *in`, the top-level
call emits no invocation. -/
theorem generateFor_shortcut_disabled_witness :
    callFree [Snippet.ifTrue, Snippet.scopeMember "First" "First", Snippet.assign,
        Snippet.close, Snippet.ifTrue, Snippet.scopeMember "Second" "Second", Snippet.assign,
        Snippet.close] = true
      ∧ existingFunction 1 25 26 25 26 false (exampleState [(⟨25, 26⟩, 17)] .noEquality)
          = .ok (none, exampleState [(⟨25, 26⟩, 17)] .noEquality) :=
  have run := generateFor_shortcut_disabled 1 (fun _ _ _ s => .ok ([Snippet.assign], s)) 25 26
    (exampleState [(⟨25, 26⟩, 17)] .noEquality)
    [Snippet.ifTrue, Snippet.scopeMember "First" "First", Snippet.assign, Snippet.close,
      Snippet.ifTrue, Snippet.scopeMember "Second" "Second", Snippet.assign, Snippet.close]
    (exampleState [(⟨25, 26⟩, 17)] .noEquality)
    (by intro i o f s code s1 hx; cases hx; rfl) (by decide)
  ⟨run.1, run.2 25 26⟩

/-- Counterexample to C36 as stated: for the self-referential
`v1.Node{Next *v1.Node}` and `internal.Node{Next *internal.Node}`, with
reinterpretation not permitted, the top-level call of `generateFor` for
`v1.Node -> internal.Node` (shortcut disabled) emits, for the pointee of the
member `Next`, the invocation of `Convert_v1_Node_To_internal_Node`, the named
conversion function of the top-level pair; with a manual function registered
for the pair it emits the invocation of that function. -/
theorem generateFor_shortcut_disabled_counterexample :
    (genConversion.generateFor 3 4 15 17 false (recursiveState [] .noEquality)).map Prod.fst
        = .ok [Snippet.ifTrue, Snippet.scopeMember "Next" "Next", Snippet.ifInNil,
            Snippet.outNil, Snippet.orElse, Snippet.newOut 18, Snippet.scopePointee,
            Snippet.callNamed 15 17, Snippet.returnErr, Snippet.close, Snippet.close,
            Snippet.close]
      ∧ (genConversion.generateFor 3 4 15 17 false
            (recursiveState [(⟨15, 17⟩, 19)] .noEquality)).map Prod.fst
        = .ok [Snippet.ifTrue, Snippet.scopeMember "Next" "Next", Snippet.ifInNil,
            Snippet.outNil, Snippet.orElse, Snippet.newOut 18, Snippet.scopePointee,
            Snippet.callFunction 19, Snippet.returnErr, Snippet.close, Snippet.close,
            Snippet.close] := by
  decide

/-! ## The dispatch to slice synthesis -/

theorem unwrapAliasLoop_stable (h : Heap) (hcl : aliasesClosed h = true) :
    ∀ (n : Nat) (p u : TypePtr), p < h.length → unwrapAliasLoop h n p = .ok u →
      u < h.length ∧ ∀ (h1 : Heap) (m : Nat), h <+: h1 → n ≤ m →
        unwrapAliasLoop h1 m p = .ok u := by
  intro n
  induction n with
  | zero => intro p u _ hx; simp [unwrapAliasLoop] at hx
  | succ n ih =>
    intro p u hp hx
    unfold unwrapAliasLoop at hx
    split at hx
    · next hk =>
      have hund : (deref h p).Underlying < h.length := by
        unfold aliasesClosed at hcl
        rw [List.all_eq_true] at hcl
        have := hcl p (List.mem_range.2 hp)
        simp only [Bool.or_eq_true, decide_eq_true_eq] at this
        rcases this with h1 | h1
        · exact absurd hk h1
        · exact h1
      obtain ⟨hu, hrest⟩ := ih _ _ hund hx
      refine ⟨hu, ?_⟩
      intro h1 m hpre hm
      obtain ⟨m1, rfl⟩ : ∃ m1, m = m1 + 1 := ⟨m - 1, by omega⟩
      unfold unwrapAliasLoop
      rw [deref_of_extension h h1 p hpre hp, if_pos hk]
      exact hrest h1 m1 hpre (by omega)
    · next hk =>
      cases hx
      refine ⟨hp, ?_⟩
      intro h1 m hpre hm
      obtain ⟨m1, rfl⟩ : ∃ m1, m = m1 + 1 := ⟨m - 1, by omega⟩
      unfold unwrapAliasLoop
      rw [deref_of_extension h h1 p hpre hp, if_neg hk]

theorem unwrapAlias_stable (h h1 : Heap) (hcl : aliasesClosed h = true) (hpre : h <+: h1)
    (p u : TypePtr) (hp : p < h.length) (hu : unwrapAlias h p = .ok u) :
    u < h.length ∧ unwrapAlias h1 p = .ok u := by
  obtain ⟨hlt, hrest⟩ := unwrapAliasLoop_stable h hcl _ p u hp hu
  refine ⟨hlt, ?_⟩
  unfold unwrapAlias
  exact hrest h1 _ hpre (by have := hpre.length_le; omega)

theorem deref_alloc (h : Heap) (t : types.Type_) : deref (h ++ [t]) h.length = t := by
  unfold deref
  rw [List.getD_append_right _ _ _ _ (Nat.le_refl _)]
  simp

theorem resolveAlias_cell (h h1 : Heap) (t r u : TypePtr) (ht : t < h.length)
    (hu : unwrapAlias h t = .ok u) (hr : resolveAlias h t = .ok (r, h1)) :
    r < h1.length ∧ (deref h1 r).Kind = (deref h u).Kind
      ∧ (deref h1 r).Elem = (deref h u).Elem
      ∧ (∀ p, p < h1.length → p < h.length ∨ p = r) := by
  unfold resolveAlias at hr
  rw [hu] at hr
  simp only [] at hr
  split at hr
  · simp only [alloc, Except.ok.injEq, Prod.mk.injEq] at hr
    obtain ⟨rfl, rfl⟩ := hr
    rw [deref_alloc]
    refine ⟨by simp, rfl, rfl, ?_⟩
    intro p hp
    simp only [List.length_append, List.length_singleton] at hp
    omega
  · next hne =>
    simp only [Except.ok.injEq, Prod.mk.injEq] at hr
    obtain ⟨rfl, rfl⟩ := hr
    have hut : u = t := not_not.1 hne
    subst hut
    exact ⟨ht, rfl, rfl, fun p hp => Or.inl hp⟩

theorem haveIdenticalUnderlyingType_self (h : Heap) (n : Nat) (e : TypePtr) (c : Bool) :
    haveIdenticalUnderlyingType h n e e c ≠ .ok false := by
  cases n with
  | zero => simp [haveIdenticalUnderlyingType]
  | succ n =>
    unfold haveIdenticalUnderlyingType
    cases unwrapAlias h e with
    | error x => simp
    | ok w => simp

theorem haveIdenticalUnderlyingType_self_true (h : Heap) (n : Nat) (e w : TypePtr) (c : Bool)
    (hw : unwrapAlias h e = .ok w) :
    haveIdenticalUnderlyingType h (n + 1) e e c = .ok true := by
  unfold haveIdenticalUnderlyingType
  rw [hw]
  simp

theorem haveIdenticalType_same (f : TypePtr → TypePtr → Bool → Run Bool) (h : Heap)
    (e : TypePtr) : haveIdenticalType f h e e false = f e e false := by
  simp [haveIdenticalType]

theorem slices_of_one_element (h : Heap) (n : Nat) (o i v u : TypePtr)
    (hv : unwrapAlias h o = .ok v) (hu : unwrapAlias h i = .ok u)
    (hkv : (deref h v).Kind = .Slice) (hku : (deref h u).Kind = .Slice)
    (he : (deref h u).Elem = (deref h v).Elem) :
    haveIdenticalUnderlyingType h n o i false ≠ .ok false
      ∧ ((unwrapAlias h (deref h u).Elem).isOk = true → 2 ≤ n →
          haveIdenticalUnderlyingType h n o i false = .ok true) := by
  cases n with
  | zero => simp [haveIdenticalUnderlyingType]
  | succ n =>
    unfold haveIdenticalUnderlyingType
    rw [hv, hu]
    simp only []
    by_cases hvu : v = u
    · simp [hvu]
    · rw [if_neg hvu, if_neg (show ¬ (deref h u).Kind ≠ (deref h v).Kind from by
        rw [hku, hkv]; simp)]
      rw [hku]
      simp only []
      rw [← he, haveIdenticalType_same]
      refine ⟨haveIdenticalUnderlyingType_self h n _ false, ?_⟩
      intro hok hn
      obtain ⟨n1, rfl⟩ : ∃ n1, n = n1 + 1 := ⟨n - 1, by omega⟩
      cases hw : unwrapAlias h (deref h u).Elem with
      | error x => rw [hw] at hok; simp [Except.isOk, Except.toBool] at hok
      | ok w => exact haveIdenticalUnderlyingType_self_true h n1 _ w false hw

theorem resolveAlias_returns (h : Heap) (t u : TypePtr) (hu : unwrapAlias h t = .ok u) :
    ∃ r h1, resolveAlias h t = .ok (r, h1) := by
  unfold resolveAlias
  rw [hu]
  simp only []
  split <;> exact ⟨_, _, rfl⟩

theorem resolved_frame (h : Heap) (inType outType : TypePtr) (hin : inType < h.length)
    (hout : outType < h.length) (hcl : aliasesClosed h = true)
    (hal : aliasChainsEnd h = true) :
    ∃ u v inR h1 outR h2,
      resolveAlias h inType = .ok (inR, h1) ∧ resolveAlias h1 outType = .ok (outR, h2)
        ∧ unwrapAlias h2 inType = .ok u ∧ unwrapAlias h2 outType = .ok v
        ∧ (deref h2 inR).Kind = (deref h2 u).Kind ∧ (deref h2 inR).Elem = (deref h2 u).Elem
        ∧ (deref h2 outR).Kind = (deref h2 v).Kind ∧ (deref h2 outR).Elem = (deref h2 v).Elem
        ∧ (∀ p, p < h2.length → p < h.length ∨ p = inR ∨ p = outR)
        ∧ h <+: h2 := by
  obtain ⟨u, hu⟩ := unwrapAlias_returns h hal inType
  obtain ⟨v, hv⟩ := unwrapAlias_returns h hal outType
  obtain ⟨inR, h1, hr1⟩ := resolveAlias_returns h inType u hu
  have hp1 := resolveAlias_extends h h1 inType inR hr1
  obtain ⟨hvlt, hv1⟩ := unwrapAlias_stable h h1 hcl hp1 outType v hout hv
  obtain ⟨outR, h2, hr2⟩ := resolveAlias_returns h1 outType v hv1
  have hp2 := resolveAlias_extends h1 h2 outType outR hr2
  have hp : h <+: h2 := hp1.trans hp2
  obtain ⟨hult, hu2⟩ := unwrapAlias_stable h h2 hcl hp inType u hin hu
  obtain ⟨_, hv2⟩ := unwrapAlias_stable h h2 hcl hp outType v hout hv
  obtain ⟨hiR, hk1, he1, hc1⟩ := resolveAlias_cell h h1 inType inR u hin hu hr1
  have hout1 : outType < h1.length := Nat.lt_of_lt_of_le hout hp1.length_le
  obtain ⟨hoR, hk2, he2, hc2⟩ := resolveAlias_cell h1 h2 outType outR v hout1 hv1 hr2
  refine ⟨u, v, inR, h1, outR, h2, hr1, hr2, hu2, hv2, ?_, ?_, ?_, ?_, ?_, hp⟩
  · rw [deref_of_extension h1 h2 inR hp2 hiR, hk1, deref_of_extension h h2 u hp hult]
  · rw [deref_of_extension h1 h2 inR hp2 hiR, he1, deref_of_extension h h2 u hp hult]
  · rw [hk2, deref_of_extension h1 h2 v hp2 (Nat.lt_of_lt_of_le hvlt hp1.length_le)]
  · rw [he2, deref_of_extension h1 h2 v hp2 (Nat.lt_of_lt_of_le hvlt hp1.length_le)]
  · intro p hp3
    rcases hc2 p hp3 with hx | hx
    · rcases hc1 p hx with hy | hy
      · exact Or.inl hy
      · exact Or.inr (Or.inl hy)
    · exact Or.inr (Or.inr hx)

theorem copyFree_append (a b : List Snippet) :
    copyFree (a ++ b) = (copyFree a && copyFree b) := by
  simp [copyFree, List.all_append]

theorem doMap_copyFree (gf : Synth) (hgf : gf.CopyFree) (i o : TypePtr) (s : GenState)
    (code : List Snippet) (s1 : GenState)
    (hrun : genConversion.doMap gf i o s = .ok (code, s1)) : copyFree code = true := by
  unfold genConversion.doMap at hrun
  split at hrun
  · cases hrun
  · next keyCode sA hk =>
    have ck := hgf _ _ _ _ _ _ hk
    split at hrun
    · cases hrun
    · next valCode sB hv =>
      have cv := hgf _ _ _ _ _ _ hv
      simp only [Except.ok.injEq, Prod.mk.injEq] at hrun
      obtain ⟨rfl, rfl⟩ := hrun
      simp only [copyFree_append, ck, cv]
      rfl

theorem doSlice_copyFree (gf : Synth) (hgf : gf.CopyFree) (i o : TypePtr) (s : GenState)
    (code : List Snippet) (s1 : GenState)
    (hne : (deref s.heap i).Elem ≠ (deref s.heap o).Elem)
    (hrun : genConversion.doSlice gf i o s = .ok (code, s1)) : copyFree code = true := by
  unfold genConversion.doSlice at hrun
  rw [if_neg (fun hc => hne hc.1)] at hrun
  split at hrun
  · cases hrun
  · next elemCode sA he =>
    have ce := hgf _ _ _ _ _ _ he
    simp only [Except.ok.injEq, Prod.mk.injEq] at hrun
    obtain ⟨rfl, rfl⟩ := hrun
    simp only [copyFree_append, ce]
    rfl

theorem doPointer_copyFree (gf : Synth) (hgf : gf.CopyFree) (i o : TypePtr) (s : GenState)
    (code : List Snippet) (s1 : GenState)
    (hrun : genConversion.doPointer gf i o s = .ok (code, s1)) : copyFree code = true := by
  unfold genConversion.doPointer at hrun
  split at hrun
  · cases hrun
  · next elemCode sA he =>
    have ce := hgf _ _ _ _ _ _ he
    simp only [Except.ok.injEq, Prod.mk.injEq] at hrun
    obtain ⟨rfl, rfl⟩ := hrun
    simp only [copyFree_append, ce]
    rfl

theorem forEachMember_copyFree (step : types.Member → GenState → Run (List Snippet × GenState))
    (hstep : ∀ m s code s1, step m s = .ok (code, s1) → copyFree code = true) :
    ∀ (ms : List types.Member) (s : GenState) (code : List Snippet) (s1 : GenState),
      forEachMember step ms s = .ok (code, s1) → copyFree code = true := by
  intro ms
  induction ms with
  | nil =>
    intro s code s1 hrun
    simp only [forEachMember, Except.ok.injEq, Prod.mk.injEq] at hrun
    rw [← hrun.1]; rfl
  | cons m ms ih =>
    intro s code s1 hrun
    simp only [forEachMember] at hrun
    split at hrun
    · cases hrun
    · next code1 sA h1 =>
      split at hrun
      · cases hrun
      · next code2 sB h2 =>
        simp only [Except.ok.injEq, Prod.mk.injEq] at hrun
        rw [← hrun.1, copyFree_append, hstep _ _ _ _ h1, ih _ _ _ h2]
        rfl

theorem doStructMember_copyFree (gf : Synth) (hgf : gf.CopyFree) (i o : TypePtr)
    (m : types.Member) (s : GenState) (code : List Snippet) (s1 : GenState)
    (hrun : doStructMember gf i o m s = .ok (code, s1)) : copyFree code = true := by
  unfold doStructMember at hrun
  split at hrun
  · simp only [Except.ok.injEq, Prod.mk.injEq] at hrun
    rw [← hrun.1]; rfl
  · split at hrun
    · simp only [Except.ok.injEq, Prod.mk.injEq] at hrun
      rw [← hrun.1]; rfl
    · split at hrun
      · simp only [Except.ok.injEq, Prod.mk.injEq] at hrun
        rw [← hrun.1]; rfl
      · split at hrun
        · cases hrun
        · next mcode sA hm =>
          have cm := hgf _ _ _ _ _ _ hm
          simp only [Except.ok.injEq, Prod.mk.injEq] at hrun
          rw [← hrun.1]
          simp only [copyFree_append, cm]
          rfl

theorem doCompileError_copyFree (g : genConversion) (h : Heap) (i o : TypePtr) :
    copyFree (g.doCompileErrorOnMissingConversion h i o) = true := by
  unfold copyFree
  rw [List.all_eq_true]
  intro sn hsn
  have hm := doCompileError_isMarker g h i o sn hsn
  unfold Snippet.isMarker at hm
  simp only [decide_eq_true_eq, List.mem_cons, List.mem_singleton, List.not_mem_nil,
    or_false] at hm
  rcases hm with hm | hm | hm | hm | hm <;> simp [hm]

theorem laterStrategies_copyFree (cf : Nat) (gf : Synth) (hgf : gf.CopyFree)
    (i o iR oR : TypePtr) (s : GenState) (code : List Snippet) (s1 : GenState)
    (hne : isDirectlyConvertible s.heap cf i o = .ok false →
      (deref s.heap iR).Kind = .Slice → (deref s.heap oR).Kind = .Slice →
      (deref s.heap iR).Elem ≠ (deref s.heap oR).Elem)
    (hrun : laterStrategies cf gf i o iR oR s = .ok (code, s1)) : copyFree code = true := by
  unfold laterStrategies at hrun
  split at hrun
  · simp only [Except.ok.injEq, Prod.mk.injEq] at hrun
    rw [← hrun.1]; rfl
  · split at hrun
    · cases hrun
    · simp only [Except.ok.injEq, Prod.mk.injEq] at hrun
      rw [← hrun.1]; rfl
    · next hconv =>
      split at hrun
      · next hkind =>
        split at hrun
        · exact doMap_copyFree gf hgf _ _ _ _ _ hrun
        · next hk =>
          exact doSlice_copyFree gf hgf _ _ _ _ _ (hne hconv hk (by rw [← hkind]; exact hk)) hrun
        · exact forEachMember_copyFree _
            (fun m s code s1 h => doStructMember_copyFree gf hgf _ _ m s code s1 h)
            _ _ _ _ hrun
        · exact doPointer_copyFree gf hgf _ _ _ _ _ hrun
        · simp only [Except.ok.injEq, Prod.mk.injEq] at hrun
          rw [← hrun.1]; exact doCompileError_copyFree _ _ _ _
      · simp only [Except.ok.injEq, Prod.mk.injEq] at hrun
        rw [← hrun.1]; exact doCompileError_copyFree _ _ _ _

theorem existingFunction_code (cf : Nat) (i o iR oR : TypePtr) (f : Bool) (s : GenState)
    (code : List Snippet) (s1 : GenState)
    (hrun : existingFunction cf i o iR oR f s = .ok (some code, s1)) :
    isEarlyStrategy i o code = true ∧ copyFree code = true := by
  unfold existingFunction at hrun
  (repeat' split at hrun) <;> cases hrun <;> simp [isEarlyStrategy, copyFree]

theorem castStrategy_code (i o iR oR : TypePtr) (s : GenState) (code : List Snippet)
    (s1 : GenState) (hrun : castStrategy i o iR oR s = .ok (some code, s1)) :
    copyFree code = true
      ∧ ((deref s.heap iR).Kind = .Slice → isEarlyStrategy i o code = true) := by
  unfold castStrategy at hrun
  split at hrun
  · cases hrun
  · cases hrun
  · split at hrun
    · next hk =>
      cases hrun
      exact ⟨rfl, fun hs => by rw [hk] at hs; cases hs⟩
    · next hk =>
      cases hrun
      exact ⟨rfl, fun hs => by rw [hk] at hs; cases hs⟩
    · cases hrun
      exact ⟨rfl, fun _ => by simp [isEarlyStrategy]⟩
    · cases hrun

theorem cellClosed_iff (n : Nat) (t : types.Type_) :
    cellClosed n t = true
      ↔ (t.Kind = .Alias → t.Underlying < n)
        ∧ (t.Kind = .Slice ∨ t.Kind = .Pointer ∨ t.Kind = .Map → t.Elem < n)
        ∧ (t.Kind = .Map → t.Key < n)
        ∧ (t.Kind = .Struct → ∀ m ∈ t.Members, m.Type_ < n) := by
  unfold cellClosed
  simp only [Bool.and_eq_true, Bool.or_eq_true, decide_eq_true_eq, List.all_eq_true,
    List.mem_cons, List.mem_singleton, List.not_mem_nil, or_false, ne_eq]
  constructor
  · rintro ⟨⟨⟨h1, h2⟩, h3⟩, h4⟩
    refine ⟨fun hk => ?_, fun hk => ?_, fun hk => ?_, fun hk => ?_⟩
    · rcases h1 with h1 | h1
      · exact absurd hk h1
      · exact h1
    · rcases h2 with h2 | h2
      · exact absurd hk h2
      · exact h2
    · rcases h3 with h3 | h3
      · exact absurd hk h3
      · exact h3
    · rcases h4 with h4 | h4
      · exact absurd hk h4
      · exact h4
  · rintro ⟨h1, h2, h3, h4⟩
    refine ⟨⟨⟨?_, ?_⟩, ?_⟩, ?_⟩
    · by_cases hk : t.Kind = .Alias
      · exact Or.inr (h1 hk)
      · exact Or.inl hk
    · by_cases hk : t.Kind = .Slice ∨ t.Kind = .Pointer ∨ t.Kind = .Map
      · exact Or.inr (h2 hk)
      · exact Or.inl hk
    · by_cases hk : t.Kind = .Map
      · exact Or.inr (h3 hk)
      · exact Or.inl hk
    · by_cases hk : t.Kind = .Struct
      · exact Or.inr (h4 hk)
      · exact Or.inl hk

theorem cellClosed_mono (n m : Nat) (t : types.Type_) (hnm : n ≤ m)
    (hc : cellClosed n t = true) : cellClosed m t = true := by
  rw [cellClosed_iff] at hc ⊢
  obtain ⟨h1, h2, h3, h4⟩ := hc
  exact ⟨fun hk => Nat.lt_of_lt_of_le (h1 hk) hnm, fun hk => Nat.lt_of_lt_of_le (h2 hk) hnm,
    fun hk => Nat.lt_of_lt_of_le (h3 hk) hnm,
    fun hk x hx => Nat.lt_of_lt_of_le (h4 hk x hx) hnm⟩

theorem wellFormed_iff (h : Heap) :
    wellFormed h = true
      ↔ (∀ p, p < h.length → cellClosed h.length (deref h p) = true)
        ∧ aliasChainsEnd h = true := by
  unfold wellFormed
  rw [Bool.and_eq_true, List.all_eq_true]
  constructor
  · rintro ⟨h1, h2⟩
    exact ⟨fun p hp => h1 p (List.mem_range.2 hp), h2⟩
  · rintro ⟨h1, h2⟩
    exact ⟨fun p hp => h1 p (List.mem_range.1 hp), h2⟩

theorem wellFormed_aliasesClosed (h : Heap) (hwf : wellFormed h = true) :
    aliasesClosed h = true := by
  obtain ⟨hc, _⟩ := (wellFormed_iff h).1 hwf
  unfold aliasesClosed
  rw [List.all_eq_true]
  intro p hp
  have := ((cellClosed_iff _ _).1 (hc p (List.mem_range.1 hp))).1
  simp only [Bool.or_eq_true, decide_eq_true_eq]
  by_cases hk : (deref h p).Kind = .Alias
  · exact Or.inr (this hk)
  · exact Or.inl hk

theorem wellFormed_alloc (h : Heap) (t : types.Type_) (hwf : wellFormed h = true)
    (hc : cellClosed h.length t = true) (hk : t.Kind ≠ .Alias) :
    wellFormed (h ++ [t]) = true := by
  have hcl := wellFormed_aliasesClosed h hwf
  obtain ⟨hcells, hal⟩ := (wellFormed_iff h).1 hwf
  rw [wellFormed_iff]
  have hlen : (h ++ [t]).length = h.length + 1 := by simp
  constructor
  · intro p hp
    rw [hlen] at hp ⊢
    by_cases hlt : p < h.length
    · rw [deref_append_of_lt h t p hlt]
      exact cellClosed_mono _ _ _ (Nat.le_succ _) (hcells p hlt)
    · have hpe : p = h.length := by omega
      rw [hpe, deref_alloc]
      exact cellClosed_mono _ _ _ (Nat.le_succ _) hc
  · unfold aliasChainsEnd
    rw [List.all_eq_true]
    intro p hp
    have hp1 := List.mem_range.1 hp
    rw [hlen] at hp1
    by_cases hlt : p < h.length
    · obtain ⟨u, hu⟩ := unwrapAlias_returns h hal p
      rw [(unwrapAlias_stable h (h ++ [t]) hcl (List.prefix_append _ _) p u hlt hu).2]
      rfl
    · have hpe : p = h.length := by omega
      rw [unwrapAlias_of_not_alias (h ++ [t]) p (by rw [hpe, deref_alloc]; exact hk)]
      rfl

theorem resolveAlias_wellFormed (h h1 : Heap) (t r : TypePtr) (hwf : wellFormed h = true)
    (ht : t < h.length) (hr : resolveAlias h t = .ok (r, h1)) :
    wellFormed h1 = true ∧ r < h1.length ∧ h <+: h1 := by
  have hpre := resolveAlias_extends h h1 t r hr
  have hcl := wellFormed_aliasesClosed h hwf
  obtain ⟨hcells, hal⟩ := (wellFormed_iff h).1 hwf
  obtain ⟨u, hu⟩ := unwrapAlias_returns h hal t
  obtain ⟨hrlt, _, _, _⟩ := resolveAlias_cell h h1 t r u ht hu hr
  refine ⟨?_, hrlt, hpre⟩
  have hult := (unwrapAlias_stable h h hcl (List.prefix_refl _) t u ht hu).1
  unfold resolveAlias at hr
  rw [hu] at hr
  simp only [] at hr
  split at hr
  · simp only [alloc, Except.ok.injEq, Prod.mk.injEq] at hr
    rw [← hr.2]
    apply wellFormed_alloc h _ hwf
    · have := hcells u hult
      rw [cellClosed_iff] at this ⊢
      exact this
    · exact unwrapAlias_kind h t u hu
  · simp only [Except.ok.injEq, Prod.mk.injEq] at hr
    rw [← hr.2]
    exact hwf

theorem findMember_mem (h : Heap) (t : TypePtr) (names : List String) (m : types.Member)
    (hf : findMember h t names = some m) :
    (deref h t).Kind = .Struct ∧ m ∈ (deref h t).Members := by
  unfold findMember at hf
  split at hf
  · cases hf
  · next hk => exact ⟨not_not.1 hk, List.mem_of_find?_eq_some hf⟩

theorem wellFormed_cell (h : Heap) (hwf : wellFormed h = true) (p : TypePtr)
    (hp : p < h.length) :
    ((deref h p).Kind = .Slice ∨ (deref h p).Kind = .Pointer ∨ (deref h p).Kind = .Map →
        (deref h p).Elem < h.length)
      ∧ ((deref h p).Kind = .Map → (deref h p).Key < h.length)
      ∧ ((deref h p).Kind = .Struct → ∀ m ∈ (deref h p).Members, m.Type_ < h.length) := by
  have := (cellClosed_iff _ _).1 (((wellFormed_iff h).1 hwf).1 p hp)
  exact ⟨this.2.1, this.2.2.1, this.2.2.2⟩

theorem doMap_copyFreeOn (gf : Synth) (hgf : gf.CopyFreeOn) (i o : TypePtr) (s : GenState)
    (code : List Snippet) (s1 : GenState) (hwf : wellFormed s.heap = true)
    (hi : i < s.heap.length) (ho : o < s.heap.length)
    (hki : (deref s.heap i).Kind = .Map) (hko : (deref s.heap o).Kind = .Map)
    (hrun : genConversion.doMap gf i o s = .ok (code, s1)) :
    copyFree code = true ∧ wellFormed s1.heap = true ∧ s.heap <+: s1.heap := by
  obtain ⟨hie, hik, _⟩ := wellFormed_cell s.heap hwf i hi
  obtain ⟨hoe, hok, _⟩ := wellFormed_cell s.heap hwf o ho
  unfold genConversion.doMap at hrun
  split at hrun
  · cases hrun
  · next keyCode sA hk =>
    obtain ⟨ck, wfA, preA⟩ := hgf _ _ _ _ _ _ hwf (hik hki) (hok hko) hk
    split at hrun
    · cases hrun
    · next valCode sB hv =>
      have hle := preA.length_le
      obtain ⟨cv, wfB, preB⟩ := hgf _ _ _ _ _ _ wfA
        (by rw [deref_of_extension _ _ i preA hi]
            exact Nat.lt_of_lt_of_le (hie (Or.inr (Or.inr hki))) hle)
        (by rw [deref_of_extension _ _ o preA ho]
            exact Nat.lt_of_lt_of_le (hoe (Or.inr (Or.inr hko))) hle) hv
      simp only [Except.ok.injEq, Prod.mk.injEq] at hrun
      obtain ⟨rfl, rfl⟩ := hrun
      refine ⟨?_, wfB, preA.trans preB⟩
      simp only [copyFree_append, ck, cv]
      rfl

theorem doSlice_copyFreeOn (gf : Synth) (hgf : gf.CopyFreeOn) (i o : TypePtr) (s : GenState)
    (code : List Snippet) (s1 : GenState) (hwf : wellFormed s.heap = true)
    (hi : i < s.heap.length) (ho : o < s.heap.length)
    (hki : (deref s.heap i).Kind = .Slice) (hko : (deref s.heap o).Kind = .Slice)
    (hne : (deref s.heap i).Elem ≠ (deref s.heap o).Elem)
    (hrun : genConversion.doSlice gf i o s = .ok (code, s1)) :
    copyFree code = true ∧ wellFormed s1.heap = true ∧ s.heap <+: s1.heap := by
  obtain ⟨hie, _, _⟩ := wellFormed_cell s.heap hwf i hi
  obtain ⟨hoe, _, _⟩ := wellFormed_cell s.heap hwf o ho
  unfold genConversion.doSlice at hrun
  rw [if_neg (fun hc => hne hc.1)] at hrun
  split at hrun
  · cases hrun
  · next elemCode sA he =>
    obtain ⟨ce, wfA, preA⟩ := hgf _ _ _ _ _ _ hwf (hie (Or.inl hki)) (hoe (Or.inl hko)) he
    simp only [Except.ok.injEq, Prod.mk.injEq] at hrun
    obtain ⟨rfl, rfl⟩ := hrun
    refine ⟨?_, wfA, preA⟩
    simp only [copyFree_append, ce]
    rfl

theorem doPointer_copyFreeOn (gf : Synth) (hgf : gf.CopyFreeOn) (i o : TypePtr)
    (s : GenState) (code : List Snippet) (s1 : GenState) (hwf : wellFormed s.heap = true)
    (hi : i < s.heap.length) (ho : o < s.heap.length)
    (hki : (deref s.heap i).Kind = .Pointer) (hko : (deref s.heap o).Kind = .Pointer)
    (hrun : genConversion.doPointer gf i o s = .ok (code, s1)) :
    copyFree code = true ∧ wellFormed s1.heap = true ∧ s.heap <+: s1.heap := by
  obtain ⟨hie, _, _⟩ := wellFormed_cell s.heap hwf i hi
  obtain ⟨hoe, _, _⟩ := wellFormed_cell s.heap hwf o ho
  unfold genConversion.doPointer at hrun
  split at hrun
  · cases hrun
  · next elemCode sA he =>
    obtain ⟨ce, wfA, preA⟩ := hgf _ _ _ _ _ _ hwf (hie (Or.inr (Or.inl hki)))
      (hoe (Or.inr (Or.inl hko))) he
    simp only [Except.ok.injEq, Prod.mk.injEq] at hrun
    obtain ⟨rfl, rfl⟩ := hrun
    refine ⟨?_, wfA, preA⟩
    simp only [copyFree_append, ce]
    rfl

theorem forEachMember_copyFreeOn
    (step : types.Member → GenState → Run (List Snippet × GenState)) (n : Nat)
    (hstep : ∀ m s code s1, wellFormed s.heap = true → n ≤ s.heap.length → m.Type_ < n →
      step m s = .ok (code, s1) →
      copyFree code = true ∧ wellFormed s1.heap = true ∧ s.heap <+: s1.heap) :
    ∀ (ms : List types.Member) (s : GenState) (code : List Snippet) (s1 : GenState),
      (∀ m ∈ ms, m.Type_ < n) → wellFormed s.heap = true → n ≤ s.heap.length →
      forEachMember step ms s = .ok (code, s1) →
      copyFree code = true ∧ wellFormed s1.heap = true ∧ s.heap <+: s1.heap := by
  intro ms
  induction ms with
  | nil =>
    intro s code s1 _ hwf _ hrun
    simp only [forEachMember, Except.ok.injEq, Prod.mk.injEq] at hrun
    obtain ⟨rfl, rfl⟩ := hrun
    exact ⟨rfl, hwf, List.prefix_refl _⟩
  | cons m ms ih =>
    intro s code s1 hall hwf hn hrun
    simp only [forEachMember] at hrun
    split at hrun
    · cases hrun
    · next code1 sA h1 =>
      obtain ⟨c1, wfA, preA⟩ := hstep _ _ _ _ hwf hn (hall m (List.mem_cons_self _ _)) h1
      split at hrun
      · cases hrun
      · next code2 sB h2 =>
        obtain ⟨c2, wfB, preB⟩ := ih _ _ _ (fun x hx => hall x (List.mem_cons_of_mem _ hx))
          wfA (Nat.le_trans hn preA.length_le) h2
        simp only [Except.ok.injEq, Prod.mk.injEq] at hrun
        obtain ⟨rfl, rfl⟩ := hrun
        exact ⟨by rw [copyFree_append, c1, c2]; rfl, wfB, preA.trans preB⟩

theorem doStructMember_copyFreeOn (gf : Synth) (hgf : gf.CopyFreeOn) (i o : TypePtr)
    (n : Nat) (ho : o < n) (m : types.Member) (s : GenState) (code : List Snippet)
    (s1 : GenState) (hwf : wellFormed s.heap = true) (hn : n ≤ s.heap.length)
    (hm : m.Type_ < n) (hrun : doStructMember gf i o m s = .ok (code, s1)) :
    copyFree code = true ∧ wellFormed s1.heap = true ∧ s.heap <+: s1.heap := by
  unfold doStructMember at hrun
  split at hrun
  · simp only [Except.ok.injEq, Prod.mk.injEq] at hrun
    obtain ⟨rfl, rfl⟩ := hrun
    exact ⟨rfl, hwf, List.prefix_refl _⟩
  · split at hrun
    · simp only [Except.ok.injEq, Prod.mk.injEq] at hrun
      obtain ⟨rfl, rfl⟩ := hrun
      exact ⟨rfl, hwf, List.prefix_refl _⟩
    · next outMember hfind =>
      split at hrun
      · simp only [Except.ok.injEq, Prod.mk.injEq] at hrun
        obtain ⟨rfl, rfl⟩ := hrun
        exact ⟨rfl, hwf, List.prefix_refl _⟩
      · split at hrun
        · cases hrun
        · next mcode sA hgen =>
          obtain ⟨hks, hmem⟩ := findMember_mem _ _ _ _ hfind
          have hol : o < s.heap.length := Nat.lt_of_lt_of_le ho hn
          have hout := (wellFormed_cell s.heap hwf o hol).2.2 hks outMember hmem
          obtain ⟨cm, wfA, preA⟩ := hgf _ _ _ _ _ _ hwf (Nat.lt_of_lt_of_le hm hn) hout hgen
          simp only [Except.ok.injEq, Prod.mk.injEq] at hrun
          obtain ⟨rfl, rfl⟩ := hrun
          refine ⟨?_, wfA, preA⟩
          simp only [copyFree_append, cm]
          rfl

theorem laterStrategies_copyFreeOn (cf : Nat) (gf : Synth) (hgf : gf.CopyFreeOn)
    (i o iR oR : TypePtr) (s : GenState) (code : List Snippet) (s1 : GenState)
    (hwf : wellFormed s.heap = true) (hi : iR < s.heap.length) (ho : oR < s.heap.length)
    (hne : isDirectlyConvertible s.heap cf i o = .ok false →
      (deref s.heap iR).Kind = .Slice → (deref s.heap oR).Kind = .Slice →
      (deref s.heap iR).Elem ≠ (deref s.heap oR).Elem)
    (hrun : laterStrategies cf gf i o iR oR s = .ok (code, s1)) :
    copyFree code = true ∧ wellFormed s1.heap = true ∧ s.heap <+: s1.heap := by
  unfold laterStrategies at hrun
  split at hrun
  · simp only [Except.ok.injEq, Prod.mk.injEq] at hrun
    obtain ⟨rfl, rfl⟩ := hrun
    exact ⟨rfl, hwf, List.prefix_refl _⟩
  · split at hrun
    · cases hrun
    · simp only [Except.ok.injEq, Prod.mk.injEq] at hrun
      obtain ⟨rfl, rfl⟩ := hrun
      exact ⟨rfl, hwf, List.prefix_refl _⟩
    · next hconv =>
      split at hrun
      · next hkind =>
        split at hrun
        · next hk =>
          exact doMap_copyFreeOn gf hgf _ _ _ _ _ hwf hi ho hk (by rw [← hkind]; exact hk) hrun
        · next hk =>
          exact doSlice_copyFreeOn gf hgf _ _ _ _ _ hwf hi ho hk (by rw [← hkind]; exact hk)
            (hne hconv hk (by rw [← hkind]; exact hk)) hrun
        · next hk =>
          exact forEachMember_copyFreeOn _ s.heap.length
            (fun m s2 code s3 hwf2 hn hm h =>
              doStructMember_copyFreeOn gf hgf iR oR s.heap.length ho m s2 code s3 hwf2 hn hm h)
            _ _ _ _ ((wellFormed_cell s.heap hwf iR hi).2.2 hk) hwf (Nat.le_refl _) hrun
        · next hk =>
          exact doPointer_copyFreeOn gf hgf _ _ _ _ _ hwf hi ho hk
            (by rw [← hkind]; exact hk) hrun
        · simp only [Except.ok.injEq, Prod.mk.injEq] at hrun
          obtain ⟨rfl, rfl⟩ := hrun
          exact ⟨doCompileError_copyFree _ _ _ _, hwf, List.prefix_refl _⟩
      · simp only [Except.ok.injEq, Prod.mk.injEq] at hrun
        obtain ⟨rfl, rfl⟩ := hrun
        exact ⟨doCompileError_copyFree _ _ _ _, hwf, List.prefix_refl _⟩

theorem generateForBody_split (cf : Nat) (gf : Synth) (inType outType : TypePtr)
    (functionOK : Bool) (s : GenState) (inR outR : TypePtr) (h1 h2 : Heap)
    (hr1 : resolveAlias s.heap inType = .ok (inR, h1))
    (hr2 : resolveAlias h1 outType = .ok (outR, h2)) (code : List Snippet) (s1 : GenState)
    (hrun : generateForBody cf gf inType outType functionOK s = .ok (code, s1)) :
    (∃ sA, sA.heap = h2 ∧ s1 = sA
        ∧ existingFunction cf inType outType inR outR functionOK { s with heap := h2 }
          = .ok (some code, sA))
      ∨ (∃ sA, sA.heap = h2 ∧ s1.heap = h2
          ∧ castStrategy inType outType inR outR sA = .ok (some code, s1))
      ∨ (∃ sB, sB.heap = h2
          ∧ laterStrategies cf gf inType outType inR outR sB = .ok (code, s1)) := by
  unfold generateForBody at hrun
  rw [hr1] at hrun
  simp only [] at hrun
  rw [hr2] at hrun
  simp only [] at hrun
  split at hrun
  · cases hrun
  · next c sA hfirst =>
    simp only [Except.ok.injEq, Prod.mk.injEq] at hrun
    obtain ⟨rfl, rfl⟩ := hrun
    exact Or.inl ⟨_, (existingFunction_heap _ _ _ _ _ _ _ _ _ hfirst).1, rfl, hfirst⟩
  · next sA hfirst =>
    have hA := (existingFunction_heap _ _ _ _ _ _ _ _ _ hfirst).1
    split at hrun
    · cases hrun
    · next c sB hcast =>
      simp only [Except.ok.injEq, Prod.mk.injEq] at hrun
      obtain ⟨rfl, rfl⟩ := hrun
      have hB := (castStrategy_heap _ _ _ _ _ _ _ hcast).1
      exact Or.inr (Or.inl ⟨sA, hA, by rw [hB, hA], hcast⟩)
    · next sB hcast =>
      have hB := (castStrategy_heap _ _ _ _ _ _ _ hcast).1
      exact Or.inr (Or.inr ⟨sB, by rw [hB, hA], hrun⟩)

theorem slice_dispatch (cf : Nat) (inType outType : TypePtr) (h : Heap)
    (hin : inType < h.length) (hout : outType < h.length) (hcl : aliasesClosed h = true)
    (hal : aliasChainsEnd h = true) :
    ∃ inR h1 outR h2,
      resolveAlias h inType = .ok (inR, h1) ∧ resolveAlias h1 outType = .ok (outR, h2)
        ∧ ((deref h2 inR).Kind = .Slice → (deref h2 outR).Kind = .Slice →
            (deref h2 inR).Elem = (deref h2 outR).Elem →
            isDirectlyConvertible h2 cf inType outType ≠ .ok false
              ∧ (2 ≤ cf → isDirectlyConvertible h2 cf inType outType = .ok true)) := by
  obtain ⟨u, v, inR, h1, outR, h2, hr1, hr2, hu2, hv2, hki, hei, hko, heo, hcover, hpre⟩ :=
    resolved_frame h inType outType hin hout hcl hal
  refine ⟨inR, h1, outR, h2, hr1, hr2, ?_⟩
  intro hk1 hk2 he
  have hku : (deref h2 u).Kind = .Slice := by rw [← hki]; exact hk1
  have hkv : (deref h2 v).Kind = .Slice := by rw [← hko]; exact hk2
  have heuv : (deref h2 u).Elem = (deref h2 v).Elem := by rw [← hei, ← heo]; exact he
  obtain ⟨hA, hB⟩ := slices_of_one_element h2 cf outType inType v u hv2 hu2 hkv hku heuv
  refine ⟨hA, fun hcf => hB ?_ hcf⟩
  -- the element type unwraps on the grown heap
  by_cases hlt : (deref h2 u).Elem < h2.length
  · rcases hcover _ hlt with hx | hx | hx
    · obtain ⟨w, hw⟩ := unwrapAlias_returns h hal (deref h2 u).Elem
      rw [(unwrapAlias_stable h h2 hcl hpre _ w hx hw).2]
      rfl
    · rw [unwrapAlias_of_not_alias h2 _ (by rw [hx, hk1]; decide)]
      rfl
    · rw [unwrapAlias_of_not_alias h2 _ (by rw [hx, hk2]; decide)]
      rfl
  · rw [unwrapAlias_of_not_alias h2 _ (by
      rw [deref_of_le h2 _ (Nat.le_of_not_lt hlt)]; decide)]
    rfl

theorem generateForBody_copyFreeOn (cf : Nat) (gf : Synth) (hgf : gf.CopyFreeOn) :
    Synth.CopyFreeOn (generateForBody cf gf) := by
  intro i o f s code s1 hwf hi ho hrun
  have hcl := wellFormed_aliasesClosed s.heap hwf
  have hal := ((wellFormed_iff s.heap).1 hwf).2
  obtain ⟨inR, h1, outR, h2, hr1, hr2, hkey⟩ := slice_dispatch cf i o s.heap hi ho hcl hal
  obtain ⟨wf1, hiR, pre1⟩ := resolveAlias_wellFormed s.heap h1 i inR hwf hi hr1
  obtain ⟨wf2, hoR, pre2⟩ := resolveAlias_wellFormed h1 h2 o outR wf1
    (Nat.lt_of_lt_of_le ho pre1.length_le) hr2
  have hpre : s.heap <+: h2 := pre1.trans pre2
  rcases generateForBody_split cf gf i o f s inR outR h1 h2 hr1 hr2 code s1 hrun with
    ⟨sA, hA, hs1, hfirst⟩ | ⟨sA, hA, hs1, hcast⟩ | ⟨sB, hB, hlater⟩
  · subst hs1
    refine ⟨(existingFunction_code _ _ _ _ _ _ _ _ _ hfirst).2, ?_, ?_⟩
    · rw [hA]; exact wf2
    · rw [hA]; exact hpre
  · refine ⟨(castStrategy_code _ _ _ _ _ _ _ hcast).1, ?_, ?_⟩
    · rw [hs1]; exact wf2
    · rw [hs1]; exact hpre
  · obtain ⟨c, wf, pre⟩ := laterStrategies_copyFreeOn cf gf hgf i o inR outR sB code s1
      (by rw [hB]; exact wf2) (by rw [hB]; exact Nat.lt_of_lt_of_le hiR pre2.length_le)
      (by rw [hB]; exact hoR)
      (by rw [hB]; exact fun hconv hk1 hk2 he => (hkey hk1 hk2 he).1 hconv) hlater
    exact ⟨c, wf, by rw [hB] at pre; exact hpre.trans pre⟩

theorem generateFor_copyFreeOn (cf : Nat) :
    ∀ fuel : Nat, Synth.CopyFreeOn (genConversion.generateFor cf fuel) := by
  intro fuel
  induction fuel with
  | zero =>
    intro i o f s code s1 _ _ _ hrun
    simp [genConversion.generateFor] at hrun
  | succ n ih =>
    intro i o f s code s1 hwf hi ho hrun
    exact generateForBody_copyFreeOn cf _ ih i o f s code s1 hwf hi ho hrun

/-- C37: on a heap that holds the two types, where every alias names a type of
the heap and every alias chain ends, whenever `generateFor` reaches the
dispatch of strategy (5) with two slices (direct conversion has answered no),
the element types of the two resolved slices are not the identical type, so
`doSlice` takes the element loop. A slice pair whose element types are
identical is directly convertible (with two levels of recursion the check
returns true), and the code `generateFor` returns for it is the call of a
function, the reinterpretation of the header, the value copy or the direct
conversion. Hence the bulk copy `copy(*out, *in)` is never emitted by the
dispatch: if the nested calls emit none, the code for the pair holds none; and
on a heap all of whose references stay in the heap, `generateFor` emits no bulk
copy at any depth of nesting. -/
theorem doSlice_bulk_copy_unreachable (cf : Nat) (gf : Synth) (inType outType : TypePtr)
    (functionOK : Bool) (s : GenState) (hin : inType < s.heap.length)
    (hout : outType < s.heap.length) (hcl : aliasesClosed s.heap = true)
    (hal : aliasChainsEnd s.heap = true) :
    ∃ inR h1 outR h2,
      resolveAlias s.heap inType = .ok (inR, h1) ∧ resolveAlias h1 outType = .ok (outR, h2)
        ∧ (isDirectlyConvertible h2 cf inType outType = .ok false →
            (deref h2 inR).Kind = .Slice → (deref h2 outR).Kind = .Slice →
            (deref h2 inR).Elem ≠ (deref h2 outR).Elem)
        ∧ ((deref h2 inR).Kind = .Slice → (deref h2 outR).Kind = .Slice →
            (deref h2 inR).Elem = (deref h2 outR).Elem →
            (2 ≤ cf → isDirectlyConvertible h2 cf inType outType = .ok true)
              ∧ ∀ code s1,
                  generateForBody cf gf inType outType functionOK s = .ok (code, s1) →
                  isEarlyStrategy inType outType code = true)
        ∧ (gf.CopyFree → ∀ code s1,
            generateForBody cf gf inType outType functionOK s = .ok (code, s1) →
            copyFree code = true)
        ∧ (wellFormed s.heap = true → ∀ fuel code s1,
            genConversion.generateFor cf fuel inType outType functionOK s = .ok (code, s1) →
            copyFree code = true) := by
  obtain ⟨inR, h1, outR, h2, hr1, hr2, hkey⟩ :=
    slice_dispatch cf inType outType s.heap hin hout hcl hal
  have hdisp : isDirectlyConvertible h2 cf inType outType = .ok false →
      (deref h2 inR).Kind = .Slice → (deref h2 outR).Kind = .Slice →
      (deref h2 inR).Elem ≠ (deref h2 outR).Elem :=
    fun hconv hk1 hk2 he => (hkey hk1 hk2 he).1 hconv
  refine ⟨inR, h1, outR, h2, hr1, hr2, hdisp, ?_, ?_, ?_⟩
  · intro hk1 hk2 he
    refine ⟨(hkey hk1 hk2 he).2, ?_⟩
    intro code s1 hrun
    rcases generateForBody_split cf gf inType outType functionOK s inR outR h1 h2 hr1 hr2
        code s1 hrun with ⟨sA, _, _, hfirst⟩ | ⟨sA, hA, _, hcast⟩ | ⟨sB, hB, hlater⟩
    · exact (existingFunction_code _ _ _ _ _ _ _ _ _ hfirst).1
    · exact (castStrategy_code _ _ _ _ _ _ _ hcast).2 (by rw [hA]; exact hk1)
    · unfold laterStrategies at hlater
      split at hlater
      · simp only [Except.ok.injEq, Prod.mk.injEq] at hlater
        rw [← hlater.1]; simp [isEarlyStrategy]
      · split at hlater
        · cases hlater
        · simp only [Except.ok.injEq, Prod.mk.injEq] at hlater
          rw [← hlater.1]; simp [isEarlyStrategy]
        · next hconv =>
          rw [hB] at hconv
          exact absurd hconv (hkey hk1 hk2 he).1
  · intro hgf code s1 hrun
    rcases generateForBody_split cf gf inType outType functionOK s inR outR h1 h2 hr1 hr2
        code s1 hrun with ⟨sA, _, _, hfirst⟩ | ⟨sA, _, _, hcast⟩ | ⟨sB, hB, hlater⟩
    · exact (existingFunction_code _ _ _ _ _ _ _ _ _ hfirst).2
    · exact (castStrategy_code _ _ _ _ _ _ _ hcast).1
    · exact laterStrategies_copyFree cf gf hgf _ _ _ _ sB code s1
        (by rw [hB]; exact hdisp) hlater
  · intro hwf fuel code s1 hrun
    exact (generateFor_copyFreeOn cf fuel inType outType functionOK s code s1 hwf hin hout
      hrun).1

/-- Witness of C37: `v1.Names` and `internal.Names` are aliases of the one slice
type `[]string`; the resolved copies are two slices with the identical element
type, and the pair is handled by direct conversion, `*out = internal.Names(*in)`,
before the dispatch. -/
theorem doSlice_bulk_copy_unreachable_witness :
    copyFree [Snippet.convert 21] = true
      ∧ ∃ inR h1 outR h2,
          resolveAlias (exampleState [] .noEquality).heap 20 = .ok (inR, h1)
            ∧ resolveAlias h1 21 = .ok (outR, h2) :=
  match doSlice_bulk_copy_unreachable 2 (fun _ _ _ s => .ok ([Snippet.assign], s)) 20 21 false
      (exampleState [] .noEquality) (by decide) (by decide) (by decide) (by decide) with
  | ⟨inR, h1, outR, h2, hr1, hr2, _, _, _, hfree⟩ =>
    ⟨hfree (by decide) 3 [Snippet.convert 21] _ rfl, inR, h1, outR, h2, hr1, hr2⟩

/-! ## Symmetry of direct convertibility -/

theorem haveIdenticalType_symm (f : TypePtr → TypePtr → Bool → Run Bool) (h : Heap)
    (hf : ∀ x y, f x y false = f y x false) (a b : TypePtr) :
    haveIdenticalType f h a b false = haveIdenticalType f h b a false := by
  unfold haveIdenticalType
  simp only [Bool.false_eq_true, if_false]
  by_cases hc : (deref h a).Name.Name ≠ (deref h b).Name.Name
      ∨ (deref h a).Kind ≠ (deref h b).Kind
      ∨ (deref h a).Name.Package ≠ (deref h b).Name.Package
  · have hc1 : (deref h b).Name.Name ≠ (deref h a).Name.Name
        ∨ (deref h b).Kind ≠ (deref h a).Kind
        ∨ (deref h b).Name.Package ≠ (deref h a).Name.Package := by
      rcases hc with hc | hc | hc
      · exact Or.inl (Ne.symm hc)
      · exact Or.inr (Or.inl (Ne.symm hc))
      · exact Or.inr (Or.inr (Ne.symm hc))
    rw [if_pos hc, if_pos hc1]
  · have hc1 : ¬ ((deref h b).Name.Name ≠ (deref h a).Name.Name
        ∨ (deref h b).Kind ≠ (deref h a).Kind
        ∨ (deref h b).Name.Package ≠ (deref h a).Name.Package) := by
      intro hx
      apply hc
      rcases hx with hx | hx | hx
      · exact Or.inl (Ne.symm hx)
      · exact Or.inr (Or.inl (Ne.symm hx))
      · exact Or.inr (Or.inr (Ne.symm hx))
    rw [if_neg hc, if_neg hc1]
    exact hf a b

theorem identicalMembers_symm (f : TypePtr → TypePtr → Bool → Run Bool) (h : Heap)
    (hf : ∀ x y, f x y false = f y x false) : ∀ (ms ns : List types.Member),
    identicalMembers f h false ms ns = identicalMembers f h false ns ms := by
  intro ms
  induction ms with
  | nil => intro ns; cases ns <;> simp [identicalMembers]
  | cons m ms ih =>
    intro ns
    cases ns with
    | nil => simp [identicalMembers]
    | cons n ns =>
      simp only [identicalMembers]
      by_cases hn : m.Name = n.Name
      · rw [if_neg (show ¬ m.Name ≠ n.Name from not_not.2 hn), if_neg (show ¬ n.Name ≠ m.Name from not_not.2 hn.symm),
          haveIdenticalType_symm f h hf m.Type_ n.Type_]
        cases haveIdenticalType f h n.Type_ m.Type_ false with
        | error x => rfl
        | ok r =>
          cases r with
          | false => rfl
          | true =>
            simp only [Bool.false_eq_true, false_and, if_false]
            by_cases he : m.Embedded = n.Embedded
            · rw [if_neg (show ¬ m.Embedded ≠ n.Embedded from not_not.2 he), if_neg (show ¬ n.Embedded ≠ m.Embedded from not_not.2 he.symm)]
              exact ih ns
            · rw [if_pos he, if_pos (show n.Embedded ≠ m.Embedded from fun hx => he hx.symm)]
      · rw [if_pos hn, if_pos (show n.Name ≠ m.Name from fun hx => hn hx.symm)]

theorem identicalTypeLists_symm (f : TypePtr → TypePtr → Bool → Run Bool) (h : Heap)
    (hf : ∀ x y, f x y false = f y x false) : ∀ (os is : List TypePtr),
    identicalTypeLists f h false os is = identicalTypeLists f h false is os := by
  intro os
  induction os with
  | nil => intro is; cases is <;> simp [identicalTypeLists]
  | cons o os ih =>
    intro is
    cases is with
    | nil => simp [identicalTypeLists]
    | cons i is =>
      simp only [identicalTypeLists]
      rw [haveIdenticalType_symm f h hf o i]
      cases haveIdenticalType f h i o false with
      | error x => rfl
      | ok r =>
        cases r with
        | false => rfl
        | true => exact ih is

theorem haveIdenticalUnderlyingType_symm (h : Heap) : ∀ (n : Nat) (a b : TypePtr),
    haveIdenticalUnderlyingType h n a b false = haveIdenticalUnderlyingType h n b a false := by
  intro n
  induction n with
  | zero => intro a b; rfl
  | succ n ih =>
    intro a b
    have hT := haveIdenticalType_symm (haveIdenticalUnderlyingType h n) h ih
    have hM := identicalMembers_symm (haveIdenticalUnderlyingType h n) h ih
    have hL := identicalTypeLists_symm (haveIdenticalUnderlyingType h n) h ih
    simp only [haveIdenticalUnderlyingType]
    cases ha : unwrapAlias h a with
    | error x =>
      have hx := unwrapAlias_error h a x ha
      subst hx
      cases hb : unwrapAlias h b with
      | error y =>
        have hy := unwrapAlias_error h b y hb
        subst hy
        rfl
      | ok i => rfl
    | ok o =>
      cases hb : unwrapAlias h b with
      | error y => rfl
      | ok i =>
        simp only []
        by_cases hoi : o = i
        · subst hoi
          simp
        · rw [if_neg hoi, if_neg (show ¬ i = o from fun hx => hoi hx.symm)]
          by_cases hk : (deref h i).Kind = (deref h o).Kind
          · rw [if_neg (show ¬ (deref h i).Kind ≠ (deref h o).Kind from not_not.2 hk), if_neg (show ¬ (deref h o).Kind ≠ (deref h i).Kind from not_not.2 hk.symm)]
            rw [hk]
            cases hko : (deref h o).Kind with
            | Builtin =>
              simp only []
              congr 1
              exact decide_eq_decide.2 eq_comm
            | Struct =>
              simp only []
              by_cases hlen : (deref h i).Members.length = (deref h o).Members.length
              · rw [if_neg (show ¬ (deref h i).Members.length ≠ (deref h o).Members.length from not_not.2 hlen), if_neg (show ¬ (deref h o).Members.length ≠ (deref h i).Members.length from not_not.2 hlen.symm)]
                exact hM _ _
              · rw [if_pos hlen, if_pos (show (deref h o).Members.length ≠ (deref h i).Members.length from fun hx => hlen hx.symm)]
            | Map =>
              simp only []
              rw [hT (deref h i).Elem (deref h o).Elem, hT (deref h i).Key (deref h o).Key]
            | Slice => exact hT _ _
            | Pointer => exact hT _ _
            | Interface =>
              simp only []
              congr 1
              exact Bool.and_comm _ _
            | Func =>
              simp only []
              cases (deref h o).Signature with
              | none => cases (deref h i).Signature <;> rfl
              | some outSig =>
                cases (deref h i).Signature with
                | none => rfl
                | some inSig =>
                  simp only []
                  by_cases hc : (paramsWithReceiver outSig).length
                      ≠ (paramsWithReceiver inSig).length ∨ outSig.Variadic ≠ inSig.Variadic
                  · have hcR : (paramsWithReceiver inSig).length
                        ≠ (paramsWithReceiver outSig).length ∨ inSig.Variadic ≠ outSig.Variadic := by
                      rcases hc with hx | hx
                      · exact Or.inl (Ne.symm hx)
                      · exact Or.inr (Ne.symm hx)
                    rw [if_pos hc, if_pos hcR]
                  · have hcR : ¬ ((paramsWithReceiver inSig).length
                        ≠ (paramsWithReceiver outSig).length ∨ inSig.Variadic ≠ outSig.Variadic) := by
                      intro hx
                      apply hc
                      rcases hx with hx | hx
                      · exact Or.inl (Ne.symm hx)
                      · exact Or.inr (Ne.symm hx)
                    rw [if_neg hc, if_neg hcR]
                    rw [hL (paramsWithReceiver outSig) (paramsWithReceiver inSig)]
                    cases identicalTypeLists (haveIdenticalUnderlyingType h n) h false
                        (paramsWithReceiver inSig) (paramsWithReceiver outSig) with
                    | error x => rfl
                    | ok r =>
                      cases r with
                      | false => rfl
                      | true =>
                        simp only []
                        by_cases hr : outSig.Results.length = inSig.Results.length
                        · rw [if_neg (show ¬ outSig.Results.length ≠ inSig.Results.length from not_not.2 hr), if_neg (show ¬ inSig.Results.length ≠ outSig.Results.length from not_not.2 hr.symm)]
                          exact hL _ _
                        · rw [if_pos hr, if_pos (show inSig.Results.length ≠ outSig.Results.length from fun hx => hr hx.symm)]
            | _ => rfl
          · rw [if_pos hk, if_pos (show (deref h o).Kind ≠ (deref h i).Kind from fun hx => hk hx.symm)]

/-- C38: with tags ignored, `haveIdenticalUnderlyingType` gives the same
outcome for `(a, b)` and for `(b, a)` at every depth of recursion: the same
boolean when it returns, and it returns for the one order exactly when it
returns for the other. Hence `isDirectlyConvertible(A, B)` and
`isDirectlyConvertible(B, A)` are the same. -/
theorem haveIdenticalUnderlyingType_symmetric (h : Heap) (n : Nat) (a b : TypePtr) :
    haveIdenticalUnderlyingType h n a b false = haveIdenticalUnderlyingType h n b a false
      ∧ isDirectlyConvertible h n a b = isDirectlyConvertible h n b a
      ∧ ∀ r : Bool, (∃ k, haveIdenticalUnderlyingType h k a b false = .ok r)
          ↔ (∃ k, haveIdenticalUnderlyingType h k b a false = .ok r) := by
  refine ⟨haveIdenticalUnderlyingType_symm h n a b, ?_, ?_⟩
  · unfold isDirectlyConvertible
    exact haveIdenticalUnderlyingType_symm h n b a
  · intro r
    constructor
    · rintro ⟨k, hk⟩
      exact ⟨k, by rw [← haveIdenticalUnderlyingType_symm h k a b]; exact hk⟩
    · rintro ⟨k, hk⟩
      exact ⟨k, by rw [haveIdenticalUnderlyingType_symm h k a b]; exact hk⟩

end conversiongen

namespace ratelimit_v3

/-! ## The validator of `RateLimitDescriptor` -/

theorem Entry_Validate_eq (item : Option RateLimitDescriptor_Entry) :
    RateLimitDescriptor_Entry.Validate item
      = if entryViolates item = true then entryError item else none := by
  cases item with
  | none => rfl
  | some e =>
    unfold RateLimitDescriptor_Entry.Validate entryViolates entryError utf8.RuneCountInString
    by_cases hk : e.Key.length < 1
    · simp [hk]
    · by_cases hv : e.Value.length < 1
      · simp [hk, hv]
      · simp [hk, hv]

theorem entryError_isSome (item : Option RateLimitDescriptor_Entry)
    (hv : entryViolates item = true) : ∃ err, entryError item = some err := by
  cases item with
  | none => simp [entryViolates] at hv
  | some e =>
    simp only [entryError]
    split <;> exact ⟨_, rfl⟩

theorem validateEntries_none (l : List (Option RateLimitDescriptor_Entry)) :
    ∀ k : Nat, validateEntries l k = none ↔ ∀ item ∈ l, entryViolates item = false := by
  induction l with
  | nil => intro k; simp [validateEntries]
  | cons item rest ih =>
    intro k
    unfold validateEntries
    rw [Entry_Validate_eq]
    by_cases hv : entryViolates item = true
    · obtain ⟨err, herr⟩ := entryError_isSome item hv
      simp [hv, herr]
    · have hv1 : entryViolates item = false := by simpa using hv
      simp [hv1, ih (k + 1)]

theorem validateEntries_first (l : List (Option RateLimitDescriptor_Entry)) :
    ∀ (k i : Nat) (item : Option RateLimitDescriptor_Entry), l[i]? = some item →
      entryViolates item = true →
      (∀ j, j < i → ∀ e, l[j]? = some e → entryViolates e = false) →
      validateEntries l k
        = some (.RateLimitDescriptorValidationError ("Entries[" ++ toString (k + i) ++ "]")
            "embedded message failed validation" (entryError item) false) := by
  induction l with
  | nil => intro k i item hi; simp at hi
  | cons x rest ih =>
    intro k i item hi hv hfirst
    unfold validateEntries
    rw [Entry_Validate_eq]
    cases i with
    | zero =>
      simp only [List.getElem?_cons_zero, Option.some.injEq] at hi
      subst hi
      obtain ⟨err, herr⟩ := entryError_isSome x hv
      simp [hv, herr]
    | succ i =>
      have hx : entryViolates x = false := hfirst 0 (Nat.succ_pos i) x (by simp)
      simp only [List.getElem?_cons_succ] at hi
      have hrest := ih (k + 1) i item hi hv (fun j hj e he =>
        hfirst (j + 1) (Nat.succ_lt_succ hj) e (by simpa using he))
      simp only [hx, Bool.false_eq_true, if_false]
      rw [hrest]
      have : k + 1 + i = k + (i + 1) := by omega
      rw [this]

theorem Override_Validate_eq (names : List (Int × String))
    (limit : Option RateLimitDescriptor_RateLimitOverride) :
    RateLimitDescriptor_RateLimitOverride.Validate names limit
      = if limitViolates names limit = true then
          some (.RateLimitDescriptor_RateLimitOverrideValidationError "Unit"
            "value must be one of the defined enum values" none false)
        else none := by
  cases limit with
  | none => rfl
  | some l =>
    simp only [RateLimitDescriptor_RateLimitOverride.Validate, limitViolates]
    split <;> rename_i hg <;> simp [hg]

/-- C40: `RateLimitDescriptor.Validate` returns nil for a nil message. For a
non-nil message it returns an error exactly when the message has no entries,
or some non-nil entry has a key or a value of fewer than 1 rune, or the limit
fails validation (it is not nil and its unit is no defined enum value). With no
entries the error has the field `Entries`. When an entry violates a rule, the
error has the field `Entries[i]` for the smallest index `i` of such an entry
and the cause that the validator of the entry returns for it, which names `Key`
when the key is empty and `Value` otherwise. When there are entries, none
violates a rule and the limit fails validation, the error has the field `Limit`
and the error of the limit as cause. -/
theorem Validate_rules (names : List (Int × String)) (m : RateLimitDescriptor) :
    RateLimitDescriptor.Validate names none = none
      ∧ (RateLimitDescriptor.Validate names (some m) ≠ none
          ↔ m.Entries = [] ∨ (∃ item ∈ m.Entries, entryViolates item = true)
              ∨ limitViolates names m.Limit = true)
      ∧ (m.Entries = [] →
          RateLimitDescriptor.Validate names (some m)
            = some (.RateLimitDescriptorValidationError "Entries"
                "value must contain at least 1 item(s)" none false))
      ∧ (∀ (i : Nat) (item : Option RateLimitDescriptor_Entry), m.Entries[i]? = some item →
          entryViolates item = true →
          (∀ j, j < i → ∀ e, m.Entries[j]? = some e → entryViolates e = false) →
          RateLimitDescriptor.Validate names (some m)
              = some (.RateLimitDescriptorValidationError ("Entries[" ++ toString i ++ "]")
                  "embedded message failed validation" (entryError item) false)
            ∧ RateLimitDescriptor_Entry.Validate item = entryError item
            ∧ ∃ err, entryError item = some err)
      ∧ (m.Entries ≠ [] → (∀ item ∈ m.Entries, entryViolates item = false) →
          limitViolates names m.Limit = true →
          RateLimitDescriptor.Validate names (some m)
            = some (.RateLimitDescriptorValidationError "Limit"
                "embedded message failed validation"
                (some (.RateLimitDescriptor_RateLimitOverrideValidationError "Unit"
                  "value must be one of the defined enum values" none false)) false)) := by
  refine ⟨rfl, ?_, ?_, ?_, ?_⟩
  · unfold RateLimitDescriptor.Validate
    simp only []
    cases hE : m.Entries with
    | nil => simp
    | cons x rest =>
      simp only [List.length_cons, show ¬ (rest.length + 1 < 1) from by omega, if_false]
      cases hval : validateEntries (x :: rest) 0 with
      | some err =>
        have hex : ¬ ∀ item ∈ x :: rest, entryViolates item = false := by
          intro hall
          rw [(validateEntries_none (x :: rest) 0).2 hall] at hval
          cases hval
        have hex1 : ∃ item ∈ x :: rest, entryViolates item = true := by
          by_contra hno
          apply hex
          intro item hitem
          cases hvi : entryViolates item with
          | false => rfl
          | true => exact absurd ⟨item, hitem, hvi⟩ hno
        simp only [ne_eq, reduceCtorEq, not_false_eq_true, true_iff]
        exact Or.inr (Or.inl hex1)
      | none =>
        have hall := (validateEntries_none (x :: rest) 0).1 hval
        simp only []
        rw [Override_Validate_eq]
        have hno : ¬ ∃ item ∈ x :: rest, entryViolates item = true := by
          rintro ⟨item, hitem, hvi⟩
          rw [hall item hitem] at hvi
          cases hvi
        cases hl : limitViolates names m.Limit with
        | true =>
          simp only [if_true, ne_eq, reduceCtorEq, not_false_eq_true, true_iff]
          exact Or.inr (Or.inr trivial)
        | false =>
          simp only [Bool.false_eq_true, if_false, ne_eq, not_true_eq_false, false_iff]
          rintro (h1 | h1 | h1)
          · cases h1
          · exact hno h1
          · cases h1
  · intro hE
    unfold RateLimitDescriptor.Validate
    simp [hE]
  · intro i item hi hv hfirst
    have hne : ¬ m.Entries.length < 1 := by
      have := (List.getElem?_eq_some.1 hi).1
      omega
    have hrun := validateEntries_first m.Entries 0 i item hi hv hfirst
    rw [Nat.zero_add] at hrun
    refine ⟨?_, ?_, entryError_isSome item hv⟩
    · unfold RateLimitDescriptor.Validate
      simp only [hne, if_false, hrun]
    · rw [Entry_Validate_eq, if_pos hv]
  · intro hE hall hl
    have hne : ¬ m.Entries.length < 1 := by
      cases hm : m.Entries with
      | nil => exact absurd hm hE
      | cons x rest => simp
    unfold RateLimitDescriptor.Validate
    simp only [hne, if_false, (validateEntries_none m.Entries 0).2 hall]
    rw [Override_Validate_eq, if_pos hl]

/-- Witness of C40: a descriptor with the entries `("a", "b")`, nil and
`("c", "")` and a limit of unit 9 is refused for its entry 2, whose value is
empty; with the third entry `("c", "d")` it is refused for its limit. -/
theorem Validate_rules_witness :
    RateLimitDescriptor.Validate exampleUnitNames
        (some ⟨[some ⟨"a", "b"⟩, none, some ⟨"c", ""⟩], some ⟨10, 9⟩⟩)
      = some (.RateLimitDescriptorValidationError ("Entries[" ++ toString 2 ++ "]")
          "embedded message failed validation"
          (entryError (some ⟨"c", ""⟩)) false)
      ∧ entryError (some ⟨"c", ""⟩)
          = some (.RateLimitDescriptor_EntryValidationError "Value"
              "value length must be at least 1 runes" none false)
      ∧ RateLimitDescriptor.Validate exampleUnitNames
          (some ⟨[some ⟨"a", "b"⟩, none, some ⟨"c", "d"⟩], some ⟨10, 9⟩⟩)
        = some (.RateLimitDescriptorValidationError "Limit"
            "embedded message failed validation"
            (some (.RateLimitDescriptor_RateLimitOverrideValidationError "Unit"
              "value must be one of the defined enum values" none false)) false) :=
  ⟨((Validate_rules exampleUnitNames
      ⟨[some ⟨"a", "b"⟩, none, some ⟨"c", ""⟩], some ⟨10, 9⟩⟩).2.2.2.1 2 (some ⟨"c", ""⟩)
      (by decide) (by decide) (by decide)).1,
    rfl,
    (Validate_rules exampleUnitNames
      ⟨[some ⟨"a", "b"⟩, none, some ⟨"c", "d"⟩], some ⟨10, 9⟩⟩).2.2.2.2 (by decide)
      (by decide) (by decide)⟩

end ratelimit_v3
